import Mathlib

/-!
# Overlap creation for distributed sparse matrices (ugcore)

A shallow embedding of `ugbase/lib_algebra/parallelization/matrix_overlap_impl.h`:
the communication policies `ComPol_MatCreateOverlap` and `ComPol_MatCopyDiag`, the
post-processing step that appends the overlap rows, and the driver `CreateOverlap`.

Conventions of the embedding.
* Matrix blocks (`block_t`) are integers, so that `+=` is exact.  The block type is a
  template parameter of the source (`TMatrix::value_type`); the statement on sums of
  received values is made on a second embedding of `extract` and `post_process`, in the
  namespace `generic`, in which the value type is a parameter.
* A `BinaryBuffer` is the list of serialized items that have not been read yet;
  `Serialize` appends an item, `Deserialize` removes the first one.  Positions in a
  buffer are counted in items.
* Functions that can throw (`UG_THROW`, `UG_COND_THROW`) return `Except Fault`.
* `SmartPtr<AlgebraLayouts>` is an address into a store of layout objects, so that
  several holders of one layout object are visible in the model.
-/

namespace ug

/-! ## Data model -/

/-- Modelled from the spec: `AlgebraID` (declared outside the given sources) is the
GlobalID, a pair (owner rank, owner-local index at creation). -/
structure AlgebraID where
  proc : Nat
  ind : Nat
deriving DecidableEq, Repr, Inhabited

/-- Modelled from the spec: the order of `AlgebraID`, the lexicographic order of the
pair (owner rank, owner-local index); it is the order of `std::set<AlgebraID>`. -/
def AlgebraID.lt (a b : AlgebraID) : Bool :=
  decide (a.proc < b.proc) || (!decide (b.proc < a.proc) && decide (a.ind < b.ind))

/-- Matrix entries: the integers, with their exact addition, stand for the block type
`TMatrix::value_type`, a template parameter of the source.  What the code does for a
value type whose addition is not exact is stated in the namespace `generic`. -/
abbrev block_t := Int

/-- One matrix row: its stored connections (column index, value) in iteration order. -/
abbrev MatRow := List (Nat × block_t)

/-- Value of the connection to column `k` in a row, zero when no connection is stored. -/
def MatRow.get : MatRow → Nat → block_t
  | [], _ => 0
  | (c, x) :: rest, k => if c = k then x else MatRow.get rest k

/-- The reference `row(k)` of a non-const matrix access followed by an update `f` of the
value: the connection is created (with value zero) when it is not stored yet. -/
def MatRow.modify : MatRow → Nat → (block_t → block_t) → MatRow
  | [], k, f => [(k, f 0)]
  | (c, x) :: rest, k, f =>
    if c = k then (c, f x) :: rest else (c, x) :: MatRow.modify rest k f

/-- Ordered index interface to one remote process (`IndexLayout::Interface`). -/
structure Interface where
  targetProc : Nat
  elems : List Nat
deriving DecidableEq, Repr

/-- Modelled from the spec: `IndexLayout` (declared outside the given sources) is a
mapping rank → Interface; as a `std::map` it is iterated by ascending rank.  Only the
hierarchy level that the overlap code addresses (the default one) is kept. -/
abbrev IndexLayout := List Interface

/-- The call `layout.interface(p)` followed by `push_back` of the indices `xs`: the
interface of rank `p` is created at its place in the rank order when it is missing. -/
def IndexLayout.append : IndexLayout → Nat → List Nat → IndexLayout
  | [], p, xs => [⟨p, xs⟩]
  | itf :: rest, p, xs =>
    if p < itf.targetProc then ⟨p, xs⟩ :: itf :: rest
    else if itf.targetProc = p then ⟨p, itf.elems ++ xs⟩ :: rest
    else itf :: IndexLayout.append rest p xs

/-- The call `layout.interface(p)`: get the interface for rank `p`, creating it empty. -/
def IndexLayout.interface (l : IndexLayout) (p : Nat) : IndexLayout := l.append p []

/-- Entries of the interface to rank `p`; an interface that does not exist has none. -/
def IndexLayout.elemsOf : IndexLayout → Nat → List Nat
  | [], _ => []
  | itf :: rest, p => if itf.targetProc = p then itf.elems else IndexLayout.elemsOf rest p

/-- Modelled from the spec: `AlgebraLayouts` (declared outside the given sources), the
layout object a matrix refers to: the four index layouts and the overlap switch. -/
structure AlgebraLayouts where
  master : IndexLayout
  slave : IndexLayout
  masterOverlap : IndexLayout
  slaveOverlap : IndexLayout
  overlapEnabled : Bool
deriving DecidableEq, Repr

/-- The store of layout objects; a `SmartPtr<AlgebraLayouts>` is an address in it. -/
abbrev LayoutStore := List AlgebraLayouts

/-- Modelled from the spec: the matrix type `TMatrix` (a template parameter): a
process-local sparse container with its dimensions, its rows and the pointer to its
layouts. -/
structure Matrix where
  numRows : Nat
  numCols : Nat
  row : Nat → MatRow
  layouts : Nat

/-- Const access `mat(i, k)`. -/
def Matrix.entry (m : Matrix) (i k : Nat) : block_t := (m.row i).get k

/-- Update of the reference returned by `mat(i, k)` with `f`. -/
def Matrix.modify (m : Matrix) (i k : Nat) (f : block_t → block_t) : Matrix :=
  { m with row := fun r => if r = i then (m.row i).modify k f else m.row r }

/-- The statement `mat(i, k) += v`. -/
def Matrix.addTo (m : Matrix) (i k : Nat) (v : block_t) : Matrix :=
  m.modify i k (fun x => x + v)

/-- The statement `mat(i, k) = v`. -/
def Matrix.assign (m : Matrix) (i k : Nat) (v : block_t) : Matrix :=
  m.modify i k (fun _ => v)

/-- Modelled from the spec: `resize_and_keep_values` of the matrix type: new dimensions,
the stored values that still fit are kept. -/
def Matrix.resize_and_keep_values (m : Matrix) (r c : Nat) : Matrix :=
  { m with
    numRows := r
    numCols := c
    row := fun i => if i < r then (m.row i).filter (fun e => decide (e.1 < c)) else [] }

/-- Modelled from the spec: `SetDirichletRow` (declared outside the given sources)
makes row `i` an isolated row: diagonal one, every other stored connection zero. -/
def SetDirichletRow (m : Matrix) (i : Nat) : Matrix :=
  let m1 := m.assign i i 1
  { m1 with
    row := fun r =>
      if r = i then (m1.row i).map (fun e => if e.1 = i then e else (e.1, 0)) else m1.row r }

/-- Modelled from the spec: `AlgebraIDHashList` (declared outside the given sources),
the map GlobalID → local index with `lookup` and `insert`; entries in insertion order. -/
abbrev AlgebraIDHashList := List (AlgebraID × Nat)

/-- The call `hash.get_entry(ind, gID)`: the index registered first for `gID`, if any. -/
def AlgebraIDHashList.get_entry : AlgebraIDHashList → AlgebraID → Option Nat
  | [], _ => none
  | (g, i) :: rest, gID => if g = gID then some i else AlgebraIDHashList.get_entry rest gID

/-- The call `hash.insert(gID, i)`. -/
def AlgebraIDHashList.insert (h : AlgebraIDHashList) (gID : AlgebraID) (i : Nat) :
    AlgebraIDHashList := h ++ [(gID, i)]

/-- Registers `ids[j]` under the index `start + j`, in order. -/
def hashInsertFrom : AlgebraIDHashList → List AlgebraID → Nat → AlgebraIDHashList
  | h, [], _ => h
  | h, g :: rest, start => hashInsertFrom (h.insert g start) rest (start + 1)

/-- Modelled from the spec: `GenerateAlgebraIDHashList` (declared outside the given
sources) fills the map global → local: every `ids[i]` is inserted with value `i`. -/
def GenerateAlgebraIDHashList (ids : List AlgebraID) : AlgebraIDHashList :=
  hashInsertFrom [] ids 0

/-- Serialized items of a `BinaryBuffer`. -/
inductive BufItem where
  | sizeT (n : Nat)
  | algID (g : AlgebraID)
  | block (v : block_t)
deriving DecidableEq, Repr

/-- The unread content of a buffer: `Serialize` appends, `Deserialize` reads the head. -/
abbrev BinaryBuffer := List BufItem

/-- Errors thrown by the policy, and reads that the buffer content cannot serve. -/
inductive Fault where
  | notEnoughGlobalIDs
  | slaveProcNotFound
  | algebraIDNotInHash
  | globalIDNotFound (g : AlgebraID)
  | badBuffer
deriving DecidableEq, Repr

/-- The struct `ExtCon`: a connection to an index that is not known locally. -/
structure ExtCon where
  fromInd : Nat
  fromID : AlgebraID
  toID : AlgebraID
  conProc : Nat
deriving DecidableEq, Repr

/-- The comparison `ExtCon::operator <`. -/
def ExtCon.lt (a b : ExtCon) : Bool :=
  if a.conProc < b.conProc then true
  else if b.conProc < a.conProc then false
  else if a.toID.lt b.toID then true
  else if b.toID.lt a.toID then false
  else a.fromID.lt b.fromID

/-- The statement `set.insert(g)` on a `std::set<AlgebraID>`, kept as its ascending
list of elements. -/
def setInsert (g : AlgebraID) : List AlgebraID → List AlgebraID
  | [] => [g]
  | x :: rest =>
    if g.lt x then g :: x :: rest
    else if x.lt g then x :: setInsert g rest
    else x :: rest

/-- The statement `map[ec] = v` on a `std::map<ExtCon, block_t>`, kept as its ascending
list of entries: an entry whose key is equivalent to `ec` keeps its key. -/
def mapAssign (ec : ExtCon) (v : block_t) : List (ExtCon × block_t) → List (ExtCon × block_t)
  | [] => [(ec, v)]
  | (k, x) :: rest =>
    if ec.lt k then (ec, v) :: (k, x) :: rest
    else if k.lt ec then (k, x) :: mapAssign ec v rest
    else (k, v) :: rest

/-- The call `map.find(ec)`: the value stored under a key equivalent to `ec`. -/
def mapFind (ec : ExtCon) : List (ExtCon × block_t) → Option block_t
  | [] => none
  | (k, x) :: rest => if !ec.lt k && !k.lt ec then some x else mapFind ec rest

/-! ## ComPol_MatCreateOverlap -/

/-- The members of `ComPol_MatCreateOverlap`; the matrix and the GlobalID array are
references in the source and are threaded through the state here. -/
structure ComPol_MatCreateOverlap where
  m_mat : Matrix
  m_globalIDs : List AlgebraID
  m_algIDHash : AlgebraIDHashList
  m_recvNewCons : List (ExtCon × block_t)
  m_recvNewIDs : List AlgebraID

/-- The constructor of `ComPol_MatCreateOverlap`. -/
def ComPol_MatCreateOverlap.new (rMat : Matrix) (vGlobalID : List AlgebraID) :
    Except Fault ComPol_MatCreateOverlap :=
  if vGlobalID.length < rMat.numRows then .error .notEnoughGlobalIDs
  else .ok
    { m_mat := rMat
      m_globalIDs := vGlobalID
      m_algIDHash := GenerateAlgebraIDHashList vGlobalID
      m_recvNewCons := []
      m_recvNewIDs := [] }

/-- The items `collect` writes for one row: for each connection the GlobalID of its
column, then its value. -/
def collectRow (globalIDs : List AlgebraID) : MatRow → BinaryBuffer
  | [] => []
  | (k, a_ik) :: rest =>
    .algID (globalIDs.getD k default) :: .block a_ik :: collectRow globalIDs rest

/-- The interface loop of `ComPol_MatCreateOverlap::collect`. -/
def collectRows (s : ComPol_MatCreateOverlap) : List Nat → BinaryBuffer
  | [] => []
  | index :: rest =>
    (.sizeT (s.m_mat.row index).length :: collectRow s.m_globalIDs (s.m_mat.row index))
      ++ collectRows s rest

/-- The method `ComPol_MatCreateOverlap::collect`: the buffer after the call. -/
def ComPol_MatCreateOverlap.collect (s : ComPol_MatCreateOverlap) (buff : BinaryBuffer)
    (interface : Interface) : BinaryBuffer :=
  buff ++ collectRows s interface.elems

/-- The body of the connection loop of `extract` for one pair `(gID, block)` read for
the interface index `index`. -/
def extractConnection (index targetProc : Nat) (gID : AlgebraID) (block : block_t)
    (s : ComPol_MatCreateOverlap) : ComPol_MatCreateOverlap :=
  match s.m_algIDHash.get_entry gID with
  | some conInd => { s with m_mat := s.m_mat.addTo index conInd block }
  | none =>
    let ec : ExtCon := ⟨index, s.m_globalIDs.getD index default, gID, targetProc⟩
    { s with
      m_recvNewCons := mapAssign ec block s.m_recvNewCons
      m_recvNewIDs := setInsert gID s.m_recvNewIDs }

/-- The connection loop of `extract`: reads `numConnections` pairs from the buffer. -/
def extractConnections (index targetProc : Nat) :
    Nat → BinaryBuffer → ComPol_MatCreateOverlap →
      Except Fault (BinaryBuffer × ComPol_MatCreateOverlap)
  | 0, buff, s => .ok (buff, s)
  | n + 1, .algID gID :: .block block :: buff, s =>
    extractConnections index targetProc n buff (extractConnection index targetProc gID block s)
  | _ + 1, _, _ => .error .badBuffer

/-- The interface loop of `extract`. -/
def extractRows (targetProc : Nat) :
    List Nat → BinaryBuffer → ComPol_MatCreateOverlap →
      Except Fault (BinaryBuffer × ComPol_MatCreateOverlap)
  | [], buff, s => .ok (buff, s)
  | index :: rest, .sizeT numConnections :: buff, s =>
    match extractConnections index targetProc numConnections buff s with
    | .ok (buff1, s1) => extractRows targetProc rest buff1 s1
    | .error e => .error e
  | _ :: _, _, _ => .error .badBuffer

/-- The method `ComPol_MatCreateOverlap::extract`: the unread rest of the buffer and
the state after the call. -/
def ComPol_MatCreateOverlap.extract (s : ComPol_MatCreateOverlap) (buff : BinaryBuffer)
    (interface : Interface) : Except Fault (BinaryBuffer × ComPol_MatCreateOverlap) :=
  extractRows interface.targetProc interface.elems buff s

/-! ## post_process -/

/-- Lines 224-230 of `post_process`: a new layout object is allocated, the layouts the
matrix refers to are copied into it, overlap is enabled on it and it is set on the
matrix. -/
def post_process_newLayout (store : LayoutStore) (s : ComPol_MatCreateOverlap) :
    LayoutStore × ComPol_MatCreateOverlap :=
  let old : AlgebraLayouts := store.getD s.m_mat.layouts ⟨[], [], [], [], false⟩
  let newLayout : AlgebraLayouts := { old with overlapEnabled := true }
  (store ++ [newLayout], { s with m_mat := { s.m_mat with layouts := store.length } })

/-- The loop `for(i = oldSize; i < newSize; ++i) SetDirichletRow(m_mat, i)`, with `n`
rows left to do from row `i`. -/
def setDirichletRows (m : Matrix) (i : Nat) : Nat → Matrix
  | 0 => m
  | n + 1 => setDirichletRows (SetDirichletRow m i) (i + 1) n

/-- Lines 232-254 of `post_process`: the new IDs get the indices from `oldSize` on in
the hash and are pushed to the GlobalID array; the matrix is resized when there are
new indices, and each new row is made a Dirichlet row. -/
def post_process_newIDs (s : ComPol_MatCreateOverlap) : ComPol_MatCreateOverlap :=
  let oldSize := s.m_mat.numRows
  let numNewInds := s.m_recvNewIDs.length
  let newSize := oldSize + numNewInds
  { s with
    m_algIDHash := hashInsertFrom s.m_algIDHash s.m_recvNewIDs oldSize
    m_globalIDs := s.m_globalIDs ++ s.m_recvNewIDs
    m_mat :=
      if newSize ≠ oldSize then
        setDirichletRows (s.m_mat.resize_and_keep_values newSize newSize) oldSize numNewInds
      else s.m_mat }

/-- The function `GetLayoutTargetProcs`. -/
def GetLayoutTargetProcs (layout : IndexLayout) : List Nat :=
  layout.map (fun itf => itf.targetProc)

/-- The search loop for the index of `targetProc` in `slaveProcs`, counting from `i`;
`none` stands for `slaveInd == -1`. -/
def findSlaveInd (targetProc : Nat) : List Nat → Nat → Option Nat
  | [], _ => none
  | p :: rest, i => if p = targetProc then some i else findSlaveInd targetProc rest (i + 1)

/-- The statement `v[i] += d` on a vector of message sizes. -/
def addAt : List Nat → Nat → Nat → List Nat
  | [], _, _ => []
  | x :: rest, 0, d => (x + d) :: rest
  | x :: rest, i + 1, d => x :: addAt rest i d

/-- Local variables of the block that creates the master overlap (lines 263-308),
together with the master-overlap layout of the new layout object and the matrix. -/
structure MasterLoop where
  itfc : Option Nat
  added : List Bool
  slaveInd : Option Nat
  sendBuf : BinaryBuffer
  msgSizeForSlaveProcs : List Nat
  masterOverlap : IndexLayout
  mat : Matrix

/-- Lines 278-292: when there is no current interface, or the current one has another
target rank, the master-overlap interface for `targetProc` becomes the current one, the
`added` flags are reset and the index of `targetProc` in `slaveProcs` is looked up. -/
def masterOverlapEnter (numNewInds : Nat) (slaveProcs : List Nat) (st : MasterLoop)
    (targetProc : Nat) : Except Fault MasterLoop :=
  if st.itfc = some targetProc then .ok st
  else
    match findSlaveInd targetProc slaveProcs 0 with
    | none => .error .slaveProcNotFound
    | some islave =>
      .ok { st with
            itfc := some targetProc
            masterOverlap := st.masterOverlap.interface targetProc
            added := List.replicate numNewInds false
            slaveInd := some islave }

/-- Lines 298-306: the index `toInd` is pushed to the current interface and its
GlobalID is written to the send buffer unless that was done before for this interface;
then the connection is added to the matrix. -/
def masterOverlapAdd (oldSize : Nat) (st : MasterLoop) (curExtCon : ExtCon) (block : block_t)
    (toInd : Nat) : MasterLoop :=
  let st2 : MasterLoop :=
    if st.added.getD (toInd - oldSize) false then st
    else
      { st with
        masterOverlap := st.masterOverlap.append curExtCon.conProc [toInd]
        sendBuf := st.sendBuf ++ [.algID curExtCon.toID]
        msgSizeForSlaveProcs := addAt st.msgSizeForSlaveProcs (st.slaveInd.getD 0) 1 }
  { st2 with
    added := st2.added.set (toInd - oldSize) true
    mat := st2.mat.addTo curExtCon.fromInd toInd block }

/-- One iteration of the loop over `m_recvNewCons` (lines 275-307). -/
def masterOverlapStep (hash : AlgebraIDHashList) (oldSize numNewInds : Nat)
    (slaveProcs : List Nat) (st : MasterLoop) (e : ExtCon × block_t) :
    Except Fault MasterLoop :=
  match masterOverlapEnter numNewInds slaveProcs st e.1.conProc with
  | .error err => .error err
  | .ok st1 =>
    match hash.get_entry e.1.toID with
    | none => .error .algebraIDNotInHash
    | some toInd => .ok (masterOverlapAdd oldSize st1 e.1 e.2 toInd)

/-- The loop over `m_recvNewCons`. -/
def masterOverlapLoop (hash : AlgebraIDHashList) (oldSize numNewInds : Nat)
    (slaveProcs : List Nat) : MasterLoop → List (ExtCon × block_t) → Except Fault MasterLoop
  | st, [] => .ok st
  | st, e :: rest =>
    match masterOverlapStep hash oldSize numNewInds slaveProcs st e with
    | .ok st1 => masterOverlapLoop hash oldSize numNewInds slaveProcs st1 rest
    | .error err => .error err

/-- What the master part of `post_process` leaves behind: the store of layouts, the
policy, and the message for `distribute_data` (buffer, sizes per slave process and the
slave processes). -/
structure MasterResult where
  store : LayoutStore
  pol : ComPol_MatCreateOverlap
  sendBuf : BinaryBuffer
  msgSizeForSlaveProcs : List Nat
  slaveProcs : List Nat

/-- Lines 257-308 of `post_process`, run on the state that lines 224-254 produce;
`oldSize` and `numNewInds` are the values computed in line 232 and 233. -/
def post_process_masterOverlap (store : LayoutStore) (s : ComPol_MatCreateOverlap)
    (oldSize numNewInds : Nat) : Except Fault MasterResult :=
  let newLayout : AlgebraLayouts := store.getD s.m_mat.layouts ⟨[], [], [], [], false⟩
  let slaveProcs := GetLayoutTargetProcs newLayout.master
  let init : MasterLoop :=
    { itfc := none
      added := []
      slaveInd := none
      sendBuf := []
      msgSizeForSlaveProcs := List.replicate slaveProcs.length 0
      masterOverlap := newLayout.masterOverlap
      mat := s.m_mat }
  match masterOverlapLoop s.m_algIDHash oldSize numNewInds slaveProcs init s.m_recvNewCons with
  | .error err => .error err
  | .ok fin =>
    .ok { store := store.set s.m_mat.layouts { newLayout with masterOverlap := fin.masterOverlap }
          pol := { s with m_mat := fin.mat }
          sendBuf := fin.sendBuf
          msgSizeForSlaveProcs := fin.msgSizeForSlaveProcs
          slaveProcs := slaveProcs }

/-- The master part of `post_process`, lines 224-308. -/
def post_process_master (store : LayoutStore) (s : ComPol_MatCreateOverlap) :
    Except Fault MasterResult :=
  let oldSize := s.m_mat.numRows
  let numNewInds := s.m_recvNewIDs.length
  let (store1, s1) := post_process_newLayout store s
  post_process_masterOverlap store1 (post_process_newIDs s1) oldSize numNewInds

/-- The loop `while(recvBuf.read_pos() < oldReadPos + recvSizes[i])` (lines 331-342),
with `n` items left to read for the master process `masterProc`. -/
def readSlaveOverlap (hash : AlgebraIDHashList) (masterProc : Nat) :
    Nat → BinaryBuffer → IndexLayout → Except Fault (BinaryBuffer × IndexLayout)
  | 0, recvBuf, slaveOverlap => .ok (recvBuf, slaveOverlap)
  | n + 1, .algID globID :: recvBuf, slaveOverlap =>
    match hash.get_entry globID with
    | some locID => readSlaveOverlap hash masterProc n recvBuf (slaveOverlap.append masterProc [locID])
    | none => .error (.globalIDNotFound globID)
  | _ + 1, _, _ => .error .badBuffer

/-- The loop over `masterProcs` that creates the new slave overlap (lines 325-343). -/
def slaveOverlapLoop (hash : AlgebraIDHashList) :
    List Nat → List Nat → BinaryBuffer → IndexLayout → Except Fault IndexLayout
  | [], _, _, slaveOverlap => .ok slaveOverlap
  | masterProc :: procs, recvSizes, recvBuf, slaveOverlap =>
    match readSlaveOverlap hash masterProc (recvSizes.headD 0) recvBuf
        (slaveOverlap.interface masterProc) with
    | .ok (recvBuf1, slaveOverlap1) =>
      slaveOverlapLoop hash procs recvSizes.tail recvBuf1 slaveOverlap1
    | .error err => .error err

/-- Lines 312-343 of `post_process`; `recvBuf` and `recvSizes` are what
`distribute_data` delivered to this process. -/
def post_process_slaveOverlap (store : LayoutStore) (s : ComPol_MatCreateOverlap)
    (recvBuf : BinaryBuffer) (recvSizes : List Nat) : Except Fault LayoutStore :=
  let newLayout : AlgebraLayouts := store.getD s.m_mat.layouts ⟨[], [], [], [], false⟩
  let masterProcs := GetLayoutTargetProcs newLayout.slave
  match slaveOverlapLoop s.m_algIDHash masterProcs recvSizes recvBuf newLayout.slaveOverlap with
  | .error err => .error err
  | .ok slaveOverlap =>
    .ok (store.set s.m_mat.layouts { newLayout with slaveOverlap := slaveOverlap })

/-! ## ComPol_MatCopyDiag and the exchange that ends post_process -/

/-- The method `ComPol_MatCopyDiag::collect`: the buffer after the call.  The matrix is
accessed through its non-const reference, which creates missing diagonal connections
(see `touchDiag`). -/
def ComPol_MatCopyDiag.collect (mat : Matrix) (buff : BinaryBuffer) (interface : Interface) :
    BinaryBuffer :=
  buff ++ interface.elems.map (fun index => BufItem.block (mat.entry index index))

/-- Effect of the non-const accesses `m_mat(index, index)` of `ComPol_MatCopyDiag::collect`
on the matrix: the values stay, missing diagonal connections are created. -/
def touchDiag (mat : Matrix) : List Nat → Matrix
  | [] => mat
  | index :: rest => touchDiag (mat.modify index index (fun x => x)) rest

/-- The interface loop of `ComPol_MatCopyDiag::extract`. -/
def copyDiagExtract : List Nat → BinaryBuffer → Matrix → Except Fault (BinaryBuffer × Matrix)
  | [], buff, mat => .ok (buff, mat)
  | index :: rest, .block v :: buff, mat => copyDiagExtract rest buff (mat.assign index index v)
  | _ :: _, _, _ => .error .badBuffer

/-- The method `ComPol_MatCopyDiag::extract`: the unread rest of the buffer and the
matrix after the call. -/
def ComPol_MatCopyDiag.extract (mat : Matrix) (buff : BinaryBuffer) (interface : Interface) :
    Except Fault (BinaryBuffer × Matrix) :=
  copyDiagExtract interface.elems buff mat

/-- Modelled from the spec: `ComPol_MatCopyRowsOverlap0` (declared outside the given
sources) makes the rows of an interface consistent: rows travel in the wire format of the
overlap exchange, and the receiver overwrites the connections whose GlobalID it knows. -/
structure ComPol_MatCopyRowsOverlap0 where
  m_mat : Matrix
  m_globalIDs : List AlgebraID
  m_algIDHash : AlgebraIDHashList

/-- Modelled from the spec: constructor of `ComPol_MatCopyRowsOverlap0`. -/
def ComPol_MatCopyRowsOverlap0.new (mat : Matrix) (globalIDs : List AlgebraID) :
    ComPol_MatCopyRowsOverlap0 :=
  ⟨mat, globalIDs, GenerateAlgebraIDHashList globalIDs⟩

/-- Modelled from the spec: `ComPol_MatCopyRowsOverlap0::collect`, the wire format
`[entryCount]` followed by `entryCount` pairs (GlobalID, value) for each interface row. -/
def ComPol_MatCopyRowsOverlap0.collect (s : ComPol_MatCopyRowsOverlap0) (buff : BinaryBuffer)
    (interface : Interface) : BinaryBuffer :=
  buff ++ (interface.elems.map (fun index =>
    BufItem.sizeT (s.m_mat.row index).length :: collectRow s.m_globalIDs (s.m_mat.row index))).flatten

/-- Modelled from the spec: connection loop of `ComPol_MatCopyRowsOverlap0::extract`. -/
def copyRowConnections (index : Nat) :
    Nat → BinaryBuffer → ComPol_MatCopyRowsOverlap0 →
      Except Fault (BinaryBuffer × ComPol_MatCopyRowsOverlap0)
  | 0, buff, s => .ok (buff, s)
  | n + 1, .algID gID :: .block block :: buff, s =>
    match s.m_algIDHash.get_entry gID with
    | some conInd =>
      copyRowConnections index n buff { s with m_mat := s.m_mat.assign index conInd block }
    | none => copyRowConnections index n buff s
  | _ + 1, _, _ => .error .badBuffer

/-- Modelled from the spec: interface loop of `ComPol_MatCopyRowsOverlap0::extract`. -/
def copyRowsExtract :
    List Nat → BinaryBuffer → ComPol_MatCopyRowsOverlap0 →
      Except Fault (BinaryBuffer × ComPol_MatCopyRowsOverlap0)
  | [], buff, s => .ok (buff, s)
  | index :: rest, .sizeT numConnections :: buff, s =>
    match copyRowConnections index numConnections buff s with
    | .ok (buff1, s1) => copyRowsExtract rest buff1 s1
    | .error e => .error e
  | _ :: _, _, _ => .error .badBuffer

/-- Modelled from the spec: `ComPol_MatCopyRowsOverlap0::extract`. -/
def ComPol_MatCopyRowsOverlap0.extract (s : ComPol_MatCopyRowsOverlap0) (buff : BinaryBuffer)
    (interface : Interface) : Except Fault (BinaryBuffer × ComPol_MatCopyRowsOverlap0) :=
  copyRowsExtract interface.elems buff s

/-- Modelled from the spec: `send_data` of the interface communicator (declared outside
the given sources): for every interface of the layout the policy collects into a new
buffer that goes to the target rank of the interface. -/
def send_data (collect : BinaryBuffer → Interface → BinaryBuffer) (layout : IndexLayout) :
    List (Nat × BinaryBuffer) :=
  layout.map (fun itf => (itf.targetProc, collect [] itf))

/-- Modelled from the spec: `receive_data` and `communicate` of the interface
communicator (declared outside the given sources): for every interface of the layout the
policy extracts from the buffer that came from the target rank of the interface. -/
def receive_data {σ : Type} (extract : σ → BinaryBuffer → Interface → Except Fault (BinaryBuffer × σ))
    (inbox : Nat → BinaryBuffer) : IndexLayout → σ → Except Fault σ
  | [], s => .ok s
  | itf :: rest, s =>
    match extract s (inbox itf.targetProc) itf with
    | .ok (_, s1) => receive_data extract inbox rest s1
    | .error e => .error e

/-- What reaches one process during `post_process`: the buffer and the sizes that
`distribute_data` delivers, the row buffers that arrive on the slave interfaces and the
diagonal buffers that arrive on the master-overlap interfaces, both by sending rank. -/
structure Delivered where
  recvBuf : BinaryBuffer
  recvSizes : List Nat
  rows : Nat → BinaryBuffer
  diag : Nat → BinaryBuffer

/-- Lines 345-350 of `post_process` on the receiving side: rows are received on the
slave interfaces; the result is the matrix after the exchange. -/
def post_process_rows (store : LayoutStore) (s : ComPol_MatCreateOverlap)
    (rows : Nat → BinaryBuffer) : Except Fault Matrix :=
  let newLayout : AlgebraLayouts := store.getD s.m_mat.layouts ⟨[], [], [], [], false⟩
  match receive_data ComPol_MatCopyRowsOverlap0.extract rows newLayout.slave
      (ComPol_MatCopyRowsOverlap0.new s.m_mat s.m_globalIDs) with
  | .error err => .error err
  | .ok copied => .ok copied.m_mat

/-- Lines 345-389 of `post_process` on the receiving side: rows are received on the
slave interfaces, then the own diagonal entries are collected on the slave overlap and
diagonal entries are received on the master overlap. -/
def post_process_consistency (store : LayoutStore) (s : ComPol_MatCreateOverlap)
    (rows diag : Nat → BinaryBuffer) : Except Fault ComPol_MatCreateOverlap :=
  let newLayout : AlgebraLayouts := store.getD s.m_mat.layouts ⟨[], [], [], [], false⟩
  match post_process_rows store s rows with
  | .error err => .error err
  | .ok copied =>
    let touched := touchDiag copied (newLayout.slaveOverlap.map (fun itf => itf.elems)).flatten
    match receive_data ComPol_MatCopyDiag.extract diag newLayout.masterOverlap touched with
    | .error err => .error err
    | .ok mat => .ok { s with m_mat := mat }

/-- The method `ComPol_MatCreateOverlap::post_process` on one process, given what the
other processes deliver to it. -/
def ComPol_MatCreateOverlap.post_process (store : LayoutStore) (s : ComPol_MatCreateOverlap)
    (net : Delivered) : Except Fault (LayoutStore × ComPol_MatCreateOverlap) :=
  match post_process_master store s with
  | .error err => .error err
  | .ok r =>
    match post_process_slaveOverlap r.store r.pol net.recvBuf net.recvSizes with
    | .error err => .error err
    | .ok store2 =>
      match post_process_consistency store2 r.pol net.rows net.diag with
      | .error err => .error err
      | .ok s2 => .ok (store2, s2)

/-! ## The connections an extract call reads -/

/-- A connection read by `extract`: the interface index it was read for, the GlobalID
of its column and its value. -/
structure Conn where
  index : Nat
  gID : AlgebraID
  block : block_t
deriving DecidableEq, Repr

/-- The pairs (GlobalID, value) that the connection loop of `extract` reads for `index`,
and the unread rest of the buffer. -/
def readConnections (index : Nat) : Nat → BinaryBuffer → Option (List Conn × BinaryBuffer)
  | 0, buff => some ([], buff)
  | n + 1, .algID gID :: .block block :: buff =>
    match readConnections index n buff with
    | some (cs, rest) => some (⟨index, gID, block⟩ :: cs, rest)
    | none => none
  | _ + 1, _ => none

/-- The connections that `extract` reads over the indices of an interface, in reading
order, and the unread rest of the buffer. -/
def readRows : List Nat → BinaryBuffer → Option (List Conn × BinaryBuffer)
  | [], buff => some ([], buff)
  | index :: rest, .sizeT numConnections :: buff =>
    match readConnections index numConnections buff with
    | some (cs, buff1) =>
      match readRows rest buff1 with
      | some (cs1, buff2) => some (cs ++ cs1, buff2)
      | none => none
    | none => none
  | _ :: _, _ => none

/-- The loop body of `extract` applied to a list of connections from rank `targetProc`. -/
def applyConnections (targetProc : Nat) (cs : List Conn) (s : ComPol_MatCreateOverlap) :
    ComPol_MatCreateOverlap :=
  cs.foldl (fun st c => extractConnection c.index targetProc c.gID c.block st) s

/-! ## A master process with two rows

Rows 0 and 1 with GlobalIDs (0,0) and (0,1); row 1 is a master row with a slave copy on
rank 1. -/

/-- The matrix of the example: rows `[2, -1]` and `[-1, 2]`. -/
def exMat : Matrix :=
  { numRows := 2
    numCols := 2
    row := fun r => if r = 0 then [(0, 2), (1, -1)] else if r = 1 then [(0, -1), (1, 2)] else []
    layouts := 0 }

/-- The policy of the example before any `extract` call. -/
def exPol : ComPol_MatCreateOverlap :=
  { m_mat := exMat
    m_globalIDs := [⟨0, 0⟩, ⟨0, 1⟩]
    m_algIDHash := [(⟨0, 0⟩, 0), (⟨0, 1⟩, 1)]
    m_recvNewCons := []
    m_recvNewIDs := [] }

/-- The master interface of the example: row 1, shared with rank 1. -/
def exItf : Interface := ⟨1, [1]⟩

/-- The buffer rank 1 sends for the row: two connections, to GlobalID (0,1) with value 5
and to GlobalID (1,0) with value -1. -/
def exBuff : BinaryBuffer :=
  [.sizeT 2, .algID ⟨0, 1⟩, .block 5, .algID ⟨1, 0⟩, .block (-1)]

/-- The connections in `exBuff`. -/
def exConns : List Conn := [⟨1, ⟨0, 1⟩, 5⟩, ⟨1, ⟨1, 0⟩, -1⟩]

/-! ## Sequences of extract calls -/

/-- A sequence of `extract` calls on one policy, each with its buffer and interface, as
`receive_data` and `communicate` issue them. -/
def extractCalls :
    List (BinaryBuffer × Interface) → ComPol_MatCreateOverlap → Except Fault ComPol_MatCreateOverlap
  | [], s => .ok s
  | (buff, interface) :: rest, s =>
    match s.extract buff interface with
    | .ok (_, s1) => extractCalls rest s1
    | .error e => .error e

/-- The connections a sequence of `extract` calls reads, each with the target rank of the
interface it was read for. -/
def readCalls : List (BinaryBuffer × Interface) → Option (List (Nat × Conn))
  | [] => some []
  | (buff, interface) :: rest =>
    match readRows interface.elems buff with
    | some (cs, _) =>
      match readCalls rest with
      | some rc => some (cs.map (fun c => (interface.targetProc, c)) ++ rc)
      | none => none
    | none => none

/-- The loop body of `extract` applied to received connections of several interfaces. -/
def applyReceived (rc : List (Nat × Conn)) (s : ComPol_MatCreateOverlap) :
    ComPol_MatCreateOverlap :=
  rc.foldl (fun st x => extractConnection x.2.index x.1 x.2.gID x.2.block st) s

/-- The GlobalIDs among received connections that do not resolve in the hash, in
reading order (with repetitions). -/
def unresolvedIDs (hash : AlgebraIDHashList) (rc : List (Nat × Conn)) : List AlgebraID :=
  (rc.filter (fun x => (hash.get_entry x.2.gID).isNone)).map (fun x => x.2.gID)

/-- Two matrices have the same dimensions and refer to the same layout object. -/
def Matrix.sameShape (m m' : Matrix) : Prop :=
  m'.numRows = m.numRows ∧ m'.numCols = m.numCols ∧ m'.layouts = m.layouts

/-- The result of a computation that succeeded, `d` otherwise. -/
def okOr {α : Type} (d : α) : Except Fault α → α
  | .ok a => a
  | .error _ => d

/-- The layout object of the example: one master interface, to rank 1, for row 1. -/
def exLayouts : AlgebraLayouts := ⟨[exItf], [], [], [], false⟩

/-- The store of the example: the layout object of the matrix at address 0. -/
def exStore : LayoutStore := [exLayouts]

/-- What reaches the example process during `post_process`: nothing from
`distribute_data` and on the slave interfaces (it has no slave interface), and the
diagonal value 2 from rank 1 for its master-overlap interface. -/
def exNet : Delivered := ⟨[], [], fun _ => [], fun _ => [.block 2]⟩

/-- The example policy after the `extract` call. -/
def exPol1 : ComPol_MatCreateOverlap := applyConnections 1 exConns exPol

/-- The example after `post_process`. -/
def exPost : LayoutStore × ComPol_MatCreateOverlap :=
  okOr (exStore, exPol1) (exPol1.post_process exStore exNet)

/-! ## What distribute_data delivers, by sending process -/

/-- The GlobalIDs in the received list `ids` that came from rank `p`, when the list
consists of one segment per entry of `procs`, with the lengths `sizes`. -/
def idsFrom (p : Nat) : List Nat → List Nat → List AlgebraID → List AlgebraID
  | [], _, _ => []
  | q :: procs, sizes, ids =>
    (if q = p then ids.take (sizes.headD 0) else []) ++
      idsFrom p procs sizes.tail (ids.drop (sizes.headD 0))

/-- The master processes of the layout object the matrix of the policy refers to. -/
def masterProcsOf (store : LayoutStore) (s : ComPol_MatCreateOverlap) : List Nat :=
  GetLayoutTargetProcs (store.getD s.m_mat.layouts ⟨[], [], [], [], false⟩).slave

/-- An index layout is a map: its interfaces are in strictly ascending rank order. -/
def IndexLayout.isMap (l : IndexLayout) : Prop :=
  l.Pairwise (fun a b => a.targetProc < b.targetProc)

/-! ## A slave process with three rows

Rank 1 with the rows 0 and 1 it owns, GlobalIDs (1,0) and (1,1), and row 2, a slave copy
of the row with GlobalID (0,1) of rank 0. -/

/-- The matrix of the slave example. -/
def exMatS : Matrix :=
  { numRows := 3
    numCols := 3
    row := fun r =>
      if r = 0 then [(0, 2), (1, -1), (2, -1)]
      else if r = 1 then [(0, -1), (1, 1)]
      else if r = 2 then [(0, -1), (2, 1)]
      else []
    layouts := 0 }

/-- The policy of the slave example, with no new connection received. -/
def exPolS : ComPol_MatCreateOverlap :=
  { m_mat := exMatS
    m_globalIDs := [⟨1, 0⟩, ⟨1, 1⟩, ⟨0, 1⟩]
    m_algIDHash := [(⟨1, 0⟩, 0), (⟨1, 1⟩, 1), (⟨0, 1⟩, 2)]
    m_recvNewCons := []
    m_recvNewIDs := [] }

/-- The store of the slave example: one layout object with the slave interface to
rank 0 for row 2. -/
def exStoreS : LayoutStore := [⟨[], [⟨0, [2]⟩], [], [], true⟩]

/-! ## The wire format of the overlap exchange -/

/-- The wire format of one row as the spec gives it: `[entryCount]` followed by
`entryCount` pairs (GlobalID of the column, value), in row order. -/
def wireRow (globalIDs : List AlgebraID) (row : MatRow) : BinaryBuffer :=
  BufItem.sizeT row.length ::
    (row.map (fun e => [BufItem.algID (globalIDs.getD e.1 default), BufItem.block e.2])).flatten

/-- The connections of one sender row as the receiver reads them for its index `index`. -/
def rowConns (globalIDs : List AlgebraID) (index : Nat) (row : MatRow) : List Conn :=
  row.map (fun e => ⟨index, globalIDs.getD e.1 default, e.2⟩)

/-- The connections of the sender's rows `sendIdxs`, the k-th row read for the k-th
index of `recvIdxs`. -/
def sentConns (sender : ComPol_MatCreateOverlap) : List Nat → List Nat → List Conn
  | si :: sendIdxs, ri :: recvIdxs =>
    rowConns sender.m_globalIDs ri (sender.m_mat.row si) ++ sentConns sender sendIdxs recvIdxs
  | _, _ => []

/-! ## Sums of received values -/

/-- Two keys are equivalent for the map of new connections: neither is less. -/
def ExtCon.equiv (a b : ExtCon) : Bool := !a.lt b && !b.lt a

/-- Sum of the values received for row `i` and GlobalID `g`, over all interfaces. -/
def receivedSum (rc : List (Nat × Conn)) (i : Nat) (g : AlgebraID) : block_t :=
  ((rc.filter (fun x => decide (x.2.index = i) && decide (x.2.gID = g))).map
    (fun x => x.2.block)).sum

/-- Sum of the values received for row `i` whose GlobalID resolves to column `k`. -/
def mergedSum (hash : AlgebraIDHashList) (rc : List (Nat × Conn)) (i k : Nat) : block_t :=
  ((rc.filter (fun x => decide (x.2.index = i) && decide (hash.get_entry x.2.gID = some k))).map
    (fun x => x.2.block)).sum

/-- Sum of the values of the new connections from row `i` whose target GlobalID has the
column `k` in the hash. -/
def deferredSum (hash : AlgebraIDHashList) (cons : List (ExtCon × block_t)) (i k : Nat) :
    block_t :=
  ((cons.filter (fun e => decide (e.1.fromInd = i) &&
    decide (hash.get_entry e.1.toID = some k))).map (fun e => e.2)).sum

/-- The key of the new connection that `extract` makes of a received connection. -/
def extConOf (globalIDs : List AlgebraID) (x : Nat × Conn) : ExtCon :=
  ⟨x.2.index, globalIDs.getD x.2.index default, x.2.gID, x.1⟩

/-- The new connections that `extract` makes of the received connections whose
GlobalID does not resolve, one for each, in reading order. -/
def deferredOf (globalIDs : List AlgebraID) (hash : AlgebraIDHashList)
    (rc : List (Nat × Conn)) : List (ExtCon × block_t) :=
  (rc.filter (fun x => (hash.get_entry x.2.gID).isNone)).map
    (fun x => (extConOf globalIDs x, x.2.block))

/-! ## The master example after the master part of post_process -/

/-- The connections in `exBuff`, received from rank 1. -/
def exReceived : List (Nat × Conn) := exConns.map (fun c => (1, c))

/-- The master example after extracting `exBuff` and lines 224-308 of `post_process`. -/
def exMaster : MasterResult :=
  okOr ⟨[], exPol, [], [], []⟩ (post_process_master exStore exPol1)

/-! ## distribute_data -/

/-- Modelled from the spec: `distribute_data` of the process communicator (declared
outside the given sources) cuts the send buffer into consecutive segments, one for each
entry of `procs` with the lengths `sizes`; this is the segment that goes to `target`. -/
def segmentFor (target : Nat) : List Nat → List Nat → BinaryBuffer → BinaryBuffer
  | [], _, _ => []
  | p :: procs, sizes, buf =>
    if p = target then buf.take (sizes.headD 0)
    else segmentFor target procs sizes.tail (buf.drop (sizes.headD 0))

/-- Modelled from the spec: what `distribute_data` delivers to a process with the master
processes `masterProcs`, when `sent m` is the segment that the process `m` sends to it:
the segments one after the other, and their lengths. -/
def distribute_data (masterProcs : List Nat) (sent : Nat → BinaryBuffer) :
    BinaryBuffer × List Nat :=
  ((masterProcs.map sent).flatten, masterProcs.map (fun m => (sent m).length))

/-- The invariant of the loop over `m_recvNewCons`: the master-overlap layout is a map,
there is one message size per slave process, the send buffer is as long as the sizes say,
no slave process after the current one has a message yet, and for every rank `q` the
segment of the send buffer for `q` lists GlobalIDs that resolve in the hash, whose local
indices are exactly what was pushed to the master-overlap interface to `q`. -/
def masterLoopInv (hash : AlgebraIDHashList) (slaveProcs : List Nat) (mo0 : IndexLayout)
    (st : MasterLoop) : Prop :=
  st.masterOverlap.isMap ∧
  st.msgSizeForSlaveProcs.length = slaveProcs.length ∧
  st.sendBuf.length = st.msgSizeForSlaveProcs.sum ∧
  (match st.itfc with
    | none => ∀ j, st.msgSizeForSlaveProcs.getD j 0 = 0
    | some c =>
      ∃ j, st.slaveInd = some j ∧ slaveProcs[j]? = some c ∧
        ∀ j', j < j' → st.msgSizeForSlaveProcs.getD j' 0 = 0) ∧
  ∀ q, ∃ ids : List AlgebraID,
    segmentFor q slaveProcs st.msgSizeForSlaveProcs st.sendBuf = ids.map BufItem.algID ∧
    st.masterOverlap.elemsOf q = mo0.elemsOf q ++ ids.filterMap hash.get_entry ∧
    ∀ g, g ∈ ids → hash.get_entry g ≠ none

/-! ## CreateOverlap on one process -/

/-- The layout object a matrix refers to (`*mat.layouts()`). -/
def layoutsOf (store : LayoutStore) (mat : Matrix) : AlgebraLayouts :=
  store.getD mat.layouts ⟨[], [], [], [], false⟩

/-- The function `CreateOverlap` on one process up to the master part of `post_process`
(lines 447-452 with lines 224-308): the policy is constructed for the matrix and the
GlobalIDs, `communicate` issues the `extract` calls, and `post_process` starts. -/
def createOverlapMaster (store : LayoutStore) (mat : Matrix) (globalIDs : List AlgebraID)
    (calls : List (BinaryBuffer × Interface)) : Except Fault MasterResult :=
  match ComPol_MatCreateOverlap.new mat globalIDs with
  | .error err => .error err
  | .ok comPolOverlap =>
    match extractCalls calls comPolOverlap with
    | .error err => .error err
    | .ok received => post_process_master store received

/-! ## CreateOverlap on all processes -/

/-- One process: its store of layout objects and its matrix. -/
structure Process where
  store : LayoutStore
  mat : Matrix

/-- The layout object the matrix of a process refers to. -/
def Process.layouts (p : Process) : AlgebraLayouts := layoutsOf p.store p.mat

/-- The function `f` applied to every list element with its rank, counting from `rank`. -/
def mapRanks {α β : Type} (f : Nat → α → β) : Nat → List α → List β
  | _, [] => []
  | rank, a :: rest => f rank a :: mapRanks f (rank + 1) rest

/-- As `mapRanks`, for a function that can throw. -/
def mapRanksE {α β : Type} (f : Nat → α → Except Fault β) : Nat → List α → Except Fault (List β)
  | _, [] => .ok []
  | rank, a :: rest =>
    match f rank a with
    | .error err => .error err
    | .ok b =>
      match mapRanksE f (rank + 1) rest with
      | .error err => .error err
      | .ok bs => .ok (b :: bs)

/-- Modelled from the spec: per-interface delivery of the interface communicator: the
buffer that rank `self` receives from rank `src`, which is what `src` collected for its
interface to `self` (nothing when `src` has no such interface). -/
def inboxOf (outboxes : List (List (Nat × BinaryBuffer))) (self src : Nat) : BinaryBuffer :=
  match (outboxes.getD src []).find? (fun m => m.1 == self) with
  | some m => m.2
  | none => []

/-- Modelled from the spec: `ComPol_VecCopy::collect` (declared outside the given
sources) serializes the vector values at the indices of the interface. -/
def vecCopyCollect (ids : List AlgebraID) (buff : BinaryBuffer) (interface : Interface) :
    BinaryBuffer :=
  buff ++ interface.elems.map (fun i => BufItem.algID (ids.getD i default))

/-- Modelled from the spec: interface loop of `ComPol_VecCopy::extract`, which overwrites
the vector values at the indices of the interface. -/
def vecCopyExtractLoop :
    List Nat → BinaryBuffer → List AlgebraID → Except Fault (BinaryBuffer × List AlgebraID)
  | [], buff, ids => .ok (buff, ids)
  | i :: rest, .algID g :: buff, ids => vecCopyExtractLoop rest buff (ids.set i g)
  | _ :: _, _, _ => .error .badBuffer

/-- Modelled from the spec: `ComPol_VecCopy::extract`. -/
def vecCopyExtract (ids : List AlgebraID) (buff : BinaryBuffer) (interface : Interface) :
    Except Fault (BinaryBuffer × List AlgebraID) :=
  vecCopyExtractLoop interface.elems buff ids

/-- The `extract` calls that `receive_data` and `communicate` issue for a layout. -/
def callsFor (layout : IndexLayout) (inbox : Nat → BinaryBuffer) :
    List (BinaryBuffer × Interface) :=
  layout.map (fun itf => (inbox itf.targetProc, itf))

/-- Modelled from the spec: `GenerateGlobalAlgebraIDs` (declared outside the given
sources) on all processes: every index `i < numRows` of rank `r` gets the GlobalID
`(r, i)`, and the IDs are then copied along the master layout to all slave copies. -/
def GenerateGlobalAlgebraIDs (procs : List Process) : Except Fault (List (List AlgebraID)) :=
  let localIDs : List (List AlgebraID) :=
    mapRanks (fun rank p => (List.range p.mat.numRows).map (fun i => AlgebraID.mk rank i)) 0 procs
  let out : List (List (Nat × BinaryBuffer)) :=
    mapRanks (fun rank p => send_data (vecCopyCollect (localIDs.getD rank [])) p.layouts.master)
      0 procs
  mapRanksE (fun rank p =>
    receive_data vecCopyExtract (inboxOf out rank) p.layouts.slave (localIDs.getD rank []))
    0 procs

/-- The policy before it is checked by the constructor. -/
def policyFor (mat : Matrix) (globalIDs : List AlgebraID) : ComPol_MatCreateOverlap :=
  ⟨mat, globalIDs, GenerateAlgebraIDHashList globalIDs, [], []⟩

/-- A result to stand for a rank that does not exist. -/
def noMasterResult : MasterResult :=
  ⟨[], policyFor ⟨0, 0, fun _ => [], 0⟩ [], [], [], []⟩

/-- Lines 439-452 of `CreateOverlap` with lines 224-308 of `post_process`, on all
processes: GlobalIDs are generated, every process sends the rows of its slave layout,
extracts what it receives on its master layout, and runs the master part of
`post_process`. -/
def createOverlapMasters (procs : List Process) : Except Fault (List MasterResult) :=
  match GenerateGlobalAlgebraIDs procs with
  | .error err => .error err
  | .ok globalIDs =>
    let out : List (List (Nat × BinaryBuffer)) :=
      mapRanks (fun rank p =>
        send_data (policyFor p.mat (globalIDs.getD rank [])).collect p.layouts.slave) 0 procs
    mapRanksE (fun rank p =>
      createOverlapMaster p.store p.mat (globalIDs.getD rank [])
        (callsFor p.layouts.master (inboxOf out rank))) 0 procs

/-- Lines 310-343 of `post_process` on all processes: `distribute_data` hands every
process the segments its master processes wrote for it, and the slave overlap is built. -/
def createOverlapSlaves (masters : List MasterResult) : Except Fault (List LayoutStore) :=
  mapRanksE (fun rank r =>
    let net := distribute_data (masterProcsOf r.store r.pol)
      (fun m =>
        segmentFor rank (masters.getD m noMasterResult).slaveProcs
          (masters.getD m noMasterResult).msgSizeForSlaveProcs
          (masters.getD m noMasterResult).sendBuf)
    post_process_slaveOverlap r.store r.pol net.1 net.2) 0 masters

/-- Lines 345-389 of `post_process` on all processes: rows go from the master to the
slave interfaces, then diagonal entries go from the slave overlap to the master overlap. -/
def createOverlapConsistency (masters : List MasterResult) (stores : List LayoutStore) :
    Except Fault (List (LayoutStore × ComPol_MatCreateOverlap)) :=
  let outRows : List (List (Nat × BinaryBuffer)) :=
    mapRanks (fun rank r =>
      send_data (ComPol_MatCopyRowsOverlap0.new r.pol.m_mat r.pol.m_globalIDs).collect
        (layoutsOf (stores.getD rank []) r.pol.m_mat).master) 0 masters
  let outDiag : List (List (Nat × BinaryBuffer)) :=
    mapRanks (fun rank r =>
      match post_process_rows (stores.getD rank []) r.pol (inboxOf outRows rank) with
      | .error _ => []
      | .ok copied =>
        send_data (ComPol_MatCopyDiag.collect copied)
          (layoutsOf (stores.getD rank []) r.pol.m_mat).slaveOverlap) 0 masters
  mapRanksE (fun rank r =>
    match post_process_consistency (stores.getD rank []) r.pol (inboxOf outRows rank)
        (inboxOf outDiag rank) with
    | .error err => .error err
    | .ok pol => .ok (stores.getD rank [], pol)) 0 masters

/-- The function `CreateOverlap` run by all processes: for every rank the store of
layout objects and the policy at the end of `post_process`. -/
def createOverlapAll (procs : List Process) :
    Except Fault (List (LayoutStore × ComPol_MatCreateOverlap)) :=
  match createOverlapMasters procs with
  | .error err => .error err
  | .ok masters =>
    match createOverlapSlaves masters with
    | .error err => .error err
    | .ok stores => createOverlapConsistency masters stores

/-- Rank 0: rows `[1, -1]` and `[-1, 1]`, master interface to rank 1 for local row 1. -/
def rank0 : Process :=
  { store := [⟨[⟨1, [1]⟩], [], [], [], false⟩]
    mat :=
      { numRows := 2
        numCols := 2
        row := fun r => if r = 0 then [(0, 1), (1, -1)] else if r = 1 then [(0, -1), (1, 1)] else []
        layouts := 0 } }

/-- Rank 1: the matrix of the slave example, slave interface to rank 0 for local row 2. -/
def rank1 : Process :=
  { store := [⟨[], [⟨0, [2]⟩], [], [], false⟩]
    mat := exMatS }

/-- The result of `CreateOverlap` on the two processes. -/
def twoProcs : List (LayoutStore × ComPol_MatCreateOverlap) :=
  okOr [] (createOverlapAll [rank0, rank1])

/-- The store and the policy of one rank in a result. -/
def resultOf (res : List (LayoutStore × ComPol_MatCreateOverlap)) (rank : Nat) :
    LayoutStore × ComPol_MatCreateOverlap :=
  res.getD rank ([], policyFor ⟨0, 0, fun _ => [], 0⟩ [])

/-- The GlobalIDs of rank 0 in the two-process example. -/
def gids0 : List AlgebraID := [⟨0, 0⟩, ⟨0, 1⟩]

/-- The GlobalIDs of rank 1 in the two-process example: its slave row 2 has the ID of
row 1 of rank 0. -/
def gids1 : List AlgebraID := [⟨1, 0⟩, ⟨1, 1⟩, ⟨0, 1⟩]

/-- The `extract` call of rank 0 in the two-process example: the row that rank 1
collected for its slave interface, for the master interface to rank 1. -/
def calls0 : List (BinaryBuffer × Interface) :=
  [((policyFor rank1.mat gids1).collect [] ⟨0, [2]⟩, ⟨1, [1]⟩)]

/-- Rank 0 of the two-process example after the master part of `post_process`. -/
def master0 : MasterResult :=
  okOr noMasterResult (createOverlapMaster rank0.store rank0.mat gids0 calls0)

/-- Rank 1 of the two-process example after the master part of `post_process`. -/
def master1 : MasterResult :=
  okOr noMasterResult (createOverlapMaster rank1.store rank1.mat gids1 [])

/-- The GlobalIDs that reach rank 1 through `distribute_data`, by sending rank. -/
def sentTo1 (m : Nat) : List AlgebraID := if m = 0 then [⟨1, 0⟩] else []

/-- The store of rank 0 after the slave part of `post_process`. -/
def slaveStore0 : LayoutStore :=
  okOr [] (post_process_slaveOverlap master0.store master0.pol [] [])

/-- The store of rank 1 after the slave part of `post_process`. -/
def slaveStore1 : LayoutStore :=
  okOr [] (post_process_slaveOverlap master1.store master1.pol
    (distribute_data (masterProcsOf master1.store master1.pol)
      (fun m => (sentTo1 m).map BufItem.algID)).1
    (distribute_data (masterProcsOf master1.store master1.pol)
      (fun m => (sentTo1 m).map BufItem.algID)).2)

/-! ## The two processes with the copy on the other side

The same four global rows, but now rank 0 holds a slave copy of global row 2 as its
local row 2, in which it has assembled the coupling to global row 1, and rank 1 holds
no copy. -/

/-- Rank 0 with the slave copy of global row 2: slave interface to rank 1 for row 2. -/
def rank0B : Process :=
  { store := [⟨[], [⟨1, [2]⟩], [], [], false⟩]
    mat :=
      { numRows := 3
        numCols := 3
        row := fun r =>
          if r = 0 then [(0, 1), (1, -1)]
          else if r = 1 then [(0, -1), (1, 2), (2, -1)]
          else if r = 2 then [(1, -1), (2, 1)]
          else []
        layouts := 0 } }

/-- Rank 1 without a copy: master interface to rank 0 for its local row 0. -/
def rank1B : Process :=
  { store := [⟨[⟨0, [0]⟩], [], [], [], false⟩]
    mat :=
      { numRows := 2
        numCols := 2
        row := fun r => if r = 0 then [(0, 1), (1, -1)] else if r = 1 then [(0, -1), (1, 1)] else []
        layouts := 0 } }

/-- The result of `CreateOverlap` on these two processes. -/
def twoProcsB : List (LayoutStore × ComPol_MatCreateOverlap) :=
  okOr [] (createOverlapAll [rank0B, rank1B])

/-- The layout object of one rank in a result. -/
def layoutsIn (res : List (LayoutStore × ComPol_MatCreateOverlap)) (rank : Nat) :
    AlgebraLayouts :=
  layoutsOf (resultOf res rank).1 (resultOf res rank).2.m_mat

/-- The diagonal values that `ComPol_MatCopyDiag::extract` assigns: the k-th receiver
index gets the diagonal entry of the k-th sender index. -/
def diagPairs (A : Matrix) : List Nat → List Nat → List (Nat × block_t)
  | si :: sendIdxs, ri :: recvIdxs => (ri, A.entry si si) :: diagPairs A sendIdxs recvIdxs
  | _, _ => []

/-- The assignments `mat(index, index) = v` for a list of pairs `(index, v)`, in order. -/
def assignDiag (pairs : List (Nat × block_t)) (mat : Matrix) : Matrix :=
  pairs.foldl (fun m p => m.assign p.1 p.1 p.2) mat

/-- The value of the last pair for index `i` in a list of pairs `(index, v)`. -/
def lastDiag : List (Nat × block_t) → Nat → Option block_t
  | [], _ => none
  | (j, v) :: rest, i =>
    match lastDiag rest i with
    | some w => some w
    | none => if j = i then some v else none

/-! ## The multigrid cycle (mg_solver_impl.hpp): events and control flow

The controller `AssembledMultiGridCycle` drives collaborators that are not part of
`mg_solver_impl.hpp`: the smoother, the base solver, the transfer and projection
operators, the level operators, the grid functions and the communicator. They are
parameters of the model. Every call of a collaborator that returns `bool` and every
other step with an effect is recorded as an event, in the order of execution. -/

/-- The kinds of objects the controller holds per level: the grid functions `m_u`,
`m_c`, `m_t`, `m_d`, the operator `m_A`, the prolongation `m_I`, the projection `m_P`
and the smoother `m_smoother`. -/
inductive ObjKind
  | u | c | t | d | A | I | P | smoother
  deriving DecidableEq, Repr

/-- A pointer held in one of the vectors of the controller: `NULL`, an object the
controller created for a level, the smoother passed to the constructor, or the
operator `m_Op` passed to `init`. -/
inductive Ptr
  | null
  | obj (lev : Nat) (kind : ObjKind)
  | smoother_arg
  | m_Op
  deriving DecidableEq, Repr

/-- The calls of collaborators that return `bool`, by object, method and index. -/
inductive MGCall
  | smoother_apply (lev : Nat)
  | I_apply_transposed (lev : Nat)
  | I_apply (lev : Nat)
  | A_apply_sub (lev : Nat)
  | baseSolver_prepare (lev : Nat)
  | baseSolver_apply (lev : Nat)
  | I_prepare (lev : Nat)
  | P_prepare (lev : Nat)
  | P_apply (lev : Nat)
  | A_prepare (lev : Nat)
  | smoother_init (lev : Nat)
  | smoother_prepare (lev : Nat)
  | baseSolver_init (lev : Nat)
  deriving DecidableEq, Repr

/-- The communication policies of the vertical exchange. -/
inductive ComPol
  | VecAdd
  | VecCopy
  deriving DecidableEq, Repr

/-- The storage types set by the cycle. -/
inductive ParallelStorageType
  | PST_CONSISTENT
  | PST_ADDITIVE
  deriving DecidableEq, Repr

/-- The steps without a result: operations on grid functions and on the communicator. -/
inductive MGAction
  | c_set_zero (lev : Nat)
  | c_add_t (lev : Nat)
  | d_ConsistentToUnique (lev : Nat)
  | send_data (pol : ComPol) (lev : Nat)
  | receive_data (pol : ComPol) (lev : Nat)
  | communicate (pol : ComPol) (lev : Nat)
  | c_set_storage_type (lev : Nat) (type : ParallelStorageType)
  | d_set_storage_type (lev : Nat) (type : ParallelStorageType)
  | copy_defect
  | d_project_surface
  | c_project_surface
  | d_release_surface
  | c_release_surface
  | u_project_surface
  | set_A_surface
  deriving DecidableEq, Repr

/-- What the controller does, in order: entering `lmgc(lev)`, a collaborator call with
its result, a step without result, the creation of the object of a level, the deletion
of the object a pointer names. -/
inductive MGEvent
  | lmgc (lev : Nat)
  | call (c : MGCall) (ok : Bool)
  | action (a : MGAction)
  | create (lev : Nat) (kind : ObjKind)
  | destroy (p : Ptr)
  deriving DecidableEq, Repr

/-- The result of running a piece of the controller: the `bool` it returns (`true` for
a piece that returns nothing), the state it leaves and the events in order. -/
structure Outcome (σ : Type) where
  ok : Bool
  state : σ
  trace : List MGEvent

/-- A piece of the controller, run from a state. -/
def Step (σ : Type) : Type := σ → Outcome σ

/-- Nothing is done. -/
def Step.skip {σ : Type} : Step σ := fun s => ⟨true, s, []⟩

/-- The statement `return false;`. -/
def Step.fail {σ : Type} : Step σ := fun s => ⟨false, s, []⟩

/-- An event without effect on the state. -/
def Step.emit {σ : Type} (e : MGEvent) : Step σ := fun s => ⟨true, s, [e]⟩

/-- A step without result. -/
def Step.act {σ : Type} (a : MGAction) (f : σ → σ) : Step σ :=
  fun s => ⟨true, f s, [.action a]⟩

/-- The statement `if(!call) return false;` for a collaborator call `c`. -/
def Step.call {σ : Type} (c : MGCall) (f : σ → Bool × σ) : Step σ :=
  fun s => ⟨(f s).1, (f s).2, [.call c (f s).1]⟩

/-- Sequencing: the second piece runs only when the first one did not return `false`. -/
def Step.andThen {σ : Type} (a b : Step σ) : Step σ := fun s =>
  match a s with
  | ⟨true, s1, tr1⟩ =>
    match b s1 with
    | ⟨ok, s2, tr2⟩ => ⟨ok, s2, tr1 ++ tr2⟩
  | ⟨false, s1, tr1⟩ => ⟨false, s1, tr1⟩

/-- The statement `if(cond) body`. -/
def Step.when {σ : Type} (cond : Bool) (body : Step σ) : Step σ :=
  if cond then body else Step.skip

/-- The statement `if(cond) body` for a condition on the state. -/
def Step.whenS {σ : Type} (cond : σ → Bool) (body : Step σ) : Step σ :=
  fun s => if cond s then body s else Step.skip s

/-- The loop `for(int i = 0; i < n; ++i) body`, left at the first `return false`. -/
def Step.repeat {σ : Type} (body : Step σ) : Nat → Step σ
  | 0 => Step.skip
  | n + 1 => Step.andThen body (Step.repeat body n)

/-- A loop over the levels of a list in order, left at the first `return false`. -/
def Step.forEach {σ : Type} (body : Nat → Step σ) : List Nat → Step σ
  | [] => Step.skip
  | lev :: rest => Step.andThen (body lev) (Step.forEach body rest)

/-- The parameters fixed by the constructor of `AssembledMultiGridCycle`. -/
structure AssembledMultiGridCycle where
  m_surfaceLevel : Nat
  m_baseLevel : Nat
  m_cycle_type : Int
  m_nu1 : Int
  m_nu2 : Int
  m_grid_changes : Bool
  deriving DecidableEq, Repr

/-- The collaborators of the cycle over grid functions `V` and a state `ε` of the
collaborators and the network. A collaborator call gets the grid functions passed by
reference and returns its result, the new state and the new contents of the grid
functions, in the order of the arguments of the call. -/
structure Collaborators (ε V : Type) where
  /-- The operation `set(0.0)` of a grid function. -/
  set_zero : V → V
  /-- The operation `c += t` of grid functions: the new `c`. -/
  add_assign : V → V → V
  /-- The operation `set_storage_type` of a grid function. -/
  set_storage_type : ParallelStorageType → V → V
  /-- The call `m_smoother[lev]->apply(d, t, true)`. -/
  smoother_apply : Nat → ε → V → V → Bool × ε × V × V
  /-- The call `m_I[lev]->apply_transposed(dFine, dCoarse)`. -/
  I_apply_transposed : Nat → ε → V → V → Bool × ε × V × V
  /-- The call `m_I[lev]->apply(cCoarse, tFine)`. -/
  I_apply : Nat → ε → V → V → Bool × ε × V × V
  /-- The call `m_A[lev]->apply_sub(c, d)`. -/
  A_apply_sub : Nat → ε → V → V → Bool × ε × V × V
  /-- The call `m_baseSolver.prepare(u, d, c)`. -/
  baseSolver_prepare : ε → V → V → V → Bool × ε × V × V × V
  /-- The call `m_baseSolver.apply(d, c)`. -/
  baseSolver_apply : ε → V → V → Bool × ε × V × V
  /-- The call `level->project_surface(arg)`: the new level function and argument. -/
  project_surface : V → V → V × V
  /-- The call `level->release_surface(arg)`: the new level function and argument. -/
  release_surface : V → V → V × V
  /-- Whether `m_d[lev]->get_vertical_master_layout().empty()`. -/
  d_vertical_master_empty : Nat → Bool
  /-- Whether `m_d[lev]->get_vertical_slave_layout().empty()`. -/
  d_vertical_slave_empty : Nat → Bool
  /-- Whether `m_c[lev]->get_vertical_master_layout().empty()`. -/
  c_vertical_master_empty : Nat → Bool
  /-- Whether `m_c[lev]->get_vertical_slave_layout().empty()`. -/
  c_vertical_slave_empty : Nat → Bool
  /-- The function `ConsistentToUnique` on the vertical master layout of a level. -/
  ConsistentToUnique : Nat → V → V
  /-- The call `m_Com.send_data(layout, policy)` for the vertical layout of a level. -/
  send_data : ComPol → Nat → ε → ε
  /-- The call `m_Com.receive_data(layout, policy)` for the vertical layout of a level. -/
  receive_data : ComPol → Nat → ε → ε
  /-- The call `m_Com.communicate()`, on the grid function the policy refers to. -/
  communicate : ε → V → ε × V

/-- A vector of per-level values with the value at `lev` replaced. -/
def setLev {V : Type} (f : Nat → V) (lev : Nat) (v : V) : Nat → V :=
  fun l => if l = lev then v else f l

/-- The memory a cycle works on: the grid functions `*m_u[lev]`, `*m_c[lev]`,
`*m_t[lev]`, `*m_d[lev]` of a prepared controller, the state of the collaborators, the
grid functions `d` and `c` the caller passes to `apply` by reference, and the grid
function `new function_type(d)` of `apply`. -/
structure CycleState (ε V : Type) where
  m_u : Nat → V
  m_c : Nat → V
  m_t : Nat → V
  m_d : Nat → V
  env : ε
  d : V
  c : V
  d_copy : V

/-! ## The multigrid cycle: smooth, lmgc, apply -/

/-- The call `m_smoother[lev]->apply(d, *m_t[lev], true)` of `smooth`, for `d` the
defect `*m_d[lev]` that `lmgc` passes. -/
def smootherStep {ε V : Type} (ext : Collaborators ε V) (lev : Nat) : Step (CycleState ε V) :=
  Step.call (.smoother_apply lev) (fun s =>
    match ext.smoother_apply lev s.env (s.m_d lev) (s.m_t lev) with
    | (ok, e, d, t) =>
      (ok, { s with env := e, m_d := setLev s.m_d lev d, m_t := setLev s.m_t lev t }))

/-- The statement `c += *m_t[lev]` for the correction `*m_c[lev]`. -/
def addCorrection {ε V : Type} (ext : Collaborators ε V) (lev : Nat) : Step (CycleState ε V) :=
  Step.act (.c_add_t lev) (fun s =>
    { s with m_c := setLev s.m_c lev (ext.add_assign (s.m_c lev) (s.m_t lev)) })

/-- The method `smooth(d, c, lev, nu)` for the arguments `*m_d[lev]` and `*m_c[lev]`
that `lmgc` passes: `nu` times a smoothing step and the addition of its correction; a
negative `nu` gives no step. -/
def AssembledMultiGridCycle.smooth {ε V : Type} (ext : Collaborators ε V) (lev : Nat)
    (nu : Int) : Step (CycleState ε V) :=
  Step.repeat (Step.andThen (smootherStep ext lev) (addCorrection ext lev)) nu.toNat

/-- The statement `m_c[lev]->set(0.0)`. -/
def resetCorrection {ε V : Type} (ext : Collaborators ε V) (lev : Nat) : Step (CycleState ε V) :=
  Step.act (.c_set_zero lev) (fun s => { s with m_c := setLev s.m_c lev (ext.set_zero (s.m_c lev)) })

/-- The call `ConsistentToUnique` on `m_d[lev]`. -/
def consistentToUniqueStep {ε V : Type} (ext : Collaborators ε V) (lev : Nat) :
    Step (CycleState ε V) :=
  Step.act (.d_ConsistentToUnique lev) (fun s =>
    { s with m_d := setLev s.m_d lev (ext.ConsistentToUnique lev (s.m_d lev)) })

/-- The call `m_I[lev-1]->apply_transposed(*m_d[lev], *m_d[lev-1])`. -/
def restrictStep {ε V : Type} (ext : Collaborators ε V) (lev : Nat) : Step (CycleState ε V) :=
  Step.call (.I_apply_transposed (lev - 1)) (fun s =>
    match ext.I_apply_transposed (lev - 1) s.env (s.m_d lev) (s.m_d (lev - 1)) with
    | (ok, e, dFine, dCoarse) =>
      (ok, { s with env := e, m_d := setLev (setLev s.m_d lev dFine) (lev - 1) dCoarse }))

/-- The call `m_Com.send_data` for the vertical layout of a level. -/
def sendStep {ε V : Type} (ext : Collaborators ε V) (pol : ComPol) (lev : Nat) :
    Step (CycleState ε V) :=
  Step.act (.send_data pol lev) (fun s => { s with env := ext.send_data pol lev s.env })

/-- The call `m_Com.receive_data` for the vertical layout of a level. -/
def receiveStep {ε V : Type} (ext : Collaborators ε V) (pol : ComPol) (lev : Nat) :
    Step (CycleState ε V) :=
  Step.act (.receive_data pol lev) (fun s => { s with env := ext.receive_data pol lev s.env })

/-- The call `m_Com.communicate()` going down, the policy holding `m_d[lev]`. -/
def communicateDown {ε V : Type} (ext : Collaborators ε V) (lev : Nat) :
    Step (CycleState ε V) :=
  Step.act (.communicate .VecAdd lev) (fun s =>
    match ext.communicate s.env (s.m_d lev) with
    | (e, d) => { s with env := e, m_d := setLev s.m_d lev d })

/-- The call `m_Com.communicate()` going up, the policy holding `m_c[lev]`. -/
def communicateUp {ε V : Type} (ext : Collaborators ε V) (lev : Nat) :
    Step (CycleState ε V) :=
  Step.act (.communicate .VecCopy lev) (fun s =>
    match ext.communicate s.env (s.m_c lev) with
    | (e, c) => { s with env := e, m_c := setLev s.m_c lev c })

/-- The statement `m_c[lev]->set_storage_type(type)`. -/
def setStorageC {ε V : Type} (ext : Collaborators ε V) (lev : Nat)
    (type : ParallelStorageType) : Step (CycleState ε V) :=
  Step.act (.c_set_storage_type lev type) (fun s =>
    { s with m_c := setLev s.m_c lev (ext.set_storage_type type (s.m_c lev)) })

/-- The statement `m_d[lev]->set_storage_type(type)`. -/
def setStorageD {ε V : Type} (ext : Collaborators ε V) (lev : Nat)
    (type : ParallelStorageType) : Step (CycleState ε V) :=
  Step.act (.d_set_storage_type lev type) (fun s =>
    { s with m_d := setLev s.m_d lev (ext.set_storage_type type (s.m_d lev)) })

/-- The vertical exchange of `lmgc(lev)` going down, lines 85-100: a process with a
vertical slave layout on the coarse level sends, else one with a vertical master layout
receives; then the communication is performed. -/
def goingDown {ε V : Type} (ext : Collaborators ε V) (lev : Nat) : Step (CycleState ε V) :=
  Step.andThen
    (if !ext.d_vertical_slave_empty (lev - 1) then sendStep ext .VecAdd (lev - 1)
     else if !ext.d_vertical_master_empty (lev - 1) then receiveStep ext .VecAdd (lev - 1)
     else Step.skip)
    (communicateDown ext (lev - 1))

/-- The vertical exchange of `lmgc(lev)` going up, lines 112-128. -/
def goingUp {ε V : Type} (ext : Collaborators ε V) (lev : Nat) : Step (CycleState ε V) :=
  Step.andThen
    (if !ext.c_vertical_slave_empty (lev - 1) then
       Step.andThen (receiveStep ext .VecCopy (lev - 1)) (setStorageC ext (lev - 1) .PST_CONSISTENT)
     else if !ext.c_vertical_master_empty (lev - 1) then
       Step.andThen (sendStep ext .VecCopy (lev - 1)) (setStorageC ext (lev - 1) .PST_CONSISTENT)
     else Step.skip)
    (communicateUp ext (lev - 1))

/-- The call `m_I[lev-1]->apply(*m_c[lev-1], *m_t[lev])`. -/
def prolongateStep {ε V : Type} (ext : Collaborators ε V) (lev : Nat) : Step (CycleState ε V) :=
  Step.call (.I_apply (lev - 1)) (fun s =>
    match ext.I_apply (lev - 1) s.env (s.m_c (lev - 1)) (s.m_t lev) with
    | (ok, e, cCoarse, tFine) =>
      (ok, { s with env := e, m_c := setLev s.m_c (lev - 1) cCoarse, m_t := setLev s.m_t lev tFine }))

/-- The call `m_A[lev]->apply_sub(*m_t[lev], *m_d[lev])` above the base level. -/
def defectUpdateT {ε V : Type} (ext : Collaborators ε V) (lev : Nat) : Step (CycleState ε V) :=
  Step.call (.A_apply_sub lev) (fun s =>
    match ext.A_apply_sub lev s.env (s.m_t lev) (s.m_d lev) with
    | (ok, e, t, d) =>
      (ok, { s with env := e, m_t := setLev s.m_t lev t, m_d := setLev s.m_d lev d }))

/-- The call `m_A[lev]->apply_sub(*m_c[lev], *m_d[lev])` on the base level. -/
def defectUpdateC {ε V : Type} (ext : Collaborators ε V) (lev : Nat) : Step (CycleState ε V) :=
  Step.call (.A_apply_sub lev) (fun s =>
    match ext.A_apply_sub lev s.env (s.m_c lev) (s.m_d lev) with
    | (ok, e, c, d) =>
      (ok, { s with env := e, m_c := setLev s.m_c lev c, m_d := setLev s.m_d lev d }))

/-- The call `m_baseSolver.prepare(*m_u[lev], *m_d[lev], *m_c[lev])`. -/
def basePrepareStep {ε V : Type} (ext : Collaborators ε V) (lev : Nat) : Step (CycleState ε V) :=
  Step.call (.baseSolver_prepare lev) (fun s =>
    match ext.baseSolver_prepare s.env (s.m_u lev) (s.m_d lev) (s.m_c lev) with
    | (ok, e, u, d, c) =>
      (ok, { s with env := e, m_u := setLev s.m_u lev u, m_d := setLev s.m_d lev d,
                    m_c := setLev s.m_c lev c }))

/-- The call `m_baseSolver.apply(*m_d[lev], *m_c[lev])`. -/
def baseApplyStep {ε V : Type} (ext : Collaborators ε V) (lev : Nat) : Step (CycleState ε V) :=
  Step.call (.baseSolver_apply lev) (fun s =>
    match ext.baseSolver_apply s.env (s.m_d lev) (s.m_c lev) with
    | (ok, e, d, c) =>
      (ok, { s with env := e, m_d := setLev s.m_d lev d, m_c := setLev s.m_c lev c }))

/-- The branch `lev > m_baseLevel` of `lmgc`, lines 66-145, with `coarse` for the call
`lmgc(lev-1)`. The flag `resume` is `true` exactly when the vertical slave layout of
`m_d[lev-1]` is empty. A negative `m_cycle_type` gives no call. -/
def lmgcAbove {ε V : Type} (cyc : AssembledMultiGridCycle) (ext : Collaborators ε V)
    (lev : Nat) (coarse : Step (CycleState ε V)) : Step (CycleState ε V) :=
  Step.andThen (AssembledMultiGridCycle.smooth ext lev cyc.m_nu1) <|
  Step.andThen (Step.when (!ext.d_vertical_master_empty (lev - 1))
    (consistentToUniqueStep ext (lev - 1))) <|
  Step.andThen (restrictStep ext lev) <|
  Step.andThen (goingDown ext lev) <|
  Step.andThen (Step.when (ext.d_vertical_slave_empty (lev - 1))
    (Step.repeat coarse cyc.m_cycle_type.toNat)) <|
  Step.andThen (goingUp ext lev) <|
  Step.andThen (prolongateStep ext lev) <|
  Step.andThen (addCorrection ext lev) <|
  Step.andThen (defectUpdateT ext lev) <|
  AssembledMultiGridCycle.smooth ext lev cyc.m_nu2

/-- The branch `lev == m_baseLevel` of `lmgc`, lines 149-175. -/
def lmgcBase {ε V : Type} (ext : Collaborators ε V) (lev : Nat) : Step (CycleState ε V) :=
  Step.andThen (setStorageD ext lev .PST_ADDITIVE) <|
  Step.andThen (resetCorrection ext lev) <|
  Step.andThen (basePrepareStep ext lev) <|
  Step.andThen (baseApplyStep ext lev) <|
  defectUpdateC ext lev

/-- The body of `lmgc(lev)` with `coarse` for the recursive call `lmgc(lev-1)`. -/
def lmgcBody {ε V : Type} (cyc : AssembledMultiGridCycle) (ext : Collaborators ε V)
    (lev : Nat) (coarse : Step (CycleState ε V)) : Step (CycleState ε V) :=
  Step.andThen (Step.emit (.lmgc lev)) <|
  Step.andThen (resetCorrection ext lev) <|
  if lev > cyc.m_baseLevel then lmgcAbove cyc ext lev coarse
  else if lev = cyc.m_baseLevel then lmgcBase ext lev
  else Step.fail

/-- The method `lmgc(lev)`. On level 0 the branch with the recursive call is not
reached, as `0 > m_baseLevel` is false. -/
def AssembledMultiGridCycle.lmgc {ε V : Type} (cyc : AssembledMultiGridCycle)
    (ext : Collaborators ε V) : Nat → Step (CycleState ε V)
  | 0 => lmgcBody cyc ext 0 Step.fail
  | lev + 1 => lmgcBody cyc ext (lev + 1) (AssembledMultiGridCycle.lmgc cyc ext lev)

/-- The grid function `*d_copy` of `apply`: the caller's `d` when `updateDefect`, else
the copy. -/
def readDefect {ε V : Type} (updateDefect : Bool) (s : CycleState ε V) : V :=
  if updateDefect then s.d else s.d_copy

/-- An assignment to the grid function `*d_copy` of `apply`. -/
def writeDefect {ε V : Type} (updateDefect : Bool) (s : CycleState ε V) (v : V) :
    CycleState ε V :=
  if updateDefect then { s with d := v } else { s with d_copy := v }

/-- The statement `d_copy = new function_type(d)`. -/
def copyDefect {ε V : Type} : Step (CycleState ε V) :=
  Step.act .copy_defect (fun s => { s with d_copy := s.d })

/-- The call `m_d[lev]->project_surface(*d_copy)`. -/
def projectDefect {ε V : Type} (ext : Collaborators ε V) (updateDefect : Bool) (lev : Nat) :
    Step (CycleState ε V) :=
  Step.act .d_project_surface (fun s =>
    match ext.project_surface (s.m_d lev) (readDefect updateDefect s) with
    | (level, arg) => writeDefect updateDefect { s with m_d := setLev s.m_d lev level } arg)

/-- The call `m_c[lev]->project_surface(c)`. -/
def projectCorrection {ε V : Type} (ext : Collaborators ε V) (lev : Nat) :
    Step (CycleState ε V) :=
  Step.act .c_project_surface (fun s =>
    match ext.project_surface (s.m_c lev) s.c with
    | (level, arg) => { s with m_c := setLev s.m_c lev level, c := arg })

/-- The call `m_d[lev]->release_surface(*d_copy)`. -/
def releaseDefect {ε V : Type} (ext : Collaborators ε V) (updateDefect : Bool) (lev : Nat) :
    Step (CycleState ε V) :=
  Step.act .d_release_surface (fun s =>
    match ext.release_surface (s.m_d lev) (readDefect updateDefect s) with
    | (level, arg) => writeDefect updateDefect { s with m_d := setLev s.m_d lev level } arg)

/-- The call `m_c[lev]->release_surface(c)`. -/
def releaseCorrection {ε V : Type} (ext : Collaborators ε V) (lev : Nat) :
    Step (CycleState ε V) :=
  Step.act .c_release_surface (fun s =>
    match ext.release_surface (s.m_c lev) s.c with
    | (level, arg) => { s with m_c := setLev s.m_c lev level, c := arg })

/-- The method `apply(d, c, updateDefect)`: the arguments `d` and `c` are the fields
`d` and `c` of the state. -/
def AssembledMultiGridCycle.apply {ε V : Type} (cyc : AssembledMultiGridCycle)
    (ext : Collaborators ε V) (updateDefect : Bool) : Step (CycleState ε V) :=
  Step.andThen (Step.when (!updateDefect) copyDefect) <|
  Step.andThen (projectDefect ext updateDefect cyc.m_surfaceLevel) <|
  Step.andThen (projectCorrection ext cyc.m_surfaceLevel) <|
  Step.andThen (AssembledMultiGridCycle.lmgc cyc ext cyc.m_surfaceLevel) <|
  Step.andThen (releaseDefect ext updateDefect cyc.m_surfaceLevel) <|
  releaseCorrection ext cyc.m_surfaceLevel

/-! ## The multigrid controller: allocate_memory, free_memory, prepare -/

/-- What `prepare` asks the grid of the domain: whether it is a `MultiGrid` and the
number of its levels. -/
structure GridInfo where
  isMultiGrid : Bool
  num_levels : Nat
  deriving DecidableEq, Repr

/-- The collaborators of `prepare` over a state `ε` that holds the collaborators and
the contents of the grid functions they are called on. -/
structure PrepareCollaborators (ε : Type) where
  /-- A call that returns `bool`. -/
  call : MGCall → ε → Bool × ε
  /-- A step without result. -/
  effect : MGAction → ε → ε

/-- The pointer vectors of the controller, its flag `m_allocated` and the state of the
collaborators. -/
structure Controller (ε : Type) where
  m_u : List Ptr
  m_c : List Ptr
  m_t : List Ptr
  m_d : List Ptr
  m_A : List Ptr
  m_I : List Ptr
  m_P : List Ptr
  m_smoother : List Ptr
  m_allocated : Bool
  env : ε
  deriving DecidableEq, Repr

/-- The state the constructor leaves: empty vectors but for `m_smoother`, which holds
the smoother passed to the constructor, and `m_allocated(false)`. -/
def Controller.new {ε : Type} (env : ε) : Controller ε :=
  ⟨[], [], [], [], [], [], [], [.smoother_arg], false, env⟩

/-- The method `resize(n)` of a vector of pointers: new elements are `NULL`. -/
def resize (xs : List Ptr) (n : Nat) : List Ptr :=
  xs.take n ++ List.replicate (n - xs.length) Ptr.null

/-- An object of a level is created and assigned by `store`. -/
def createStep {ε : Type} (lev : Nat) (kind : ObjKind)
    (store : Controller ε → Ptr → Controller ε) : Step (Controller ε) :=
  fun s => ⟨true, store s (.obj lev kind), [.create lev kind]⟩

/-- The statement `delete m_smoother[lev]`: the object the pointer names is deleted;
nothing is deleted for `NULL`. -/
def deleteSmoother {ε : Type} (lev : Nat) : Step (Controller ε) :=
  fun s =>
    match s.m_smoother[lev]? with
    | some p => if p ≠ Ptr.null then Step.emit (.destroy p) s else Step.skip s
    | none => Step.skip s

/-- The statement `if(j < v.size()) if(v[j] != NULL) {delete v[j]; v[j] = NULL;}` for
the vector `v` read by `get` and assigned by `set`. -/
def deleteAt {ε : Type} (get : Controller ε → List Ptr)
    (set : Controller ε → List Ptr → Controller ε) (j : Nat) : Step (Controller ε) :=
  fun s =>
    match (get s)[j]? with
    | some p =>
      if p ≠ Ptr.null then ⟨true, set s ((get s).set j Ptr.null), [.destroy p]⟩
      else Step.skip s
    | none => Step.skip s

/-- The levels of a loop `for(lev = m_baseLevel; lev != m_surfaceLevel; ++lev)`, for
`m_baseLevel <= m_surfaceLevel`, which `prepare` checks before it allocates. -/
def AssembledMultiGridCycle.coarseLevels (cyc : AssembledMultiGridCycle) : List Nat :=
  List.range' cyc.m_baseLevel (cyc.m_surfaceLevel - cyc.m_baseLevel)

/-- The method `allocate_memory()`. -/
def AssembledMultiGridCycle.allocate_memory {ε : Type} (cyc : AssembledMultiGridCycle) :
    Step (Controller ε) :=
  let surf := cyc.m_surfaceLevel
  Step.andThen (fun s => Step.skip { s with
    m_u := resize s.m_u (surf + 1), m_c := resize s.m_c (surf + 1),
    m_t := resize s.m_t (surf + 1), m_d := resize s.m_d (surf + 1) }) <|
  Step.andThen (createStep surf .u (fun s p => { s with m_u := s.m_u.set surf p })) <|
  Step.andThen (createStep surf .c (fun s p => { s with m_c := s.m_c.set surf p })) <|
  Step.andThen (createStep surf .t (fun s p => { s with m_t := s.m_t.set surf p })) <|
  Step.andThen (createStep surf .d (fun s p => { s with m_d := s.m_d.set surf p })) <|
  Step.andThen (Step.forEach (fun lev =>
    Step.andThen (createStep lev .u (fun s p => { s with m_u := s.m_u.set lev p })) <|
    Step.andThen (createStep lev .c (fun s p => { s with m_c := s.m_c.set lev p })) <|
    Step.andThen (createStep lev .t (fun s p => { s with m_t := s.m_t.set lev p })) <|
    createStep lev .d (fun s p => { s with m_d := s.m_d.set lev p })) cyc.coarseLevels) <|
  Step.andThen (fun s => Step.skip { s with
    m_A := resize s.m_A (surf + 1), m_I := resize s.m_I surf, m_P := resize s.m_P surf }) <|
  Step.andThen (Step.forEach (fun lev =>
    Step.andThen (createStep lev .I (fun s p => { s with m_I := s.m_I.set lev p })) <|
    Step.andThen (createStep lev .P (fun s p => { s with m_P := s.m_P.set lev p })) <|
    createStep lev .A (fun s p => { s with m_A := s.m_A.set lev p })) cyc.coarseLevels) <|
  Step.andThen (fun s => Step.skip { s with m_smoother := resize s.m_smoother (surf + 1) }) <|
  Step.andThen (Step.forEach (fun lev =>
    if lev = 0 then Step.skip
    else createStep lev .smoother (fun s p => { s with m_smoother := s.m_smoother.set lev p }))
    (List.range' cyc.m_baseLevel (surf + 1 - cyc.m_baseLevel))) <|
  fun s => Step.skip { s with m_allocated := true }

/-- The method `free_memory()`. -/
def AssembledMultiGridCycle.free_memory {ε : Type} (cyc : AssembledMultiGridCycle) :
    Step (Controller ε) := fun s =>
  if s.m_allocated = false then Step.skip s
  else
    (Step.andThen (Step.forEach (fun j =>
      Step.andThen (deleteAt (fun s => s.m_A) (fun s v => { s with m_A := v }) j) <|
      Step.andThen (deleteAt (fun s => s.m_I) (fun s v => { s with m_I := v }) j) <|
      Step.andThen (deleteAt (fun s => s.m_P) (fun s v => { s with m_P := v }) j) <|
      Step.andThen (deleteAt (fun s => s.m_u) (fun s v => { s with m_u := v }) j) <|
      Step.andThen (deleteAt (fun s => s.m_c) (fun s v => { s with m_c := v }) j) <|
      Step.andThen (deleteAt (fun s => s.m_t) (fun s v => { s with m_t := v }) j) <|
      deleteAt (fun s => s.m_d) (fun s v => { s with m_d := v }) j) cyc.coarseLevels) <|
    Step.andThen (fun s => Step.skip { s with
      m_A := [], m_I := [], m_u := [], m_c := [], m_t := [], m_d := [] }) <|
    Step.andThen (Step.forEach (fun lev =>
      if lev = 0 then Step.skip else deleteSmoother lev) cyc.coarseLevels) <|
    fun s => Step.skip { s with m_allocated := false }) s

/-- A collaborator call of `prepare`. -/
def prepareCall {ε : Type} (ext : PrepareCollaborators ε) (c : MGCall) : Step (Controller ε) :=
  Step.call c (fun s => ((ext.call c s.env).1, { s with env := (ext.call c s.env).2 }))

/-- A step without result of `prepare`. -/
def prepareAct {ε : Type} (ext : PrepareCollaborators ε) (a : MGAction) : Step (Controller ε) :=
  Step.act a (fun s => { s with env := ext.effect a s.env })

/-- The levels `m_surfaceLevel, ..., m_baseLevel + 1` of the loop
`for(lev = m_surfaceLevel; lev != m_baseLevel; --lev)`, for
`m_baseLevel <= m_surfaceLevel`. -/
def AssembledMultiGridCycle.fineLevels (cyc : AssembledMultiGridCycle) : List Nat :=
  (List.range' (cyc.m_baseLevel + 1) (cyc.m_surfaceLevel - cyc.m_baseLevel)).reverse

/-- The part of `prepare` after the allocation, lines 284-333. -/
def prepareOperators {ε : Type} (cyc : AssembledMultiGridCycle) (ext : PrepareCollaborators ε)
    (reallocated : Bool) : Step (Controller ε) :=
  Step.andThen (prepareAct ext .u_project_surface) <|
  Step.andThen (Step.when reallocated (Step.forEach (fun lev =>
    Step.andThen (prepareCall ext (.I_prepare lev)) (prepareCall ext (.P_prepare lev)))
    cyc.coarseLevels)) <|
  Step.andThen (Step.forEach (fun lev => prepareCall ext (.P_apply (lev - 1))) cyc.fineLevels) <|
  Step.andThen (Step.forEach (fun lev => prepareCall ext (.A_prepare lev)) cyc.coarseLevels) <|
  Step.andThen (Step.forEach (fun lev =>
    Step.andThen (prepareCall ext (.smoother_init lev)) (prepareCall ext (.smoother_prepare lev)))
    cyc.coarseLevels) <|
  Step.andThen (Step.act .set_A_surface (fun s =>
    { s with m_A := s.m_A.set cyc.m_surfaceLevel Ptr.m_Op })) <|
  Step.andThen (prepareCall ext (.smoother_init cyc.m_surfaceLevel)) <|
  Step.andThen (prepareCall ext (.smoother_prepare cyc.m_surfaceLevel)) <|
  prepareCall ext (.baseSolver_init cyc.m_baseLevel)

/-- The part of `prepare` after the three checks, lines 262-333. -/
def prepareChecked {ε : Type} (cyc : AssembledMultiGridCycle) (ext : PrepareCollaborators ε) :
    Step (Controller ε) :=
  Step.andThen (Step.whenS (fun s => cyc.m_grid_changes && s.m_allocated) cyc.free_memory) <|
  fun s =>
    let reallocated := !s.m_allocated
    (Step.andThen (Step.when reallocated cyc.allocate_memory)
      (prepareOperators cyc ext reallocated)) s

/-- The method `prepare(u, d, c)`. -/
def AssembledMultiGridCycle.prepare {ε : Type} (cyc : AssembledMultiGridCycle)
    (grid : GridInfo) (ext : PrepareCollaborators ε) : Step (Controller ε) := fun s =>
  if !grid.isMultiGrid then Step.fail s
  else if cyc.m_surfaceLevel ≥ grid.num_levels then Step.fail s
  else if cyc.m_baseLevel > cyc.m_surfaceLevel then Step.fail s
  else prepareChecked cyc ext s

/-! ## Properties of runs -/

/-- Whether every collaborator call recorded in a trace returned success. -/
def callsOk (tr : List MGEvent) : Bool :=
  tr.all (fun e => match e with | .call _ ok => ok | _ => true)

/-- The collaborator calls recorded in a trace, in order, with their results. -/
def callsOf (tr : List MGEvent) : List (MGCall × Bool) :=
  tr.filterMap (fun e => match e with | .call c ok => some (c, ok) | _ => none)

/-- Whether an event is a smoother application. -/
def isSmootherApply : MGEvent → Bool
  | .call (.smoother_apply _) _ => true
  | _ => false

/-- Whether an event is a base-solver application. -/
def isBaseApply : MGEvent → Bool
  | .call (.baseSolver_apply _) _ => true
  | _ => false

/-- Whether an event is a transfer call: a restriction or a prolongation. -/
def isTransfer : MGEvent → Bool
  | .call (.I_apply_transposed _) _ => true
  | .call (.I_apply _) _ => true
  | _ => false

/-- Every event of every run satisfies `q`. -/
def AllEv {σ : Type} (q : MGEvent → Prop) (a : Step σ) : Prop :=
  ∀ s e, e ∈ (a s).trace → q e

/-- A run succeeds exactly when all recorded calls succeeded, and a failed run ends
with the call that failed. -/
def Sound {σ : Type} (a : Step σ) : Prop :=
  ∀ s, ((a s).ok = true → callsOk (a s).trace = true) ∧
    ((a s).ok = false →
      ∃ tr0 c, (a s).trace = tr0 ++ [.call c false] ∧ callsOk tr0 = true)

/-- Every successful run has `k` events that satisfy `p`. -/
def CountsOk {σ : Type} (p : MGEvent → Bool) (a : Step σ) (k : Nat) : Prop :=
  ∀ s, (a s).ok = true → (a s).trace.countP p = k

/-- Every run succeeds. -/
def Succeeds {σ : Type} (a : Step σ) : Prop :=
  ∀ s, (a s).ok = true

/-- No run changes the part `f` of the state. -/
def Keeps {σ α : Type} (f : σ → α) (a : Step σ) : Prop :=
  ∀ s, f (a s).state = f s

/-- Two pieces agree in result, state and recorded collaborator calls. -/
def SimStep {σ : Type} (a b : Step σ) : Prop :=
  ∀ s, (a s).ok = (b s).ok ∧ (a s).state = (b s).state ∧
    callsOf (a s).trace = callsOf (b s).trace

/-- Stated from the spec: the cycle on the base level alone: the correction is reset to
zero, the defect is marked as additive, the base solver is prepared and then applied,
and the defect is updated by `d := d - A*c`. -/
def degenerateCycle {ε V : Type} (ext : Collaborators ε V) (lev : Nat) : Step (CycleState ε V) :=
  Step.andThen (resetCorrection ext lev) <|
  Step.andThen (setStorageD ext lev .PST_ADDITIVE) <|
  Step.andThen (basePrepareStep ext lev) <|
  Step.andThen (baseApplyStep ext lev) <|
  defectUpdateC ext lev

/-- Stated from the spec: `apply` for a hierarchy of one level: the caller's defect and
correction are projected onto the level, the base level is solved and the defect
updated, and the result is released to the caller. -/
def degenerateApply {ε V : Type} (cyc : AssembledMultiGridCycle) (ext : Collaborators ε V)
    (updateDefect : Bool) : Step (CycleState ε V) :=
  Step.andThen (Step.when (!updateDefect) copyDefect) <|
  Step.andThen (projectDefect ext updateDefect cyc.m_baseLevel) <|
  Step.andThen (projectCorrection ext cyc.m_baseLevel) <|
  Step.andThen (degenerateCycle ext cyc.m_baseLevel) <|
  Step.andThen (releaseDefect ext updateDefect cyc.m_baseLevel) <|
  releaseCorrection ext cyc.m_baseLevel

/-- Every successful run has the trace `tr`. -/
def TraceOk {σ : Type} (a : Step σ) (tr : List MGEvent) : Prop :=
  ∀ s, (a s).ok = true → (a s).trace = tr

/-- The events of a successful `apply` on a hierarchy of the one level `lev`. -/
def degenerateTrace (updateDefect : Bool) (lev : Nat) : List MGEvent :=
  (if updateDefect then [] else [.action .copy_defect]) ++
  [.action .d_project_surface, .action .c_project_surface, .lmgc lev,
   .action (.c_set_zero lev), .action (.d_set_storage_type lev .PST_ADDITIVE),
   .action (.c_set_zero lev), .call (.baseSolver_prepare lev) true,
   .call (.baseSolver_apply lev) true, .call (.A_apply_sub lev) true,
   .action .d_release_surface, .action .c_release_surface]

/-! ## Example data for the multigrid cycle -/

/-- Collaborators on scalar grid functions with the identity as the operator of every
level: a smoothing step finds the correction 1 and updates the defect by it, the
restriction copies the fine defect, the prolongation copies the coarse correction, the
base solver solves exactly, `apply_sub` subtracts, no level has a vertical layout, and
`project_surface` and `release_surface` copy from and to the caller. Every call
succeeds. -/
def exCollab : Collaborators Unit Int where
  set_zero := fun _ => 0
  add_assign := fun c t => c + t
  set_storage_type := fun _ v => v
  smoother_apply := fun _ e d _ => (true, e, d - 1, 1)
  I_apply_transposed := fun _ e dFine _ => (true, e, dFine, dFine)
  I_apply := fun _ e cCoarse _ => (true, e, cCoarse, cCoarse)
  A_apply_sub := fun _ e c d => (true, e, c, d - c)
  baseSolver_prepare := fun e u d c => (true, e, u, d, c)
  baseSolver_apply := fun e d _ => (true, e, d, d)
  project_surface := fun _ arg => (arg, arg)
  release_surface := fun level _ => (level, level)
  d_vertical_master_empty := fun _ => true
  d_vertical_slave_empty := fun _ => true
  c_vertical_master_empty := fun _ => true
  c_vertical_slave_empty := fun _ => true
  ConsistentToUnique := fun _ v => v
  send_data := fun _ _ e => e
  receive_data := fun _ _ e => e
  communicate := fun e v => (e, v)

/-- A prepared controller with zero level vectors, called with the defect `d` and the
correction 0. -/
def exCycleState (d : Int) : CycleState Unit Int :=
  ⟨fun _ => 0, fun _ => 0, fun _ => 0, fun _ => 0, (), d, 0, 0⟩

/-- A hierarchy of the one level 0. -/
def oneLevel : AssembledMultiGridCycle := ⟨0, 0, 1, 1, 1, false⟩

/-- The number 1 for an event that satisfies `p`, else 0. -/
def hit (p : MGEvent → Bool) (e : MGEvent) : Nat := if p e then 1 else 0

/-- Every call of a collaborator of the cycle returns success. -/
def Collaborators.allSucceed {ε V : Type} (ext : Collaborators ε V) : Prop :=
  (∀ lev e d t, (ext.smoother_apply lev e d t).1 = true) ∧
  (∀ lev e x y, (ext.I_apply_transposed lev e x y).1 = true) ∧
  (∀ lev e x y, (ext.I_apply lev e x y).1 = true) ∧
  (∀ lev e x y, (ext.A_apply_sub lev e x y).1 = true) ∧
  (∀ e u d c, (ext.baseSolver_prepare e u d c).1 = true) ∧
  (∀ e d c, (ext.baseSolver_apply e d c).1 = true)

/-- No level has a vertical master or slave layout. -/
def Collaborators.noVerticalLayouts {ε V : Type} (ext : Collaborators ε V) : Prop :=
  ∀ lev, ext.d_vertical_master_empty lev = true ∧ ext.d_vertical_slave_empty lev = true ∧
    ext.c_vertical_master_empty lev = true ∧ ext.c_vertical_slave_empty lev = true

/-- The levels named by the events of `lmgc(l)` are bounded by `l`: entries of `lmgc`,
smoother applications and defect updates on levels up to `l`, transfers between levels
up to `l`. -/
def levelLe (l : Nat) : MGEvent → Prop
  | .lmgc k => k ≤ l
  | .call (.smoother_apply k) _ => k ≤ l
  | .call (.I_apply_transposed k) _ => k < l
  | .call (.I_apply k) _ => k < l
  | .call (.A_apply_sub k) _ => k ≤ l
  | _ => True

/-- A hierarchy of the three levels 0, 1, 2 with a W-cycle and one pre- and one
post-smoothing step. -/
def threeLevelW : AssembledMultiGridCycle := ⟨2, 0, 2, 1, 1, false⟩

/-- Collaborators of `prepare` that always succeed. -/
def exPrepare : PrepareCollaborators Unit := ⟨fun _ e => (true, e), fun _ e => e⟩

/-- A multigrid of three levels. -/
def exGrid : GridInfo := ⟨true, 3⟩

/-- A controller set up with the base level above the surface level. -/
def baseAboveSurface : AssembledMultiGridCycle := ⟨1, 2, 1, 1, 1, false⟩

/-- The example collaborators with a prolongation that fails. -/
def failingCollab : Collaborators Unit Int :=
  { exCollab with I_apply := fun _ e cCoarse t => (false, e, cCoarse, t) }

/-- A hierarchy of the two levels 0 and 1 with a V-cycle and one pre- and one
post-smoothing step. -/
def twoLevelV : AssembledMultiGridCycle := ⟨1, 0, 1, 1, 1, false⟩

/-- The example collaborators on a process that holds vertical slaves on level 0. -/
def slaveCollab : Collaborators Unit Int :=
  { exCollab with
    d_vertical_slave_empty := fun lev => lev != 0
    c_vertical_slave_empty := fun lev => lev != 0 }

/-- A hierarchy of the two levels 0 and 1 with a W-cycle and no smoothing step. -/
def twoLevelW : AssembledMultiGridCycle := ⟨1, 0, 2, 0, 0, false⟩

/-- The state of `lmgc(1)` of the W-cycle on two levels for the level defect 1, after
the reset of the correction and the restriction, before the first call `lmgc(0)`. -/
def wBefore : CycleState Unit Int :=
  (Step.andThen (resetCorrection exCollab 1) (restrictStep exCollab 1)
    { exCycleState 1 with m_d := setLev (fun _ => 0) 1 1 }).state

/-- The state after the first call `lmgc(0)` of the W-cycle. -/
def wFirst : CycleState Unit Int := (twoLevelW.lmgc exCollab 0 wBefore).state

/-- The state after both calls `lmgc(0)` of the W-cycle. -/
def wAfter : CycleState Unit Int :=
  (Step.repeat (twoLevelW.lmgc exCollab 0) 2 wBefore).state

/-- Every successful run leaves a state that satisfies `P`. -/
def Ensures {σ : Type} (P : σ → Prop) (a : Step σ) : Prop :=
  ∀ s, (a s).ok = true → P (a s).state

/-- Collaborators of `prepare` whose call `m_I[0]->prepare` fails. -/
def failPrepare : PrepareCollaborators Unit :=
  ⟨fun c e => (c != .I_prepare 0, e), fun _ e => e⟩

/-- The controller after a `prepare` that failed in `m_I[0]->prepare`. -/
def afterFailedPrepare : Controller Unit :=
  (twoLevelV.prepare exGrid failPrepare (Controller.new ())).state

/-- The lengths of the vectors `m_u`, `m_c`, `m_t`, `m_d` of grid functions. -/
def Controller.levelSizes {ε : Type} (s : Controller ε) : Nat × Nat × Nat × Nat :=
  (s.m_u.length, s.m_c.length, s.m_t.length, s.m_d.length)

/-- The pointer vectors and the flag of the controller, all but `m_A`. -/
def Controller.storage {ε : Type} (s : Controller ε) :
    List Ptr × List Ptr × List Ptr × List Ptr × List Ptr × List Ptr × List Ptr × Bool :=
  (s.m_u, s.m_c, s.m_t, s.m_d, s.m_I, s.m_P, s.m_smoother, s.m_allocated)

/-- An event that is neither the creation of an object nor the preparation of a
transfer operator `m_I[lev]` or `m_P[lev]`. -/
def notAllocating (e : MGEvent) : Prop :=
  (∀ lev kind, e ≠ .create lev kind) ∧ (∀ lev ok, e ≠ .call (.I_prepare lev) ok) ∧
    (∀ lev ok, e ≠ .call (.P_prepare lev) ok)

/-- From a state that satisfies `inv`, a run keeps `inv` and has only events that
satisfy `q`. -/
def Hoare {σ : Type} (inv : σ → Prop) (q : MGEvent → Prop) (a : Step σ) : Prop :=
  ∀ s, inv s → inv (a s).state ∧ ∀ e, e ∈ (a s).trace → q e

/-- A vector of pointers holds an object of a level only at the index of that level. -/
def indexedList (v : List Ptr) : Prop :=
  ∀ (j l : Nat) (kind : ObjKind), v[j]? = some (Ptr.obj l kind) → l = j

/-- Every vector of the controller holds the objects of a level at the index of the
level. -/
def Controller.indexed {ε : Type} (s : Controller ε) : Prop :=
  indexedList s.m_u ∧ indexedList s.m_c ∧ indexedList s.m_t ∧ indexedList s.m_d ∧
  indexedList s.m_A ∧ indexedList s.m_I ∧ indexedList s.m_P ∧ indexedList s.m_smoother

/-- The objects created in a run, by level and kind, in order. -/
def createdIn (tr : List MGEvent) : List (Nat × ObjKind) :=
  tr.filterMap (fun e => match e with | .create lev kind => some (lev, kind) | _ => none)

/-- The objects deleted in a run, by level and kind, in order. -/
def deletedIn (tr : List MGEvent) : List (Nat × ObjKind) :=
  tr.filterMap (fun e => match e with | .destroy (.obj lev kind) => some (lev, kind) | _ => none)

/-- The controller of the two levels 0 and 1 after `allocate_memory`. -/
def allocatedController : Controller Unit :=
  (twoLevelV.allocate_memory (Controller.new ())).state

/-! ## The lookup tables of the tetrahedron (tetrahedron_rules.h) -/

/-- The constant `tet_rules::NUM_EDGES`. -/
def tet_rules.NUM_EDGES : Nat := 6

/-- The constant `tet_rules::NUM_FACES`. -/
def tet_rules.NUM_FACES : Nat := 4

/-- The table `tet_rules::EDGE_VRT_INDS`: the local vertex indices of an edge. -/
def tet_rules.EDGE_VRT_INDS : List (List Int) :=
  [[0, 1], [1, 2], [2, 0], [0, 3], [1, 3], [2, 3]]

/-- The table `tet_rules::OPPOSED_EDGE`: for each edge the opposed edge. -/
def tet_rules.OPPOSED_EDGE : List Int := [5, 3, 4, 1, 2, 0]

/-- The table `tet_rules::FACE_EDGE_INDS`: the j-th edge of the i-th face. -/
def tet_rules.FACE_EDGE_INDS : List (List Int) :=
  [[0, 1, 2, -1], [4, 5, 1, -1], [2, 5, 3, -1], [3, 4, 0, -1]]

/-- The table `tet_rules::FACE_CONTAINS_EDGE`: whether the i-th face contains the j-th
edge. -/
def tet_rules.FACE_CONTAINS_EDGE : List (List Int) :=
  [[1, 1, 1, 0, 0, 0], [0, 1, 0, 0, 1, 1], [0, 0, 1, 1, 0, 1], [1, 0, 0, 1, 1, 0]]

/-- The table `tet_rules::FACE_FROM_EDGES`: the face that contains two edges, or -1. -/
def tet_rules.FACE_FROM_EDGES : List (List Int) :=
  [[0, 0, 0, 3, 3, -1], [0, 0, 0, -1, 1, 1], [0, 0, 0, 2, -1, 2], [3, -1, 2, 2, 3, 2],
   [3, 1, -1, 3, 1, 1], [-1, 1, 2, 2, 1, 1]]

/-- The access `table[i][j]` to a table of two dimensions, for indices in range. -/
def tet_rules.at2 (table : List (List Int)) (i j : Nat) : Int :=
  (table.getD i []).getD j 0

/-- The access `table[i]` to a table of one dimension, for an index in range. -/
def tet_rules.at1 (table : List Int) (i : Nat) : Int := table.getD i 0

/-- Whether two edges share a vertex in `EDGE_VRT_INDS`. -/
def tet_rules.shareVertex (e1 e2 : Nat) : Bool :=
  (tet_rules.EDGE_VRT_INDS.getD e1 []).any
    (fun v => (tet_rules.EDGE_VRT_INDS.getD e2 []).contains v)

/-! ## Lexicographic ordering (lexorder.cpp)

The coordinates of a position, of type `number` in the source, are exact numbers here.
The function `std::sort` of the standard library is a parameter `sort` of the model; what
the theorems use of it is stated for the one call the function makes. -/

/-- The type `MathVector<dim>`: the list of the coordinates of a position. -/
abbrev MathVector := List Int

/-- The type `std::pair<MathVector<dim>, size_t>`: a position and the index at it. -/
abbrev PosIndex := MathVector × Nat

/-- The access `p.first[k]` to a coordinate of a position. -/
def PosIndex.coord (p : PosIndex) (k : Nat) : Int := p.1.getD k 0

/-- The error that `UG_THROW` raises in `ComputeLexicographicOrder`. -/
inductive LexFault where
  | invalidSortingDirection
deriving DecidableEq, Repr

/-- The function template `ComparePosDim<dim, orderDim>`: the primary template returns
false, and there is one specialisation for each order direction of dimension 1, 2, 3. -/
def ComparePosDim (dim orderDim : Nat) (p1 p2 : PosIndex) : Bool :=
  match dim, orderDim with
  | 1, 0 => decide (p1.coord 0 < p2.coord 0)
  | 2, 0 =>
    if p1.coord 1 = p2.coord 1 then decide (p1.coord 0 < p2.coord 0)
    else decide (p1.coord 1 < p2.coord 1)
  | 2, 1 =>
    if p1.coord 0 = p2.coord 0 then decide (p1.coord 1 < p2.coord 1)
    else decide (p1.coord 0 < p2.coord 0)
  | 3, 0 =>
    if p1.coord 2 = p2.coord 2 then
      if p1.coord 1 = p2.coord 1 then decide (p1.coord 0 < p2.coord 0)
      else decide (p1.coord 1 < p2.coord 1)
    else decide (p1.coord 2 < p2.coord 2)
  | 3, 1 =>
    if p1.coord 0 = p2.coord 0 then
      if p1.coord 2 = p2.coord 2 then decide (p1.coord 1 < p2.coord 1)
      else decide (p1.coord 2 < p2.coord 2)
    else decide (p1.coord 0 < p2.coord 0)
  | 3, 2 =>
    if p1.coord 1 = p2.coord 1 then
      if p1.coord 0 = p2.coord 0 then decide (p1.coord 2 < p2.coord 2)
      else decide (p1.coord 0 < p2.coord 0)
    else decide (p1.coord 1 < p2.coord 1)
  | _, _ => false

/-- The chain of calls `std::sort(vPos.begin(), vPos.end(), ComparePosDim<dim, k>)` for
`orderDim` 0, 1, 2, and the throw for every other direction. -/
def sortByOrderDim (sort : (PosIndex → PosIndex → Bool) → List PosIndex → List PosIndex)
    (dim orderDim : Nat) (vPos : List PosIndex) : Except LexFault (List PosIndex) :=
  if orderDim = 0 then .ok (sort (ComparePosDim dim 0) vPos)
  else if orderDim = 1 then .ok (sort (ComparePosDim dim 1) vPos)
  else if orderDim = 2 then .ok (sort (ComparePosDim dim 2) vPos)
  else .error .invalidSortingDirection

/-- The loop `for i: vNewIndex[vPos[i].second] = i` from the counter value `i` on. A
write behind the end of the vector is dropped. -/
def writeMapping : List PosIndex → Nat → List Nat → List Nat
  | [], _, vNewIndex => vNewIndex
  | p :: rest, i, vNewIndex => writeMapping rest (i + 1) (vNewIndex.set p.2 i)

/-- The loop `for i: vNewIndex[vPos[i].second] = vPosOrig[i].second`. -/
def writeSubset : List PosIndex → List PosIndex → List Nat → List Nat
  | p :: rest, o :: orest, vNewIndex => writeSubset rest orest (vNewIndex.set p.2 o.2)
  | _, _, vNewIndex => vNewIndex

/-- The function `ComputeLexicographicOrder<dim>`: the two vectors it takes by reference
are returned, `vNewIndex` first. -/
def ComputeLexicographicOrder
    (sort : (PosIndex → PosIndex → Bool) → List PosIndex → List PosIndex) (dim : Nat)
    (vNewIndex : List Nat) (vPos : List PosIndex) (orderDim : Nat) :
    Except LexFault (List Nat × List PosIndex) :=
  if vNewIndex.length = vPos.length then
    match sortByOrderDim sort dim orderDim vPos with
    | .error e => .error e
    | .ok sorted => .ok (writeMapping sorted 0 vNewIndex, sorted)
  else
    let vPosOrig := vPos
    match sortByOrderDim sort dim orderDim vPos with
    | .error e => .error e
    | .ok sorted =>
      .ok (writeSubset sorted vPosOrig (List.range vNewIndex.length), sorted)

/-- The writes of both loops: the value `vals[j]` goes to the place `keys[j]`. -/
def writeLoop : List Nat → List Nat → List Nat → List Nat
  | k :: keys, x :: vals, v => writeLoop keys vals (v.set k x)
  | _, _, v => v

/-- An insertion sort, one function that meets what `std::sort` promises. -/
def exSort (comp : PosIndex → PosIndex → Bool) (l : List PosIndex) : List PosIndex :=
  List.insertionSort (fun a b => comp a b = true) l

/-- Four positions of a grid of two by two points, in the order of their indices. -/
def exPositions : List PosIndex := [([1, 1], 0), ([0, 1], 1), ([1, 0], 2), ([0, 0], 3)]

/-- Two positions of a vector of four indices: only the indices 3 and 1 are ordered. -/
def exSubset : List PosIndex := [([1, 1], 3), ([0, 0], 1)]

/-- The lexicographic order of two lists of coordinates, the first coordinate being the
most significant: the order the specification names. -/
def lexLess : List Int → List Int → Bool
  | x :: xs, y :: ys => decide (x < y) || (decide (x = y) && lexLess xs ys)
  | _, _ => false

/-! ## The loop over the new connections, from its start -/

/-- The local variables of lines 263-270 before the loop over `m_recvNewCons`, on a
process whose matrix refers to the layout object `lay`. -/
def masterLoopStart (lay : AlgebraLayouts) (mat : Matrix) : MasterLoop :=
  { itfc := none
    added := []
    slaveInd := none
    sendBuf := []
    msgSizeForSlaveProcs := List.replicate (GetLayoutTargetProcs lay.master).length 0
    masterOverlap := lay.masterOverlap
    mat := mat }

/-- The matrix after lines 224-254 of `post_process`: resized, the new rows made
Dirichlet rows, no new connection added yet. -/
def matrixBeforeInsertion (store : LayoutStore) (s : ComPol_MatCreateOverlap) : Matrix :=
  (post_process_newIDs (post_process_newLayout store s).2).m_mat

/-! ## The master example with a GlobalID array longer than the matrix -/

/-- A GlobalID array for the matrix of the master example with one entry more than the
matrix has rows; the constructor accepts it. -/
def exLongIDs : List AlgebraID := [⟨0, 0⟩, ⟨0, 1⟩, ⟨0, 2⟩]

/-- A buffer for row 1 of the master example with connections to the two unknown
GlobalIDs (1,0) and (1,1). -/
def exTwoNewBuff : BinaryBuffer :=
  [.sizeT 2, .algID ⟨1, 0⟩, .block (-1), .algID ⟨1, 1⟩, .block (-1)]

/-- The policy constructed for the master example with the long GlobalID array. -/
def exLongPol : ComPol_MatCreateOverlap :=
  { m_mat := exMat
    m_globalIDs := exLongIDs
    m_algIDHash := [(⟨0, 0⟩, 0), (⟨0, 1⟩, 1), (⟨0, 2⟩, 2)]
    m_recvNewCons := []
    m_recvNewIDs := [] }

/-- The policy with the long GlobalID array after extracting `exTwoNewBuff`. -/
def exLongPol1 : ComPol_MatCreateOverlap :=
  okOr exLongPol (extractCalls [(exTwoNewBuff, exItf)] exLongPol)

/-- What reaches the process during `post_process`: the diagonal values of the two
appended rows from rank 1. -/
def exLongNet : Delivered := ⟨[], [], fun _ => [], fun _ => [.block 2, .block 2]⟩

/-- The process with the long GlobalID array after `post_process`. -/
def exLongPost : LayoutStore × ComPol_MatCreateOverlap :=
  okOr (exStore, exLongPol1) (exLongPol1.post_process exStore exLongNet)

/-! ## The order of the loop over the new connections -/

/-- The order in which the loop meets the new connections, by rank and then by target
GlobalID: the first two comparisons of `ExtCon::operator <`. -/
def ExtCon.rankIdLe (a b : ExtCon) : Prop :=
  a.conProc < b.conProc ∨ (a.conProc = b.conProc ∧ b.toID.lt a.toID = false)

/-- The invariant of the loop over `m_recvNewCons` for the entries it pushes, `done`
being the connections met so far: for every rank the entries pushed to its master-overlap
interface are strictly ascending and are exactly the indices of the target GlobalIDs of
the connections met for that rank, and the flag `added[j]` of the current rank is set
exactly when the index `oldSize + j` was pushed for it. -/
def pushedInv (hash : AlgebraIDHashList) (oldSize numNewInds : Nat) (mo0 : IndexLayout)
    (done : List (ExtCon × block_t)) (st : MasterLoop) : Prop :=
  st.masterOverlap.isMap ∧
  (∀ q, ∃ pushed : List Nat,
    st.masterOverlap.elemsOf q = mo0.elemsOf q ++ pushed ∧
    pushed.Pairwise (fun a b => a < b) ∧
    ∀ t, t ∈ pushed ↔ ∃ e ∈ done, e.1.conProc = q ∧ hash.get_entry e.1.toID = some t) ∧
  (match st.itfc with
   | none => done = []
   | some c =>
     st.added.length = numNewInds ∧
     (∀ d ∈ done, d.1.conProc ≤ c) ∧
     (∃ d ∈ done, d.1.conProc = c) ∧
     ∀ j, j < numNewInds →
       (st.added.getD j false = true ↔
         ∃ e ∈ done, e.1.conProc = c ∧ hash.get_entry e.1.toID = some (oldSize + j)))

/-! ## The master example with two new GlobalIDs -/

/-- The connections in `exTwoNewBuff`, received from rank 1. -/
def exTwoNewReceived : List (Nat × Conn) :=
  [(1, ⟨1, ⟨1, 0⟩, -1⟩), (1, ⟨1, ⟨1, 1⟩, -1⟩)]

/-- The buffer `exTwoNewBuff` with its two connections in the other order. -/
def exTwoNewBuffRev : BinaryBuffer :=
  [.sizeT 2, .algID ⟨1, 1⟩, .block (-1), .algID ⟨1, 0⟩, .block (-1)]

/-- The master example after extracting `exTwoNewBuff`. -/
def exTwoNewPol1 : ComPol_MatCreateOverlap := applyReceived exTwoNewReceived exPol

/-- The master example after extracting `exTwoNewBuff` and lines 224-308 of
`post_process`. -/
def exTwoNewMaster : MasterResult :=
  okOr ⟨[], exPol, [], [], []⟩ (post_process_master exStore exTwoNewPol1)

/-- The master example after extracting `exTwoNewBuffRev` and lines 224-308 of
`post_process`. -/
def exTwoNewMasterRev : MasterResult :=
  okOr ⟨[], exPol, [], [], []⟩
    (post_process_master exStore (applyReceived exTwoNewReceived.reverse exPol))

/-! ## Conditions on successful runs -/

/-- From a state that satisfies `P`, every successful run leaves a state that satisfies
`Q`. -/
def Triple {σ : Type} (P : σ → Prop) (a : Step σ) (Q : σ → Prop) : Prop :=
  ∀ s, P s → (a s).ok = true → Q (a s).state

/-- The defect and the correction of a level. -/
def levelPair {ε V : Type} (lev : Nat) (s : CycleState ε V) : V × V :=
  (s.m_d lev, s.m_c lev)

/-- A prepared controller whose level defects all hold `d`, the other level vectors
being zero. -/
def exLevelDefect (d : Int) : CycleState Unit Int :=
  ⟨fun _ => 0, fun _ => 0, fun _ => 0, fun _ => d, (), 0, 0, 0⟩

/-! ## The objects a cycle dereferences and the objects allocate_memory creates -/

/-- The vector of the controller that holds the objects of a kind. -/
def Controller.vec {ε : Type} (s : Controller ε) : ObjKind → List Ptr
  | .u => s.m_u
  | .c => s.m_c
  | .t => s.m_t
  | .d => s.m_d
  | .A => s.m_A
  | .I => s.m_I
  | .P => s.m_P
  | .smoother => s.m_smoother

/-- The per-level objects that a step of `lmgc` or `smooth` dereferences, by kind and
index into the vector of the kind: `m_smoother[lev]->apply(*m_d[lev], *m_t[lev], true)`,
`m_I[lev]->apply_transposed(*m_d[lev+1], *m_d[lev])`,
`m_I[lev]->apply(*m_c[lev], *m_t[lev+1])`, `m_A[lev]->apply_sub(.., *m_d[lev])` for
`*m_t[lev]` or `*m_c[lev]`, the calls of the base solver on `*m_u[lev]`, `*m_d[lev]`,
`*m_c[lev]`, and the operations on `*m_c[lev]`, `*m_t[lev]` and `*m_d[lev]`. -/
def derefs : MGEvent → List (ObjKind × Nat)
  | .call (.smoother_apply lev) _ => [(.smoother, lev), (.d, lev), (.t, lev)]
  | .call (.I_apply_transposed lev) _ => [(.I, lev), (.d, lev + 1), (.d, lev)]
  | .call (.I_apply lev) _ => [(.I, lev), (.c, lev), (.t, lev + 1)]
  | .call (.A_apply_sub lev) _ => [(.A, lev), (.t, lev), (.c, lev), (.d, lev)]
  | .call (.baseSolver_prepare lev) _ => [(.u, lev), (.d, lev), (.c, lev)]
  | .call (.baseSolver_apply lev) _ => [(.d, lev), (.c, lev)]
  | .action (.c_set_zero lev) => [(.c, lev)]
  | .action (.c_add_t lev) => [(.c, lev), (.t, lev)]
  | .action (.d_ConsistentToUnique lev) => [(.d, lev)]
  | .action (.send_data .VecAdd lev) => [(.d, lev)]
  | .action (.send_data .VecCopy lev) => [(.c, lev)]
  | .action (.receive_data .VecAdd lev) => [(.d, lev)]
  | .action (.receive_data .VecCopy lev) => [(.c, lev)]
  | .action (.communicate .VecAdd lev) => [(.d, lev)]
  | .action (.communicate .VecCopy lev) => [(.c, lev)]
  | .action (.c_set_storage_type lev _) => [(.c, lev)]
  | .action (.d_set_storage_type lev _) => [(.d, lev)]
  | _ => []

/-- The indices of the vector of a kind at which `allocate_memory` creates an object:
all levels from the base level to the surface level for the grid functions, the levels
below the surface level for the operators, and the levels other than 0 for the
smoothers. -/
def filledRange (cyc : AssembledMultiGridCycle) : ObjKind × Nat → Prop
  | (.u, k) => cyc.m_baseLevel ≤ k ∧ k ≤ cyc.m_surfaceLevel
  | (.c, k) => cyc.m_baseLevel ≤ k ∧ k ≤ cyc.m_surfaceLevel
  | (.t, k) => cyc.m_baseLevel ≤ k ∧ k ≤ cyc.m_surfaceLevel
  | (.d, k) => cyc.m_baseLevel ≤ k ∧ k ≤ cyc.m_surfaceLevel
  | (.A, k) => cyc.m_baseLevel ≤ k ∧ k < cyc.m_surfaceLevel
  | (.I, k) => cyc.m_baseLevel ≤ k ∧ k < cyc.m_surfaceLevel
  | (.P, k) => cyc.m_baseLevel ≤ k ∧ k < cyc.m_surfaceLevel
  | (.smoother, k) => cyc.m_baseLevel ≤ k ∧ k ≤ cyc.m_surfaceLevel ∧ k ≠ 0

/-- An event of a cycle is in range: an entry of `lmgc` is on a level from the base
level to the surface level, and every object the step dereferences is at an index at
which `allocate_memory` creates an object, or it is the operator `m_A[m_surfaceLevel]`. -/
def lmgcEventOk (cyc : AssembledMultiGridCycle) (e : MGEvent) : Prop :=
  (∀ k, e = .lmgc k → cyc.m_baseLevel ≤ k ∧ k ≤ cyc.m_surfaceLevel) ∧
  ∀ p ∈ derefs e, filledRange cyc p ∨ p = (ObjKind.A, cyc.m_surfaceLevel)

/-- The vector of kind `K` after the assignment of a new object of kind `kind` to the
place `lev` of the vector of that kind. -/
def createEff (K kind : ObjKind) (lev : Nat) (v : List Ptr) : List Ptr :=
  if kind = K then v.set lev (.obj lev kind) else v

/-- The vector of kind `K` after `resize(n)` of the vectors of the kinds `ks`. -/
def resizeEff (K : ObjKind) (ks : List ObjKind) (n : Nat) (v : List Ptr) : List Ptr :=
  if K ∈ ks then resize v n else v

/-- The vector of kind `K` after `allocate_memory`, from its content `v` before. -/
def allocVec (cyc : AssembledMultiGridCycle) (K : ObjKind) (v : List Ptr) : List Ptr :=
  (List.range' cyc.m_baseLevel (cyc.m_surfaceLevel + 1 - cyc.m_baseLevel)).foldl
    (fun acc lev => if lev = 0 then acc else createEff K .smoother lev acc)
    (resizeEff K [.smoother] (cyc.m_surfaceLevel + 1)
      (cyc.coarseLevels.foldl
        (fun acc lev => createEff K .A lev (createEff K .P lev (createEff K .I lev acc)))
        (resizeEff K [.A] (cyc.m_surfaceLevel + 1) (resizeEff K [.I, .P] cyc.m_surfaceLevel
          (cyc.coarseLevels.foldl
            (fun acc lev => createEff K .d lev (createEff K .t lev
              (createEff K .c lev (createEff K .u lev acc))))
            (createEff K .d cyc.m_surfaceLevel (createEff K .t cyc.m_surfaceLevel
              (createEff K .c cyc.m_surfaceLevel (createEff K .u cyc.m_surfaceLevel
                (resizeEff K [.u, .c, .t, .d] (cyc.m_surfaceLevel + 1) v))))))))))

/-- A step acts on the part `f` of the state as the function `g`. -/
def Acts {σ α : Type} (f : σ → α) (a : Step σ) (g : α → α) : Prop :=
  ∀ s, f (a s).state = g (f s)

/-! ## A policy whose GlobalID array names one unknown twice -/

/-- A GlobalID array for the matrix of the master example in which both rows carry the
GlobalID (0,0); it has as many entries as the matrix has rows. -/
def exTwinIDs : List AlgebraID := [⟨0, 0⟩, ⟨0, 0⟩]

/-- The policy for `exMat` and `exTwinIDs` before any `extract` call. -/
def exTwinPol : ComPol_MatCreateOverlap := policyFor exMat exTwinIDs

/-- An interface to rank 1 for the rows 0 and 1. -/
def exTwinItf : Interface := ⟨1, [0, 1]⟩

/-- A buffer for `exTwinItf`: one connection to the unknown GlobalID (1,0) for row 0, with
value 5, and one for row 1, with value 7. -/
def exTwinBuff : BinaryBuffer :=
  [.sizeT 1, .algID ⟨1, 0⟩, .block 5, .sizeT 1, .algID ⟨1, 0⟩, .block 7]

/-- The connections in `exTwinBuff`. -/
def exTwinConns : List Conn := [⟨0, ⟨1, 0⟩, 5⟩, ⟨1, ⟨1, 0⟩, 7⟩]

/-- The policy `exTwinPol` after extracting `exTwinBuff`. -/
def exTwinPol1 : ComPol_MatCreateOverlap := applyConnections 1 exTwinConns exTwinPol

/-! ## GlobalIDs of one process, and the master example run twice -/

/-- Modelled from the spec: `GenerateGlobalAlgebraIDs` (declared outside the given
sources) on the process of rank `rank` with `numIDs` indices: every index `i` gets the
GlobalID `(rank, i)`, and the IDs that arrive on the slave interfaces then overwrite the
local ones.  This is what the function of the same name does for each rank. -/
def generateIDsOn (rank numIDs : Nat) (slave : IndexLayout) (inbox : Nat → BinaryBuffer) :
    Except Fault (List AlgebraID) :=
  receive_data vecCopyExtract inbox slave ((List.range numIDs).map (fun i => AlgebraID.mk rank i))

namespace generic

/-- One matrix row: its stored connections (column index, value) in iteration order. -/
abbrev MatRow (β : Type) := List (Nat × β)

/-- Value of the connection to column `k` in a row, zero when no connection is stored. -/
def MatRow.get {β : Type} [Zero β] : MatRow β → Nat → β
  | [], _ => 0
  | (c, x) :: rest, k => if c = k then x else MatRow.get rest k

/-- The reference `row(k)` of a non-const matrix access followed by an update `f` of the
value: the connection is created (with value zero) when it is not stored yet. -/
def MatRow.modify {β : Type} [Zero β] : MatRow β → Nat → (β → β) → MatRow β
  | [], k, f => [(k, f 0)]
  | (c, x) :: rest, k, f =>
    if c = k then (c, f x) :: rest else (c, x) :: MatRow.modify rest k f

/-- Modelled from the spec: the matrix type `TMatrix` (a template parameter): a
process-local sparse container with its dimensions, its rows and the pointer to its
layouts; `β` is `TMatrix::value_type`. -/
structure Matrix (β : Type) where
  numRows : Nat
  numCols : Nat
  row : Nat → MatRow β
  layouts : Nat

/-- Const access `mat(i, k)`. -/
def Matrix.entry {β : Type} [Zero β] (m : Matrix β) (i k : Nat) : β :=
  MatRow.get (m.row i) k

/-- Update of the reference returned by `mat(i, k)` with `f`. -/
def Matrix.modify {β : Type} [Zero β] (m : Matrix β) (i k : Nat) (f : β → β) : Matrix β :=
  { m with row := fun r => if r = i then MatRow.modify (m.row i) k f else m.row r }

/-- The statement `mat(i, k) += v`. -/
def Matrix.addTo {β : Type} [Zero β] [Add β] (m : Matrix β) (i k : Nat) (v : β) : Matrix β :=
  m.modify i k (fun x => x + v)

/-- The statement `mat(i, k) = v`. -/
def Matrix.assign {β : Type} [Zero β] (m : Matrix β) (i k : Nat) (v : β) : Matrix β :=
  m.modify i k (fun _ => v)

/-- Modelled from the spec: `resize_and_keep_values` of the matrix type: new dimensions,
the stored values that still fit are kept. -/
def Matrix.resize_and_keep_values {β : Type} (m : Matrix β) (r c : Nat) : Matrix β :=
  { m with
    numRows := r
    numCols := c
    row := fun i => if i < r then (m.row i).filter (fun e => decide (e.1 < c)) else [] }

/-- Modelled from the spec: `SetDirichletRow` (declared outside the given sources)
makes row `i` an isolated row: diagonal one, every other stored connection zero. -/
def SetDirichletRow {β : Type} [Zero β] [One β] (m : Matrix β) (i : Nat) : Matrix β :=
  let m1 := m.assign i i 1
  { m1 with
    row := fun r =>
      if r = i then (m1.row i).map (fun e => if e.1 = i then e else (e.1, 0)) else m1.row r }

/-- Serialized items of a `BinaryBuffer`. -/
inductive BufItem (β : Type) where
  | sizeT (n : Nat)
  | algID (g : AlgebraID)
  | block (v : β)

/-- The unread content of a buffer: `Serialize` appends, `Deserialize` reads the head. -/
abbrev BinaryBuffer (β : Type) := List (BufItem β)

/-- The statement `map[ec] = v` on a `std::map<ExtCon, block_t>`, kept as its ascending
list of entries: an entry whose key is equivalent to `ec` keeps its key. -/
def mapAssign {β : Type} (ec : ExtCon) (v : β) : List (ExtCon × β) → List (ExtCon × β)
  | [] => [(ec, v)]
  | (k, x) :: rest =>
    if ec.lt k then (ec, v) :: (k, x) :: rest
    else if k.lt ec then (k, x) :: mapAssign ec v rest
    else (k, v) :: rest

/-- The members of `ComPol_MatCreateOverlap`; the matrix and the GlobalID array are
references in the source and are threaded through the state here. -/
structure ComPol_MatCreateOverlap (β : Type) where
  m_mat : Matrix β
  m_globalIDs : List AlgebraID
  m_algIDHash : AlgebraIDHashList
  m_recvNewCons : List (ExtCon × β)
  m_recvNewIDs : List AlgebraID

/-- The constructor of `ComPol_MatCreateOverlap`. -/
def ComPol_MatCreateOverlap.new {β : Type} (rMat : Matrix β) (vGlobalID : List AlgebraID) :
    Except Fault (ComPol_MatCreateOverlap β) :=
  if vGlobalID.length < rMat.numRows then .error .notEnoughGlobalIDs
  else .ok
    { m_mat := rMat
      m_globalIDs := vGlobalID
      m_algIDHash := GenerateAlgebraIDHashList vGlobalID
      m_recvNewCons := []
      m_recvNewIDs := [] }

/-- The body of the connection loop of `extract` for one pair `(gID, block)` read for
the interface index `index`. -/
def extractConnection {β : Type} [Zero β] [Add β] (index targetProc : Nat) (gID : AlgebraID)
    (block : β) (s : ComPol_MatCreateOverlap β) : ComPol_MatCreateOverlap β :=
  match s.m_algIDHash.get_entry gID with
  | some conInd => { s with m_mat := s.m_mat.addTo index conInd block }
  | none =>
    let ec : ExtCon := ⟨index, s.m_globalIDs.getD index default, gID, targetProc⟩
    { s with
      m_recvNewCons := mapAssign ec block s.m_recvNewCons
      m_recvNewIDs := setInsert gID s.m_recvNewIDs }

/-- The connection loop of `extract`: reads `numConnections` pairs from the buffer. -/
def extractConnections {β : Type} [Zero β] [Add β] (index targetProc : Nat) :
    Nat → BinaryBuffer β → ComPol_MatCreateOverlap β →
      Except Fault (BinaryBuffer β × ComPol_MatCreateOverlap β)
  | 0, buff, s => .ok (buff, s)
  | n + 1, .algID gID :: .block block :: buff, s =>
    extractConnections index targetProc n buff (extractConnection index targetProc gID block s)
  | _ + 1, _, _ => .error .badBuffer

/-- The interface loop of `extract`. -/
def extractRows {β : Type} [Zero β] [Add β] (targetProc : Nat) :
    List Nat → BinaryBuffer β → ComPol_MatCreateOverlap β →
      Except Fault (BinaryBuffer β × ComPol_MatCreateOverlap β)
  | [], buff, s => .ok (buff, s)
  | index :: rest, .sizeT numConnections :: buff, s =>
    match extractConnections index targetProc numConnections buff s with
    | .ok (buff1, s1) => extractRows targetProc rest buff1 s1
    | .error e => .error e
  | _ :: _, _, _ => .error .badBuffer

/-- The method `ComPol_MatCreateOverlap::extract`: the unread rest of the buffer and
the state after the call. -/
def ComPol_MatCreateOverlap.extract {β : Type} [Zero β] [Add β] (s : ComPol_MatCreateOverlap β)
    (buff : BinaryBuffer β) (interface : Interface) :
    Except Fault (BinaryBuffer β × ComPol_MatCreateOverlap β) :=
  extractRows interface.targetProc interface.elems buff s

/-- Lines 224-230 of `post_process`: a new layout object is allocated, the layouts the
matrix refers to are copied into it, overlap is enabled on it and it is set on the
matrix. -/
def post_process_newLayout {β : Type} (store : LayoutStore) (s : ComPol_MatCreateOverlap β) :
    LayoutStore × ComPol_MatCreateOverlap β :=
  let old : AlgebraLayouts := store.getD s.m_mat.layouts ⟨[], [], [], [], false⟩
  let newLayout : AlgebraLayouts := { old with overlapEnabled := true }
  (store ++ [newLayout], { s with m_mat := { s.m_mat with layouts := store.length } })

/-- The loop `for(i = oldSize; i < newSize; ++i) SetDirichletRow(m_mat, i)`, with `n`
rows left to do from row `i`. -/
def setDirichletRows {β : Type} [Zero β] [One β] (m : Matrix β) (i : Nat) : Nat → Matrix β
  | 0 => m
  | n + 1 => setDirichletRows (SetDirichletRow m i) (i + 1) n

/-- Lines 232-254 of `post_process`: the new IDs get the indices from `oldSize` on in
the hash and are pushed to the GlobalID array; the matrix is resized when there are
new indices, and each new row is made a Dirichlet row. -/
def post_process_newIDs {β : Type} [Zero β] [One β] (s : ComPol_MatCreateOverlap β) :
    ComPol_MatCreateOverlap β :=
  let oldSize := s.m_mat.numRows
  let numNewInds := s.m_recvNewIDs.length
  let newSize := oldSize + numNewInds
  { s with
    m_algIDHash := hashInsertFrom s.m_algIDHash s.m_recvNewIDs oldSize
    m_globalIDs := s.m_globalIDs ++ s.m_recvNewIDs
    m_mat :=
      if newSize ≠ oldSize then
        setDirichletRows (s.m_mat.resize_and_keep_values newSize newSize) oldSize numNewInds
      else s.m_mat }

/-- Local variables of the block that creates the master overlap (lines 263-308),
together with the master-overlap layout of the new layout object and the matrix. -/
structure MasterLoop (β : Type) where
  itfc : Option Nat
  added : List Bool
  slaveInd : Option Nat
  sendBuf : BinaryBuffer β
  msgSizeForSlaveProcs : List Nat
  masterOverlap : IndexLayout
  mat : Matrix β

/-- Lines 278-292: when there is no current interface, or the current one has another
target rank, the master-overlap interface for `targetProc` becomes the current one, the
`added` flags are reset and the index of `targetProc` in `slaveProcs` is looked up. -/
def masterOverlapEnter {β : Type} (numNewInds : Nat) (slaveProcs : List Nat) (st : MasterLoop β)
    (targetProc : Nat) : Except Fault (MasterLoop β) :=
  if st.itfc = some targetProc then .ok st
  else
    match findSlaveInd targetProc slaveProcs 0 with
    | none => .error .slaveProcNotFound
    | some islave =>
      .ok { st with
            itfc := some targetProc
            masterOverlap := st.masterOverlap.interface targetProc
            added := List.replicate numNewInds false
            slaveInd := some islave }

/-- Lines 298-306: the index `toInd` is pushed to the current interface and its
GlobalID is written to the send buffer unless that was done before for this interface;
then the connection is added to the matrix. -/
def masterOverlapAdd {β : Type} [Zero β] [Add β] (oldSize : Nat) (st : MasterLoop β)
    (curExtCon : ExtCon) (block : β) (toInd : Nat) : MasterLoop β :=
  let st2 : MasterLoop β :=
    if st.added.getD (toInd - oldSize) false then st
    else
      { st with
        masterOverlap := st.masterOverlap.append curExtCon.conProc [toInd]
        sendBuf := st.sendBuf ++ [.algID curExtCon.toID]
        msgSizeForSlaveProcs := addAt st.msgSizeForSlaveProcs (st.slaveInd.getD 0) 1 }
  { st2 with
    added := st2.added.set (toInd - oldSize) true
    mat := st2.mat.addTo curExtCon.fromInd toInd block }

/-- One iteration of the loop over `m_recvNewCons` (lines 275-307). -/
def masterOverlapStep {β : Type} [Zero β] [Add β] (hash : AlgebraIDHashList)
    (oldSize numNewInds : Nat) (slaveProcs : List Nat) (st : MasterLoop β) (e : ExtCon × β) :
    Except Fault (MasterLoop β) :=
  match masterOverlapEnter numNewInds slaveProcs st e.1.conProc with
  | .error err => .error err
  | .ok st1 =>
    match hash.get_entry e.1.toID with
    | none => .error .algebraIDNotInHash
    | some toInd => .ok (masterOverlapAdd oldSize st1 e.1 e.2 toInd)

/-- The loop over `m_recvNewCons`. -/
def masterOverlapLoop {β : Type} [Zero β] [Add β] (hash : AlgebraIDHashList)
    (oldSize numNewInds : Nat) (slaveProcs : List Nat) :
    MasterLoop β → List (ExtCon × β) → Except Fault (MasterLoop β)
  | st, [] => .ok st
  | st, e :: rest =>
    match masterOverlapStep hash oldSize numNewInds slaveProcs st e with
    | .ok st1 => masterOverlapLoop hash oldSize numNewInds slaveProcs st1 rest
    | .error err => .error err

/-- What the master part of `post_process` leaves behind: the store of layouts, the
policy, and the message for `distribute_data` (buffer, sizes per slave process and the
slave processes). -/
structure MasterResult (β : Type) where
  store : LayoutStore
  pol : ComPol_MatCreateOverlap β
  sendBuf : BinaryBuffer β
  msgSizeForSlaveProcs : List Nat
  slaveProcs : List Nat

/-- Lines 257-308 of `post_process`, run on the state that lines 224-254 produce;
`oldSize` and `numNewInds` are the values computed in line 232 and 233. -/
def post_process_masterOverlap {β : Type} [Zero β] [Add β] (store : LayoutStore)
    (s : ComPol_MatCreateOverlap β) (oldSize numNewInds : Nat) : Except Fault (MasterResult β) :=
  let newLayout : AlgebraLayouts := store.getD s.m_mat.layouts ⟨[], [], [], [], false⟩
  let slaveProcs := GetLayoutTargetProcs newLayout.master
  let init : MasterLoop β :=
    { itfc := none
      added := []
      slaveInd := none
      sendBuf := []
      msgSizeForSlaveProcs := List.replicate slaveProcs.length 0
      masterOverlap := newLayout.masterOverlap
      mat := s.m_mat }
  match masterOverlapLoop s.m_algIDHash oldSize numNewInds slaveProcs init s.m_recvNewCons with
  | .error err => .error err
  | .ok fin =>
    .ok { store := store.set s.m_mat.layouts { newLayout with masterOverlap := fin.masterOverlap }
          pol := { s with m_mat := fin.mat }
          sendBuf := fin.sendBuf
          msgSizeForSlaveProcs := fin.msgSizeForSlaveProcs
          slaveProcs := slaveProcs }

/-- The master part of `post_process`, lines 224-308. -/
def post_process_master {β : Type} [Zero β] [One β] [Add β] (store : LayoutStore)
    (s : ComPol_MatCreateOverlap β) : Except Fault (MasterResult β) :=
  let oldSize := s.m_mat.numRows
  let numNewInds := s.m_recvNewIDs.length
  let (store1, s1) := post_process_newLayout store s
  post_process_masterOverlap store1 (post_process_newIDs s1) oldSize numNewInds

/-- A connection read by `extract`: the interface index it was read for, the GlobalID
of its column and its value. -/
structure Conn (β : Type) where
  index : Nat
  gID : AlgebraID
  block : β

/-- The pairs (GlobalID, value) that the connection loop of `extract` reads for `index`,
and the unread rest of the buffer. -/
def readConnections {β : Type} (index : Nat) :
    Nat → BinaryBuffer β → Option (List (Conn β) × BinaryBuffer β)
  | 0, buff => some ([], buff)
  | n + 1, .algID gID :: .block block :: buff =>
    match readConnections index n buff with
    | some (cs, rest) => some (⟨index, gID, block⟩ :: cs, rest)
    | none => none
  | _ + 1, _ => none

/-- The connections that `extract` reads over the indices of an interface, in reading
order, and the unread rest of the buffer. -/
def readRows {β : Type} : List Nat → BinaryBuffer β → Option (List (Conn β) × BinaryBuffer β)
  | [], buff => some ([], buff)
  | index :: rest, .sizeT numConnections :: buff =>
    match readConnections index numConnections buff with
    | some (cs, buff1) =>
      match readRows rest buff1 with
      | some (cs1, buff2) => some (cs ++ cs1, buff2)
      | none => none
    | none => none
  | _ :: _, _ => none

/-- The loop body of `extract` applied to a list of connections from rank `targetProc`. -/
def applyConnections {β : Type} [Zero β] [Add β] (targetProc : Nat) (cs : List (Conn β))
    (s : ComPol_MatCreateOverlap β) : ComPol_MatCreateOverlap β :=
  cs.foldl (fun st c => extractConnection c.index targetProc c.gID c.block st) s

/-- A sequence of `extract` calls on one policy, each with its buffer and interface, as
`receive_data` and `communicate` issue them. -/
def extractCalls {β : Type} [Zero β] [Add β] :
    List (BinaryBuffer β × Interface) → ComPol_MatCreateOverlap β →
      Except Fault (ComPol_MatCreateOverlap β)
  | [], s => .ok s
  | (buff, interface) :: rest, s =>
    match s.extract buff interface with
    | .ok (_, s1) => extractCalls rest s1
    | .error e => .error e

/-- The connections a sequence of `extract` calls reads, each with the target rank of the
interface it was read for. -/
def readCalls {β : Type} : List (BinaryBuffer β × Interface) → Option (List (Nat × Conn β))
  | [] => some []
  | (buff, interface) :: rest =>
    match readRows interface.elems buff with
    | some (cs, _) =>
      match readCalls rest with
      | some rc => some (cs.map (fun c => (interface.targetProc, c)) ++ rc)
      | none => none
    | none => none

/-- The loop body of `extract` applied to received connections of several interfaces. -/
def applyReceived {β : Type} [Zero β] [Add β] (rc : List (Nat × Conn β))
    (s : ComPol_MatCreateOverlap β) : ComPol_MatCreateOverlap β :=
  rc.foldl (fun st x => extractConnection x.2.index x.1 x.2.gID x.2.block st) s

/-- Sum of the values received for row `i` and GlobalID `g`, over all interfaces. -/
def receivedSum {β : Type} [Zero β] [Add β] (rc : List (Nat × Conn β)) (i : Nat)
    (g : AlgebraID) : β :=
  ((rc.filter (fun x => decide (x.2.index = i) && decide (x.2.gID = g))).map
    (fun x => x.2.block)).sum

/-- Sum of the values received for row `i` whose GlobalID resolves to column `k`. -/
def mergedSum {β : Type} [Zero β] [Add β] (hash : AlgebraIDHashList) (rc : List (Nat × Conn β))
    (i k : Nat) : β :=
  ((rc.filter (fun x => decide (x.2.index = i) && decide (hash.get_entry x.2.gID = some k))).map
    (fun x => x.2.block)).sum

/-- Sum of the values of the new connections from row `i` whose target GlobalID has the
column `k` in the hash. -/
def deferredSum {β : Type} [Zero β] [Add β] (hash : AlgebraIDHashList) (cons : List (ExtCon × β))
    (i k : Nat) : β :=
  ((cons.filter (fun e => decide (e.1.fromInd = i) &&
    decide (hash.get_entry e.1.toID = some k))).map (fun e => e.2)).sum

/-- The key of the new connection that `extract` makes of a received connection. -/
def extConOf {β : Type} (globalIDs : List AlgebraID) (x : Nat × Conn β) : ExtCon :=
  ⟨x.2.index, globalIDs.getD x.2.index default, x.2.gID, x.1⟩

/-- The new connections that `extract` makes of the received connections whose
GlobalID does not resolve, one for each, in reading order. -/
def deferredOf {β : Type} (globalIDs : List AlgebraID) (hash : AlgebraIDHashList)
    (rc : List (Nat × Conn β)) : List (ExtCon × β) :=
  (rc.filter (fun x => (hash.get_entry x.2.gID).isNone)).map
    (fun x => (extConOf globalIDs x, x.2.block))

/-! ### Examples: exact values, and a value type whose addition rounds -/

/-- The matrix of the master example, with integer values: rows `[2, -1]` and `[-1, 2]`. -/
def exMat : Matrix Int :=
  { numRows := 2
    numCols := 2
    row := fun r => if r = 0 then [(0, 2), (1, -1)] else if r = 1 then [(0, -1), (1, 2)] else []
    layouts := 0 }

/-- The policy of the master example before any `extract` call. -/
def exPol : ComPol_MatCreateOverlap Int :=
  { m_mat := exMat
    m_globalIDs := [⟨0, 0⟩, ⟨0, 1⟩]
    m_algIDHash := [(⟨0, 0⟩, 0), (⟨0, 1⟩, 1)]
    m_recvNewCons := []
    m_recvNewIDs := [] }

/-- The buffer rank 1 sends for row 1: two connections, to GlobalID (0,1) with value 5
and to the unknown GlobalID (1,0) with value -1. -/
def exBuff : BinaryBuffer Int :=
  [.sizeT 2, .algID ⟨0, 1⟩, .block 5, .algID ⟨1, 0⟩, .block (-1)]

/-- The connections in `exBuff`, received from rank 1. -/
def exReceived : List (Nat × Conn Int) := [(1, ⟨1, ⟨0, 1⟩, 5⟩), (1, ⟨1, ⟨1, 0⟩, -1⟩)]

/-- The master example after extracting `exBuff`. -/
def exPol1 : ComPol_MatCreateOverlap Int := applyReceived exReceived exPol

/-- The master example after extracting `exBuff` and lines 224-308 of `post_process`. -/
def exMaster : MasterResult Int :=
  okOr ⟨[], exPol, [], [], []⟩ (post_process_master exStore exPol1)

/-- A buffer for row 1 of the master example that holds two connections to the unknown
GlobalID (1,0), with the values 1 and 2. -/
def exDupBuff : BinaryBuffer Int :=
  [.sizeT 2, .algID ⟨1, 0⟩, .block 1, .algID ⟨1, 0⟩, .block 2]

/-- The connections in `exDupBuff`, received from rank 1. -/
def exDupConns : List (Nat × Conn Int) := [(1, ⟨1, ⟨1, 0⟩, 1⟩), (1, ⟨1, ⟨1, 0⟩, 2⟩)]

/-- The master example after extracting `exDupBuff`. -/
def exDupPol1 : ComPol_MatCreateOverlap Int := applyReceived exDupConns exPol

/-- The master example after extracting `exDupBuff` and lines 224-308 of `post_process`. -/
def exDupMaster : MasterResult Int :=
  okOr ⟨[], exPol, [], [], []⟩ (post_process_master exStore exDupPol1)

/-- A value type with a rounding addition: integers of which a sum beyond ±9 keeps its
tens only (rounded towards zero), as a floating-point type keeps a fixed number of
digits. -/
structure Rounded where
  val : Int
deriving DecidableEq

/-- The rounding of `Rounded`: values between -9 and 9 are exact, others lose their last
digit. -/
def Rounded.round (x : Int) : Int :=
  if -10 < x ∧ x < 10 then x else (x.tdiv 10) * 10

/-- The default value of `Rounded`. -/
instance Rounded.instZero : Zero Rounded := ⟨⟨0⟩⟩

/-- The value one of `Rounded`. -/
instance Rounded.instOne : One Rounded := ⟨⟨1⟩⟩

/-- The addition of `Rounded`: the sum of the integers, rounded. -/
instance Rounded.instAdd : Add Rounded := ⟨fun a b => ⟨Rounded.round (a.val + b.val)⟩⟩

/-- The master example with values of type `Rounded`: rows `[2, -1]` and `[-1, 1]`. -/
def exMatR : Matrix Rounded :=
  { numRows := 2
    numCols := 2
    row := fun r =>
      if r = 0 then [(0, ⟨2⟩), (1, ⟨-1⟩)] else if r = 1 then [(0, ⟨-1⟩), (1, ⟨1⟩)] else []
    layouts := 0 }

/-- The policy for `exMatR` before any `extract` call. -/
def exPolR : ComPol_MatCreateOverlap Rounded :=
  { m_mat := exMatR
    m_globalIDs := [⟨0, 0⟩, ⟨0, 1⟩]
    m_algIDHash := [(⟨0, 0⟩, 0), (⟨0, 1⟩, 1)]
    m_recvNewCons := []
    m_recvNewIDs := [] }

/-- A buffer for row 1 with two connections to the known GlobalID (0,1), with the values
10 and -10. -/
def exRoundBuff : BinaryBuffer Rounded :=
  [.sizeT 2, .algID ⟨0, 1⟩, .block ⟨10⟩, .algID ⟨0, 1⟩, .block ⟨-10⟩]

/-- The connections in `exRoundBuff`, received from rank 1. -/
def exRoundConns : List (Nat × Conn Rounded) :=
  [(1, ⟨1, ⟨0, 1⟩, ⟨10⟩⟩), (1, ⟨1, ⟨0, 1⟩, ⟨-10⟩⟩)]

/-- The policy for `exMatR` after extracting `exRoundBuff`. -/
def exRoundPol1 : ComPol_MatCreateOverlap Rounded := applyReceived exRoundConns exPolR

/-- The policy for `exMatR` after extracting `exRoundBuff` and lines 224-308 of
`post_process`. -/
def exRoundMaster : MasterResult Rounded :=
  okOr ⟨[], exPolR, [], [], []⟩ (post_process_master exStore exRoundPol1)

end generic

/-! # Theorems -/

/-! ## Orders, sets and maps -/

theorem algebraID_lt_irrefl (a : AlgebraID) : a.lt a = false := by
  simp [AlgebraID.lt]

theorem algebraID_eq_of_not_lt {a b : AlgebraID} (h1 : a.lt b = false) (h2 : b.lt a = false) :
    a = b := by
  cases a with
  | mk ap ai =>
    cases b with
    | mk bp bi =>
      simp only [AlgebraID.lt, Bool.or_eq_false_iff, Bool.and_eq_false_imp, decide_eq_false_iff_not,
        Bool.not_eq_true', decide_eq_true_eq] at h1 h2
      have hp : ap = bp := by omega
      subst hp
      have hi : ai = bi := by
        have := h1.2 (by omega)
        have := h2.2 (by omega)
        omega
      subst hi
      rfl

theorem algebraID_lt_asymm {a b : AlgebraID} (h : a.lt b = true) : b.lt a = false := by
  simp only [AlgebraID.lt, Bool.or_eq_true, Bool.and_eq_true, decide_eq_true_eq,
    Bool.not_eq_true', decide_eq_false_iff_not] at h
  simp only [AlgebraID.lt, Bool.or_eq_false_iff, decide_eq_false_iff_not, Bool.and_eq_false_imp,
    Bool.not_eq_true', decide_eq_true_eq]
  omega

theorem algebraID_lt_trans {a b c : AlgebraID} (h1 : a.lt b = true) (h2 : b.lt c = true) :
    a.lt c = true := by
  simp only [AlgebraID.lt, Bool.or_eq_true, Bool.and_eq_true, decide_eq_true_eq,
    Bool.not_eq_true', decide_eq_false_iff_not] at h1 h2 ⊢
  omega

theorem extCon_lt_irrefl (a : ExtCon) : a.lt a = false := by
  simp [ExtCon.lt, algebraID_lt_irrefl]

theorem mem_setInsert (g x : AlgebraID) (l : List AlgebraID) :
    x ∈ setInsert g l ↔ x = g ∨ x ∈ l := by
  induction l with
  | nil => simp [setInsert]
  | cons y rest ih =>
    unfold setInsert
    by_cases h1 : g.lt y = true
    · simp [h1]
    · have h1f : g.lt y = false := by simpa using h1
      by_cases h2 : y.lt g = true
      · rw [if_neg (by simp [h1f]), if_pos h2]
        simp only [List.mem_cons, ih]
        tauto
      · have h2f : y.lt g = false := by simpa using h2
        have hyg : g = y := algebraID_eq_of_not_lt h1f h2f
        subst hyg
        simp [h1f]

theorem mapFind_mapAssign (ec : ExtCon) (v : block_t) (l : List (ExtCon × block_t)) :
    mapFind ec (mapAssign ec v l) = some v := by
  induction l with
  | nil => simp [mapAssign, mapFind, extCon_lt_irrefl]
  | cons e rest ih =>
    obtain ⟨k, x⟩ := e
    unfold mapAssign
    by_cases h1 : ec.lt k = true
    · simp [h1, mapFind, extCon_lt_irrefl]
    · have h1f : ec.lt k = false := by simpa using h1
      by_cases h2 : k.lt ec = true
      · simp [h1f, h2, mapFind, ih]
      · have h2f : k.lt ec = false := by simpa using h2
        simp [h1f, h2f, mapFind]

theorem extCon_equiv_iff (a b : ExtCon) :
    a.equiv b = true ↔ a.conProc = b.conProc ∧ a.toID = b.toID ∧ a.fromID = b.fromID := by
  unfold ExtCon.equiv ExtCon.lt
  constructor
  · intro h
    simp only [Bool.and_eq_true, Bool.not_eq_true'] at h
    obtain ⟨h1, h2⟩ := h
    by_cases c1 : a.conProc < b.conProc
    · simp [c1] at h1
    · by_cases c2 : b.conProc < a.conProc
      · simp [c2] at h2
      · have hp : a.conProc = b.conProc := by omega
        simp only [c1, c2, if_false] at h1 h2
        by_cases t1 : a.toID.lt b.toID = true
        · simp [t1] at h1
        · by_cases t2 : b.toID.lt a.toID = true
          · simp [t2] at h2
          · have t1f : a.toID.lt b.toID = false := by simpa using t1
            have t2f : b.toID.lt a.toID = false := by simpa using t2
            simp only [t1f, t2f, Bool.false_eq_true, if_false] at h1 h2
            exact ⟨hp, algebraID_eq_of_not_lt t1f t2f, algebraID_eq_of_not_lt h1 h2⟩
  · rintro ⟨h1, h2, h3⟩
    simp [h1, h2, h3, algebraID_lt_irrefl]

theorem mem_mapAssign_self (ec : ExtCon) (v : block_t) (l : List (ExtCon × block_t))
    (h : ∀ e, e ∈ l → e.1.equiv ec = true → e.1 = ec) :
    (ec, v) ∈ mapAssign ec v l := by
  induction l with
  | nil => simp [mapAssign]
  | cons a rest ih =>
    obtain ⟨k, x⟩ := a
    unfold mapAssign
    by_cases h1 : ec.lt k = true
    · rw [if_pos h1]; exact List.mem_cons_self _ _
    · rw [if_neg h1]
      by_cases h2 : k.lt ec = true
      · rw [if_pos h2]
        exact List.mem_cons_of_mem _ (ih (fun e he => h e (List.mem_cons_of_mem _ he)))
      · rw [if_neg h2]
        have heq : k.equiv ec = true := by
          have h1f : ec.lt k = false := by simpa using h1
          have h2f : k.lt ec = false := by simpa using h2
          simp [ExtCon.equiv, h1f, h2f]
        have := h (k, x) (List.mem_cons_self _ _) heq
        simp only at this
        rw [this]
        exact List.mem_cons_self _ _

/-! ## Matrix access -/

theorem matRow_get_modify (r : MatRow) (k k' : Nat) (f : block_t → block_t) :
    (r.modify k f).get k' = if k' = k then f (r.get k) else r.get k' := by
  induction r with
  | nil =>
    by_cases h : k' = k
    · simp [MatRow.modify, MatRow.get, h]
    · have h' : ¬ k = k' := fun e => h e.symm
      simp [MatRow.modify, MatRow.get, h, h']
  | cons e rest ih =>
    obtain ⟨c, x⟩ := e
    by_cases hc : c = k
    · subst hc
      by_cases h : k' = c
      · simp [MatRow.modify, MatRow.get, h]
      · have h' : ¬ c = k' := fun e => h e.symm
        simp [MatRow.modify, MatRow.get, h, h']
    · by_cases h : k' = k
      · subst h
        simp [MatRow.modify, MatRow.get, hc, ih]
      · by_cases hck : c = k'
        · simp [MatRow.modify, MatRow.get, hc, hck, h]
        · simp [MatRow.modify, MatRow.get, hc, hck, h, ih]

theorem matrix_entry_modify (m : Matrix) (i k i' k' : Nat) (f : block_t → block_t) :
    (m.modify i k f).entry i' k' =
      if i' = i ∧ k' = k then f (m.entry i k) else m.entry i' k' := by
  unfold Matrix.modify Matrix.entry
  by_cases hi : i' = i
  · subst hi
    simp [matRow_get_modify]
  · simp [hi]

theorem matrix_entry_addTo (m : Matrix) (i k i' k' : Nat) (v : block_t) :
    (m.addTo i k v).entry i' k' =
      if i' = i ∧ k' = k then m.entry i k + v else m.entry i' k' := by
  unfold Matrix.addTo
  exact matrix_entry_modify m i k i' k' _

/-! ## extract as a fold over the connections it reads -/

theorem applyConnections_append (p : Nat) (cs1 cs2 : List Conn) (s : ComPol_MatCreateOverlap) :
    applyConnections p (cs1 ++ cs2) s = applyConnections p cs2 (applyConnections p cs1 s) := by
  simp [applyConnections, List.foldl_append]

theorem applyConnections_cons (p : Nat) (c : Conn) (cs : List Conn) (s : ComPol_MatCreateOverlap) :
    applyConnections p (c :: cs) s =
      applyConnections p cs (extractConnection c.index p c.gID c.block s) := rfl

theorem extractConnections_eq (index p : Nat) :
    ∀ (n : Nat) (buff : BinaryBuffer) (s : ComPol_MatCreateOverlap),
      extractConnections index p n buff s =
        match readConnections index n buff with
        | some (cs, rest) => .ok (rest, applyConnections p cs s)
        | none => .error .badBuffer := by
  intro n
  induction n with
  | zero => intro buff s; simp [extractConnections, readConnections, applyConnections]
  | succ n ih =>
    intro buff s
    match buff with
    | [] => simp [extractConnections, readConnections]
    | [_] => simp [extractConnections, readConnections]
    | .sizeT _ :: _ :: _ => simp [extractConnections, readConnections]
    | .block _ :: _ :: _ => simp [extractConnections, readConnections]
    | .algID _ :: .sizeT _ :: _ => simp [extractConnections, readConnections]
    | .algID _ :: .algID _ :: _ => simp [extractConnections, readConnections]
    | .algID g :: .block v :: buff1 =>
      simp only [extractConnections, readConnections]
      rw [ih]
      cases hr : readConnections index n buff1 with
      | none => rfl
      | some r => obtain ⟨cs, rest⟩ := r; rfl

theorem extractRows_eq (p : Nat) :
    ∀ (idxs : List Nat) (buff : BinaryBuffer) (s : ComPol_MatCreateOverlap),
      extractRows p idxs buff s =
        match readRows idxs buff with
        | some (cs, rest) => .ok (rest, applyConnections p cs s)
        | none => .error .badBuffer := by
  intro idxs
  induction idxs with
  | nil => intro buff s; simp [extractRows, readRows, applyConnections]
  | cons index rest ih =>
    intro buff s
    match buff with
    | [] => simp [extractRows, readRows]
    | .algID _ :: _ => simp [extractRows, readRows]
    | .block _ :: _ => simp [extractRows, readRows]
    | .sizeT n :: buff1 =>
      simp only [extractRows, readRows]
      rw [extractConnections_eq]
      cases hr : readConnections index n buff1 with
      | none => rfl
      | some r =>
        obtain ⟨cs, buff2⟩ := r
        simp only
        rw [ih]
        cases hr2 : readRows rest buff2 with
        | none => rfl
        | some r2 =>
          obtain ⟨cs2, buff3⟩ := r2
          simp only [applyConnections_append]

theorem extractConnection_frame (i p : Nat) (g : AlgebraID) (v : block_t)
    (s : ComPol_MatCreateOverlap) :
    (extractConnection i p g v s).m_algIDHash = s.m_algIDHash ∧
    (extractConnection i p g v s).m_globalIDs = s.m_globalIDs ∧
    (extractConnection i p g v s).m_mat.numRows = s.m_mat.numRows ∧
    (extractConnection i p g v s).m_mat.numCols = s.m_mat.numCols ∧
    (extractConnection i p g v s).m_mat.layouts = s.m_mat.layouts := by
  unfold extractConnection
  cases s.m_algIDHash.get_entry g <;> simp [Matrix.addTo, Matrix.modify]

theorem applyConnections_frame (p : Nat) (cs : List Conn) :
    ∀ s : ComPol_MatCreateOverlap,
      (applyConnections p cs s).m_algIDHash = s.m_algIDHash ∧
      (applyConnections p cs s).m_globalIDs = s.m_globalIDs ∧
      (applyConnections p cs s).m_mat.numRows = s.m_mat.numRows ∧
      (applyConnections p cs s).m_mat.numCols = s.m_mat.numCols ∧
      (applyConnections p cs s).m_mat.layouts = s.m_mat.layouts := by
  induction cs with
  | nil => intro s; simp [applyConnections]
  | cons c rest ih =>
    intro s
    rw [applyConnections_cons]
    obtain ⟨h1, h2, h3, h4, h5⟩ := ih (extractConnection c.index p c.gID c.block s)
    obtain ⟨f1, f2, f3, f4, f5⟩ := extractConnection_frame c.index p c.gID c.block s
    exact ⟨h1.trans f1, h2.trans f2, h3.trans f3, h4.trans f4, h5.trans f5⟩

theorem extractConnection_known (i p : Nat) (g : AlgebraID) (v : block_t)
    (t : ComPol_MatCreateOverlap) (k : Nat) (hk : t.m_algIDHash.get_entry g = some k) :
    extractConnection i p g v t = { t with m_mat := t.m_mat.addTo i k v } := by
  simp [extractConnection, hk]

theorem extractConnection_unknown (i p : Nat) (g : AlgebraID) (v : block_t)
    (t : ComPol_MatCreateOverlap) (hk : t.m_algIDHash.get_entry g = none) :
    extractConnection i p g v t =
      { t with
        m_recvNewCons := mapAssign ⟨i, t.m_globalIDs.getD i default, g, p⟩ v t.m_recvNewCons
        m_recvNewIDs := setInsert g t.m_recvNewIDs } := by
  simp [extractConnection, hk]

/-! ## Sequences of extract calls as a fold -/

theorem applyReceived_append (rc1 rc2 : List (Nat × Conn)) (s : ComPol_MatCreateOverlap) :
    applyReceived (rc1 ++ rc2) s = applyReceived rc2 (applyReceived rc1 s) := by
  simp [applyReceived, List.foldl_append]

theorem applyReceived_map (p : Nat) (cs : List Conn) :
    ∀ s : ComPol_MatCreateOverlap,
      applyReceived (cs.map (fun c => (p, c))) s = applyConnections p cs s := by
  induction cs with
  | nil => intro s; rfl
  | cons c rest ih =>
    intro s
    simp only [List.map_cons, applyConnections_cons]
    rw [← ih]
    rfl

theorem extractCalls_eq :
    ∀ (calls : List (BinaryBuffer × Interface)) (s : ComPol_MatCreateOverlap),
      extractCalls calls s =
        match readCalls calls with
        | some rc => .ok (applyReceived rc s)
        | none => .error .badBuffer := by
  intro calls
  induction calls with
  | nil => intro s; rfl
  | cons call rest ih =>
    intro s
    obtain ⟨buff, itf⟩ := call
    simp only [extractCalls, readCalls, ComPol_MatCreateOverlap.extract]
    rw [extractRows_eq]
    cases hr : readRows itf.elems buff with
    | none => rfl
    | some r =>
      obtain ⟨cs, buff1⟩ := r
      simp only
      rw [ih]
      cases hr2 : readCalls rest with
      | none => rfl
      | some rc =>
        simp only [applyReceived_append, applyReceived_map]

theorem applyReceived_frame (rc : List (Nat × Conn)) :
    ∀ s : ComPol_MatCreateOverlap,
      (applyReceived rc s).m_algIDHash = s.m_algIDHash ∧
      (applyReceived rc s).m_globalIDs = s.m_globalIDs ∧
      (applyReceived rc s).m_mat.numRows = s.m_mat.numRows ∧
      (applyReceived rc s).m_mat.numCols = s.m_mat.numCols ∧
      (applyReceived rc s).m_mat.layouts = s.m_mat.layouts := by
  induction rc with
  | nil => intro s; simp [applyReceived]
  | cons x rest ih =>
    intro s
    obtain ⟨h1, h2, h3, h4, h5⟩ := ih (extractConnection x.2.index x.1 x.2.gID x.2.block s)
    obtain ⟨f1, f2, f3, f4, f5⟩ := extractConnection_frame x.2.index x.1 x.2.gID x.2.block s
    exact ⟨h1.trans f1, h2.trans f2, h3.trans f3, h4.trans f4, h5.trans f5⟩

/-! ## The set of new IDs -/

theorem setInsert_sorted (g : AlgebraID) (l : List AlgebraID)
    (h : l.Pairwise (fun a b => a.lt b = true)) :
    (setInsert g l).Pairwise (fun a b => a.lt b = true) := by
  induction l with
  | nil => simp [setInsert]
  | cons x rest ih =>
    rw [List.pairwise_cons] at h
    unfold setInsert
    by_cases h1 : g.lt x = true
    · rw [if_pos h1]
      refine List.pairwise_cons.mpr ⟨?_, List.pairwise_cons.mpr h⟩
      intro y hy
      rcases List.mem_cons.mp hy with hy | hy
      · rw [hy]; exact h1
      · exact algebraID_lt_trans h1 (h.1 y hy)
    · rw [if_neg h1]
      by_cases h2 : x.lt g = true
      · rw [if_pos h2]
        refine List.pairwise_cons.mpr ⟨?_, ih h.2⟩
        intro y hy
        rcases (mem_setInsert g y rest).mp hy with hy | hy
        · rw [hy]; exact h2
        · exact h.1 y hy
      · rw [if_neg h2]
        exact List.pairwise_cons.mpr h

theorem sorted_nodup (l : List AlgebraID) (h : l.Pairwise (fun a b => a.lt b = true)) :
    l.Nodup := by
  refine List.Pairwise.imp ?_ h
  intro a b hab heq
  rw [heq, algebraID_lt_irrefl] at hab
  cases hab

theorem extractConnection_newIDs (i p : Nat) (g : AlgebraID) (v : block_t)
    (s : ComPol_MatCreateOverlap) :
    (extractConnection i p g v s).m_recvNewIDs =
      if (s.m_algIDHash.get_entry g).isNone then setInsert g s.m_recvNewIDs
      else s.m_recvNewIDs := by
  unfold extractConnection
  cases s.m_algIDHash.get_entry g <;> simp

theorem applyReceived_newIDs_sorted (rc : List (Nat × Conn)) :
    ∀ s : ComPol_MatCreateOverlap,
      s.m_recvNewIDs.Pairwise (fun a b => a.lt b = true) →
      (applyReceived rc s).m_recvNewIDs.Pairwise (fun a b => a.lt b = true) := by
  induction rc with
  | nil => intro s h; exact h
  | cons x rest ih =>
    intro s h
    apply ih (extractConnection x.2.index x.1 x.2.gID x.2.block s)
    rw [extractConnection_newIDs]
    split
    · exact setInsert_sorted _ _ h
    · exact h

theorem applyReceived_newIDs_mem (rc : List (Nat × Conn)) :
    ∀ (s : ComPol_MatCreateOverlap) (g : AlgebraID),
      g ∈ (applyReceived rc s).m_recvNewIDs ↔
        g ∈ s.m_recvNewIDs ∨ g ∈ unresolvedIDs s.m_algIDHash rc := by
  induction rc with
  | nil => intro s g; simp [applyReceived, unresolvedIDs]
  | cons x rest ih =>
    intro s g
    have hstep : applyReceived (x :: rest) s =
        applyReceived rest (extractConnection x.2.index x.1 x.2.gID x.2.block s) := rfl
    rw [hstep, ih, (extractConnection_frame x.2.index x.1 x.2.gID x.2.block s).1,
      extractConnection_newIDs]
    unfold unresolvedIDs
    by_cases hx : (s.m_algIDHash.get_entry x.2.gID).isNone = true
    · simp only [hx, if_true, mem_setInsert, List.filter_cons, List.map_cons, List.mem_cons]
      tauto
    · simp only [hx, List.filter_cons]
      simp

/-! ## Dimensions through post_process -/

theorem sameShape_refl (m : Matrix) : m.sameShape m := ⟨rfl, rfl, rfl⟩

theorem sameShape_trans {a b c : Matrix} (h1 : a.sameShape b) (h2 : b.sameShape c) :
    a.sameShape c :=
  ⟨h2.1.trans h1.1, h2.2.1.trans h1.2.1, h2.2.2.trans h1.2.2⟩

theorem sameShape_modify (m : Matrix) (i k : Nat) (f : block_t → block_t) :
    m.sameShape (m.modify i k f) := ⟨rfl, rfl, rfl⟩

theorem sameShape_addTo (m : Matrix) (i k : Nat) (v : block_t) :
    m.sameShape (m.addTo i k v) := ⟨rfl, rfl, rfl⟩

theorem sameShape_assign (m : Matrix) (i k : Nat) (v : block_t) :
    m.sameShape (m.assign i k v) := ⟨rfl, rfl, rfl⟩

theorem sameShape_SetDirichletRow (m : Matrix) (i : Nat) :
    m.sameShape (SetDirichletRow m i) := ⟨rfl, rfl, rfl⟩

theorem sameShape_setDirichletRows (n : Nat) :
    ∀ (m : Matrix) (i : Nat), m.sameShape (setDirichletRows m i n) := by
  induction n with
  | zero => intro m i; exact sameShape_refl m
  | succ n ih =>
    intro m i
    exact sameShape_trans (sameShape_SetDirichletRow m i) (ih _ _)

theorem post_process_newIDs_shape (s : ComPol_MatCreateOverlap) :
    (post_process_newIDs s).m_mat.numRows = s.m_mat.numRows + s.m_recvNewIDs.length ∧
    (post_process_newIDs s).m_mat.numCols =
      (if s.m_recvNewIDs.length = 0 then s.m_mat.numCols
       else s.m_mat.numRows + s.m_recvNewIDs.length) ∧
    (post_process_newIDs s).m_mat.layouts = s.m_mat.layouts := by
  unfold post_process_newIDs
  by_cases hn : s.m_recvNewIDs.length = 0
  · simp [hn]
  · have hne : s.m_mat.numRows + s.m_recvNewIDs.length ≠ s.m_mat.numRows := by omega
    simp only [hn, if_false, ne_eq, hne, not_false_eq_true, if_true]
    obtain ⟨h1, h2, h3⟩ := sameShape_setDirichletRows s.m_recvNewIDs.length
      (s.m_mat.resize_and_keep_values (s.m_mat.numRows + s.m_recvNewIDs.length)
        (s.m_mat.numRows + s.m_recvNewIDs.length)) s.m_mat.numRows
    exact ⟨h1, h2, h3⟩

theorem masterOverlapEnter_mat (numNewInds : Nat) (slaveProcs : List Nat) (st st' : MasterLoop)
    (p : Nat) (h : masterOverlapEnter numNewInds slaveProcs st p = .ok st') :
    st'.mat = st.mat ∧ st'.sendBuf = st.sendBuf ∧
      st'.msgSizeForSlaveProcs = st.msgSizeForSlaveProcs := by
  unfold masterOverlapEnter at h
  split at h
  · simp only [Except.ok.injEq] at h; rw [← h]; exact ⟨rfl, rfl, rfl⟩
  · split at h
    · cases h
    · simp only [Except.ok.injEq] at h; rw [← h]; exact ⟨rfl, rfl, rfl⟩

theorem masterOverlapAdd_mat (oldSize : Nat) (st : MasterLoop) (ec : ExtCon) (v : block_t)
    (toInd : Nat) :
    (masterOverlapAdd oldSize st ec v toInd).mat = st.mat.addTo ec.fromInd toInd v := by
  unfold masterOverlapAdd
  split <;> rfl

theorem masterOverlapStep_shape (hash : AlgebraIDHashList) (oldSize numNewInds : Nat)
    (slaveProcs : List Nat) (st st' : MasterLoop) (e : ExtCon × block_t)
    (h : masterOverlapStep hash oldSize numNewInds slaveProcs st e = .ok st') :
    st.mat.sameShape st'.mat := by
  unfold masterOverlapStep at h
  cases he : masterOverlapEnter numNewInds slaveProcs st e.1.conProc with
  | error err => rw [he] at h; cases h
  | ok st1 =>
    rw [he] at h
    simp only at h
    cases hg : hash.get_entry e.1.toID with
    | none => rw [hg] at h; cases h
    | some toInd =>
      rw [hg] at h
      simp only [Except.ok.injEq] at h
      rw [← h, masterOverlapAdd_mat, (masterOverlapEnter_mat _ _ _ _ _ he).1]
      exact sameShape_addTo _ _ _ _

theorem masterOverlapLoop_shape (hash : AlgebraIDHashList) (oldSize numNewInds : Nat)
    (slaveProcs : List Nat) (cons : List (ExtCon × block_t)) :
    ∀ (st st' : MasterLoop),
      masterOverlapLoop hash oldSize numNewInds slaveProcs st cons = .ok st' →
      st.mat.sameShape st'.mat := by
  induction cons with
  | nil =>
    intro st st' h
    simp only [masterOverlapLoop, Except.ok.injEq] at h
    rw [h]; exact sameShape_refl _
  | cons e rest ih =>
    intro st st' h
    simp only [masterOverlapLoop] at h
    cases hs : masterOverlapStep hash oldSize numNewInds slaveProcs st e with
    | error err => rw [hs] at h; cases h
    | ok st1 =>
      rw [hs] at h
      exact sameShape_trans (masterOverlapStep_shape _ _ _ _ _ _ _ hs) (ih st1 st' h)

theorem post_process_master_frame (store : LayoutStore) (s : ComPol_MatCreateOverlap)
    (r : MasterResult) (h : post_process_master store s = .ok r) :
    r.pol.m_globalIDs = s.m_globalIDs ++ s.m_recvNewIDs ∧
    r.pol.m_algIDHash = hashInsertFrom s.m_algIDHash s.m_recvNewIDs s.m_mat.numRows ∧
    r.pol.m_recvNewIDs = s.m_recvNewIDs ∧
    r.pol.m_recvNewCons = s.m_recvNewCons ∧
    r.pol.m_mat.numRows = s.m_mat.numRows + s.m_recvNewIDs.length ∧
    r.pol.m_mat.numCols =
      (if s.m_recvNewIDs.length = 0 then s.m_mat.numCols
       else s.m_mat.numRows + s.m_recvNewIDs.length) ∧
    r.pol.m_mat.layouts = store.length := by
  unfold post_process_master post_process_masterOverlap at h
  simp only [post_process_newLayout] at h
  split at h
  · cases h
  · rename_i fin hloop
    simp only [Except.ok.injEq] at h
    have hsh := masterOverlapLoop_shape _ _ _ _ _ _ _ hloop
    simp only at hsh
    obtain ⟨n1, n2, n3⟩ := post_process_newIDs_shape
      { s with m_mat := { s.m_mat with layouts := store.length } }
    rw [← h]
    refine ⟨rfl, rfl, rfl, rfl, ?_, ?_, ?_⟩
    · exact hsh.1.trans n1
    · exact hsh.2.1.trans n2
    · exact hsh.2.2.trans n3

theorem receive_data_invariant {σ : Type}
    (extract : σ → BinaryBuffer → Interface → Except Fault (BinaryBuffer × σ))
    (P : σ → Prop)
    (hstep : ∀ s buff itf r, P s → extract s buff itf = .ok r → P r.2)
    (inbox : Nat → BinaryBuffer) :
    ∀ (layout : IndexLayout) (s s' : σ),
      P s → receive_data extract inbox layout s = .ok s' → P s' := by
  intro layout
  induction layout with
  | nil =>
    intro s s' hP h
    simp only [receive_data, Except.ok.injEq] at h
    rw [← h]; exact hP
  | cons itf rest ih =>
    intro s s' hP h
    simp only [receive_data] at h
    cases he : extract s (inbox itf.targetProc) itf with
    | error err => rw [he] at h; cases h
    | ok r =>
      rw [he] at h
      exact ih r.2 s' (hstep s _ itf r hP he) h

theorem copyRowConnections_shape (m0 : Matrix) (index : Nat) :
    ∀ (n : Nat) (buff : BinaryBuffer) (s : ComPol_MatCopyRowsOverlap0)
      (r : BinaryBuffer × ComPol_MatCopyRowsOverlap0),
      m0.sameShape s.m_mat → copyRowConnections index n buff s = .ok r →
      m0.sameShape r.2.m_mat := by
  intro n
  induction n with
  | zero =>
    intro buff s r hs h
    simp only [copyRowConnections, Except.ok.injEq] at h
    rw [← h]; exact hs
  | succ n ih =>
    intro buff s r hs h
    match buff with
    | [] => simp [copyRowConnections] at h
    | [_] => simp [copyRowConnections] at h
    | .sizeT _ :: _ :: _ => simp [copyRowConnections] at h
    | .block _ :: _ :: _ => simp [copyRowConnections] at h
    | .algID _ :: .sizeT _ :: _ => simp [copyRowConnections] at h
    | .algID _ :: .algID _ :: _ => simp [copyRowConnections] at h
    | .algID g :: .block v :: buff1 =>
      simp only [copyRowConnections] at h
      cases hg : s.m_algIDHash.get_entry g with
      | none =>
        rw [hg] at h
        exact ih buff1 s r hs h
      | some conInd =>
        rw [hg] at h
        simp only at h
        exact ih buff1 { s with m_mat := s.m_mat.assign index conInd v } r
          (sameShape_trans hs (sameShape_assign s.m_mat index conInd v)) h

theorem copyRowsExtract_shape (m0 : Matrix) :
    ∀ (idxs : List Nat) (buff : BinaryBuffer) (s : ComPol_MatCopyRowsOverlap0)
      (r : BinaryBuffer × ComPol_MatCopyRowsOverlap0),
      m0.sameShape s.m_mat → copyRowsExtract idxs buff s = .ok r →
      m0.sameShape r.2.m_mat := by
  intro idxs
  induction idxs with
  | nil =>
    intro buff s r hs h
    simp only [copyRowsExtract, Except.ok.injEq] at h
    rw [← h]; exact hs
  | cons index rest ih =>
    intro buff s r hs h
    match buff with
    | [] => simp [copyRowsExtract] at h
    | .algID _ :: _ => simp [copyRowsExtract] at h
    | .block _ :: _ => simp [copyRowsExtract] at h
    | .sizeT n :: buff1 =>
      simp only [copyRowsExtract] at h
      cases hc : copyRowConnections index n buff1 s with
      | error err => rw [hc] at h; cases h
      | ok r1 =>
        rw [hc] at h
        exact ih r1.1 r1.2 r (copyRowConnections_shape m0 index n buff1 s r1 hs hc) h

theorem copyDiagExtract_shape (m0 : Matrix) :
    ∀ (idxs : List Nat) (buff : BinaryBuffer) (mat : Matrix) (r : BinaryBuffer × Matrix),
      m0.sameShape mat → copyDiagExtract idxs buff mat = .ok r → m0.sameShape r.2 := by
  intro idxs
  induction idxs with
  | nil =>
    intro buff mat r hs h
    simp only [copyDiagExtract, Except.ok.injEq] at h
    rw [← h]; exact hs
  | cons index rest ih =>
    intro buff mat r hs h
    match buff with
    | [] => simp [copyDiagExtract] at h
    | .algID _ :: _ => simp [copyDiagExtract] at h
    | .sizeT _ :: _ => simp [copyDiagExtract] at h
    | .block v :: buff1 =>
      simp only [copyDiagExtract] at h
      exact ih buff1 _ r (sameShape_trans hs (sameShape_assign _ _ _ _)) h

theorem touchDiag_shape (idxs : List Nat) : ∀ mat : Matrix, mat.sameShape (touchDiag mat idxs) := by
  induction idxs with
  | nil => intro mat; exact sameShape_refl mat
  | cons index rest ih =>
    intro mat
    exact sameShape_trans (sameShape_modify mat index index _) (ih _)

theorem post_process_rows_shape (store : LayoutStore) (s : ComPol_MatCreateOverlap)
    (rows : Nat → BinaryBuffer) (copied : Matrix)
    (h : post_process_rows store s rows = .ok copied) : s.m_mat.sameShape copied := by
  unfold post_process_rows at h
  simp only at h
  split at h
  · cases h
  · rename_i cp hrows
    simp only [Except.ok.injEq] at h
    rw [← h]
    exact receive_data_invariant ComPol_MatCopyRowsOverlap0.extract
      (fun t => s.m_mat.sameShape t.m_mat)
      (fun t buff itf r ht hr => copyRowsExtract_shape s.m_mat itf.elems buff t r ht hr)
      rows _ _ cp (sameShape_refl _) hrows

theorem post_process_consistency_frame (store : LayoutStore) (s s' : ComPol_MatCreateOverlap)
    (rows diag : Nat → BinaryBuffer)
    (h : post_process_consistency store s rows diag = .ok s') :
    s'.m_globalIDs = s.m_globalIDs ∧ s'.m_algIDHash = s.m_algIDHash ∧
    s'.m_recvNewIDs = s.m_recvNewIDs ∧ s'.m_recvNewCons = s.m_recvNewCons ∧
    s.m_mat.sameShape s'.m_mat := by
  unfold post_process_consistency at h
  simp only at h
  split at h
  · cases h
  · rename_i copied hrows
    split at h
    · cases h
    · rename_i mat hdiag
      simp only [Except.ok.injEq] at h
      rw [← h]
      refine ⟨rfl, rfl, rfl, rfl, ?_⟩
      have h1 : s.m_mat.sameShape copied := post_process_rows_shape store s rows copied hrows
      have h2 : s.m_mat.sameShape (touchDiag copied
          (List.map (fun itf => itf.elems) (List.getD store s.m_mat.layouts
            ⟨[], [], [], [], false⟩).slaveOverlap).flatten) :=
        sameShape_trans h1 (touchDiag_shape _ copied)
      exact receive_data_invariant ComPol_MatCopyDiag.extract
          (fun t => s.m_mat.sameShape t)
          (fun t buff itf r ht hr => copyDiagExtract_shape s.m_mat itf.elems buff t r ht hr)
          diag _ _ mat h2 hdiag

theorem post_process_frame (store store' : LayoutStore) (s s' : ComPol_MatCreateOverlap)
    (net : Delivered) (h : s.post_process store net = .ok (store', s')) :
    s'.m_globalIDs = s.m_globalIDs ++ s.m_recvNewIDs ∧
    s'.m_algIDHash = hashInsertFrom s.m_algIDHash s.m_recvNewIDs s.m_mat.numRows ∧
    s'.m_mat.numRows = s.m_mat.numRows + s.m_recvNewIDs.length ∧
    s'.m_mat.numCols =
      (if s.m_recvNewIDs.length = 0 then s.m_mat.numCols
       else s.m_mat.numRows + s.m_recvNewIDs.length) ∧
    s'.m_mat.layouts = store.length := by
  unfold ComPol_MatCreateOverlap.post_process at h
  cases hm : post_process_master store s with
  | error err => rw [hm] at h; cases h
  | ok r =>
    rw [hm] at h
    simp only at h
    cases hsl : post_process_slaveOverlap r.store r.pol net.recvBuf net.recvSizes with
    | error err => rw [hsl] at h; cases h
    | ok store2 =>
      rw [hsl] at h
      simp only at h
      cases hc : post_process_consistency store2 r.pol net.rows net.diag with
      | error err => rw [hc] at h; cases h
      | ok s2 =>
        rw [hc] at h
        simp only [Except.ok.injEq, Prod.mk.injEq] at h
        obtain ⟨_, hs2⟩ := h
        subst hs2
        obtain ⟨m1, m2, _, _, m5, m6, m7⟩ := post_process_master_frame store s r hm
        obtain ⟨c1, c2, _, _, c5⟩ := post_process_consistency_frame _ _ _ _ _ hc
        exact ⟨c1.trans m1, c2.trans m2, c5.1.trans m5, c5.2.1.trans m6, c5.2.2.trans m7⟩

theorem new_ok (mat : Matrix) (gids : List AlgebraID) (s0 : ComPol_MatCreateOverlap)
    (h0 : ComPol_MatCreateOverlap.new mat gids = .ok s0) :
    s0 = ⟨mat, gids, GenerateAlgebraIDHashList gids, [], []⟩ ∧ mat.numRows ≤ gids.length := by
  unfold ComPol_MatCreateOverlap.new at h0
  split at h0
  · cases h0
  · simp only [Except.ok.injEq] at h0
    exact ⟨h0.symm, by omega⟩

theorem length_eq_dedup_length (l1 l2 : List AlgebraID) (hn : l1.Nodup)
    (hm : ∀ g, g ∈ l1 ↔ g ∈ l2) : l1.length = l2.dedup.length := by
  apply List.Perm.length_eq
  rw [List.perm_ext_iff_of_nodup hn (List.nodup_dedup l2)]
  intro g
  rw [hm g, List.mem_dedup]

/-! ## C3 -/

/-- C3: let a policy be constructed for `mat` and `gids`, let it run any sequence of
`extract` calls and then `post_process`.  With `newIDs` the newly discovered GlobalIDs
(pairwise distinct, exactly the received GlobalIDs that did not resolve, so `n`, their
number, is the number of distinct unresolved GlobalIDs), the GlobalID array becomes
`gids ++ newIDs`, the matrix has `numRows + n` rows, and its number of columns is
unchanged when `n = 0` and `numRows + n` otherwise (so a square matrix goes from
`oldRows x oldRows` to `(oldRows+n) x (oldRows+n)`); when `n = 0` the resizing step leaves
the matrix as it is. -/
theorem post_process_appends_rows (store store' : LayoutStore) (mat : Matrix)
    (gids : List AlgebraID) (calls : List (BinaryBuffer × Interface)) (net : Delivered)
    (s0 s1 s2 : ComPol_MatCreateOverlap)
    (h0 : ComPol_MatCreateOverlap.new mat gids = .ok s0)
    (h1 : extractCalls calls s0 = .ok s1)
    (h2 : s1.post_process store net = .ok (store', s2)) :
    ∃ rc : List (Nat × Conn), readCalls calls = some rc ∧
      ∃ newIDs : List AlgebraID,
        newIDs.Nodup ∧
        (∀ g, g ∈ newIDs ↔ g ∈ unresolvedIDs (GenerateAlgebraIDHashList gids) rc) ∧
        newIDs.length = (unresolvedIDs (GenerateAlgebraIDHashList gids) rc).dedup.length ∧
        s2.m_globalIDs = gids ++ newIDs ∧
        s2.m_mat.numRows = mat.numRows + newIDs.length ∧
        s2.m_mat.numCols =
          (if newIDs.length = 0 then mat.numCols else mat.numRows + newIDs.length) ∧
        (mat.numCols = mat.numRows → s2.m_mat.numCols = mat.numRows + newIDs.length) ∧
        (newIDs.length = 0 → (post_process_newIDs s1).m_mat = s1.m_mat) := by
  obtain ⟨hs0, _⟩ := new_ok mat gids s0 h0
  rw [extractCalls_eq] at h1
  cases hr : readCalls calls with
  | none => rw [hr] at h1; cases h1
  | some rc =>
    rw [hr] at h1
    simp only [Except.ok.injEq] at h1
    have hfr := applyReceived_frame rc s0
    rw [h1] at hfr
    obtain ⟨f1, f2, f3, f4, _⟩ := hfr
    have hsorted : s1.m_recvNewIDs.Pairwise (fun a b => a.lt b = true) := by
      rw [← h1]
      apply applyReceived_newIDs_sorted
      rw [hs0]
      exact List.Pairwise.nil
    have hmem : ∀ g, g ∈ s1.m_recvNewIDs ↔
        g ∈ unresolvedIDs (GenerateAlgebraIDHashList gids) rc := by
      intro g
      rw [← h1, applyReceived_newIDs_mem, hs0]
      simp
    obtain ⟨p1, _, p3, p4, _⟩ := post_process_frame store store' s1 s2 net h2
    have hg : s1.m_globalIDs = gids := by rw [f2, hs0]
    have hr1 : s1.m_mat.numRows = mat.numRows := by rw [f3, hs0]
    have hc1 : s1.m_mat.numCols = mat.numCols := by rw [f4, hs0]
    refine ⟨rc, rfl, s1.m_recvNewIDs, sorted_nodup _ hsorted, hmem,
      length_eq_dedup_length _ _ (sorted_nodup _ hsorted) hmem, ?_, ?_, ?_, ?_, ?_⟩
    · rw [p1, hg]
    · rw [p3, hr1]
    · rw [p4, hr1, hc1]
    · intro hsq
      rw [p4, hr1, hc1]
      split
      · omega
      · rfl
    · intro hn
      unfold post_process_newIDs
      simp [hn]

/-- Witness for C3: in the example one GlobalID, (1,0), does not resolve; the matrix
grows from 2 x 2 to 3 x 3 and the GlobalID array gets (1,0) as its third entry. -/
theorem post_process_appends_rows_witness :
    ComPol_MatCreateOverlap.new exMat [⟨0, 0⟩, ⟨0, 1⟩] = .ok exPol ∧
    extractCalls [(exBuff, exItf)] exPol = .ok exPol1 ∧
    exPol1.post_process exStore exNet = .ok exPost ∧
    exPost.2.m_globalIDs = [⟨0, 0⟩, ⟨0, 1⟩, ⟨1, 0⟩] ∧
    exPost.2.m_mat.numRows = 3 ∧ exPost.2.m_mat.numCols = 3 ∧
    ∃ rc : List (Nat × Conn), readCalls [(exBuff, exItf)] = some rc ∧
      ∃ newIDs : List AlgebraID,
        newIDs.Nodup ∧
        (∀ g, g ∈ newIDs ↔
          g ∈ unresolvedIDs (GenerateAlgebraIDHashList [⟨0, 0⟩, ⟨0, 1⟩]) rc) ∧
        newIDs.length =
          (unresolvedIDs (GenerateAlgebraIDHashList [⟨0, 0⟩, ⟨0, 1⟩]) rc).dedup.length ∧
        exPost.2.m_globalIDs = [⟨0, 0⟩, ⟨0, 1⟩] ++ newIDs ∧
        exPost.2.m_mat.numRows = exMat.numRows + newIDs.length ∧
        exPost.2.m_mat.numCols =
          (if newIDs.length = 0 then exMat.numCols else exMat.numRows + newIDs.length) ∧
        (exMat.numCols = exMat.numRows →
          exPost.2.m_mat.numCols = exMat.numRows + newIDs.length) ∧
        (newIDs.length = 0 → (post_process_newIDs exPol1).m_mat = exPol1.m_mat) :=
  ⟨rfl, rfl, rfl, rfl, rfl, rfl,
    post_process_appends_rows exStore exPost.1 exMat [⟨0, 0⟩, ⟨0, 1⟩] [(exBuff, exItf)] exNet
      exPol exPol1 exPost.2 rfl rfl rfl⟩

/-! ## The GlobalID hash -/

theorem get_entry_append (h1 h2 : AlgebraIDHashList) (g : AlgebraID) :
    AlgebraIDHashList.get_entry (h1 ++ h2) g =
      match AlgebraIDHashList.get_entry h1 g with
      | some i => some i
      | none => AlgebraIDHashList.get_entry h2 g := by
  induction h1 with
  | nil => rfl
  | cons e rest ih =>
    obtain ⟨x, i⟩ := e
    by_cases hx : x = g
    · simp [AlgebraIDHashList.get_entry, hx]
    · simp only [List.cons_append, AlgebraIDHashList.get_entry, hx, if_false]
      exact ih

theorem get_entry_hashInsertFrom (ids : List AlgebraID) :
    ∀ (h : AlgebraIDHashList) (start : Nat) (g : AlgebraID),
      AlgebraIDHashList.get_entry (hashInsertFrom h ids start) g =
        match AlgebraIDHashList.get_entry h g with
        | some i => some i
        | none => AlgebraIDHashList.get_entry (hashInsertFrom [] ids start) g := by
  induction ids with
  | nil =>
    intro h start g
    simp only [hashInsertFrom]
    cases AlgebraIDHashList.get_entry h g <;> rfl
  | cons x rest ih =>
    intro h start g
    simp only [hashInsertFrom, AlgebraIDHashList.insert]
    rw [ih (h ++ [(x, start)]), ih ([] ++ [(x, start)]), get_entry_append]
    cases AlgebraIDHashList.get_entry h g with
    | some i => rfl
    | none => rfl

theorem get_entry_hashInsertFrom_nil_cons (x : AlgebraID) (rest : List AlgebraID) (start : Nat)
    (g : AlgebraID) :
    AlgebraIDHashList.get_entry (hashInsertFrom [] (x :: rest) start) g =
      if x = g then some start
      else AlgebraIDHashList.get_entry (hashInsertFrom [] rest (start + 1)) g := by
  simp only [hashInsertFrom, AlgebraIDHashList.insert]
  rw [get_entry_hashInsertFrom]
  by_cases hx : x = g
  · simp [AlgebraIDHashList.get_entry, hx]
  · simp [AlgebraIDHashList.get_entry, hx]

theorem get_entry_none_of_not_mem (ids : List AlgebraID) :
    ∀ (start : Nat) (g : AlgebraID), g ∉ ids →
      AlgebraIDHashList.get_entry (hashInsertFrom [] ids start) g = none := by
  induction ids with
  | nil => intro start g _; rfl
  | cons x rest ih =>
    intro start g hg
    rw [get_entry_hashInsertFrom_nil_cons]
    have hx : ¬ x = g := fun e => hg (by rw [e]; exact List.mem_cons_self _ _)
    rw [if_neg hx]
    exact ih _ _ (fun hm => hg (List.mem_cons_of_mem _ hm))

theorem not_mem_of_get_entry_none (ids : List AlgebraID) :
    ∀ (start : Nat) (g : AlgebraID),
      AlgebraIDHashList.get_entry (hashInsertFrom [] ids start) g = none → g ∉ ids := by
  induction ids with
  | nil => intro start g _; simp
  | cons x rest ih =>
    intro start g hg
    rw [get_entry_hashInsertFrom_nil_cons] at hg
    by_cases hx : x = g
    · rw [if_pos hx] at hg; cases hg
    · rw [if_neg hx] at hg
      intro hm
      rcases List.mem_cons.mp hm with hm | hm
      · exact hx hm.symm
      · exact ih _ _ hg hm

theorem get_entry_of_nodup (ids : List AlgebraID) :
    ∀ (start j : Nat) (g : AlgebraID), ids.Nodup → ids[j]? = some g →
      AlgebraIDHashList.get_entry (hashInsertFrom [] ids start) g = some (start + j) := by
  induction ids with
  | nil => intro start j g _ hj; simp at hj
  | cons x rest ih =>
    intro start j g hn hj
    rw [get_entry_hashInsertFrom_nil_cons]
    rw [List.nodup_cons] at hn
    cases j with
    | zero =>
      simp only [List.getElem?_cons_zero, Option.some.injEq] at hj
      simp [hj]
    | succ j =>
      simp only [List.getElem?_cons_succ] at hj
      have hmem : g ∈ rest := List.getElem?_mem hj
      have hx : ¬ x = g := fun e => hn.1 (by rw [e]; exact hmem)
      rw [if_neg hx, ih (start + 1) j g hn.2 hj]
      congr 1
      omega

/-! ## C5 -/

/-- C5: if the GlobalID array handed to the constructor has exactly `numRows` pairwise
distinct entries, then after any sequence of `extract` calls followed by `post_process`
the GlobalID hash maps every entry of the extended array back to its own index, and no
two distinct indices of the extended array share a GlobalID. -/
theorem globalID_uniqueness_preserved (store store' : LayoutStore) (mat : Matrix)
    (gids : List AlgebraID) (calls : List (BinaryBuffer × Interface)) (net : Delivered)
    (s0 s1 s2 : ComPol_MatCreateOverlap)
    (hlen : gids.length = mat.numRows) (hnodup : gids.Nodup)
    (h0 : ComPol_MatCreateOverlap.new mat gids = .ok s0)
    (h1 : extractCalls calls s0 = .ok s1)
    (h2 : s1.post_process store net = .ok (store', s2)) :
    (∀ (j : Nat) (g : AlgebraID), s2.m_globalIDs[j]? = some g →
      s2.m_algIDHash.get_entry g = some j) ∧
    (∀ (i j : Nat) (g : AlgebraID), s2.m_globalIDs[i]? = some g →
      s2.m_globalIDs[j]? = some g → i = j) ∧
    s2.m_globalIDs.Nodup ∧
    s2.m_globalIDs.length = s2.m_mat.numRows := by
  obtain ⟨hs0, _⟩ := new_ok mat gids s0 h0
  rw [extractCalls_eq] at h1
  cases hr : readCalls calls with
  | none => rw [hr] at h1; cases h1
  | some rc =>
    rw [hr] at h1
    simp only [Except.ok.injEq] at h1
    have hfr := applyReceived_frame rc s0
    rw [h1] at hfr
    obtain ⟨f1, f2, f3, _, _⟩ := hfr
    have hsorted : s1.m_recvNewIDs.Pairwise (fun a b => a.lt b = true) := by
      rw [← h1]
      apply applyReceived_newIDs_sorted
      rw [hs0]
      exact List.Pairwise.nil
    have hnew : ∀ g, g ∈ s1.m_recvNewIDs → g ∉ gids := by
      intro g hg
      rw [← h1, applyReceived_newIDs_mem, hs0] at hg
      simp only [List.not_mem_nil, false_or] at hg
      unfold unresolvedIDs at hg
      simp only [List.mem_map, List.mem_filter, Option.isNone_iff_eq_none] at hg
      obtain ⟨x, ⟨_, hx⟩, hxg⟩ := hg
      rw [hxg] at hx
      exact not_mem_of_get_entry_none gids 0 g hx
    obtain ⟨p1, p2, p3, _, _⟩ := post_process_frame store store' s1 s2 net h2
    have hg : s1.m_globalIDs = gids := by rw [f2, hs0]
    have hh : s1.m_algIDHash = GenerateAlgebraIDHashList gids := by rw [f1, hs0]
    have hr1 : s1.m_mat.numRows = mat.numRows := by rw [f3, hs0]
    rw [hg] at p1
    rw [hh, hr1] at p2
    have hhash : ∀ (j : Nat) (g : AlgebraID), s2.m_globalIDs[j]? = some g →
        s2.m_algIDHash.get_entry g = some j := by
      intro j g hj
      rw [p1] at hj
      rw [p2, get_entry_hashInsertFrom]
      by_cases hjl : j < gids.length
      · rw [List.getElem?_append_left hjl] at hj
        have := get_entry_of_nodup gids 0 j g hnodup hj
        unfold GenerateAlgebraIDHashList
        rw [this]
        simp
      · have hjl' : gids.length ≤ j := by omega
        rw [List.getElem?_append_right hjl'] at hj
        have hmem : g ∈ s1.m_recvNewIDs := List.getElem?_mem hj
        have hnone := get_entry_none_of_not_mem gids 0 g (hnew g hmem)
        unfold GenerateAlgebraIDHashList
        rw [hnone]
        simp only
        rw [get_entry_of_nodup s1.m_recvNewIDs mat.numRows (j - gids.length) g
          (sorted_nodup _ hsorted) hj]
        congr 1
        omega
    refine ⟨hhash, ?_, ?_, ?_⟩
    · intro i j g hi hj
      have a := hhash i g hi
      have b := hhash j g hj
      rw [a] at b
      exact Option.some.inj b
    · rw [p1]
      refine List.Nodup.append hnodup (sorted_nodup _ hsorted) ?_
      intro g hg1 hg2
      exact hnew g hg2 hg1
    · rw [p1, p3, hr1, List.length_append, hlen]

/-- Witness for C5: the example array has two distinct GlobalIDs for the two rows; after
`extract` and `post_process` the three GlobalIDs are distinct and the hash maps them to
0, 1 and 2. -/
theorem globalID_uniqueness_preserved_witness :
    ([⟨0, 0⟩, ⟨0, 1⟩] : List AlgebraID).length = exMat.numRows ∧
    ([⟨0, 0⟩, ⟨0, 1⟩] : List AlgebraID).Nodup ∧
    ComPol_MatCreateOverlap.new exMat [⟨0, 0⟩, ⟨0, 1⟩] = .ok exPol ∧
    extractCalls [(exBuff, exItf)] exPol = .ok exPol1 ∧
    exPol1.post_process exStore exNet = .ok exPost ∧
    exPost.2.m_algIDHash.get_entry ⟨1, 0⟩ = some 2 ∧
    (∀ (j : Nat) (g : AlgebraID), exPost.2.m_globalIDs[j]? = some g →
      exPost.2.m_algIDHash.get_entry g = some j) ∧
    (∀ (i j : Nat) (g : AlgebraID), exPost.2.m_globalIDs[i]? = some g →
      exPost.2.m_globalIDs[j]? = some g → i = j) ∧
    exPost.2.m_globalIDs.Nodup ∧
    exPost.2.m_globalIDs.length = exPost.2.m_mat.numRows :=
  ⟨rfl, by decide, rfl, rfl, rfl, rfl,
    globalID_uniqueness_preserved exStore exPost.1 exMat [⟨0, 0⟩, ⟨0, 1⟩] [(exBuff, exItf)]
      exNet exPol exPol1 exPost.2 rfl (by decide) rfl rfl rfl⟩

/-! ## The layout store through post_process -/

theorem getD_append_length (store : LayoutStore) (x d : AlgebraLayouts) :
    (store ++ [x]).getD store.length d = x := by
  simp [List.getD, List.getElem?_append_right]

theorem set_append_length (store : LayoutStore) (x y : AlgebraLayouts) :
    (store ++ [x]).set store.length y = store ++ [y] := by
  induction store with
  | nil => rfl
  | cons a rest ih => simp only [List.cons_append, List.length_cons, List.set_cons_succ, ih]

theorem post_process_master_store (store : LayoutStore) (s : ComPol_MatCreateOverlap)
    (r : MasterResult) (h : post_process_master store s = .ok r) :
    ∃ mo : IndexLayout,
      r.store = store ++
        [{ (store.getD s.m_mat.layouts ⟨[], [], [], [], false⟩) with
            overlapEnabled := true, masterOverlap := mo }] := by
  have hfr := post_process_master_frame store s r h
  unfold post_process_master post_process_masterOverlap at h
  simp only [post_process_newLayout] at h
  split at h
  · cases h
  · rename_i fin hloop
    simp only [Except.ok.injEq] at h
    have hl : (post_process_newIDs
        { s with m_mat := { s.m_mat with layouts := store.length } }).m_mat.layouts =
        store.length := (post_process_newIDs_shape _).2.2
    refine ⟨fin.masterOverlap, ?_⟩
    rw [← h]
    simp only [hl, getD_append_length, set_append_length]

theorem post_process_slaveOverlap_store (store store2 : LayoutStore) (x : AlgebraLayouts)
    (s : ComPol_MatCreateOverlap) (recvBuf : BinaryBuffer) (recvSizes : List Nat)
    (hl : s.m_mat.layouts = store.length)
    (h : post_process_slaveOverlap (store ++ [x]) s recvBuf recvSizes = .ok store2) :
    ∃ so : IndexLayout, store2 = store ++ [{ x with slaveOverlap := so }] := by
  unfold post_process_slaveOverlap at h
  simp only [hl, getD_append_length, set_append_length] at h
  split at h
  · cases h
  · rename_i so _
    simp only [Except.ok.injEq] at h
    exact ⟨so, h.symm⟩

/-! ## C6 -/

/-- C6: `post_process` leaves every layout object of the store as it was, the one the
matrix referred to on entry included.  It allocates one new object, at a new address,
and sets it on the matrix of the policy; the new object has the master and the slave
layout of the original and overlap enabled, and the new master-overlap and slave-overlap
entries are in it: the store after the call is the old store followed by that object.
The old objects are also untouched after the first step (lines 224-230) and after the
master part (lines 224-308), whatever happens later. -/
theorem post_process_clones_layout (store store' : LayoutStore)
    (s s' : ComPol_MatCreateOverlap) (net : Delivered)
    (h : s.post_process store net = .ok (store', s')) :
    (post_process_newLayout store s).1 =
      store ++ [{ (store.getD s.m_mat.layouts ⟨[], [], [], [], false⟩) with
                  overlapEnabled := true }] ∧
    (∀ r, post_process_master store s = .ok r →
      ∀ a, a < store.length → r.store[a]? = store[a]?) ∧
    (∀ a, a < store.length → store'[a]? = store[a]?) ∧
    (s.m_mat.layouts < store.length → store'[s.m_mat.layouts]? = store[s.m_mat.layouts]?) ∧
    s'.m_mat.layouts = store.length ∧
    ∃ copy : AlgebraLayouts,
      store' = store ++ [copy] ∧
      copy.master = (store.getD s.m_mat.layouts ⟨[], [], [], [], false⟩).master ∧
      copy.slave = (store.getD s.m_mat.layouts ⟨[], [], [], [], false⟩).slave ∧
      copy.overlapEnabled = true := by
  have hfr := post_process_frame store store' s s' net h
  unfold ComPol_MatCreateOverlap.post_process at h
  cases hm : post_process_master store s with
  | error err => rw [hm] at h; cases h
  | ok r =>
    rw [hm] at h
    simp only at h
    cases hsl : post_process_slaveOverlap r.store r.pol net.recvBuf net.recvSizes with
    | error err => rw [hsl] at h; cases h
    | ok store2 =>
      rw [hsl] at h
      simp only at h
      cases hc : post_process_consistency store2 r.pol net.rows net.diag with
      | error err => rw [hc] at h; cases h
      | ok s2 =>
        rw [hc] at h
        simp only [Except.ok.injEq, Prod.mk.injEq] at h
        obtain ⟨hst, _⟩ := h
        subst hst
        obtain ⟨mo, hmo⟩ := post_process_master_store store s r hm
        have hl := (post_process_master_frame store s r hm).2.2.2.2.2.2
        rw [hmo] at hsl
        obtain ⟨so, hso⟩ := post_process_slaveOverlap_store store store2 _ r.pol _ _ hl hsl
        have hpre : ∀ a, a < store.length → store2[a]? = store[a]? := by
          intro a ha
          rw [hso, List.getElem?_append_left ha]
        refine ⟨rfl, ?_, hpre, hpre _, hfr.2.2.2.2, _, hso, rfl, rfl, rfl⟩
        intro r' hr' a ha
        obtain ⟨mo', hmo'⟩ := post_process_master_store store s r' (hm.trans hr')
        rw [hmo', List.getElem?_append_left ha]

/-- Witness for C6: in the example the layout object at address 0 stays as it was, with
overlap disabled and no overlap interface; the matrix then refers to the new object at
address 1, which has the master interface of the original, overlap enabled and the new
master-overlap interface to rank 1 with the appended row 2. -/
theorem post_process_clones_layout_witness :
    exPol1.post_process exStore exNet = .ok exPost ∧
    exPost.1 = [exLayouts, ⟨[exItf], [], [⟨1, [2]⟩], [], true⟩] ∧
    exPol1.m_mat.layouts = 0 ∧
    (post_process_newLayout exStore exPol1).1 =
      exStore ++ [{ (exStore.getD exPol1.m_mat.layouts ⟨[], [], [], [], false⟩) with
                    overlapEnabled := true }] ∧
    (∀ r, post_process_master exStore exPol1 = .ok r →
      ∀ a, a < exStore.length → r.store[a]? = exStore[a]?) ∧
    (∀ a, a < exStore.length → exPost.1[a]? = exStore[a]?) ∧
    (exPol1.m_mat.layouts < exStore.length →
      exPost.1[exPol1.m_mat.layouts]? = exStore[exPol1.m_mat.layouts]?) ∧
    exPost.2.m_mat.layouts = exStore.length ∧
    ∃ copy : AlgebraLayouts,
      exPost.1 = exStore ++ [copy] ∧
      copy.master = (exStore.getD exPol1.m_mat.layouts ⟨[], [], [], [], false⟩).master ∧
      copy.slave = (exStore.getD exPol1.m_mat.layouts ⟨[], [], [], [], false⟩).slave ∧
      copy.overlapEnabled = true :=
  ⟨rfl, rfl, rfl, post_process_clones_layout exStore exPost.1 exPol1 exPost.2 exNet rfl⟩

/-! ## Index layouts -/

theorem append_append (l : IndexLayout) (p : Nat) (xs ys : List Nat) :
    (l.append p xs).append p ys = l.append p (xs ++ ys) := by
  induction l with
  | nil => simp [IndexLayout.append]
  | cons itf rest ih =>
    unfold IndexLayout.append
    by_cases h1 : p < itf.targetProc
    · simp [h1, IndexLayout.append]
    · by_cases h2 : itf.targetProc = p
      · simp [h1, h2, IndexLayout.append]
      · simp only [h1, h2, if_false]
        rw [IndexLayout.append]
        simp only [h1, h2, if_false, ih]

theorem append_targets_mem (l : IndexLayout) (p : Nat) (xs : List Nat) (itf : Interface)
    (h : itf ∈ l.append p xs) : itf.targetProc = p ∨ itf ∈ l := by
  induction l with
  | nil =>
    simp only [IndexLayout.append, List.mem_singleton] at h
    left; rw [h]
  | cons a rest ih =>
    unfold IndexLayout.append at h
    by_cases h1 : p < a.targetProc
    · simp only [h1, if_true, List.mem_cons] at h
      rcases h with h | h | h
      · left; rw [h]
      · right; rw [h]; exact List.mem_cons_self _ _
      · right; exact List.mem_cons_of_mem _ h
    · by_cases h2 : a.targetProc = p
      · rw [if_neg h1, if_pos h2] at h
        rcases List.mem_cons.mp h with h | h
        · left; rw [h]
        · right; exact List.mem_cons_of_mem _ h
      · simp only [h1, h2, if_false, List.mem_cons] at h
        rcases h with h | h
        · right; rw [h]; exact List.mem_cons_self _ _
        · rcases ih h with h | h
          · left; exact h
          · right; exact List.mem_cons_of_mem _ h

theorem append_isMap (l : IndexLayout) (p : Nat) (xs : List Nat) (h : l.isMap) :
    (l.append p xs).isMap := by
  unfold IndexLayout.isMap at *
  induction l with
  | nil => simp [IndexLayout.append]
  | cons a rest ih =>
    rw [List.pairwise_cons] at h
    unfold IndexLayout.append
    by_cases h1 : p < a.targetProc
    · simp only [h1, if_true]
      refine List.pairwise_cons.mpr ⟨?_, List.pairwise_cons.mpr h⟩
      intro b hb
      rcases List.mem_cons.mp hb with hb | hb
      · rw [hb]; exact h1
      · exact Nat.lt_trans h1 (h.1 b hb)
    · by_cases h2 : a.targetProc = p
      · rw [if_neg h1, if_pos h2]
        refine List.pairwise_cons.mpr ⟨?_, h.2⟩
        intro b hb
        have := h.1 b hb
        simp only
        omega
      · simp only [h1, h2, if_false]
        refine List.pairwise_cons.mpr ⟨?_, ih h.2⟩
        intro b hb
        rcases append_targets_mem rest p xs b hb with hb | hb
        · rw [hb]; omega
        · exact h.1 b hb

theorem elemsOf_eq_nil_of_lt (l : IndexLayout) (p : Nat)
    (h : ∀ b ∈ l, p < b.targetProc) : l.elemsOf p = [] := by
  induction l with
  | nil => rfl
  | cons a rest ih =>
    have ha := h a (List.mem_cons_self _ _)
    have hne : ¬ a.targetProc = p := by omega
    simp only [IndexLayout.elemsOf, hne, if_false]
    exact ih (fun b hb => h b (List.mem_cons_of_mem _ hb))

theorem elemsOf_append (l : IndexLayout) (p q : Nat) (xs : List Nat) (h : l.isMap) :
    (l.append p xs).elemsOf q = if q = p then l.elemsOf p ++ xs else l.elemsOf q := by
  unfold IndexLayout.isMap at h
  induction l with
  | nil =>
    by_cases hq : q = p
    · simp [IndexLayout.append, IndexLayout.elemsOf, hq]
    · have hq' : ¬ p = q := fun e => hq e.symm
      simp [IndexLayout.append, IndexLayout.elemsOf, hq, hq']
  | cons a rest ih =>
    rw [List.pairwise_cons] at h
    unfold IndexLayout.append
    by_cases h1 : p < a.targetProc
    · simp only [h1, if_true]
      have hnil : IndexLayout.elemsOf (a :: rest) p = [] := by
        apply elemsOf_eq_nil_of_lt
        intro b hb
        rcases List.mem_cons.mp hb with hb | hb
        · rw [hb]; exact h1
        · exact Nat.lt_trans h1 (h.1 b hb)
      by_cases hq : q = p
      · rw [if_pos hq, hnil, hq]
        simp [IndexLayout.elemsOf]
      · have hq' : ¬ p = q := fun e => hq e.symm
        rw [if_neg hq]
        simp only [IndexLayout.elemsOf, hq', if_false]
    · by_cases h2 : a.targetProc = p
      · rw [if_neg h1, if_pos h2]
        by_cases hq : q = p
        · simp [IndexLayout.elemsOf, hq, h2]
        · have hq' : ¬ p = q := fun e => hq e.symm
          have hq'' : ¬ a.targetProc = q := by rw [h2]; exact hq'
          simp [IndexLayout.elemsOf, hq, hq', hq'']
      · simp only [h1, h2, if_false]
        by_cases hq : q = p
        · subst hq
          simp only [IndexLayout.elemsOf, h2, if_false, if_true]
          rw [ih h.2]
          simp
        · by_cases ha : a.targetProc = q
          · simp [IndexLayout.elemsOf, ha, hq]
          · simp only [IndexLayout.elemsOf, ha, if_false, hq]
            rw [ih h.2]
            simp [hq]

/-! ## The slave-overlap loop -/

theorem readSlaveOverlap_eq (hash : AlgebraIDHashList) (p : Nat) :
    ∀ (n : Nat) (ids : List AlgebraID) (rest : BinaryBuffer) (l : IndexLayout) (xs : List Nat),
      n ≤ ids.length →
      readSlaveOverlap hash p n (ids.map BufItem.algID ++ rest) (l.append p xs) =
        match (ids.take n).find? (fun g => (hash.get_entry g).isNone) with
        | some g => .error (.globalIDNotFound g)
        | none =>
          .ok ((ids.drop n).map BufItem.algID ++ rest,
            l.append p (xs ++ (ids.take n).filterMap hash.get_entry)) := by
  intro n
  induction n with
  | zero =>
    intro ids rest l xs _
    simp [readSlaveOverlap]
  | succ n ih =>
    intro ids rest l xs hn
    match ids with
    | [] => simp at hn
    | g :: ids1 =>
      simp only [List.length_cons, Nat.add_le_add_iff_right] at hn
      simp only [List.map_cons, List.cons_append, readSlaveOverlap, List.take_succ_cons,
        List.find?_cons, List.drop_succ_cons, List.filterMap_cons]
      cases hg : hash.get_entry g with
      | none => simp
      | some locID =>
        simp only [Option.isNone_some]
        rw [append_append]
        have hrec := ih ids1 rest l (xs ++ [locID]) hn
        simp only [List.append_eq] at hrec ⊢
        rw [hrec]
        cases (ids1.take n).find? (fun g => (hash.get_entry g).isNone) with
        | some g' => rfl
        | none => simp

theorem slaveOverlapLoop_eq (hash : AlgebraIDHashList) :
    ∀ (procs sizes : List Nat) (ids : List AlgebraID) (l : IndexLayout),
      l.isMap → sizes.length = procs.length → ids.length = sizes.sum →
      match ids.find? (fun g => (hash.get_entry g).isNone) with
      | some g =>
        slaveOverlapLoop hash procs sizes (ids.map BufItem.algID) l = .error (.globalIDNotFound g)
      | none =>
        ∃ final : IndexLayout,
          slaveOverlapLoop hash procs sizes (ids.map BufItem.algID) l = .ok final ∧
          final.isMap ∧
          ∀ q, final.elemsOf q =
            l.elemsOf q ++ (idsFrom q procs sizes ids).filterMap hash.get_entry := by
  intro procs
  induction procs with
  | nil =>
    intro sizes ids l hl hs hi
    have hsz : sizes = [] := List.length_eq_zero.mp hs
    subst hsz
    have hids : ids = [] := List.length_eq_zero.mp hi
    subst hids
    simp only [List.find?_nil, List.map_nil, slaveOverlapLoop]
    exact ⟨l, rfl, hl, fun q => by simp [idsFrom]⟩
  | cons p ps ih =>
    intro sizes ids l hl hs hi
    match sizes with
    | [] => simp at hs
    | n :: ns =>
      simp only [List.length_cons, Nat.add_right_cancel_iff] at hs
      simp only [List.sum_cons] at hi
      have hn : n ≤ ids.length := by omega
      have hsplit : ids = ids.take n ++ ids.drop n := (List.take_append_drop n ids).symm
      have hread := readSlaveOverlap_eq hash p n ids [] l [] hn
      simp only [List.append_nil, List.nil_append] at hread
      have hloop : slaveOverlapLoop hash (p :: ps) (n :: ns) (ids.map BufItem.algID) l =
          match readSlaveOverlap hash p n (ids.map BufItem.algID) (l.append p []) with
          | .ok (recvBuf1, slaveOverlap1) => slaveOverlapLoop hash ps ns recvBuf1 slaveOverlap1
          | .error err => .error err := rfl
      rw [hread] at hloop
      have hfind : ids.find? (fun g => (hash.get_entry g).isNone) =
          ((ids.take n).find? (fun g => (hash.get_entry g).isNone)).or
            ((ids.drop n).find? (fun g => (hash.get_entry g).isNone)) := by
        conv => lhs; rw [hsplit]
        rw [List.find?_append]
      rw [hfind]
      cases h1 : (ids.take n).find? (fun g => (hash.get_entry g).isNone) with
      | some g =>
        rw [h1] at hloop
        simp only [Option.or_some]
        exact hloop
      | none =>
        rw [h1] at hloop
        simp only at hloop
        simp only [Option.none_or]
        have hlen : (ids.drop n).length = ns.sum := by
          rw [List.length_drop]; omega
        have hrec := ih ns (ids.drop n) (l.append p ((ids.take n).filterMap hash.get_entry))
          (append_isMap _ _ _ hl) hs hlen
        cases h2 : (ids.drop n).find? (fun g => (hash.get_entry g).isNone) with
        | some g =>
          rw [h2] at hrec
          simp only at hrec ⊢
          rw [hloop, hrec]
        | none =>
          rw [h2] at hrec
          simp only at hrec ⊢
          obtain ⟨final, hf1, hf2, hf3⟩ := hrec
          refine ⟨final, by rw [hloop, hf1], hf2, ?_⟩
          intro q
          rw [hf3 q, elemsOf_append _ _ _ _ hl]
          simp only [idsFrom, List.headD_cons, List.tail_cons, List.filterMap_append]
          by_cases hq : q = p
          · subst hq
            simp
          · have hq' : ¬ p = q := fun e => hq e.symm
            simp [hq, hq']

/-! ## C8 -/

/-- C8: lines 312-343 of `post_process`, on a buffer that holds the GlobalIDs `ids`
delivered by `distribute_data` (one size per master process, the sizes adding up to the
length of `ids`), with the slave-overlap layout a map.  The step throws the fatal error
for the GlobalID `g` if and only if `g` is the first received GlobalID that does not
resolve in the hash, so it throws if and only if some received GlobalID does not
resolve.  When all resolve, the step succeeds and the slave-overlap interface to every
rank `q` is the one before followed by the local indices of the GlobalIDs received from
`q`, in received order. -/
theorem slaveOverlap_contract (store : LayoutStore) (s : ComPol_MatCreateOverlap)
    (recvSizes : List Nat) (ids : List AlgebraID)
    (hmap : (store.getD s.m_mat.layouts ⟨[], [], [], [], false⟩).slaveOverlap.isMap)
    (hsizes : recvSizes.length = (masterProcsOf store s).length)
    (hids : ids.length = recvSizes.sum) :
    (∀ g, post_process_slaveOverlap store s (ids.map BufItem.algID) recvSizes =
        .error (.globalIDNotFound g) ↔
      ids.find? (fun g => (s.m_algIDHash.get_entry g).isNone) = some g) ∧
    ((∃ err, post_process_slaveOverlap store s (ids.map BufItem.algID) recvSizes = .error err) ↔
      ∃ g, g ∈ ids ∧ s.m_algIDHash.get_entry g = none) ∧
    ((∀ g, g ∈ ids → s.m_algIDHash.get_entry g ≠ none) →
      ∃ so : IndexLayout,
        post_process_slaveOverlap store s (ids.map BufItem.algID) recvSizes =
          .ok (store.set s.m_mat.layouts
            { (store.getD s.m_mat.layouts ⟨[], [], [], [], false⟩) with slaveOverlap := so }) ∧
        ∀ q, so.elemsOf q =
          (store.getD s.m_mat.layouts ⟨[], [], [], [], false⟩).slaveOverlap.elemsOf q ++
            (idsFrom q (masterProcsOf store s) recvSizes ids).filterMap s.m_algIDHash.get_entry) := by
  have hloop := slaveOverlapLoop_eq s.m_algIDHash (masterProcsOf store s) recvSizes ids
    (store.getD s.m_mat.layouts ⟨[], [], [], [], false⟩).slaveOverlap hmap hsizes hids
  have hdef : post_process_slaveOverlap store s (ids.map BufItem.algID) recvSizes =
      match slaveOverlapLoop s.m_algIDHash (masterProcsOf store s) recvSizes
          (ids.map BufItem.algID)
          (store.getD s.m_mat.layouts ⟨[], [], [], [], false⟩).slaveOverlap with
      | .error err => .error err
      | .ok slaveOverlap =>
        .ok (store.set s.m_mat.layouts
          { (store.getD s.m_mat.layouts ⟨[], [], [], [], false⟩) with
            slaveOverlap := slaveOverlap }) := rfl
  cases hf : ids.find? (fun g => (s.m_algIDHash.get_entry g).isNone) with
  | some g0 =>
    rw [hf] at hloop
    simp only at hloop
    rw [hloop] at hdef
    simp only at hdef
    have hmem : g0 ∈ ids := List.mem_of_find?_eq_some hf
    have hnone : s.m_algIDHash.get_entry g0 = none := by
      have := List.find?_some hf
      simpa using this
    refine ⟨?_, ?_, ?_⟩
    · intro g
      rw [hdef]
      constructor
      · intro h
        simp only [Except.error.injEq, Fault.globalIDNotFound.injEq] at h
        rw [h]
      · intro h
        simp only [Option.some.injEq] at h
        rw [h]
    · constructor
      · intro _
        exact ⟨g0, hmem, hnone⟩
      · intro _
        exact ⟨_, hdef⟩
    · intro hall
      exact absurd hnone (hall g0 hmem)
  | none =>
    rw [hf] at hloop
    simp only at hloop
    obtain ⟨final, hf1, _, hf3⟩ := hloop
    rw [hf1] at hdef
    simp only at hdef
    have hres : ∀ g, g ∈ ids → s.m_algIDHash.get_entry g ≠ none := by
      intro g hg hn
      have := List.find?_eq_none.mp hf g hg
      simp [hn] at this
    refine ⟨?_, ?_, ?_⟩
    · intro g
      rw [hdef]
      simp
    · constructor
      · rintro ⟨err, herr⟩
        rw [hdef] at herr
        cases herr
      · rintro ⟨g, hg, hn⟩
        exact absurd hn (hres g hg)
    · intro _
      exact ⟨final, hdef, hf3⟩

/-- Witness for C8: the slave example receives the GlobalID (1,0) from rank 0; it
resolves to the local index 0, which becomes the entry of the slave-overlap interface to
rank 0. -/
theorem slaveOverlap_contract_witness :
    (exStoreS.getD exPolS.m_mat.layouts ⟨[], [], [], [], false⟩).slaveOverlap.isMap ∧
    [1].length = (masterProcsOf exStoreS exPolS).length ∧
    [(⟨1, 0⟩ : AlgebraID)].length = [1].sum ∧
    post_process_slaveOverlap exStoreS exPolS [.algID ⟨1, 0⟩] [1] =
      .ok [⟨[], [⟨0, [2]⟩], [], [⟨0, [0]⟩], true⟩] ∧
    ((∃ err, post_process_slaveOverlap exStoreS exPolS
        ([(⟨1, 0⟩ : AlgebraID)].map BufItem.algID) [1] = .error err) ↔
      ∃ g, g ∈ [(⟨1, 0⟩ : AlgebraID)] ∧ exPolS.m_algIDHash.get_entry g = none) :=
  ⟨List.Pairwise.nil, rfl, rfl, rfl,
    (slaveOverlap_contract exStoreS exPolS [1] [⟨1, 0⟩] List.Pairwise.nil rfl rfl).2.1⟩

/-! ## collect and extract -/

theorem collectRow_eq (globalIDs : List AlgebraID) (row : MatRow) :
    collectRow globalIDs row =
      (row.map (fun e =>
        [BufItem.algID (globalIDs.getD e.1 default), BufItem.block e.2])).flatten := by
  induction row with
  | nil => rfl
  | cons e rest ih =>
    obtain ⟨k, v⟩ := e
    simp [collectRow, ih]

theorem collectRows_eq (s : ComPol_MatCreateOverlap) (idxs : List Nat) :
    collectRows s idxs =
      (idxs.map (fun index => wireRow s.m_globalIDs (s.m_mat.row index))).flatten := by
  induction idxs with
  | nil => rfl
  | cons index rest ih =>
    simp [collectRows, ih, wireRow, collectRow_eq]

theorem readConnections_collectRow (globalIDs : List AlgebraID) (index : Nat) (row : MatRow)
    (rest : BinaryBuffer) :
    readConnections index row.length (collectRow globalIDs row ++ rest) =
      some (rowConns globalIDs index row, rest) := by
  induction row with
  | nil => rfl
  | cons e tail ih =>
    obtain ⟨k, v⟩ := e
    have hstep : readConnections index (tail.length + 1)
        (BufItem.algID (globalIDs.getD k default) :: BufItem.block v ::
          (collectRow globalIDs tail ++ rest)) =
        match readConnections index tail.length (collectRow globalIDs tail ++ rest) with
        | some (cs, rest) => some (⟨index, globalIDs.getD k default, v⟩ :: cs, rest)
        | none => none := rfl
    rw [ih] at hstep
    exact hstep

theorem readRows_collectRows (sender : ComPol_MatCreateOverlap) :
    ∀ (sendIdxs recvIdxs : List Nat) (rest : BinaryBuffer),
      recvIdxs.length = sendIdxs.length →
      readRows recvIdxs (collectRows sender sendIdxs ++ rest) =
        some (sentConns sender sendIdxs recvIdxs, rest) := by
  intro sendIdxs
  induction sendIdxs with
  | nil =>
    intro recvIdxs rest hlen
    have : recvIdxs = [] := List.length_eq_zero.mp hlen
    subst this
    rfl
  | cons si ss ih =>
    intro recvIdxs rest hlen
    match recvIdxs with
    | [] => simp at hlen
    | ri :: rs =>
      simp only [List.length_cons, Nat.add_right_cancel_iff] at hlen
      have hstep : readRows (ri :: rs) (collectRows sender (si :: ss) ++ rest) =
          match readConnections ri (sender.m_mat.row si).length
              (collectRow sender.m_globalIDs (sender.m_mat.row si) ++
                (collectRows sender ss ++ rest)) with
          | some (cs, buff1) =>
            match readRows rs buff1 with
            | some (cs1, buff2) => some (cs ++ cs1, buff2)
            | none => none
          | none => none := by
        simp only [collectRows, List.cons_append, List.append_assoc, readRows, List.append_eq]
      rw [hstep, readConnections_collectRow]
      simp only [ih rs rest hlen, sentConns]

/-! ## C10 -/

/-- C10: `collect` appends to the buffer, for each index of the interface in interface
order, the number of entries of that row followed by that many pairs (GlobalID of the
column, value) in row order; and `extract` over an interface of the same length, applied
to what `collect` wrote (followed by any `rest`), reads for its k-th index exactly the
pairs of the sender's k-th row, applies the loop body to them, and leaves exactly `rest`
unread: the whole buffer is consumed when nothing follows. -/
theorem collect_extract_roundtrip (sender receiver : ComPol_MatCreateOverlap)
    (sendItf recvItf : Interface) (buff rest : BinaryBuffer)
    (hlen : recvItf.elems.length = sendItf.elems.length) :
    sender.collect buff sendItf =
      buff ++ (sendItf.elems.map
        (fun index => wireRow sender.m_globalIDs (sender.m_mat.row index))).flatten ∧
    readRows recvItf.elems (sender.collect [] sendItf ++ rest) =
      some (sentConns sender sendItf.elems recvItf.elems, rest) ∧
    receiver.extract (sender.collect [] sendItf ++ rest) recvItf =
      .ok (rest, applyConnections recvItf.targetProc
        (sentConns sender sendItf.elems recvItf.elems) receiver) ∧
    receiver.extract (sender.collect [] sendItf) recvItf =
      .ok ([], applyConnections recvItf.targetProc
        (sentConns sender sendItf.elems recvItf.elems) receiver) := by
  have hread := readRows_collectRows sender sendItf.elems recvItf.elems rest hlen
  have hread0 := readRows_collectRows sender sendItf.elems recvItf.elems [] hlen
  refine ⟨?_, ?_, ?_, ?_⟩
  · simp [ComPol_MatCreateOverlap.collect, collectRows_eq]
  · simpa [ComPol_MatCreateOverlap.collect] using hread
  · unfold ComPol_MatCreateOverlap.extract
    rw [extractRows_eq]
    simp only [ComPol_MatCreateOverlap.collect, List.nil_append, hread]
  · unfold ComPol_MatCreateOverlap.extract
    rw [extractRows_eq]
    simp only [List.append_nil] at hread0
    simp only [ComPol_MatCreateOverlap.collect, List.nil_append, hread0]

/-- Witness for C10: the slave example collects its row 2 for rank 0, which is the
buffer of the master example; the master example extracts it for its row 1, reads the two
connections of that row and consumes the buffer. -/
theorem collect_extract_roundtrip_witness :
    (⟨1, [1]⟩ : Interface).elems.length = (⟨0, [2]⟩ : Interface).elems.length ∧
    exPolS.collect [] ⟨0, [2]⟩ =
      [.sizeT 2, .algID ⟨1, 0⟩, .block (-1), .algID ⟨0, 1⟩, .block 1] ∧
    sentConns exPolS [2] [1] = [⟨1, ⟨1, 0⟩, -1⟩, ⟨1, ⟨0, 1⟩, 1⟩] ∧
    exPol.extract (exPolS.collect [] ⟨0, [2]⟩) ⟨1, [1]⟩ =
      .ok ([], applyConnections 1 (sentConns exPolS [2] [1]) exPol) :=
  ⟨rfl, rfl, rfl,
    (collect_extract_roundtrip exPolS exPol ⟨0, [2]⟩ ⟨1, [1]⟩ [] [] rfl).2.2.2⟩

/-! ## Values merged by extract -/

theorem entry_extractConnection (i p : Nat) (g : AlgebraID) (v : block_t)
    (s : ComPol_MatCreateOverlap) (i' k' : Nat) :
    (extractConnection i p g v s).m_mat.entry i' k' =
      s.m_mat.entry i' k' +
        (if i = i' ∧ s.m_algIDHash.get_entry g = some k' then v else 0) := by
  cases hg : s.m_algIDHash.get_entry g with
  | none =>
    rw [extractConnection_unknown _ _ _ _ _ hg]
    simp
  | some conInd =>
    rw [extractConnection_known _ _ _ _ _ _ hg, matrix_entry_addTo]
    by_cases h1 : i' = i
    · subst h1
      by_cases h2 : k' = conInd
      · subst h2; simp
      · have h2' : ¬ conInd = k' := fun e => h2 e.symm
        simp [h2, h2']
    · have h1' : ¬ i = i' := fun e => h1 e.symm
      simp [h1, h1']

theorem entry_applyReceived (rc : List (Nat × Conn)) (i k : Nat) :
    ∀ s : ComPol_MatCreateOverlap,
      (applyReceived rc s).m_mat.entry i k =
        s.m_mat.entry i k + mergedSum s.m_algIDHash rc i k := by
  induction rc with
  | nil => intro s; simp [applyReceived, mergedSum]
  | cons x rest ih =>
    intro s
    have hstep : applyReceived (x :: rest) s =
        applyReceived rest (extractConnection x.2.index x.1 x.2.gID x.2.block s) := rfl
    rw [hstep, ih, entry_extractConnection,
      (extractConnection_frame x.2.index x.1 x.2.gID x.2.block s).1]
    unfold mergedSum
    by_cases hc : x.2.index = i ∧ s.m_algIDHash.get_entry x.2.gID = some k
    · have ht : (decide (x.2.index = i) &&
          decide (s.m_algIDHash.get_entry x.2.gID = some k)) = true := by
        simpa using hc
      rw [if_pos hc, List.filter_cons, if_pos ht, List.map_cons, List.sum_cons]
      ring
    · have hf : (decide (x.2.index = i) &&
          decide (s.m_algIDHash.get_entry x.2.gID = some k)) = false := by
        simpa using hc
      rw [if_neg hc, List.filter_cons, if_neg (by simp [hf])]
      ring

/-! ## The map of new connections -/

theorem mapAssign_perm (ec : ExtCon) (v : block_t) (l : List (ExtCon × block_t))
    (h : ∀ e ∈ l, ec.equiv e.1 = false) :
    (mapAssign ec v l).Perm ((ec, v) :: l) := by
  induction l with
  | nil => exact List.Perm.refl _
  | cons e rest ih =>
    obtain ⟨k, x⟩ := e
    unfold mapAssign
    by_cases h1 : ec.lt k = true
    · rw [if_pos h1]
    · rw [if_neg h1]
      by_cases h2 : k.lt ec = true
      · rw [if_pos h2]
        have hrest := ih (fun e he => h e (List.mem_cons_of_mem _ he))
        exact (List.Perm.cons _ hrest).trans (List.Perm.swap _ _ _)
      · have hk := h (k, x) (List.mem_cons_self _ _)
        simp only [ExtCon.equiv, Bool.and_eq_false_imp, Bool.not_eq_true', Bool.not_eq_false'] at hk
        have h1f : ec.lt k = false := by simpa using h1
        exact absurd (hk h1f) h2

theorem extractConnection_newCons (i p : Nat) (g : AlgebraID) (v : block_t)
    (s : ComPol_MatCreateOverlap) :
    (extractConnection i p g v s).m_recvNewCons =
      if (s.m_algIDHash.get_entry g).isNone then
        mapAssign ⟨i, s.m_globalIDs.getD i default, g, p⟩ v s.m_recvNewCons
      else s.m_recvNewCons := by
  unfold extractConnection
  cases s.m_algIDHash.get_entry g <;> simp

theorem applyReceived_newCons_perm (rc : List (Nat × Conn)) :
    ∀ s : ComPol_MatCreateOverlap,
      (∀ e ∈ s.m_recvNewCons, ∀ d ∈ deferredOf s.m_globalIDs s.m_algIDHash rc,
        d.1.equiv e.1 = false) →
      (deferredOf s.m_globalIDs s.m_algIDHash rc).Pairwise (fun a b => b.1.equiv a.1 = false) →
      (applyReceived rc s).m_recvNewCons.Perm
        ((deferredOf s.m_globalIDs s.m_algIDHash rc).reverse ++ s.m_recvNewCons) := by
  induction rc with
  | nil => intro s _ _; simp [applyReceived, deferredOf]
  | cons x rest ih =>
    intro s hold hpw
    have hstep : applyReceived (x :: rest) s =
        applyReceived rest (extractConnection x.2.index x.1 x.2.gID x.2.block s) := rfl
    obtain ⟨f1, f2, _, _, _⟩ := extractConnection_frame x.2.index x.1 x.2.gID x.2.block s
    by_cases hx : (s.m_algIDHash.get_entry x.2.gID).isNone = true
    · have hdef : deferredOf s.m_globalIDs s.m_algIDHash (x :: rest) =
          (extConOf s.m_globalIDs x, x.2.block) ::
            deferredOf s.m_globalIDs s.m_algIDHash rest := by
        simp [deferredOf, List.filter_cons, hx]
      rw [hdef] at hold hpw
      rw [List.pairwise_cons] at hpw
      have hcons : (extractConnection x.2.index x.1 x.2.gID x.2.block s).m_recvNewCons =
          mapAssign (extConOf s.m_globalIDs x) x.2.block s.m_recvNewCons := by
        rw [extractConnection_newCons, if_pos hx]
        rfl
      have hperm1 := mapAssign_perm (extConOf s.m_globalIDs x) x.2.block s.m_recvNewCons
        (fun e he => hold e he _ (List.mem_cons_self _ _))
      have hrec := ih (extractConnection x.2.index x.1 x.2.gID x.2.block s)
        (by
          rw [f1, f2, hcons]
          intro e he d hd
          rcases List.mem_cons.mp (hperm1.subset he) with he | he
          · rw [he]; exact hpw.1 d hd
          · exact hold e he d (List.mem_cons_of_mem _ hd))
        (by rw [f1, f2]; exact hpw.2)
      rw [hstep, hdef]
      rw [f1, f2, hcons] at hrec
      refine hrec.trans ?_
      simp only [List.reverse_cons, List.append_assoc, List.singleton_append]
      exact List.Perm.append_left _ hperm1
    · have hdef : deferredOf s.m_globalIDs s.m_algIDHash (x :: rest) =
          deferredOf s.m_globalIDs s.m_algIDHash rest := by
        simp [deferredOf, List.filter_cons, hx]
      rw [hdef] at hold hpw
      have hcons : (extractConnection x.2.index x.1 x.2.gID x.2.block s).m_recvNewCons =
          s.m_recvNewCons := by
        rw [extractConnection_newCons, if_neg hx]
      have hrec := ih (extractConnection x.2.index x.1 x.2.gID x.2.block s)
        (by rw [f1, f2, hcons]; exact hold) (by rw [f1, f2]; exact hpw)
      rw [hstep, hdef]
      rw [f1, f2, hcons] at hrec
      exact hrec

/-! ## Values inserted by post_process -/

theorem masterOverlapStep_mat (hash : AlgebraIDHashList) (oldSize numNewInds : Nat)
    (slaveProcs : List Nat) (st st' : MasterLoop) (e : ExtCon × block_t)
    (h : masterOverlapStep hash oldSize numNewInds slaveProcs st e = .ok st') :
    ∃ toInd, hash.get_entry e.1.toID = some toInd ∧
      st'.mat = st.mat.addTo e.1.fromInd toInd e.2 := by
  unfold masterOverlapStep at h
  cases he : masterOverlapEnter numNewInds slaveProcs st e.1.conProc with
  | error err => rw [he] at h; cases h
  | ok st1 =>
    rw [he] at h
    simp only at h
    cases hg : hash.get_entry e.1.toID with
    | none => rw [hg] at h; cases h
    | some toInd =>
      rw [hg] at h
      simp only [Except.ok.injEq] at h
      refine ⟨toInd, rfl, ?_⟩
      rw [← h, masterOverlapAdd_mat, (masterOverlapEnter_mat _ _ _ _ _ he).1]

theorem masterOverlapLoop_entry (hash : AlgebraIDHashList) (oldSize numNewInds : Nat)
    (slaveProcs : List Nat) (cons : List (ExtCon × block_t)) (i k : Nat) :
    ∀ (st st' : MasterLoop),
      masterOverlapLoop hash oldSize numNewInds slaveProcs st cons = .ok st' →
      st'.mat.entry i k = st.mat.entry i k + deferredSum hash cons i k := by
  induction cons with
  | nil =>
    intro st st' h
    simp only [masterOverlapLoop, Except.ok.injEq] at h
    rw [h]; simp [deferredSum]
  | cons e rest ih =>
    intro st st' h
    simp only [masterOverlapLoop] at h
    cases hs : masterOverlapStep hash oldSize numNewInds slaveProcs st e with
    | error err => rw [hs] at h; cases h
    | ok st1 =>
      rw [hs] at h
      obtain ⟨toInd, hto, hmat⟩ := masterOverlapStep_mat _ _ _ _ _ _ _ hs
      rw [ih st1 st' h, hmat, matrix_entry_addTo]
      unfold deferredSum
      by_cases hc : e.1.fromInd = i ∧ toInd = k
      · have ht : (decide (e.1.fromInd = i) &&
            decide (hash.get_entry e.1.toID = some k)) = true := by
          simp [hc.1, hto, hc.2]
        rw [List.filter_cons, if_pos ht, List.map_cons, List.sum_cons, if_pos ⟨hc.1.symm, hc.2.symm⟩,
          hc.1, hc.2]
        ring
      · have hf : ¬ (decide (e.1.fromInd = i) &&
            decide (hash.get_entry e.1.toID = some k)) = true := by
          simp only [Bool.and_eq_true, decide_eq_true_eq, hto, Option.some.injEq]
          exact hc
        have hc' : ¬ (i = e.1.fromInd ∧ k = toInd) := fun ⟨a, b⟩ => hc ⟨a.symm, b.symm⟩
        rw [List.filter_cons, if_neg hf, if_neg hc']

theorem deferredSum_perm (hash : AlgebraIDHashList) (l1 l2 : List (ExtCon × block_t))
    (i k : Nat) (h : l1.Perm l2) : deferredSum hash l1 i k = deferredSum hash l2 i k := by
  unfold deferredSum
  exact ((h.filter _).map _).sum_eq

theorem matRow_get_filter (r : MatRow) (c k : Nat) (hk : k < c) :
    MatRow.get (r.filter (fun e => decide (e.1 < c))) k = MatRow.get r k := by
  induction r with
  | nil => rfl
  | cons e rest ih =>
    obtain ⟨col, x⟩ := e
    by_cases hcol : col < c
    · simp only [List.filter_cons, hcol, decide_True, if_true, MatRow.get, ih]
    · have hne : ¬ col = k := by omega
      simp only [List.filter_cons, hcol, decide_False, MatRow.get, hne, if_false]
      simpa using ih

theorem setDirichletRows_row (n : Nat) :
    ∀ (m : Matrix) (start i : Nat), i < start →
      (setDirichletRows m start n).row i = m.row i := by
  induction n with
  | zero => intro m start i _; rfl
  | succ n ih =>
    intro m start i hi
    simp only [setDirichletRows]
    rw [ih _ (start + 1) i (by omega)]
    have hne : ¬ i = start := by omega
    simp [SetDirichletRow, Matrix.assign, Matrix.modify, hne]

theorem post_process_newIDs_entry (s : ComPol_MatCreateOverlap) (i k : Nat)
    (hi : i < s.m_mat.numRows) (hk : k < s.m_mat.numRows + s.m_recvNewIDs.length) :
    (post_process_newIDs s).m_mat.entry i k = s.m_mat.entry i k := by
  unfold post_process_newIDs
  simp only
  split
  · unfold Matrix.entry
    rw [setDirichletRows_row _ _ _ _ hi]
    simp only [Matrix.resize_and_keep_values]
    rw [if_pos (by omega)]
    exact matRow_get_filter _ _ _ hk
  · rfl

theorem getElem_of_get_entry (ids : List AlgebraID) :
    ∀ (start j : Nat) (g : AlgebraID),
      AlgebraIDHashList.get_entry (hashInsertFrom [] ids start) g = some j →
      start ≤ j ∧ ids[j - start]? = some g := by
  induction ids with
  | nil => intro start j g h; cases h
  | cons x rest ih =>
    intro start j g h
    rw [get_entry_hashInsertFrom_nil_cons] at h
    by_cases hx : x = g
    · rw [if_pos hx] at h
      simp only [Option.some.injEq] at h
      subst h
      simp [hx]
    · rw [if_neg hx] at h
      obtain ⟨h1, h2⟩ := ih (start + 1) j g h
      refine ⟨by omega, ?_⟩
      have : j - start = (j - (start + 1)) + 1 := by omega
      rw [this, List.getElem?_cons_succ]
      exact h2

theorem extended_hash_sound (gids newIDs : List AlgebraID) (g : AlgebraID) (k : Nat)
    (h : AlgebraIDHashList.get_entry
      (hashInsertFrom (GenerateAlgebraIDHashList gids) newIDs gids.length) g = some k) :
    (gids ++ newIDs)[k]? = some g := by
  rw [get_entry_hashInsertFrom] at h
  cases hg : AlgebraIDHashList.get_entry (GenerateAlgebraIDHashList gids) g with
  | some j =>
    rw [hg] at h
    simp only [Option.some.injEq] at h
    subst h
    obtain ⟨_, h2⟩ := getElem_of_get_entry gids 0 j g hg
    simp only [Nat.sub_zero] at h2
    have hj : j < gids.length := by
      rcases List.getElem?_eq_some.mp h2 with ⟨hj, _⟩
      exact hj
    rw [List.getElem?_append_left hj]
    exact h2
  | none =>
    rw [hg] at h
    simp only at h
    obtain ⟨h1, h2⟩ := getElem_of_get_entry newIDs gids.length k g h
    rw [List.getElem?_append_right h1]
    exact h2

theorem mergedSum_cons (h : AlgebraIDHashList) (x : Nat × Conn) (rest : List (Nat × Conn))
    (i k : Nat) :
    mergedSum h (x :: rest) i k =
      (if x.2.index = i ∧ h.get_entry x.2.gID = some k then x.2.block else 0) +
        mergedSum h rest i k := by
  unfold mergedSum
  by_cases hc : x.2.index = i ∧ h.get_entry x.2.gID = some k
  · have e : (decide (x.2.index = i) && decide (h.get_entry x.2.gID = some k)) = true := by
      simpa using hc
    rw [List.filter_cons, if_pos e, if_pos hc, List.map_cons, List.sum_cons]
  · have e : ¬ (decide (x.2.index = i) && decide (h.get_entry x.2.gID = some k)) = true := by
      simpa using hc
    rw [List.filter_cons, if_neg e, if_neg hc, Int.zero_add]

theorem receivedSum_cons (x : Nat × Conn) (rest : List (Nat × Conn)) (i : Nat) (g : AlgebraID) :
    receivedSum (x :: rest) i g =
      (if x.2.index = i ∧ x.2.gID = g then x.2.block else 0) + receivedSum rest i g := by
  unfold receivedSum
  by_cases hc : x.2.index = i ∧ x.2.gID = g
  · have e : (decide (x.2.index = i) && decide (x.2.gID = g)) = true := by simpa using hc
    rw [List.filter_cons, if_pos e, if_pos hc, List.map_cons, List.sum_cons]
  · have e : ¬ (decide (x.2.index = i) && decide (x.2.gID = g)) = true := by simpa using hc
    rw [List.filter_cons, if_neg e, if_neg hc, Int.zero_add]

theorem deferredSum_cons (h : AlgebraIDHashList) (e : ExtCon × block_t)
    (l : List (ExtCon × block_t)) (i k : Nat) :
    deferredSum h (e :: l) i k =
      (if e.1.fromInd = i ∧ h.get_entry e.1.toID = some k then e.2 else 0) +
        deferredSum h l i k := by
  unfold deferredSum
  by_cases hc : e.1.fromInd = i ∧ h.get_entry e.1.toID = some k
  · have e' : (decide (e.1.fromInd = i) && decide (h.get_entry e.1.toID = some k)) = true := by
      simpa using hc
    rw [List.filter_cons, if_pos e', if_pos hc, List.map_cons, List.sum_cons]
  · have e' : ¬ (decide (e.1.fromInd = i) && decide (h.get_entry e.1.toID = some k)) = true := by
      simpa using hc
    rw [List.filter_cons, if_neg e', if_neg hc, Int.zero_add]

theorem deferredOf_cons (gids : List AlgebraID) (h : AlgebraIDHashList) (x : Nat × Conn)
    (rest : List (Nat × Conn)) :
    deferredOf gids h (x :: rest) =
      if (h.get_entry x.2.gID).isNone then
        (extConOf gids x, x.2.block) :: deferredOf gids h rest
      else deferredOf gids h rest := by
  unfold deferredOf
  by_cases hc : (h.get_entry x.2.gID).isNone = true
  · rw [List.filter_cons, if_pos hc, if_pos hc, List.map_cons]
  · rw [List.filter_cons, if_neg hc, if_neg hc]

theorem sums_partition (gids : List AlgebraID) (h h' : AlgebraIDHashList) (i k : Nat)
    (g : AlgebraID)
    (hext : ∀ g' j, h.get_entry g' = some j → h'.get_entry g' = some j)
    (hinj : ∀ g', h'.get_entry g' = some k → g' = g)
    (hg : h'.get_entry g = some k) :
    ∀ rc : List (Nat × Conn),
      mergedSum h rc i k + deferredSum h' (deferredOf gids h rc) i k = receivedSum rc i g := by
  intro rc
  induction rc with
  | nil => simp [mergedSum, deferredSum, deferredOf, receivedSum]
  | cons x rest ih =>
    rw [mergedSum_cons, receivedSum_cons, deferredOf_cons, ← ih]
    cases hx : h.get_entry x.2.gID with
    | some j =>
      have hiff : j = k ↔ x.2.gID = g := by
        constructor
        · intro hjk
          apply hinj
          rw [hext _ _ hx, hjk]
        · intro hxg
          have a := hext _ _ hx
          rw [hxg, hg] at a
          exact (Option.some.inj a).symm
      simp only [Option.isNone_some, Bool.false_eq_true, if_false, Option.some.injEq, hiff]
      ring
    | none =>
      have hiff : h'.get_entry x.2.gID = some k ↔ x.2.gID = g := by
        constructor
        · exact hinj _
        · intro hxg; rw [hxg]; exact hg
      simp only [Option.isNone_none, if_true, reduceCtorEq, and_false, if_false]
      rw [deferredSum_cons]
      simp only [extConOf, hiff]
      ring

theorem deferredOf_pairwise (gids : List AlgebraID) (h : AlgebraIDHashList)
    (rc : List (Nat × Conn)) (hnodup : gids.Nodup)
    (hidx : ∀ x ∈ rc, x.2.index < gids.length)
    (honce : ((rc.filter (fun x => (h.get_entry x.2.gID).isNone)).map
      (fun x => (x.1, x.2.index, x.2.gID))).Nodup) :
    (deferredOf gids h rc).Pairwise (fun a b => b.1.equiv a.1 = false) := by
  unfold deferredOf
  rw [List.pairwise_map]
  unfold List.Nodup at honce
  rw [List.pairwise_map] at honce
  refine List.Pairwise.imp_of_mem ?_ honce
  intro x y hx hy hne
  simp only
  cases he : (extConOf gids y).equiv (extConOf gids x) with
  | false => rfl
  | true =>
    exfalso
    apply hne
    rw [extCon_equiv_iff] at he
    obtain ⟨e1, e2, e3⟩ := he
    simp only [extConOf] at e1 e2 e3
    have hxi := hidx x (List.mem_of_mem_filter hx)
    have hyi := hidx y (List.mem_of_mem_filter hy)
    rw [List.getD_eq_getElem _ _ hxi, List.getD_eq_getElem _ _ hyi] at e3
    have := (List.Nodup.getElem_inj_iff hnodup).mp e3
    rw [e1, e2, this]

theorem post_process_master_entry (store : LayoutStore) (s : ComPol_MatCreateOverlap)
    (r : MasterResult) (h : post_process_master store s = .ok r) (i k : Nat)
    (hi : i < s.m_mat.numRows) (hk : k < s.m_mat.numRows + s.m_recvNewIDs.length) :
    r.pol.m_mat.entry i k =
      s.m_mat.entry i k +
        deferredSum (hashInsertFrom s.m_algIDHash s.m_recvNewIDs s.m_mat.numRows)
          s.m_recvNewCons i k := by
  unfold post_process_master post_process_masterOverlap at h
  simp only [post_process_newLayout] at h
  split at h
  · cases h
  · rename_i fin hloop
    simp only [Except.ok.injEq] at h
    have hent := masterOverlapLoop_entry _ _ _ _ _ i k _ _ hloop
    rw [← h]
    simp only
    rw [hent]
    have hnew := post_process_newIDs_entry
      { s with m_mat := { s.m_mat with layouts := store.length } } i k hi hk
    simp only at hnew ⊢
    rw [hnew]
    rfl

/-! ## The send buffer of the master-overlap loop -/

theorem segmentFor_nil (q : Nat) :
    ∀ (procs sizes : List Nat), segmentFor q procs sizes [] = [] := by
  intro procs
  induction procs with
  | nil => intro sizes; rfl
  | cons p ps ih =>
    intro sizes
    simp only [segmentFor, List.take_nil, List.drop_nil, ih]
    simp

theorem getD_zero_of_succ (n : Nat) (ns : List Nat) (j : Nat)
    (h : ∀ j', j + 1 < j' → (n :: ns).getD j' 0 = 0) :
    ∀ j', j < j' → ns.getD j' 0 = 0 := by
  intro j' hj'
  have := h (j' + 1) (by omega)
  simpa using this

theorem sum_eq_zero_of_getD (ns : List Nat) (h : ∀ j', ns.getD j' 0 = 0) : ns.sum = 0 := by
  induction ns with
  | nil => rfl
  | cons n rest ih =>
    have h0 := h 0
    simp only [List.getD_cons_zero] at h0
    have hrest : ∀ j', rest.getD j' 0 = 0 := by
      intro j'
      have := h (j' + 1)
      simpa using this
    simp [h0, ih hrest]

theorem segmentFor_push (q : Nat) (x : BufItem) :
    ∀ (procs sizes : List Nat) (buf : BinaryBuffer) (j : Nat),
      procs.Nodup → sizes.length = procs.length → j < procs.length →
      buf.length = sizes.sum → (∀ j', j < j' → sizes.getD j' 0 = 0) →
      segmentFor q procs (addAt sizes j 1) (buf ++ [x]) =
        if procs[j]? = some q then segmentFor q procs sizes buf ++ [x]
        else segmentFor q procs sizes buf := by
  intro procs
  induction procs with
  | nil => intro sizes buf j _ _ hj; simp at hj
  | cons p ps ih =>
    intro sizes buf j hnd hlen hj hbuf hzero
    match sizes with
    | [] => simp at hlen
    | n :: ns =>
      simp only [List.length_cons, Nat.add_right_cancel_iff] at hlen
      rw [List.nodup_cons] at hnd
      cases j with
      | zero =>
        have hns : ns.sum = 0 := by
          apply sum_eq_zero_of_getD
          intro j'
          have := hzero (j' + 1) (by omega)
          simpa using this
        simp only [List.sum_cons, hns, Nat.add_zero] at hbuf
        simp only [addAt, segmentFor, List.headD_cons, List.tail_cons, List.getElem?_cons_zero,
          Option.some.injEq]
        by_cases hp : p = q
        · simp only [hp, if_true]
          rw [List.take_of_length_le (by simp [hbuf]), List.take_of_length_le (by omega)]
        · simp only [hp, if_false]
          rw [List.drop_of_length_le (by simp [hbuf]), List.drop_of_length_le (by omega)]
      | succ j =>
        simp only [List.length_cons, Nat.add_lt_add_iff_right] at hj
        simp only [List.sum_cons] at hbuf
        simp only [addAt, segmentFor, List.headD_cons, List.tail_cons, List.getElem?_cons_succ]
        by_cases hp : p = q
        · have hne : ¬ ps[j]? = some q := by
            intro hq
            apply hnd.1
            rw [hp]
            exact List.getElem?_mem hq
          simp only [hp, if_true, hne, if_false]
          rw [List.take_append_of_le_length (by omega)]
        · simp only [hp, if_false]
          rw [List.drop_append_of_le_length (by omega)]
          apply ih ns (buf.drop n) j hnd.2 hlen hj
          · rw [List.length_drop]; omega
          · exact getD_zero_of_succ n ns j hzero

theorem findSlaveInd_some (c : Nat) :
    ∀ (procs : List Nat) (i j : Nat), findSlaveInd c procs i = some j →
      i ≤ j ∧ procs[j - i]? = some c := by
  intro procs
  induction procs with
  | nil => intro i j h; cases h
  | cons p ps ih =>
    intro i j h
    simp only [findSlaveInd] at h
    by_cases hp : p = c
    · simp only [hp, if_true, Option.some.injEq] at h
      subst h
      simp [hp]
    · simp only [hp, if_false] at h
      obtain ⟨h1, h2⟩ := ih (i + 1) j h
      refine ⟨by omega, ?_⟩
      have : j - i = (j - (i + 1)) + 1 := by omega
      rw [this, List.getElem?_cons_succ]
      exact h2

theorem index_lt_of_sorted (procs : List Nat) (hs : procs.Pairwise (fun a b => a < b))
    (j j' c c' : Nat) (hj : procs[j]? = some c) (hj' : procs[j']? = some c') (hc : c < c') :
    j < j' := by
  by_contra hcon
  have hle : j' ≤ j := by omega
  rcases List.getElem?_eq_some.mp hj with ⟨hjl, hjv⟩
  rcases List.getElem?_eq_some.mp hj' with ⟨hjl', hjv'⟩
  rcases Nat.lt_or_eq_of_le hle with hlt | heq
  · have := List.pairwise_iff_getElem.mp hs j' j hjl' hjl hlt
    omega
  · subst heq
    rw [hjv] at hjv'
    omega

theorem length_addAt (d : Nat) : ∀ (l : List Nat) (j : Nat), (addAt l j d).length = l.length := by
  intro l
  induction l with
  | nil => intro j; rfl
  | cons x rest ih =>
    intro j
    cases j with
    | zero => rfl
    | succ j => simp [addAt, ih]

theorem sum_addAt (d : Nat) :
    ∀ (l : List Nat) (j : Nat), j < l.length → (addAt l j d).sum = l.sum + d := by
  intro l
  induction l with
  | nil => intro j hj; simp at hj
  | cons x rest ih =>
    intro j hj
    cases j with
    | zero => simp [addAt]; omega
    | succ j =>
      simp only [List.length_cons, Nat.add_lt_add_iff_right] at hj
      simp only [addAt, List.sum_cons, ih j hj]
      omega

theorem getD_addAt_ne (d : Nat) :
    ∀ (l : List Nat) (j j' : Nat), j ≠ j' → (addAt l j d).getD j' 0 = l.getD j' 0 := by
  intro l
  induction l with
  | nil => intro j j' _; rfl
  | cons x rest ih =>
    intro j j' hne
    cases j with
    | zero =>
      cases j' with
      | zero => exact absurd rfl hne
      | succ j' => simp [addAt]
    | succ j =>
      cases j' with
      | zero => simp [addAt]
      | succ j' =>
        have := ih j j' (by omega)
        simpa [addAt] using this

theorem masterOverlapEnter_inv (hash : AlgebraIDHashList) (numNewInds : Nat)
    (slaveProcs : List Nat) (mo0 : IndexLayout) (st st1 : MasterLoop) (c' : Nat)
    (hsp : slaveProcs.Pairwise (fun a b => a < b))
    (hinv : masterLoopInv hash slaveProcs mo0 st)
    (hle : ∀ c, st.itfc = some c → c ≤ c')
    (h : masterOverlapEnter numNewInds slaveProcs st c' = .ok st1) :
    masterLoopInv hash slaveProcs mo0 st1 ∧ st1.itfc = some c' := by
  unfold masterOverlapEnter at h
  by_cases hc : st.itfc = some c'
  · rw [if_pos hc] at h
    simp only [Except.ok.injEq] at h
    rw [← h]
    exact ⟨hinv, hc⟩
  · rw [if_neg hc] at h
    cases hf : findSlaveInd c' slaveProcs 0 with
    | none => rw [hf] at h; cases h
    | some j' =>
      rw [hf] at h
      simp only [Except.ok.injEq] at h
      obtain ⟨_, hj'⟩ := findSlaveInd_some c' slaveProcs 0 j' hf
      simp only [Nat.sub_zero] at hj'
      obtain ⟨i1, i2, i3, i4, i5⟩ := hinv
      rw [← h]
      refine ⟨⟨?_, i2, i3, ?_, ?_⟩, rfl⟩
      · exact append_isMap _ _ _ i1
      · refine ⟨j', rfl, hj', ?_⟩
        intro j'' hj''
        cases hit : st.itfc with
        | none =>
          rw [hit] at i4
          exact i4 j''
        | some c =>
          rw [hit] at i4
          obtain ⟨j, _, hj, hz⟩ := i4
          have hcle := hle c hit
          have hne : c ≠ c' := fun e => hc (by rw [hit, e])
          have hlt : j < j' := index_lt_of_sorted slaveProcs hsp j j' c c' hj hj' (by omega)
          exact hz j'' (by omega)
      · intro q
        obtain ⟨ids, a1, a2, a3⟩ := i5 q
        refine ⟨ids, a1, ?_, a3⟩
        simp only [IndexLayout.interface]
        rw [elemsOf_append _ _ _ _ i1]
        by_cases hq : q = c'
        · rw [if_pos hq, List.append_nil, ← hq]; exact a2
        · rw [if_neg hq]; exact a2

theorem masterOverlapAdd_inv (hash : AlgebraIDHashList) (oldSize : Nat)
    (slaveProcs : List Nat) (mo0 : IndexLayout) (st : MasterLoop) (ec : ExtCon) (v : block_t)
    (toInd : Nat)
    (hsp : slaveProcs.Pairwise (fun a b => a < b))
    (hinv : masterLoopInv hash slaveProcs mo0 st)
    (hit : st.itfc = some ec.conProc)
    (hto : hash.get_entry ec.toID = some toInd) :
    masterLoopInv hash slaveProcs mo0 (masterOverlapAdd oldSize st ec v toInd) ∧
    (masterOverlapAdd oldSize st ec v toInd).itfc = some ec.conProc := by
  unfold masterOverlapAdd
  by_cases ha : st.added.getD (toInd - oldSize) false = true
  · simp only [ha, if_true]
    exact ⟨hinv, hit⟩
  · simp only [ha, Bool.false_eq_true, if_false]
    refine ⟨?_, hit⟩
    obtain ⟨i1, i2, i3, i4, i5⟩ := hinv
    rw [hit] at i4
    obtain ⟨j, hsj, hj, hz⟩ := i4
    have hjl : j < slaveProcs.length := by
      rcases List.getElem?_eq_some.mp hj with ⟨hjl, _⟩
      exact hjl
    have hnd : slaveProcs.Nodup := hsp.imp (fun hab => by omega)
    unfold masterLoopInv
    simp only [hsj, Option.getD_some, hit]
    refine ⟨append_isMap _ _ _ i1, ?_, ?_, ?_, ?_⟩
    · rw [length_addAt]; exact i2
    · rw [List.length_append, sum_addAt _ _ _ (by omega), i3]
      rfl
    · refine ⟨j, rfl, hj, ?_⟩
      intro j' hj'
      rw [getD_addAt_ne _ _ _ _ (by omega)]
      exact hz j' hj'
    · intro q
      obtain ⟨ids, a1, a2, a3⟩ := i5 q
      rw [segmentFor_push q _ slaveProcs _ _ j hnd i2 hjl i3 hz, elemsOf_append _ _ _ _ i1]
      by_cases hq : q = ec.conProc
      · have hjq : slaveProcs[j]? = some q := by rw [hq]; exact hj
        rw [if_pos hjq, if_pos hq]
        refine ⟨ids ++ [ec.toID], ?_, ?_, ?_⟩
        · rw [a1]; simp
        · rw [← hq, a2, List.filterMap_append]
          simp [hto]
        · intro g hg
          rcases List.mem_append.mp hg with hg | hg
          · exact a3 g hg
          · simp only [List.mem_singleton] at hg
            rw [hg, hto]
            simp
      · have hjq : ¬ slaveProcs[j]? = some q := by
          rw [hj]
          intro e
          exact hq (Option.some.inj e).symm
        rw [if_neg hjq, if_neg hq]
        exact ⟨ids, a1, a2, a3⟩

theorem masterOverlapLoop_inv (hash : AlgebraIDHashList) (oldSize numNewInds : Nat)
    (slaveProcs : List Nat) (mo0 : IndexLayout)
    (hsp : slaveProcs.Pairwise (fun a b => a < b)) :
    ∀ (cons : List (ExtCon × block_t)) (st st' : MasterLoop),
      cons.Pairwise (fun a b => a.1.conProc ≤ b.1.conProc) →
      (∀ e, e ∈ cons → ∀ c, st.itfc = some c → c ≤ e.1.conProc) →
      masterLoopInv hash slaveProcs mo0 st →
      masterOverlapLoop hash oldSize numNewInds slaveProcs st cons = .ok st' →
      masterLoopInv hash slaveProcs mo0 st' := by
  intro cons
  induction cons with
  | nil =>
    intro st st' _ _ hinv h
    simp only [masterOverlapLoop, Except.ok.injEq] at h
    rw [← h]; exact hinv
  | cons e rest ih =>
    intro st st' hsorted hle hinv h
    rw [List.pairwise_cons] at hsorted
    simp only [masterOverlapLoop] at h
    cases hs : masterOverlapStep hash oldSize numNewInds slaveProcs st e with
    | error err => rw [hs] at h; cases h
    | ok st1 =>
      rw [hs] at h
      unfold masterOverlapStep at hs
      cases he : masterOverlapEnter numNewInds slaveProcs st e.1.conProc with
      | error err => rw [he] at hs; cases hs
      | ok st0 =>
        rw [he] at hs
        simp only at hs
        cases hg : hash.get_entry e.1.toID with
        | none => rw [hg] at hs; cases hs
        | some toInd =>
          rw [hg] at hs
          simp only [Except.ok.injEq] at hs
          obtain ⟨inv0, hit0⟩ := masterOverlapEnter_inv hash numNewInds slaveProcs mo0 st st0
            e.1.conProc hsp hinv (hle e (List.mem_cons_self _ _)) he
          obtain ⟨inv1, hit1⟩ := masterOverlapAdd_inv hash oldSize slaveProcs mo0 st0 e.1 e.2
            toInd hsp inv0 hit0 hg
          rw [hs] at inv1 hit1
          refine ih st1 st' hsorted.2 ?_ inv1 h
          intro e' he' c hc
          rw [hit1] at hc
          simp only [Option.some.injEq] at hc
          rw [← hc]
          exact hsorted.1 e' he'

/-! ## Order of the new connections -/

theorem conProc_le_of_lt (a b : ExtCon) (h : a.lt b = true) : a.conProc ≤ b.conProc := by
  unfold ExtCon.lt at h
  by_cases h1 : a.conProc < b.conProc
  · omega
  · by_cases h2 : b.conProc < a.conProc
    · simp [h1, h2] at h
    · omega

theorem mem_mapAssign (ec : ExtCon) (v : block_t) (l : List (ExtCon × block_t))
    (e : ExtCon × block_t) (h : e ∈ mapAssign ec v l) :
    e.1.conProc = ec.conProc ∨ ∃ e' ∈ l, e'.1 = e.1 := by
  induction l with
  | nil =>
    simp only [mapAssign, List.mem_singleton] at h
    left; rw [h]
  | cons a rest ih =>
    obtain ⟨k, x⟩ := a
    unfold mapAssign at h
    by_cases h1 : ec.lt k = true
    · rw [if_pos h1] at h
      rcases List.mem_cons.mp h with h | h
      · left; rw [h]
      · right; exact ⟨e, h, rfl⟩
    · rw [if_neg h1] at h
      by_cases h2 : k.lt ec = true
      · rw [if_pos h2] at h
        rcases List.mem_cons.mp h with h | h
        · right; exact ⟨(k, x), List.mem_cons_self _ _, by rw [h]⟩
        · rcases ih h with h | ⟨e', he', hee⟩
          · left; exact h
          · right; exact ⟨e', List.mem_cons_of_mem _ he', hee⟩
      · rw [if_neg h2] at h
        rcases List.mem_cons.mp h with h | h
        · right; exact ⟨(k, x), List.mem_cons_self _ _, by rw [h]⟩
        · right; exact ⟨e, List.mem_cons_of_mem _ h, rfl⟩

theorem mapAssign_procSorted (ec : ExtCon) (v : block_t) (l : List (ExtCon × block_t))
    (h : l.Pairwise (fun a b => a.1.conProc ≤ b.1.conProc)) :
    (mapAssign ec v l).Pairwise (fun a b => a.1.conProc ≤ b.1.conProc) := by
  induction l with
  | nil => simp [mapAssign]
  | cons a rest ih =>
    obtain ⟨k, x⟩ := a
    rw [List.pairwise_cons] at h
    unfold mapAssign
    by_cases h1 : ec.lt k = true
    · rw [if_pos h1]
      have hk := conProc_le_of_lt ec k h1
      refine List.pairwise_cons.mpr ⟨?_, List.pairwise_cons.mpr h⟩
      intro b hb
      rcases List.mem_cons.mp hb with hb | hb
      · rw [hb]; exact hk
      · exact Nat.le_trans hk (h.1 b hb)
    · rw [if_neg h1]
      by_cases h2 : k.lt ec = true
      · rw [if_pos h2]
        have hk := conProc_le_of_lt k ec h2
        refine List.pairwise_cons.mpr ⟨?_, ih h.2⟩
        intro b hb
        rcases mem_mapAssign ec v rest b hb with hb | ⟨e', he', hee⟩
        · simp only; omega
        · have := h.1 e' he'
          rw [hee] at this
          exact this
      · rw [if_neg h2]
        exact List.pairwise_cons.mpr ⟨h.1, h.2⟩

theorem applyReceived_procSorted (rc : List (Nat × Conn)) :
    ∀ s : ComPol_MatCreateOverlap,
      s.m_recvNewCons.Pairwise (fun a b => a.1.conProc ≤ b.1.conProc) →
      (applyReceived rc s).m_recvNewCons.Pairwise (fun a b => a.1.conProc ≤ b.1.conProc) := by
  induction rc with
  | nil => intro s h; exact h
  | cons x rest ih =>
    intro s h
    apply ih (extractConnection x.2.index x.1 x.2.gID x.2.block s)
    rw [extractConnection_newCons]
    split
    · exact mapAssign_procSorted _ _ _ h
    · exact h

/-! ## What the master part of post_process sends -/

theorem masterLoopInv_init (hash : AlgebraIDHashList) (slaveProcs : List Nat)
    (mo0 : IndexLayout) (mat : Matrix) (hmo : mo0.isMap) :
    masterLoopInv hash slaveProcs mo0
      { itfc := none, added := [], slaveInd := none, sendBuf := [],
        msgSizeForSlaveProcs := List.replicate slaveProcs.length 0,
        masterOverlap := mo0, mat := mat } := by
  refine ⟨hmo, by simp, by simp, ?_, ?_⟩
  · intro j
    simp only [List.getD_eq_getElem?_getD]
    by_cases hj : j < slaveProcs.length
    · simp [List.getElem?_replicate, hj]
    · simp [List.getElem?_replicate, hj]
  · intro q
    exact ⟨[], by simp [segmentFor_nil], by simp, by simp⟩

theorem post_process_master_sends (store : LayoutStore) (s : ComPol_MatCreateOverlap)
    (r : MasterResult) (h : post_process_master store s = .ok r)
    (hmaster : (layoutsOf store s.m_mat).master.isMap)
    (hmo : (layoutsOf store s.m_mat).masterOverlap.isMap)
    (hsorted : s.m_recvNewCons.Pairwise (fun a b => a.1.conProc ≤ b.1.conProc)) :
    ∀ q, ∃ ids : List AlgebraID,
      segmentFor q r.slaveProcs r.msgSizeForSlaveProcs r.sendBuf = ids.map BufItem.algID ∧
      (layoutsOf r.store r.pol.m_mat).masterOverlap.elemsOf q =
        (layoutsOf store s.m_mat).masterOverlap.elemsOf q ++
          ids.filterMap r.pol.m_algIDHash.get_entry ∧
      ∀ g, g ∈ ids → r.pol.m_algIDHash.get_entry g ≠ none := by
  have hfr := post_process_master_frame store s r h
  obtain ⟨mo, hstore⟩ := post_process_master_store store s r h
  unfold post_process_master post_process_masterOverlap at h
  simp only [post_process_newLayout] at h
  split at h
  · cases h
  · rename_i fin hloop
    simp only [Except.ok.injEq] at h
    have hl : (post_process_newIDs
        { s with m_mat := { s.m_mat with layouts := store.length } }).m_mat.layouts =
        store.length := (post_process_newIDs_shape _).2.2
    simp only [hl, getD_append_length] at hloop
    have hsp : (GetLayoutTargetProcs (layoutsOf store s.m_mat).master).Pairwise
        (fun a b => a < b) := by
      unfold GetLayoutTargetProcs
      rw [List.pairwise_map]
      exact hmaster
    have hinv := masterOverlapLoop_inv _ _ _ _ (layoutsOf store s.m_mat).masterOverlap hsp
      _ _ fin hsorted (by intro e _ c hc; cases hc)
      (masterLoopInv_init _ _ _ _ hmo) hloop
    obtain ⟨_, _, _, _, i5⟩ := hinv
    intro q
    obtain ⟨ids, a1, a2, a3⟩ := i5 q
    refine ⟨ids, ?_, ?_, ?_⟩
    · rw [← h]
      simp only [hl, getD_append_length]
      exact a1
    · have hlay : (layoutsOf r.store r.pol.m_mat).masterOverlap = fin.masterOverlap := by
        rw [← h]
        simp only [layoutsOf, hl, getD_append_length, set_append_length]
        have hfl : fin.mat.layouts = store.length := by
          have := masterOverlapLoop_shape _ _ _ _ _ _ _ hloop
          rw [this.2.2]
          exact hl
        rw [hfl, getD_append_length]
      rw [hlay, a2, hfr.2.1]
      rfl
    · rw [hfr.2.1]
      exact a3

/-! ## What the slave part of post_process receives -/

theorem filterMap_all_some (H : AlgebraID → Option Nat) :
    ∀ ids : List AlgebraID, (∀ g, g ∈ ids → H g ≠ none) →
      (ids.filterMap H).length = ids.length ∧
      ∀ (k : Nat) (g : AlgebraID), ids[k]? = some g →
        ∃ a : Nat, (ids.filterMap H)[k]? = some a ∧ H g = some a := by
  intro ids
  induction ids with
  | nil => intro _; exact ⟨rfl, fun k g h => by simp at h⟩
  | cons x rest ih =>
    intro hall
    obtain ⟨ih1, ih2⟩ := ih (fun g hg => hall g (List.mem_cons_of_mem _ hg))
    cases hx : H x with
    | none => exact absurd hx (hall x (List.mem_cons_self _ _))
    | some a =>
      simp only [List.filterMap_cons, hx, List.length_cons, ih1, true_and]
      intro k g hk
      cases k with
      | zero =>
        simp only [List.getElem?_cons_zero, Option.some.injEq] at hk
        subst hk
        exact ⟨a, by simp, hx⟩
      | succ k =>
        simp only [List.getElem?_cons_succ] at hk ⊢
        exact ih2 k g hk

theorem idsFrom_not_mem (q : Nat) :
    ∀ (procs sizes : List Nat) (ids : List AlgebraID), q ∉ procs →
      idsFrom q procs sizes ids = [] := by
  intro procs
  induction procs with
  | nil => intro sizes ids _; rfl
  | cons p ps ih =>
    intro sizes ids hq
    have hp : ¬ p = q := fun e => hq (by rw [e]; exact List.mem_cons_self _ _)
    simp only [idsFrom, hp, if_false, List.nil_append]
    exact ih _ _ (fun hm => hq (List.mem_cons_of_mem _ hm))

theorem idsFrom_distribute (q : Nat) (sentIDs : Nat → List AlgebraID) :
    ∀ procs : List Nat, procs.Nodup → q ∈ procs →
      idsFrom q procs (procs.map (fun m => (sentIDs m).length)) (procs.map sentIDs).flatten =
        sentIDs q := by
  intro procs
  induction procs with
  | nil => intro _ hq; cases hq
  | cons p ps ih =>
    intro hnd hq
    rw [List.nodup_cons] at hnd
    simp only [List.map_cons, List.flatten_cons, idsFrom, List.headD_cons, List.tail_cons,
      List.take_left', List.drop_left']
    by_cases hp : p = q
    · subst hp
      simp only [if_true]
      rw [idsFrom_not_mem p ps _ _ hnd.1, List.append_nil]
    · simp only [hp, if_false, List.nil_append]
      rcases List.mem_cons.mp hq with hq | hq
      · exact absurd hq.symm hp
      · exact ih hnd.2 hq

theorem distribute_data_ids (procs : List Nat) (sentIDs : Nat → List AlgebraID) :
    distribute_data procs (fun m => (sentIDs m).map BufItem.algID) =
      (((procs.map sentIDs).flatten).map BufItem.algID,
        procs.map (fun m => (sentIDs m).length)) := by
  unfold distribute_data
  congr 1
  · induction procs with
    | nil => rfl
    | cons p ps ih => simp only [List.map_cons, List.flatten_cons, List.map_append, ih]
  · simp

theorem length_flatten_sentIDs (procs : List Nat) (sentIDs : Nat → List AlgebraID) :
    ((procs.map sentIDs).flatten).length = (procs.map (fun m => (sentIDs m).length)).sum := by
  induction procs with
  | nil => rfl
  | cons p ps ih => simp only [List.map_cons, List.flatten_cons, List.length_append, ih, List.sum_cons]

theorem post_process_slaveOverlap_receives (store store' : LayoutStore)
    (s : ComPol_MatCreateOverlap) (sentIDs : Nat → List AlgebraID)
    (hptr : s.m_mat.layouts < store.length)
    (hslave : (layoutsOf store s.m_mat).slave.isMap)
    (hso : (layoutsOf store s.m_mat).slaveOverlap.isMap)
    (h : post_process_slaveOverlap store s
      (distribute_data (masterProcsOf store s) (fun m => (sentIDs m).map BufItem.algID)).1
      (distribute_data (masterProcsOf store s) (fun m => (sentIDs m).map BufItem.algID)).2 =
        .ok store') :
    ∀ q, q ∈ masterProcsOf store s →
      (layoutsOf store' s.m_mat).slaveOverlap.elemsOf q =
        (layoutsOf store s.m_mat).slaveOverlap.elemsOf q ++
          (sentIDs q).filterMap s.m_algIDHash.get_entry ∧
      ∀ g, g ∈ sentIDs q → s.m_algIDHash.get_entry g ≠ none := by
  rw [distribute_data_ids] at h
  simp only at h
  have hloop := slaveOverlapLoop_eq s.m_algIDHash (masterProcsOf store s)
    ((masterProcsOf store s).map (fun m => (sentIDs m).length))
    ((masterProcsOf store s).map sentIDs).flatten
    (layoutsOf store s.m_mat).slaveOverlap hso (by simp) (length_flatten_sentIDs _ _)
  have hdef : post_process_slaveOverlap store s
      ((((masterProcsOf store s).map sentIDs).flatten).map BufItem.algID)
      ((masterProcsOf store s).map (fun m => (sentIDs m).length)) =
      match slaveOverlapLoop s.m_algIDHash (masterProcsOf store s)
          ((masterProcsOf store s).map (fun m => (sentIDs m).length))
          ((((masterProcsOf store s).map sentIDs).flatten).map BufItem.algID)
          (layoutsOf store s.m_mat).slaveOverlap with
      | .error err => .error err
      | .ok slaveOverlap =>
        .ok (store.set s.m_mat.layouts
          { (layoutsOf store s.m_mat) with slaveOverlap := slaveOverlap }) := rfl
  rw [hdef] at h
  have hnd : (masterProcsOf store s).Nodup := by
    unfold masterProcsOf GetLayoutTargetProcs
    have : List.Pairwise (fun a b => a < b)
        (List.map (fun itf => itf.targetProc) (layoutsOf store s.m_mat).slave) := by
      rw [List.pairwise_map]; exact hslave
    exact this.imp (fun hab => by omega)
  cases hf : (((masterProcsOf store s).map sentIDs).flatten).find?
      (fun g => (s.m_algIDHash.get_entry g).isNone) with
  | some g0 =>
    rw [hf] at hloop
    simp only at hloop
    rw [hloop] at h
    cases h
  | none =>
    rw [hf] at hloop
    simp only at hloop
    obtain ⟨final, hf1, _, hf3⟩ := hloop
    rw [hf1] at h
    simp only [Except.ok.injEq] at h
    intro q hq
    constructor
    · have hlay : (layoutsOf store' s.m_mat).slaveOverlap = final := by
        rw [← h]
        simp only [layoutsOf, List.getD_eq_getElem?_getD]
        rw [List.getElem?_set_self hptr]
        rfl
      rw [hlay, hf3 q, idsFrom_distribute q sentIDs _ hnd hq]
    · intro g hg hn
      have hmem : g ∈ ((masterProcsOf store s).map sentIDs).flatten := by
        rw [List.mem_flatten]
        exact ⟨sentIDs q, List.mem_map.mpr ⟨q, hq, rfl⟩, hg⟩
      have := List.find?_eq_none.mp hf g hmem
      simp [hn] at this

/-! ## CreateOverlap on a pair of processes -/

theorem createOverlapMaster_ok (store : LayoutStore) (mat : Matrix) (gids : List AlgebraID)
    (calls : List (BinaryBuffer × Interface)) (r : MasterResult)
    (hlen : gids.length = mat.numRows)
    (h : createOverlapMaster store mat gids calls = .ok r) :
    ∃ s1 : ComPol_MatCreateOverlap,
      post_process_master store s1 = .ok r ∧
      s1.m_mat.layouts = mat.layouts ∧
      s1.m_recvNewCons.Pairwise (fun a b => a.1.conProc ≤ b.1.conProc) ∧
      r.pol.m_globalIDs = gids ++ s1.m_recvNewIDs ∧
      r.pol.m_algIDHash =
        hashInsertFrom (GenerateAlgebraIDHashList gids) s1.m_recvNewIDs gids.length := by
  unfold createOverlapMaster at h
  cases h0 : ComPol_MatCreateOverlap.new mat gids with
  | error err => rw [h0] at h; cases h
  | ok s0 =>
    rw [h0] at h
    simp only at h
    obtain ⟨hs0, _⟩ := new_ok mat gids s0 h0
    cases h1 : extractCalls calls s0 with
    | error err => rw [h1] at h; cases h
    | ok s1 =>
      rw [h1] at h
      simp only at h
      rw [extractCalls_eq] at h1
      cases hr : readCalls calls with
      | none => rw [hr] at h1; cases h1
      | some rc =>
        rw [hr] at h1
        simp only [Except.ok.injEq] at h1
        obtain ⟨f1, f2, f3, _, f5⟩ := applyReceived_frame rc s0
        rw [h1] at f1 f2 f3 f5
        have hsorted := applyReceived_procSorted rc s0 (by rw [hs0]; exact List.Pairwise.nil)
        rw [h1] at hsorted
        obtain ⟨m1, m2, _, _, _, _, _⟩ := post_process_master_frame store s1 r h
        refine ⟨s1, h, ?_, hsorted, ?_, ?_⟩
        · rw [f5, hs0]
        · rw [m1, f2, hs0]
        · rw [m2, f1, f3, hs0, hlen]

theorem post_process_slaveOverlap_keeps_masterOverlap (store store2 : LayoutStore)
    (x : AlgebraLayouts) (s : ComPol_MatCreateOverlap) (recvBuf : BinaryBuffer)
    (recvSizes : List Nat) (hl : s.m_mat.layouts = store.length)
    (h : post_process_slaveOverlap (store ++ [x]) s recvBuf recvSizes = .ok store2) :
    (layoutsOf store2 s.m_mat).masterOverlap = x.masterOverlap := by
  obtain ⟨so, hso⟩ := post_process_slaveOverlap_store store store2 x s recvBuf recvSizes hl h
  rw [hso]
  simp only [layoutsOf, hl, getD_append_length]

theorem algID_map_injective (l1 l2 : List AlgebraID)
    (h : l1.map BufItem.algID = l2.map BufItem.algID) : l1 = l2 := by
  induction l1 generalizing l2 with
  | nil =>
    cases l2 with
    | nil => rfl
    | cons y ys => simp at h
  | cons x xs ih =>
    cases l2 with
    | nil => simp at h
    | cons y ys =>
      simp only [List.map_cons, List.cons.injEq, BufItem.algID.injEq] at h
      rw [h.1, ih ys h.2]

/-! ## C7 -/

/-- C7: let the process `rankM` and the process `rankS` both run `CreateOverlap` with
exactly `numRows` GlobalIDs each and layouts that are maps, where `rankS` has a slave
interface to `rankM`, and let `distribute_data` deliver to `rankS`, as the segment from
`rankM`, what `rankM` wrote for `rankS`.  When `post_process` has built the slave overlap
on both, the entries `mo` that `rankM` added to its master-overlap interface to `rankS`
and the entries `so` that `rankS` added to its slave-overlap interface to `rankM` are
equally many, and at every position `k` both entries have the same GlobalID; the two
interfaces as a whole are equally long when they were so before. -/
theorem overlap_interfaces_agree (rankM rankS : Nat)
    (storeM storeM' : LayoutStore) (matM : Matrix) (gidsM : List AlgebraID)
    (callsM : List (BinaryBuffer × Interface)) (rM : MasterResult)
    (recvBufM : BinaryBuffer) (recvSizesM : List Nat)
    (storeS storeS' : LayoutStore) (matS : Matrix) (gidsS : List AlgebraID)
    (callsS : List (BinaryBuffer × Interface)) (rS : MasterResult)
    (sentIDs : Nat → List AlgebraID)
    (hlenM : gidsM.length = matM.numRows) (hlenS : gidsS.length = matS.numRows)
    (hMmaster : (layoutsOf storeM matM).master.isMap)
    (hMmo : (layoutsOf storeM matM).masterOverlap.isMap)
    (hSslave : (layoutsOf storeS matS).slave.isMap)
    (hSso : (layoutsOf storeS matS).slaveOverlap.isMap)
    (hmem : rankM ∈ GetLayoutTargetProcs (layoutsOf storeS matS).slave)
    (hM : createOverlapMaster storeM matM gidsM callsM = .ok rM)
    (hM' : post_process_slaveOverlap rM.store rM.pol recvBufM recvSizesM = .ok storeM')
    (hS : createOverlapMaster storeS matS gidsS callsS = .ok rS)
    (hlink : (sentIDs rankM).map BufItem.algID =
      segmentFor rankS rM.slaveProcs rM.msgSizeForSlaveProcs rM.sendBuf)
    (hS' : post_process_slaveOverlap rS.store rS.pol
      (distribute_data (masterProcsOf rS.store rS.pol)
        (fun m => (sentIDs m).map BufItem.algID)).1
      (distribute_data (masterProcsOf rS.store rS.pol)
        (fun m => (sentIDs m).map BufItem.algID)).2 = .ok storeS') :
    ∃ mo so : List Nat,
      (layoutsOf storeM' rM.pol.m_mat).masterOverlap.elemsOf rankS =
        (layoutsOf storeM matM).masterOverlap.elemsOf rankS ++ mo ∧
      (layoutsOf storeS' rS.pol.m_mat).slaveOverlap.elemsOf rankM =
        (layoutsOf storeS matS).slaveOverlap.elemsOf rankM ++ so ∧
      mo.length = so.length ∧
      (((layoutsOf storeM matM).masterOverlap.elemsOf rankS).length =
          ((layoutsOf storeS matS).slaveOverlap.elemsOf rankM).length →
        ((layoutsOf storeM' rM.pol.m_mat).masterOverlap.elemsOf rankS).length =
          ((layoutsOf storeS' rS.pol.m_mat).slaveOverlap.elemsOf rankM).length) ∧
      ∀ k, k < mo.length →
        ∃ (a b : Nat) (g : AlgebraID), mo[k]? = some a ∧ so[k]? = some b ∧
          rM.pol.m_globalIDs[a]? = some g ∧ rS.pol.m_globalIDs[b]? = some g := by
  obtain ⟨sM, hpM, hlM, hsortM, hgM, hhM⟩ :=
    createOverlapMaster_ok storeM matM gidsM callsM rM hlenM hM
  obtain ⟨sS, hpS, hlS, _, hgS, hhS⟩ :=
    createOverlapMaster_ok storeS matS gidsS callsS rS hlenS hS
  have hlayM : layoutsOf storeM sM.m_mat = layoutsOf storeM matM := by
    simp only [layoutsOf, hlM]
  have hlayS : layoutsOf storeS sS.m_mat = layoutsOf storeS matS := by
    simp only [layoutsOf, hlS]
  -- what the master part of `rankM` sends to `rankS`
  obtain ⟨ids, a1, a2, a3⟩ := post_process_master_sends storeM sM rM hpM
    (by rw [hlayM]; exact hMmaster) (by rw [hlayM]; exact hMmo) hsortM rankS
  have hids : sentIDs rankM = ids := algID_map_injective _ _ (by rw [hlink, a1])
  rw [hlayM] at a2
  -- the store of `rankM` after its slave part
  obtain ⟨moM, hstoreM⟩ := post_process_master_store storeM sM rM hpM
  have hptrM : rM.pol.m_mat.layouts = storeM.length :=
    (post_process_master_frame storeM sM rM hpM).2.2.2.2.2.2
  have hkeep : (layoutsOf storeM' rM.pol.m_mat).masterOverlap =
      (layoutsOf rM.store rM.pol.m_mat).masterOverlap := by
    rw [hstoreM] at hM'
    rw [post_process_slaveOverlap_keeps_masterOverlap storeM storeM' _ rM.pol _ _ hptrM hM',
      hstoreM]
    simp only [layoutsOf, hptrM, getD_append_length]
  -- the store of `rankS` before its slave part
  obtain ⟨moS, hstoreS⟩ := post_process_master_store storeS sS rS hpS
  have hptrS : rS.pol.m_mat.layouts = storeS.length :=
    (post_process_master_frame storeS sS rS hpS).2.2.2.2.2.2
  have hlayS2 : layoutsOf rS.store rS.pol.m_mat =
      { (layoutsOf storeS matS) with overlapEnabled := true, masterOverlap := moS } := by
    rw [hstoreS]
    simp only [layoutsOf, hptrS, getD_append_length]
    rw [← hlS]
  have hrecv := post_process_slaveOverlap_receives rS.store storeS' rS.pol sentIDs
    (by rw [hptrS, hstoreS]; simp)
    (by rw [hlayS2]; exact hSslave) (by rw [hlayS2]; exact hSso) hS' rankM
    (by
      unfold masterProcsOf
      have : List.getD rS.store rS.pol.m_mat.layouts ⟨[], [], [], [], false⟩ =
          layoutsOf rS.store rS.pol.m_mat := rfl
      rw [this, hlayS2]
      exact hmem)
  obtain ⟨b2, b3⟩ := hrecv
  rw [hlayS2, hids] at b2
  rw [hids] at b3
  obtain ⟨lM, eM⟩ := filterMap_all_some rM.pol.m_algIDHash.get_entry ids a3
  obtain ⟨lS, eS⟩ := filterMap_all_some rS.pol.m_algIDHash.get_entry ids b3
  refine ⟨ids.filterMap rM.pol.m_algIDHash.get_entry,
    ids.filterMap rS.pol.m_algIDHash.get_entry, ?_, b2, by rw [lM, lS], ?_, ?_⟩
  · rw [hkeep]; exact a2
  · intro hold
    rw [hkeep, a2, b2, List.length_append, List.length_append, hold, lM, lS]
  · intro k hk
    rw [lM] at hk
    have hg : ids[k]? = some ids[k] := List.getElem?_eq_getElem hk
    obtain ⟨a, ha1, ha2⟩ := eM k _ hg
    obtain ⟨b, hb1, hb2⟩ := eS k _ hg
    refine ⟨a, b, ids[k], ha1, hb1, ?_, ?_⟩
    · rw [hgM]
      apply extended_hash_sound
      rw [← hhM]; exact ha2
    · rw [hgS]
      apply extended_hash_sound
      rw [← hhS]; exact hb2

/-- Witness for C7: in the two-process example rank 0 adds the appended row 2 to its
master-overlap interface to rank 1 and rank 1 adds its row 0 to its slave-overlap
interface to rank 0; both have the GlobalID (1,0). -/
theorem overlap_interfaces_agree_witness :
    gids0.length = rank0.mat.numRows ∧ gids1.length = rank1.mat.numRows ∧
    createOverlapMaster rank0.store rank0.mat gids0 calls0 = .ok master0 ∧
    post_process_slaveOverlap master0.store master0.pol [] [] = .ok slaveStore0 ∧
    createOverlapMaster rank1.store rank1.mat gids1 [] = .ok master1 ∧
    (sentTo1 0).map BufItem.algID =
      segmentFor 1 master0.slaveProcs master0.msgSizeForSlaveProcs master0.sendBuf ∧
    (layoutsOf slaveStore0 master0.pol.m_mat).masterOverlap.elemsOf 1 = [2] ∧
    (layoutsOf slaveStore1 master1.pol.m_mat).slaveOverlap.elemsOf 0 = [0] ∧
    master0.pol.m_globalIDs[2]? = some ⟨1, 0⟩ ∧ master1.pol.m_globalIDs[0]? = some ⟨1, 0⟩ ∧
    ∃ mo so : List Nat,
      (layoutsOf slaveStore0 master0.pol.m_mat).masterOverlap.elemsOf 1 =
        (layoutsOf rank0.store rank0.mat).masterOverlap.elemsOf 1 ++ mo ∧
      (layoutsOf slaveStore1 master1.pol.m_mat).slaveOverlap.elemsOf 0 =
        (layoutsOf rank1.store rank1.mat).slaveOverlap.elemsOf 0 ++ so ∧
      mo.length = so.length ∧
      (((layoutsOf rank0.store rank0.mat).masterOverlap.elemsOf 1).length =
          ((layoutsOf rank1.store rank1.mat).slaveOverlap.elemsOf 0).length →
        ((layoutsOf slaveStore0 master0.pol.m_mat).masterOverlap.elemsOf 1).length =
          ((layoutsOf slaveStore1 master1.pol.m_mat).slaveOverlap.elemsOf 0).length) ∧
      ∀ k, k < mo.length →
        ∃ (a b : Nat) (g : AlgebraID), mo[k]? = some a ∧ so[k]? = some b ∧
          master0.pol.m_globalIDs[a]? = some g ∧ master1.pol.m_globalIDs[b]? = some g :=
  ⟨rfl, rfl, rfl, rfl, rfl, rfl, rfl, rfl, rfl, rfl,
    overlap_interfaces_agree 0 1 rank0.store slaveStore0 rank0.mat gids0 calls0 master0 [] []
      rank1.store slaveStore1 rank1.mat gids1 [] master1 sentTo1 rfl rfl
      (List.pairwise_singleton _ _) List.Pairwise.nil (List.pairwise_singleton _ _)
      List.Pairwise.nil (List.mem_singleton.mpr rfl) rfl rfl rfl rfl rfl⟩

/-! ## C1 -/

/-- Counterexample to C1 as stated: with the slave copy of the coupled row on rank 1,
rank 0 gains a row for global row 2 (GlobalID (1,0)), whose only entry is its diagonal,
but rank 1 gains no master-overlap entry at all; with the slave copy on rank 0, rank 1
gains a master-overlap entry addressed to rank 0, but rank 0 gains no row.  In neither
layout do both halves of C1 hold. -/
theorem two_process_counterexample :
    createOverlapAll [rank0, rank1] = .ok twoProcs ∧
    (resultOf twoProcs 0).2.m_mat.numRows = rank0.mat.numRows + 1 ∧
    (resultOf twoProcs 0).2.m_mat.row 2 = [(2, 2)] ∧
    (layoutsIn twoProcs 1).masterOverlap = [] ∧
    ¬ (rank0.mat.numRows < (resultOf twoProcs 0).2.m_mat.numRows ∧
        (layoutsIn twoProcs 1).masterOverlap.elemsOf 0 ≠ []) ∧
    createOverlapAll [rank0B, rank1B] = .ok twoProcsB ∧
    (resultOf twoProcsB 0).2.m_mat.numRows = rank0B.mat.numRows ∧
    (layoutsIn twoProcsB 1).masterOverlap.elemsOf 0 = [2] ∧
    ¬ (rank0B.mat.numRows < (resultOf twoProcsB 0).2.m_mat.numRows ∧
        (layoutsIn twoProcsB 1).masterOverlap.elemsOf 0 ≠ []) :=
  ⟨rfl, rfl, rfl, rfl, by decide, rfl, rfl, rfl, by decide⟩

/-- C1, amended: in the two-process example (rank 0 owns the global rows 0 and 1, rank 1
owns the global rows 2 and 3 and holds the slave copy of global row 1 with the coupling
to global row 2), after `CreateOverlap` has run on both processes rank 0 has gained one
row, local row 2, for global row 2 (the GlobalID of row 0 of rank 1); its row 1 holds
the off-diagonal value that rank 1 assembled for the coupling in the new column, and
the new row holds the diagonal of its original; rank 0 has gained the master-overlap
entry 2 addressed to rank 1, and rank 1 has gained the slave-overlap entry 0 addressed
to rank 0 and no row. -/
theorem two_process_overlap :
    createOverlapAll [rank0, rank1] = .ok twoProcs ∧
    (resultOf twoProcs 0).2.m_mat.numRows = rank0.mat.numRows + 1 ∧
    (resultOf twoProcs 0).2.m_mat.numCols = rank0.mat.numCols + 1 ∧
    (resultOf twoProcs 0).2.m_globalIDs[2]? = (resultOf twoProcs 1).2.m_globalIDs[0]? ∧
    (resultOf twoProcs 0).2.m_globalIDs[2]? = some ⟨1, 0⟩ ∧
    (resultOf twoProcs 0).2.m_mat.entry 1 2 = rank1.mat.entry 2 0 ∧
    (resultOf twoProcs 0).2.m_mat.entry 1 2 = -1 ∧
    (resultOf twoProcs 0).2.m_mat.entry 2 2 = (resultOf twoProcs 1).2.m_mat.entry 0 0 ∧
    (layoutsIn twoProcs 0).masterOverlap = [⟨1, [2]⟩] ∧
    (layoutsIn twoProcs 0).slaveOverlap = [] ∧
    (layoutsIn twoProcs 1).slaveOverlap = [⟨0, [0]⟩] ∧
    (layoutsIn twoProcs 1).masterOverlap = [] ∧
    (resultOf twoProcs 1).2.m_mat.numRows = rank1.mat.numRows :=
  ⟨rfl, rfl, rfl, rfl, rfl, rfl, rfl, rfl, rfl, rfl, rfl, rfl, rfl⟩

/-! ## C9 -/

theorem copyDiagExtract_collect (A : Matrix) :
    ∀ (sendIdxs recvIdxs : List Nat) (rest : BinaryBuffer) (B : Matrix),
      recvIdxs.length = sendIdxs.length →
      copyDiagExtract recvIdxs
        (sendIdxs.map (fun index => BufItem.block (A.entry index index)) ++ rest) B =
        .ok (rest, assignDiag (diagPairs A sendIdxs recvIdxs) B) := by
  intro sendIdxs
  induction sendIdxs with
  | nil =>
    intro recvIdxs rest B hlen
    have : recvIdxs = [] := List.length_eq_zero.mp hlen
    subst this
    rfl
  | cons si ss ih =>
    intro recvIdxs rest B hlen
    match recvIdxs with
    | [] => simp at hlen
    | ri :: rs =>
      simp only [List.length_cons, Nat.add_right_cancel_iff] at hlen
      have hstep : copyDiagExtract (ri :: rs)
          ((si :: ss).map (fun index => BufItem.block (A.entry index index)) ++ rest) B =
          copyDiagExtract rs
            (ss.map (fun index => BufItem.block (A.entry index index)) ++ rest)
            (B.assign ri ri (A.entry si si)) := rfl
      rw [hstep, ih rs rest _ hlen]
      rfl

theorem entry_assignDiag (pairs : List (Nat × block_t)) :
    ∀ (B : Matrix) (i j : Nat),
      (assignDiag pairs B).entry i j =
        if i = j then (lastDiag pairs i).getD (B.entry i i) else B.entry i j := by
  induction pairs with
  | nil =>
    intro B i j
    by_cases h : i = j
    · subst h; simp [assignDiag, lastDiag]
    · simp [assignDiag, h]
  | cons p rest ih =>
    intro B i j
    obtain ⟨k, v⟩ := p
    have hstep : assignDiag ((k, v) :: rest) B = assignDiag rest (B.assign k k v) := rfl
    rw [hstep, ih]
    unfold Matrix.assign
    by_cases h : i = j
    · subst h
      simp only [if_true, lastDiag, matrix_entry_modify]
      cases hl : lastDiag rest i with
      | some w => simp
      | none =>
        by_cases hk : k = i
        · subst hk; simp
        · have hk' : ¬ i = k := fun e => hk e.symm
          simp [hk, hk']
    · simp only [h, if_false, matrix_entry_modify]
      by_cases hk : i = k ∧ j = k
      · exact absurd (hk.1.trans hk.2.symm) h
      · rw [if_neg hk]

theorem lastDiag_none (A : Matrix) (i : Nat) :
    ∀ (sendIdxs recvIdxs : List Nat), i ∉ recvIdxs →
      lastDiag (diagPairs A sendIdxs recvIdxs) i = none := by
  intro sendIdxs
  induction sendIdxs with
  | nil => intro recvIdxs _; cases recvIdxs <;> rfl
  | cons si ss ih =>
    intro recvIdxs hi
    match recvIdxs with
    | [] => rfl
    | ri :: rs =>
      have hne : ¬ ri = i := fun e => hi (by rw [e]; exact List.mem_cons_self _ _)
      simp only [diagPairs, lastDiag, ih rs (fun hm => hi (List.mem_cons_of_mem _ hm)), hne,
        if_false]

theorem lastDiag_position (A : Matrix) :
    ∀ (sendIdxs recvIdxs : List Nat) (k i j : Nat),
      sendIdxs[k]? = some i → recvIdxs[k]? = some j →
      (∀ k', k < k' → recvIdxs[k']? ≠ some j) →
      lastDiag (diagPairs A sendIdxs recvIdxs) j = some (A.entry i i) := by
  intro sendIdxs
  induction sendIdxs with
  | nil => intro recvIdxs k i j hs; simp at hs
  | cons si ss ih =>
    intro recvIdxs k i j hs hr hlast
    match recvIdxs with
    | [] => simp at hr
    | ri :: rs =>
      cases k with
      | zero =>
        simp only [List.getElem?_cons_zero, Option.some.injEq] at hs hr
        subst hs; subst hr
        have hnot : ri ∉ rs := by
          intro hm
          obtain ⟨n, hn⟩ := List.mem_iff_getElem?.mp hm
          exact hlast (n + 1) (by omega) (by simpa using hn)
        simp only [diagPairs, lastDiag, lastDiag_none A ri ss rs hnot, if_true]
      | succ k =>
        simp only [List.getElem?_cons_succ] at hs hr
        have hrec := ih rs k i j hs hr (fun k' hk' => by
          have := hlast (k' + 1) (by omega)
          simpa using this)
        simp only [diagPairs, lastDiag, hrec]

/-! ## C11 -/

/-- C11: for a sender interface `I` on the matrix `A` and a receiver interface `J` of the
same length on the matrix `B`, `extract` over `J` applied to what `collect` over `I`
wrote (followed by any `rest`) succeeds and leaves exactly `rest` unread, so it consumes
the whole buffer when nothing follows; in the matrix `B'` it leaves, the diagonal entry
at `J[k]` is the diagonal entry of `A` at `I[k]` for every position `k` after which
`J[k]` does not occur again, every off-diagonal entry and every diagonal entry outside
`J` is as in `B`, and the dimensions are those of `B`. -/
theorem copyDiag_roundtrip (A B : Matrix) (I J : Interface) (rest : BinaryBuffer)
    (hlen : J.elems.length = I.elems.length) :
    ∃ B' : Matrix,
      ComPol_MatCopyDiag.extract B (ComPol_MatCopyDiag.collect A [] I ++ rest) J =
        .ok (rest, B') ∧
      ComPol_MatCopyDiag.extract B (ComPol_MatCopyDiag.collect A [] I) J = .ok ([], B') ∧
      (∀ (k i j : Nat), I.elems[k]? = some i → J.elems[k]? = some j →
        (∀ k', k < k' → J.elems[k']? ≠ some j) → B'.entry j j = A.entry i i) ∧
      (∀ i j, i ≠ j → B'.entry i j = B.entry i j) ∧
      (∀ i, i ∉ J.elems → B'.entry i i = B.entry i i) ∧
      B.sameShape B' := by
  refine ⟨assignDiag (diagPairs A I.elems J.elems) B, ?_, ?_, ?_, ?_, ?_, ?_⟩
  · unfold ComPol_MatCopyDiag.extract ComPol_MatCopyDiag.collect
    rw [List.nil_append]
    exact copyDiagExtract_collect A I.elems J.elems rest B hlen
  · unfold ComPol_MatCopyDiag.extract ComPol_MatCopyDiag.collect
    have := copyDiagExtract_collect A I.elems J.elems [] B hlen
    simpa using this
  · intro k i j hi hj hlast
    rw [entry_assignDiag, if_pos rfl, lastDiag_position A I.elems J.elems k i j hi hj hlast]
    rfl
  · intro i j hne
    rw [entry_assignDiag, if_neg hne]
  · intro i hi
    rw [entry_assignDiag, if_pos rfl, lastDiag_none A i I.elems J.elems hi]
    rfl
  · have h := copyDiagExtract_collect A I.elems J.elems [] B hlen
    exact copyDiagExtract_shape B J.elems _ B _ (sameShape_refl B) h

/-- Witness for C11: the slave matrix of the examples sends its diagonal at the indices
0 and 1, the master matrix receives over the interface that names row 1 twice: the last
value, the diagonal entry 1 of row 1 of the sender, is what row 1 holds afterwards. -/
theorem copyDiag_roundtrip_witness :
    (⟨1, [1, 1]⟩ : Interface).elems.length = (⟨0, [0, 1]⟩ : Interface).elems.length ∧
    ComPol_MatCopyDiag.collect exMatS [] ⟨0, [0, 1]⟩ = [.block 2, .block 1] ∧
    ∃ B' : Matrix,
      ComPol_MatCopyDiag.extract exMat (ComPol_MatCopyDiag.collect exMatS [] ⟨0, [0, 1]⟩)
        ⟨1, [1, 1]⟩ = .ok ([], B') ∧
      B'.entry 1 1 = exMatS.entry 1 1 ∧
      B'.entry 1 0 = exMat.entry 1 0 ∧
      B'.entry 0 0 = exMat.entry 0 0 :=
  ⟨rfl, rfl,
    (copyDiag_roundtrip exMatS exMat ⟨0, [0, 1]⟩ ⟨1, [1, 1]⟩ [] rfl).elim
      (fun B' h => ⟨B', h.2.1,
        h.2.2.1 1 1 1 rfl rfl (fun k' hk' => by
          have h2 : ([1, 1] : List Nat)[k']? = none := List.getElem?_eq_none (by simp; omega)
          simp only [h2]
          simp),
        h.2.2.2.1 1 0 (by decide),
        h.2.2.2.2.1 0 (by decide)⟩)⟩

/-! ## Steps: sequencing and loops -/

theorem andThen_of_ok {σ : Type} (a b : Step σ) (s : σ) (h : (a s).ok = true) :
    Step.andThen a b s =
      ⟨(b (a s).state).ok, (b (a s).state).state, (a s).trace ++ (b (a s).state).trace⟩ := by
  unfold Step.andThen
  cases hr : a s with
  | mk ok st tr =>
    rw [hr] at h
    simp only at h
    subst h
    rfl

theorem andThen_of_fail {σ : Type} (a b : Step σ) (s : σ) (h : (a s).ok = false) :
    Step.andThen a b s = a s := by
  unfold Step.andThen
  cases hr : a s with
  | mk ok st tr =>
    rw [hr] at h
    simp only at h
    subst h
    rfl

theorem andThen_ok {σ : Type} (a b : Step σ) (s : σ) :
    (Step.andThen a b s).ok = ((a s).ok && (b (a s).state).ok) := by
  cases h : (a s).ok
  · rw [andThen_of_fail a b s h, h]; rfl
  · rw [andThen_of_ok a b s h]; rfl

theorem andThen_trace_mem {σ : Type} (a b : Step σ) (s : σ) (e : MGEvent)
    (h : e ∈ (Step.andThen a b s).trace) :
    e ∈ (a s).trace ∨ e ∈ (b (a s).state).trace := by
  cases ha : (a s).ok
  · rw [andThen_of_fail a b s ha] at h; exact Or.inl h
  · rw [andThen_of_ok a b s ha] at h
    exact List.mem_append.mp h

theorem when_true {σ : Type} (a : Step σ) : Step.when true a = a := rfl

theorem when_false {σ : Type} (a : Step σ) : Step.when false a = Step.skip := rfl

/-! ## AllEv -/

theorem allEv_skip {σ : Type} (q : MGEvent → Prop) : AllEv q (Step.skip : Step σ) := by
  intro s e h; simp [Step.skip] at h

theorem allEv_fail {σ : Type} (q : MGEvent → Prop) : AllEv q (Step.fail : Step σ) := by
  intro s e h; simp [Step.fail] at h

theorem allEv_emit {σ : Type} (q : MGEvent → Prop) (e : MGEvent) (h : q e) :
    AllEv q (Step.emit e : Step σ) := by
  intro s e' h'
  simp only [Step.emit, List.mem_singleton] at h'
  rw [h']; exact h

theorem allEv_act {σ : Type} (q : MGEvent → Prop) (a : MGAction) (f : σ → σ)
    (h : q (.action a)) : AllEv q (Step.act a f) := by
  intro s e' h'
  simp only [Step.act, List.mem_singleton] at h'
  rw [h']; exact h

theorem allEv_call {σ : Type} (q : MGEvent → Prop) (c : MGCall) (f : σ → Bool × σ)
    (h : ∀ ok, q (.call c ok)) : AllEv q (Step.call c f) := by
  intro s e' h'
  simp only [Step.call, List.mem_singleton] at h'
  rw [h']; exact h _

theorem allEv_andThen {σ : Type} (q : MGEvent → Prop) (a b : Step σ)
    (ha : AllEv q a) (hb : AllEv q b) : AllEv q (Step.andThen a b) := by
  intro s e h
  rcases andThen_trace_mem a b s e h with h1 | h1
  · exact ha s e h1
  · exact hb _ e h1

theorem allEv_when {σ : Type} (q : MGEvent → Prop) (cond : Bool) (a : Step σ)
    (ha : AllEv q a) : AllEv q (Step.when cond a) := by
  cases cond
  · exact allEv_skip q
  · exact ha

theorem allEv_whenS {σ : Type} (q : MGEvent → Prop) (cond : σ → Bool) (a : Step σ)
    (ha : AllEv q a) : AllEv q (Step.whenS cond a) := by
  intro s e h
  unfold Step.whenS at h
  by_cases hc : cond s = true
  · rw [if_pos hc] at h; exact ha s e h
  · rw [if_neg hc] at h; exact allEv_skip q s e h

theorem allEv_repeat {σ : Type} (q : MGEvent → Prop) (a : Step σ) (ha : AllEv q a) :
    ∀ n, AllEv q (Step.repeat a n) := by
  intro n
  induction n with
  | zero => exact allEv_skip q
  | succ n ih => exact allEv_andThen q _ _ ha ih

theorem allEv_forEach {σ : Type} (q : MGEvent → Prop) (body : Nat → Step σ) :
    ∀ levs : List Nat, (∀ lev, lev ∈ levs → AllEv q (body lev)) →
      AllEv q (Step.forEach body levs) := by
  intro levs
  induction levs with
  | nil => intro _; exact allEv_skip q
  | cons lev rest ih =>
    intro h
    exact allEv_andThen q _ _ (h lev (List.mem_cons_self _ _))
      (ih (fun l hl => h l (List.mem_cons_of_mem _ hl)))

theorem allEv_mono {σ : Type} (q q2 : MGEvent → Prop) (a : Step σ)
    (h : ∀ e, q e → q2 e) (ha : AllEv q a) : AllEv q2 a :=
  fun s e he => h e (ha s e he)

/-! ## Succeeds -/

theorem succeeds_skip {σ : Type} : Succeeds (Step.skip : Step σ) := fun _ => rfl

theorem succeeds_emit {σ : Type} (e : MGEvent) : Succeeds (Step.emit e : Step σ) :=
  fun _ => rfl

theorem succeeds_act {σ : Type} (a : MGAction) (f : σ → σ) : Succeeds (Step.act a f) :=
  fun _ => rfl

theorem succeeds_call {σ : Type} (c : MGCall) (f : σ → Bool × σ)
    (h : ∀ s, (f s).1 = true) : Succeeds (Step.call c f) :=
  fun s => h s

theorem succeeds_andThen {σ : Type} (a b : Step σ) (ha : Succeeds a) (hb : Succeeds b) :
    Succeeds (Step.andThen a b) := by
  intro s
  rw [andThen_ok, ha s, hb _]; rfl

theorem succeeds_when {σ : Type} (cond : Bool) (a : Step σ) (ha : Succeeds a) :
    Succeeds (Step.when cond a) := by
  cases cond
  · exact succeeds_skip
  · exact ha

theorem succeeds_repeat {σ : Type} (a : Step σ) (ha : Succeeds a) :
    ∀ n, Succeeds (Step.repeat a n) := by
  intro n
  induction n with
  | zero => exact succeeds_skip
  | succ n ih => exact succeeds_andThen _ _ ha ih

/-! ## CountsOk -/

theorem countsOk_skip {σ : Type} (p : MGEvent → Bool) : CountsOk p (Step.skip : Step σ) 0 :=
  fun _ _ => rfl

theorem countsOk_fail {σ : Type} (p : MGEvent → Bool) (k : Nat) :
    CountsOk p (Step.fail : Step σ) k := by
  intro s h; simp [Step.fail] at h

theorem countsOk_emit {σ : Type} (p : MGEvent → Bool) (e : MGEvent) :
    CountsOk p (Step.emit e : Step σ) (if p e then 1 else 0) := by
  intro s _
  simp only [Step.emit, List.countP_cons, List.countP_nil, Nat.zero_add]

theorem countsOk_act {σ : Type} (p : MGEvent → Bool) (a : MGAction) (f : σ → σ) :
    CountsOk p (Step.act a f) (if p (.action a) then 1 else 0) := by
  intro s _
  simp only [Step.act, List.countP_cons, List.countP_nil, Nat.zero_add]

theorem countsOk_call {σ : Type} (p : MGEvent → Bool) (c : MGCall) (f : σ → Bool × σ) :
    CountsOk p (Step.call c f) (if p (.call c true) then 1 else 0) := by
  intro s h
  simp only [Step.call] at h
  simp only [Step.call, h, List.countP_cons, List.countP_nil, Nat.zero_add]

theorem countsOk_andThen {σ : Type} (p : MGEvent → Bool) (a b : Step σ) (k1 k2 : Nat)
    (ha : CountsOk p a k1) (hb : CountsOk p b k2) :
    CountsOk p (Step.andThen a b) (k1 + k2) := by
  intro s h
  rw [andThen_ok, Bool.and_eq_true] at h
  rw [andThen_of_ok a b s h.1]
  simp only [List.countP_append, ha s h.1, hb _ h.2]

theorem countsOk_when {σ : Type} (p : MGEvent → Bool) (cond : Bool) (a : Step σ) (k : Nat)
    (ha : CountsOk p a k) : CountsOk p (Step.when cond a) (if cond then k else 0) := by
  cases cond
  · exact countsOk_skip p
  · exact ha

theorem countsOk_repeat {σ : Type} (p : MGEvent → Bool) (a : Step σ) (k : Nat)
    (ha : CountsOk p a k) : ∀ n, CountsOk p (Step.repeat a n) (n * k) := by
  intro n
  induction n with
  | zero => rw [Nat.zero_mul]; exact countsOk_skip p
  | succ n ih =>
    have h := countsOk_andThen p a (Step.repeat a n) k (n * k) ha ih
    have e : (n + 1) * k = k + n * k := by ring
    rw [e]; exact h

theorem countsOk_of_allEv {σ : Type} (p : MGEvent → Bool) (a : Step σ)
    (ha : AllEv (fun e => p e = false) a) : CountsOk p a 0 := by
  intro s _
  rw [List.countP_eq_zero]
  intro e he
  rw [ha s e he]
  exact Bool.false_ne_true

/-! ## Sound -/

theorem callsOk_append (tr1 tr2 : List MGEvent) :
    callsOk (tr1 ++ tr2) = (callsOk tr1 && callsOk tr2) := by
  unfold callsOk
  rw [List.all_append]

theorem sound_skip {σ : Type} : Sound (Step.skip : Step σ) := by
  intro s
  exact ⟨fun _ => rfl, fun h => by simp [Step.skip] at h⟩

theorem sound_emit {σ : Type} (e : MGEvent) (h : ∀ c ok, e ≠ .call c ok) :
    Sound (Step.emit e : Step σ) := by
  intro s
  refine ⟨fun _ => ?_, fun h => by simp [Step.emit] at h⟩
  cases e with
  | call c ok => exact absurd rfl (h c ok)
  | lmgc _ => rfl
  | action _ => rfl
  | create _ _ => rfl
  | destroy _ => rfl

theorem sound_act {σ : Type} (a : MGAction) (f : σ → σ) : Sound (Step.act a f) := by
  intro s
  exact ⟨fun _ => rfl, fun h => by simp [Step.act] at h⟩

theorem sound_call {σ : Type} (c : MGCall) (f : σ → Bool × σ) : Sound (Step.call c f) := by
  intro s
  constructor
  · intro h
    simp only [Step.call] at h
    simp [Step.call, callsOk, h]
  · intro h
    simp only [Step.call] at h
    exact ⟨[], c, by simp [Step.call, h], rfl⟩

theorem sound_andThen {σ : Type} (a b : Step σ) (ha : Sound a) (hb : Sound b) :
    Sound (Step.andThen a b) := by
  intro s
  cases hok : (a s).ok
  · rw [andThen_of_fail a b s hok]
    exact ⟨fun h => by rw [hok] at h; exact absurd h (by decide), (ha s).2⟩
  · rw [andThen_of_ok a b s hok]
    constructor
    · intro h
      simp only at h
      simp only [callsOk_append, (ha s).1 hok, (hb _).1 h, Bool.and_self]
    · intro h
      simp only at h
      obtain ⟨tr0, c, htr, hc⟩ := (hb _).2 h
      refine ⟨(a s).trace ++ tr0, c, ?_, ?_⟩
      · simp only [htr, List.append_assoc]
      · simp only [callsOk_append, (ha s).1 hok, hc, Bool.and_self]

theorem sound_when {σ : Type} (cond : Bool) (a : Step σ) (ha : Sound a) :
    Sound (Step.when cond a) := by
  cases cond
  · exact sound_skip
  · exact ha

theorem sound_repeat {σ : Type} (a : Step σ) (ha : Sound a) :
    ∀ n, Sound (Step.repeat a n) := by
  intro n
  induction n with
  | zero => exact sound_skip
  | succ n ih => exact sound_andThen _ _ ha ih

theorem sound_iff {σ : Type} (a : Step σ) (ha : Sound a) (s : σ) :
    (a s).ok = true ↔ callsOk (a s).trace = true := by
  constructor
  · exact (ha s).1
  · intro h
    cases hok : (a s).ok
    · obtain ⟨tr0, c, htr, _⟩ := (ha s).2 hok
      rw [htr, callsOk_append] at h
      simp [callsOk] at h
    · rfl

/-! ## Keeps -/

theorem keeps_skip {σ α : Type} (f : σ → α) : Keeps f (Step.skip : Step σ) := fun _ => rfl

theorem keeps_fail {σ α : Type} (f : σ → α) : Keeps f (Step.fail : Step σ) := fun _ => rfl

theorem keeps_emit {σ α : Type} (f : σ → α) (e : MGEvent) : Keeps f (Step.emit e : Step σ) :=
  fun _ => rfl

theorem keeps_act {σ α : Type} (f : σ → α) (a : MGAction) (g : σ → σ)
    (h : ∀ s, f (g s) = f s) : Keeps f (Step.act a g) := fun s => h s

theorem keeps_call {σ α : Type} (f : σ → α) (c : MGCall) (g : σ → Bool × σ)
    (h : ∀ s, f (g s).2 = f s) : Keeps f (Step.call c g) := fun s => h s

theorem keeps_andThen {σ α : Type} (f : σ → α) (a b : Step σ) (ha : Keeps f a)
    (hb : Keeps f b) : Keeps f (Step.andThen a b) := by
  intro s
  cases hok : (a s).ok
  · rw [andThen_of_fail a b s hok]; exact ha s
  · rw [andThen_of_ok a b s hok]
    exact (hb _).trans (ha s)

theorem keeps_when {σ α : Type} (f : σ → α) (cond : Bool) (a : Step σ) (ha : Keeps f a) :
    Keeps f (Step.when cond a) := by
  cases cond
  · exact keeps_skip f
  · exact ha

theorem keeps_repeat {σ α : Type} (f : σ → α) (a : Step σ) (ha : Keeps f a) :
    ∀ n, Keeps f (Step.repeat a n) := by
  intro n
  induction n with
  | zero => exact keeps_skip f
  | succ n ih => exact keeps_andThen f _ _ ha ih

theorem keeps_forEach {σ α : Type} (f : σ → α) (body : Nat → Step σ)
    (h : ∀ lev, Keeps f (body lev)) : ∀ levs, Keeps f (Step.forEach body levs) := by
  intro levs
  induction levs with
  | nil => exact keeps_skip f
  | cons lev rest ih => exact keeps_andThen f _ _ (h lev) ih

/-! ## The cycle: success and recorded calls -/

theorem sound_smooth {ε V : Type} (ext : Collaborators ε V) (lev : Nat) (nu : Int) :
    Sound (AssembledMultiGridCycle.smooth ext lev nu) :=
  sound_repeat _ (sound_andThen _ _ (sound_call _ _) (sound_act _ _)) _

theorem sound_goingDown {ε V : Type} (ext : Collaborators ε V) (lev : Nat) :
    Sound (goingDown ext lev) := by
  unfold goingDown
  apply sound_andThen
  · split
    · exact sound_act _ _
    · split
      · exact sound_act _ _
      · exact sound_skip
  · exact sound_act _ _

theorem sound_goingUp {ε V : Type} (ext : Collaborators ε V) (lev : Nat) :
    Sound (goingUp ext lev) := by
  unfold goingUp
  apply sound_andThen
  · split
    · exact sound_andThen _ _ (sound_act _ _) (sound_act _ _)
    · split
      · exact sound_andThen _ _ (sound_act _ _) (sound_act _ _)
      · exact sound_skip
  · exact sound_act _ _

theorem sound_lmgcAbove {ε V : Type} (cyc : AssembledMultiGridCycle) (ext : Collaborators ε V)
    (lev : Nat) (coarse : Step (CycleState ε V)) (hc : Sound coarse) :
    Sound (lmgcAbove cyc ext lev coarse) := by
  unfold lmgcAbove
  refine sound_andThen _ _ (sound_smooth ext lev _) ?_
  refine sound_andThen _ _ (sound_when _ _ (sound_act _ _)) ?_
  refine sound_andThen _ _ (sound_call _ _) ?_
  refine sound_andThen _ _ (sound_goingDown ext lev) ?_
  refine sound_andThen _ _ (sound_when _ _ (sound_repeat _ hc _)) ?_
  refine sound_andThen _ _ (sound_goingUp ext lev) ?_
  refine sound_andThen _ _ (sound_call _ _) ?_
  refine sound_andThen _ _ (sound_act _ _) ?_
  refine sound_andThen _ _ (sound_call _ _) ?_
  exact sound_smooth ext lev _

theorem sound_lmgcBase {ε V : Type} (ext : Collaborators ε V) (lev : Nat) :
    Sound (lmgcBase ext lev) := by
  unfold lmgcBase
  refine sound_andThen _ _ (sound_act _ _) ?_
  refine sound_andThen _ _ (sound_act _ _) ?_
  refine sound_andThen _ _ (sound_call _ _) ?_
  refine sound_andThen _ _ (sound_call _ _) ?_
  exact sound_call _ _

theorem sound_lmgcBody {ε V : Type} (cyc : AssembledMultiGridCycle) (ext : Collaborators ε V)
    (lev : Nat) (coarse : Step (CycleState ε V)) (hlev : cyc.m_baseLevel ≤ lev)
    (hc : lev > cyc.m_baseLevel → Sound coarse) :
    Sound (lmgcBody cyc ext lev coarse) := by
  unfold lmgcBody
  refine sound_andThen _ _ (sound_emit _ (fun c ok h => by cases h)) ?_
  refine sound_andThen _ _ (sound_act _ _) ?_
  by_cases h1 : lev > cyc.m_baseLevel
  · rw [if_pos h1]
    exact sound_lmgcAbove cyc ext lev coarse (hc h1)
  · rw [if_neg h1]
    have h2 : lev = cyc.m_baseLevel := by omega
    rw [if_pos h2]
    exact sound_lmgcBase ext lev

theorem sound_lmgc {ε V : Type} (cyc : AssembledMultiGridCycle) (ext : Collaborators ε V) :
    ∀ lev, cyc.m_baseLevel ≤ lev → Sound (AssembledMultiGridCycle.lmgc cyc ext lev) := by
  intro lev
  induction lev with
  | zero =>
    intro h
    exact sound_lmgcBody cyc ext 0 _ h (fun h0 => by omega)
  | succ lev ih =>
    intro h
    exact sound_lmgcBody cyc ext (lev + 1) _ h (fun h0 => ih (by omega))

theorem sound_apply {ε V : Type} (cyc : AssembledMultiGridCycle) (ext : Collaborators ε V)
    (updateDefect : Bool) (hlev : cyc.m_baseLevel ≤ cyc.m_surfaceLevel) :
    Sound (AssembledMultiGridCycle.apply cyc ext updateDefect) := by
  unfold AssembledMultiGridCycle.apply
  refine sound_andThen _ _ (sound_when _ _ (sound_act _ _)) ?_
  refine sound_andThen _ _ (sound_act _ _) ?_
  refine sound_andThen _ _ (sound_act _ _) ?_
  refine sound_andThen _ _ (sound_lmgc cyc ext _ hlev) ?_
  refine sound_andThen _ _ (sound_act _ _) ?_
  exact sound_act _ _

/-! ## TraceOk and SimStep -/

theorem traceOk_emit {σ : Type} (e : MGEvent) : TraceOk (Step.emit e : Step σ) [e] :=
  fun _ _ => rfl

theorem traceOk_act {σ : Type} (a : MGAction) (f : σ → σ) :
    TraceOk (Step.act a f) [.action a] :=
  fun _ _ => rfl

theorem traceOk_call {σ : Type} (c : MGCall) (f : σ → Bool × σ) :
    TraceOk (Step.call c f) [.call c true] := by
  intro s h
  simp only [Step.call] at h
  simp only [Step.call, h]

theorem traceOk_andThen {σ : Type} (a b : Step σ) (tr1 tr2 : List MGEvent)
    (ha : TraceOk a tr1) (hb : TraceOk b tr2) : TraceOk (Step.andThen a b) (tr1 ++ tr2) := by
  intro s h
  rw [andThen_ok, Bool.and_eq_true] at h
  rw [andThen_of_ok a b s h.1]
  simp only [ha s h.1, hb _ h.2]

theorem simStep_refl {σ : Type} (a : Step σ) : SimStep a a :=
  fun _ => ⟨rfl, rfl, rfl⟩

theorem callsOf_append (tr1 tr2 : List MGEvent) :
    callsOf (tr1 ++ tr2) = callsOf tr1 ++ callsOf tr2 := by
  unfold callsOf
  rw [List.filterMap_append]

theorem simStep_andThen {σ : Type} (a a2 b b2 : Step σ) (ha : SimStep a a2)
    (hb : SimStep b b2) : SimStep (Step.andThen a b) (Step.andThen a2 b2) := by
  intro s
  obtain ⟨h1, h2, h3⟩ := ha s
  cases hok : (a s).ok
  · rw [andThen_of_fail a b s hok, andThen_of_fail a2 b2 s (h1 ▸ hok)]
    exact ⟨h1, h2, h3⟩
  · rw [andThen_of_ok a b s hok, andThen_of_ok a2 b2 s (h1 ▸ hok)]
    obtain ⟨g1, g2, g3⟩ := hb (a s).state
    rw [← h2]
    exact ⟨g1, g2, by simp only [callsOf_append, h3, g3]⟩

theorem simStep_emit {σ : Type} (e : MGEvent) (a : Step σ) (h : ∀ c ok, e ≠ .call c ok) :
    SimStep (Step.andThen (Step.emit e) a) a := by
  intro s
  rw [andThen_of_ok (Step.emit e) a s rfl]
  refine ⟨rfl, rfl, ?_⟩
  cases e with
  | call c ok => exact absurd rfl (h c ok)
  | lmgc _ => rfl
  | action _ => rfl
  | create _ _ => rfl
  | destroy _ => rfl

theorem simStep_trans {σ : Type} (a b c : Step σ) (hab : SimStep a b) (hbc : SimStep b c) :
    SimStep a c := by
  intro s
  obtain ⟨h1, h2, h3⟩ := hab s
  obtain ⟨g1, g2, g3⟩ := hbc s
  exact ⟨h1.trans g1, h2.trans g2, h3.trans g3⟩

theorem setLev_setLev {V : Type} (f : Nat → V) (lev : Nat) (a b : V) :
    setLev (setLev f lev a) lev b = setLev f lev b := by
  funext l
  unfold setLev
  by_cases h : l = lev
  · simp [h]
  · simp [h]

theorem setLev_same {V : Type} (f : Nat → V) (lev : Nat) (a : V) :
    setLev f lev a lev = a := by
  unfold setLev
  simp

theorem setLev_other {V : Type} (f : Nat → V) (lev l : Nat) (a : V) (h : l ≠ lev) :
    setLev f lev a l = f l := by
  unfold setLev
  simp [h]

/-! ## The cycle on the base level -/

theorem lmgc_of_base {ε V : Type} (cyc : AssembledMultiGridCycle) (ext : Collaborators ε V)
    (lev : Nat) (h : lev = cyc.m_baseLevel) :
    AssembledMultiGridCycle.lmgc cyc ext lev =
      Step.andThen (Step.emit (.lmgc lev))
        (Step.andThen (resetCorrection ext lev) (lmgcBase ext lev)) := by
  have h1 : ¬ lev > cyc.m_baseLevel := by omega
  cases lev with
  | zero =>
    show lmgcBody cyc ext 0 _ = _
    unfold lmgcBody
    rw [if_neg h1, if_pos h]
  | succ l =>
    show lmgcBody cyc ext (l + 1) _ = _
    unfold lmgcBody
    rw [if_neg h1, if_pos h]

theorem simStep_base {ε V : Type} (ext : Collaborators ε V) (lev : Nat)
    (hzero : ∀ v, ext.set_zero (ext.set_zero v) = ext.set_zero v) :
    SimStep (Step.andThen (resetCorrection ext lev) (lmgcBase ext lev))
      (degenerateCycle ext lev) := by
  intro s
  unfold lmgcBase degenerateCycle
  rw [andThen_of_ok (resetCorrection ext lev) _ s rfl,
    andThen_of_ok (setStorageD ext lev .PST_ADDITIVE) _ _ rfl,
    andThen_of_ok (resetCorrection ext lev) _ _ rfl,
    andThen_of_ok (resetCorrection ext lev) _ s rfl,
    andThen_of_ok (setStorageD ext lev .PST_ADDITIVE) _ _ rfl]
  have hs : ((resetCorrection ext lev)
      (((setStorageD ext lev .PST_ADDITIVE) ((resetCorrection ext lev) s).state).state)).state =
      ((setStorageD ext lev .PST_ADDITIVE) ((resetCorrection ext lev) s).state).state := by
    simp only [resetCorrection, setStorageD, Step.act, setLev_setLev, setLev_same, hzero]
  rw [hs]
  refine ⟨rfl, rfl, ?_⟩
  simp only [callsOf_append]
  rfl

theorem traceOk_lmgcBase {ε V : Type} (ext : Collaborators ε V) (lev : Nat) :
    TraceOk (Step.andThen (Step.emit (.lmgc lev))
        (Step.andThen (resetCorrection ext lev) (lmgcBase ext lev)))
      [.lmgc lev, .action (.c_set_zero lev), .action (.d_set_storage_type lev .PST_ADDITIVE),
       .action (.c_set_zero lev), .call (.baseSolver_prepare lev) true,
       .call (.baseSolver_apply lev) true, .call (.A_apply_sub lev) true] := by
  unfold lmgcBase
  exact traceOk_andThen _ _ [_] _ (traceOk_emit _)
    (traceOk_andThen _ _ [_] _ (traceOk_act _ _)
      (traceOk_andThen _ _ [_] _ (traceOk_act _ _)
        (traceOk_andThen _ _ [_] _ (traceOk_act _ _)
          (traceOk_andThen _ _ [_] _ (traceOk_call _ _)
            (traceOk_andThen _ _ [_] [_] (traceOk_call _ _) (traceOk_call _ _))))))

theorem allEv_lmgcBase {ε V : Type} (ext : Collaborators ε V) (lev : Nat) :
    AllEv (fun e => isSmootherApply e = false ∧ isTransfer e = false)
      (Step.andThen (Step.emit (.lmgc lev))
        (Step.andThen (resetCorrection ext lev) (lmgcBase ext lev))) := by
  unfold lmgcBase
  refine allEv_andThen _ _ _ (allEv_emit _ _ ⟨rfl, rfl⟩) ?_
  refine allEv_andThen _ _ _ (allEv_act _ _ _ ⟨rfl, rfl⟩) ?_
  refine allEv_andThen _ _ _ (allEv_act _ _ _ ⟨rfl, rfl⟩) ?_
  refine allEv_andThen _ _ _ (allEv_act _ _ _ ⟨rfl, rfl⟩) ?_
  refine allEv_andThen _ _ _ (allEv_call _ _ _ (fun _ => ⟨rfl, rfl⟩)) ?_
  refine allEv_andThen _ _ _ (allEv_call _ _ _ (fun _ => ⟨rfl, rfl⟩)) ?_
  exact allEv_call _ _ _ (fun _ => ⟨rfl, rfl⟩)

/-! ## C12 -/

/-- C12: when `surfaceLevel == baseLevel` (and `set(0.0)` applied twice is `set(0.0)`),
`apply` agrees in its result, in the state it leaves and in the collaborator calls it
makes with the cycle stated in the spec: reset the correction, mark the defect
additive, base-solver prepare then apply, defect update; no event of the run is a
smoother application or a transfer call; and a successful run consists exactly of the
events of `degenerateTrace`: the projections, the entry of `lmgc`, the reset, the
marking, the reset again, base-solver prepare, base-solver apply, `apply_sub`, and the
releases. -/
theorem degenerate_cycle {ε V : Type} (cyc : AssembledMultiGridCycle)
    (ext : Collaborators ε V) (updateDefect : Bool) (s : CycleState ε V)
    (hlev : cyc.m_surfaceLevel = cyc.m_baseLevel)
    (hzero : ∀ v, ext.set_zero (ext.set_zero v) = ext.set_zero v) :
    (cyc.apply ext updateDefect s).ok = (degenerateApply cyc ext updateDefect s).ok ∧
    (cyc.apply ext updateDefect s).state = (degenerateApply cyc ext updateDefect s).state ∧
    callsOf (cyc.apply ext updateDefect s).trace =
      callsOf (degenerateApply cyc ext updateDefect s).trace ∧
    (∀ e, e ∈ (cyc.apply ext updateDefect s).trace →
      isSmootherApply e = false ∧ isTransfer e = false) ∧
    ((cyc.apply ext updateDefect s).ok = true →
      (cyc.apply ext updateDefect s).trace = degenerateTrace updateDefect cyc.m_baseLevel) := by
  have hl := lmgc_of_base cyc ext cyc.m_baseLevel rfl
  have hsim : SimStep (cyc.apply ext updateDefect) (degenerateApply cyc ext updateDefect) := by
    unfold AssembledMultiGridCycle.apply degenerateApply
    rw [hlev, hl]
    refine simStep_andThen _ _ _ _ (simStep_refl _) ?_
    refine simStep_andThen _ _ _ _ (simStep_refl _) ?_
    refine simStep_andThen _ _ _ _ (simStep_refl _) ?_
    refine simStep_andThen _ _ _ _ ?_ (simStep_refl _)
    exact simStep_trans _ _ _ (simStep_emit _ _ (fun c ok h => by cases h))
      (simStep_base ext _ hzero)
  refine ⟨(hsim s).1, (hsim s).2.1, (hsim s).2.2, ?_, ?_⟩
  · have hall : AllEv (fun e => isSmootherApply e = false ∧ isTransfer e = false)
        (cyc.apply ext updateDefect) := by
      unfold AssembledMultiGridCycle.apply
      rw [hlev, hl]
      refine allEv_andThen _ _ _ (allEv_when _ _ _ (allEv_act _ _ _ ⟨rfl, rfl⟩)) ?_
      refine allEv_andThen _ _ _ (allEv_act _ _ _ ⟨rfl, rfl⟩) ?_
      refine allEv_andThen _ _ _ (allEv_act _ _ _ ⟨rfl, rfl⟩) ?_
      refine allEv_andThen _ _ _ (allEv_lmgcBase ext _) ?_
      refine allEv_andThen _ _ _ (allEv_act _ _ _ ⟨rfl, rfl⟩) ?_
      exact allEv_act _ _ _ ⟨rfl, rfl⟩
    exact hall s
  · have htr : TraceOk (cyc.apply ext updateDefect)
        (degenerateTrace updateDefect cyc.m_baseLevel) := by
      unfold AssembledMultiGridCycle.apply
      rw [hlev, hl]
      have hfirst : TraceOk (Step.when (!updateDefect) (copyDefect : Step (CycleState ε V)))
          (if updateDefect then [] else [.action .copy_defect]) := by
        cases updateDefect
        · exact traceOk_act _ _
        · exact fun _ _ => rfl
      exact traceOk_andThen _ _ _ _ hfirst
        (traceOk_andThen _ _ [_] _ (traceOk_act _ _)
          (traceOk_andThen _ _ [_] _ (traceOk_act _ _)
            (traceOk_andThen _ _ _ _ (traceOk_lmgcBase ext _)
              (traceOk_andThen _ _ [_] [_] (traceOk_act _ _) (traceOk_act _ _)))))
    exact htr s

/-- Witness for C12: the hierarchy of the one level 0 with the example collaborators,
called with the defect 5 and `updateDefect = false`: the run succeeds with the events of
`degenerateTrace`, the correction returned is 5 and the caller's defect is still 5. -/
theorem degenerate_cycle_witness :
    oneLevel.m_surfaceLevel = oneLevel.m_baseLevel ∧
    ((oneLevel.apply exCollab false (exCycleState 5)).ok =
        (degenerateApply oneLevel exCollab false (exCycleState 5)).ok ∧
      (oneLevel.apply exCollab false (exCycleState 5)).state =
        (degenerateApply oneLevel exCollab false (exCycleState 5)).state ∧
      callsOf (oneLevel.apply exCollab false (exCycleState 5)).trace =
        callsOf (degenerateApply oneLevel exCollab false (exCycleState 5)).trace ∧
      (∀ e, e ∈ (oneLevel.apply exCollab false (exCycleState 5)).trace →
        isSmootherApply e = false ∧ isTransfer e = false) ∧
      ((oneLevel.apply exCollab false (exCycleState 5)).ok = true →
        (oneLevel.apply exCollab false (exCycleState 5)).trace =
          degenerateTrace false oneLevel.m_baseLevel)) ∧
    (oneLevel.apply exCollab false (exCycleState 5)).ok = true ∧
    (oneLevel.apply exCollab false (exCycleState 5)).state.c = 5 ∧
    (oneLevel.apply exCollab false (exCycleState 5)).state.d = 5 ∧
    (oneLevel.apply exCollab false (exCycleState 5)).state.m_d 0 = 0 :=
  ⟨rfl, degenerate_cycle oneLevel exCollab false (exCycleState 5) rfl (fun _ => rfl),
    rfl, rfl, rfl, rfl⟩

/-! ## The cycle: counting events -/

theorem countsOk_congr {σ : Type} (p : MGEvent → Bool) (a : Step σ) (k k2 : Nat)
    (h : CountsOk p a k) (e : k = k2) : CountsOk p a k2 := e ▸ h

theorem allEv_goingDown {ε V : Type} (q : MGEvent → Prop) (ext : Collaborators ε V)
    (lev : Nat) (h : ∀ a, q (.action a)) : AllEv q (goingDown ext lev) := by
  unfold goingDown
  apply allEv_andThen
  · split
    · exact allEv_act _ _ _ (h _)
    · split
      · exact allEv_act _ _ _ (h _)
      · exact allEv_skip q
  · exact allEv_act _ _ _ (h _)

theorem allEv_goingUp {ε V : Type} (q : MGEvent → Prop) (ext : Collaborators ε V)
    (lev : Nat) (h : ∀ a, q (.action a)) : AllEv q (goingUp ext lev) := by
  unfold goingUp
  apply allEv_andThen
  · split
    · exact allEv_andThen _ _ _ (allEv_act _ _ _ (h _)) (allEv_act _ _ _ (h _))
    · split
      · exact allEv_andThen _ _ _ (allEv_act _ _ _ (h _)) (allEv_act _ _ _ (h _))
      · exact allEv_skip q
  · exact allEv_act _ _ _ (h _)

theorem countsOk_smooth {ε V : Type} (p : MGEvent → Bool) (ext : Collaborators ε V)
    (lev : Nat) (nu : Int) (hact : ∀ a, p (.action a) = false) :
    CountsOk p (AssembledMultiGridCycle.smooth ext lev nu : Step (CycleState ε V))
      (nu.toNat * hit p (.call (.smoother_apply lev) true)) := by
  have h1 : CountsOk p (smootherStep ext lev) (hit p (.call (.smoother_apply lev) true)) :=
    countsOk_call p _ _
  have h2 : CountsOk p (addCorrection ext lev) (hit p (.action (.c_add_t lev))) :=
    countsOk_act p _ _
  have h := countsOk_repeat p _ _ (countsOk_andThen p _ _ _ _ h1 h2) nu.toNat
  refine countsOk_congr p _ _ _ h ?_
  simp [hit, hact]

theorem countsOk_lmgcAbove {ε V : Type} (p : MGEvent → Bool) (cyc : AssembledMultiGridCycle)
    (ext : Collaborators ε V) (lev k : Nat) (coarse : Step (CycleState ε V))
    (hact : ∀ a, p (.action a) = false) (hc : CountsOk p coarse k) :
    CountsOk p (lmgcAbove cyc ext lev coarse)
      (cyc.m_nu1.toNat * hit p (.call (.smoother_apply lev) true) +
        hit p (.call (.I_apply_transposed (lev - 1)) true) +
        (if ext.d_vertical_slave_empty (lev - 1) then cyc.m_cycle_type.toNat * k else 0) +
        hit p (.call (.I_apply (lev - 1)) true) +
        hit p (.call (.A_apply_sub lev) true) +
        cyc.m_nu2.toNat * hit p (.call (.smoother_apply lev) true)) := by
  have hq : ∀ a, (fun e => p e = false) (MGEvent.action a) := hact
  have h1 := countsOk_smooth p ext lev cyc.m_nu1 hact
  have h2 : CountsOk p (Step.when (!ext.d_vertical_master_empty (lev - 1))
      (consistentToUniqueStep ext (lev - 1))) 0 :=
    countsOk_of_allEv p _ (allEv_when _ _ _ (allEv_act _ _ _ (hact _)))
  have h3 : CountsOk p (restrictStep ext lev)
      (hit p (.call (.I_apply_transposed (lev - 1)) true)) := countsOk_call p _ _
  have h4 : CountsOk p (goingDown ext lev) 0 :=
    countsOk_of_allEv p _ (allEv_goingDown _ ext lev hq)
  have h5 := countsOk_when p (ext.d_vertical_slave_empty (lev - 1)) _ _
    (countsOk_repeat p coarse k hc cyc.m_cycle_type.toNat)
  have h6 : CountsOk p (goingUp ext lev) 0 :=
    countsOk_of_allEv p _ (allEv_goingUp _ ext lev hq)
  have h7 : CountsOk p (prolongateStep ext lev)
      (hit p (.call (.I_apply (lev - 1)) true)) := countsOk_call p _ _
  have h8 : CountsOk p (addCorrection ext lev) 0 :=
    countsOk_of_allEv p _ (allEv_act _ _ _ (hact _))
  have h9 : CountsOk p (defectUpdateT ext lev)
      (hit p (.call (.A_apply_sub lev) true)) := countsOk_call p _ _
  have h10 := countsOk_smooth p ext lev cyc.m_nu2 hact
  have h := countsOk_andThen p _ _ _ _ h1 (countsOk_andThen p _ _ _ _ h2
    (countsOk_andThen p _ _ _ _ h3 (countsOk_andThen p _ _ _ _ h4
      (countsOk_andThen p _ _ _ _ h5 (countsOk_andThen p _ _ _ _ h6
        (countsOk_andThen p _ _ _ _ h7 (countsOk_andThen p _ _ _ _ h8
          (countsOk_andThen p _ _ _ _ h9 h10))))))))
  refine countsOk_congr p _ _ _ h ?_
  simp only [Nat.zero_add]
  ring

theorem countsOk_lmgcBase {ε V : Type} (p : MGEvent → Bool) (ext : Collaborators ε V)
    (lev : Nat) (hact : ∀ a, p (.action a) = false) :
    CountsOk p (lmgcBase ext lev)
      (hit p (.call (.baseSolver_prepare lev) true) +
        hit p (.call (.baseSolver_apply lev) true) +
        hit p (.call (.A_apply_sub lev) true)) := by
  have h1 : CountsOk p (setStorageD ext lev .PST_ADDITIVE) 0 :=
    countsOk_of_allEv p _ (allEv_act _ _ _ (hact _))
  have h2 : CountsOk p (resetCorrection ext lev) 0 :=
    countsOk_of_allEv p _ (allEv_act _ _ _ (hact _))
  have h3 : CountsOk p (basePrepareStep ext lev)
      (hit p (.call (.baseSolver_prepare lev) true)) := countsOk_call p _ _
  have h4 : CountsOk p (baseApplyStep ext lev)
      (hit p (.call (.baseSolver_apply lev) true)) := countsOk_call p _ _
  have h5 : CountsOk p (defectUpdateC ext lev)
      (hit p (.call (.A_apply_sub lev) true)) := countsOk_call p _ _
  have h := countsOk_andThen p _ _ _ _ h1 (countsOk_andThen p _ _ _ _ h2
    (countsOk_andThen p _ _ _ _ h3 (countsOk_andThen p _ _ _ _ h4 h5)))
  refine countsOk_congr p _ _ _ h ?_
  simp only [Nat.zero_add]
  ring

theorem countsOk_lmgcBody {ε V : Type} (p : MGEvent → Bool) (cyc : AssembledMultiGridCycle)
    (ext : Collaborators ε V) (lev k : Nat) (coarse : Step (CycleState ε V))
    (hact : ∀ a, p (.action a) = false)
    (hc : lev > cyc.m_baseLevel → CountsOk p coarse k) :
    CountsOk p (lmgcBody cyc ext lev coarse)
      (hit p (.lmgc lev) +
        if lev > cyc.m_baseLevel then
          cyc.m_nu1.toNat * hit p (.call (.smoother_apply lev) true) +
          hit p (.call (.I_apply_transposed (lev - 1)) true) +
          (if ext.d_vertical_slave_empty (lev - 1) then cyc.m_cycle_type.toNat * k else 0) +
          hit p (.call (.I_apply (lev - 1)) true) +
          hit p (.call (.A_apply_sub lev) true) +
          cyc.m_nu2.toNat * hit p (.call (.smoother_apply lev) true)
        else
          hit p (.call (.baseSolver_prepare lev) true) +
          hit p (.call (.baseSolver_apply lev) true) +
          hit p (.call (.A_apply_sub lev) true)) := by
  unfold lmgcBody
  have h1 : CountsOk p (Step.emit (.lmgc lev) : Step (CycleState ε V)) (hit p (.lmgc lev)) :=
    countsOk_emit p _
  have h2 : CountsOk p (resetCorrection ext lev) 0 :=
    countsOk_of_allEv p _ (allEv_act _ _ _ (hact _))
  by_cases hl : lev > cyc.m_baseLevel
  · rw [if_pos hl, if_pos hl]
    have h := countsOk_andThen p _ _ _ _ h1 (countsOk_andThen p _ _ _ _ h2
      (countsOk_lmgcAbove p cyc ext lev k coarse hact (hc hl)))
    refine countsOk_congr p _ _ _ h ?_
    simp only [Nat.zero_add]
  · rw [if_neg hl, if_neg hl]
    by_cases he : lev = cyc.m_baseLevel
    · rw [if_pos he]
      have h := countsOk_andThen p _ _ _ _ h1 (countsOk_andThen p _ _ _ _ h2
        (countsOk_lmgcBase p ext lev hact))
      refine countsOk_congr p _ _ _ h ?_
      simp only [Nat.zero_add]
    · rw [if_neg he]
      intro s hs
      rw [andThen_ok, andThen_ok] at hs
      simp [Step.fail] at hs

/-! ## The cycle: events of a level, success -/

theorem allEv_smooth {ε V : Type} (q : MGEvent → Prop) (ext : Collaborators ε V)
    (lev : Nat) (nu : Int) (hact : ∀ a, q (.action a))
    (hs : ∀ ok, q (.call (.smoother_apply lev) ok)) :
    AllEv q (AssembledMultiGridCycle.smooth ext lev nu) :=
  allEv_repeat q _ (allEv_andThen q _ _ (allEv_call q _ _ hs) (allEv_act q _ _ (hact _))) _

theorem allEv_lmgcAbove {ε V : Type} (q : MGEvent → Prop) (cyc : AssembledMultiGridCycle)
    (ext : Collaborators ε V) (lev : Nat) (coarse : Step (CycleState ε V))
    (hact : ∀ a, q (.action a))
    (hs : ∀ ok, q (.call (.smoother_apply lev) ok))
    (hr : ∀ ok, q (.call (.I_apply_transposed (lev - 1)) ok))
    (hp : ∀ ok, q (.call (.I_apply (lev - 1)) ok))
    (hu : ∀ ok, q (.call (.A_apply_sub lev) ok))
    (hc : AllEv q coarse) :
    AllEv q (lmgcAbove cyc ext lev coarse) := by
  unfold lmgcAbove
  refine allEv_andThen _ _ _ (allEv_smooth q ext lev _ hact hs) ?_
  refine allEv_andThen _ _ _ (allEv_when _ _ _ (allEv_act _ _ _ (hact _))) ?_
  refine allEv_andThen _ _ _ (allEv_call _ _ _ hr) ?_
  refine allEv_andThen _ _ _ (allEv_goingDown q ext lev hact) ?_
  refine allEv_andThen _ _ _ (allEv_when _ _ _ (allEv_repeat _ _ hc _)) ?_
  refine allEv_andThen _ _ _ (allEv_goingUp q ext lev hact) ?_
  refine allEv_andThen _ _ _ (allEv_call _ _ _ hp) ?_
  refine allEv_andThen _ _ _ (allEv_act _ _ _ (hact _)) ?_
  refine allEv_andThen _ _ _ (allEv_call _ _ _ hu) ?_
  exact allEv_smooth q ext lev _ hact hs

theorem allEv_lmgcBaseBranch {ε V : Type} (q : MGEvent → Prop) (ext : Collaborators ε V)
    (lev : Nat) (hact : ∀ a, q (.action a))
    (hbp : ∀ ok, q (.call (.baseSolver_prepare lev) ok))
    (hba : ∀ ok, q (.call (.baseSolver_apply lev) ok))
    (hu : ∀ ok, q (.call (.A_apply_sub lev) ok)) :
    AllEv q (lmgcBase ext lev) := by
  unfold lmgcBase
  refine allEv_andThen _ _ _ (allEv_act _ _ _ (hact _)) ?_
  refine allEv_andThen _ _ _ (allEv_act _ _ _ (hact _)) ?_
  refine allEv_andThen _ _ _ (allEv_call _ _ _ hbp) ?_
  refine allEv_andThen _ _ _ (allEv_call _ _ _ hba) ?_
  exact allEv_call _ _ _ hu

theorem levelLe_mono (l : Nat) (e : MGEvent) (h : levelLe l e) : levelLe (l + 1) e := by
  cases e with
  | lmgc k => exact Nat.le_succ_of_le h
  | call c ok =>
    cases c <;> first
      | exact Nat.le_succ_of_le h
      | exact Nat.lt_succ_of_lt h
      | trivial
  | action _ => trivial
  | create _ _ => trivial
  | destroy _ => trivial

theorem allEv_levelLe_lmgcBody {ε V : Type} (cyc : AssembledMultiGridCycle)
    (ext : Collaborators ε V) (lev : Nat) (coarse : Step (CycleState ε V))
    (hc : lev > cyc.m_baseLevel → AllEv (levelLe lev) coarse) :
    AllEv (levelLe lev) (lmgcBody cyc ext lev coarse) := by
  unfold lmgcBody
  refine allEv_andThen _ _ _ (allEv_emit _ _ (Nat.le_refl lev)) ?_
  refine allEv_andThen _ _ _ (allEv_act _ _ _ trivial) ?_
  by_cases hl : lev > cyc.m_baseLevel
  · rw [if_pos hl]
    have h1 : lev - 1 < lev := by omega
    exact allEv_lmgcAbove _ cyc ext lev coarse (fun _ => trivial) (fun _ => Nat.le_refl lev)
      (fun _ => h1) (fun _ => h1) (fun _ => Nat.le_refl lev) (hc hl)
  · rw [if_neg hl]
    split
    · exact allEv_lmgcBaseBranch _ ext lev (fun _ => trivial) (fun _ => trivial)
        (fun _ => trivial) (fun _ => Nat.le_refl lev)
    · exact allEv_fail _

theorem allEv_levelLe_lmgc {ε V : Type} (cyc : AssembledMultiGridCycle)
    (ext : Collaborators ε V) :
    ∀ lev, AllEv (levelLe lev) (AssembledMultiGridCycle.lmgc cyc ext lev) := by
  intro lev
  induction lev with
  | zero => exact allEv_levelLe_lmgcBody cyc ext 0 _ (fun _ => allEv_fail _)
  | succ lev ih =>
    exact allEv_levelLe_lmgcBody cyc ext (lev + 1) _
      (fun _ => allEv_mono _ _ _ (levelLe_mono lev) ih)

theorem succeeds_smooth {ε V : Type} (ext : Collaborators ε V) (lev : Nat) (nu : Int)
    (hok : ext.allSucceed) : Succeeds (AssembledMultiGridCycle.smooth ext lev nu) := by
  unfold AssembledMultiGridCycle.smooth
  apply succeeds_repeat
  apply succeeds_andThen
  · exact succeeds_call _ _ (fun _ => hok.1 _ _ _ _)
  · exact succeeds_act _ _

theorem succeeds_goingDown {ε V : Type} (ext : Collaborators ε V) (lev : Nat) :
    Succeeds (goingDown ext lev) := by
  unfold goingDown
  apply succeeds_andThen
  · split
    · exact succeeds_act _ _
    · split
      · exact succeeds_act _ _
      · exact succeeds_skip
  · exact succeeds_act _ _

theorem succeeds_goingUp {ε V : Type} (ext : Collaborators ε V) (lev : Nat) :
    Succeeds (goingUp ext lev) := by
  unfold goingUp
  apply succeeds_andThen
  · split
    · exact succeeds_andThen _ _ (succeeds_act _ _) (succeeds_act _ _)
    · split
      · exact succeeds_andThen _ _ (succeeds_act _ _) (succeeds_act _ _)
      · exact succeeds_skip
  · exact succeeds_act _ _

theorem succeeds_lmgcBody {ε V : Type} (cyc : AssembledMultiGridCycle)
    (ext : Collaborators ε V) (lev : Nat) (coarse : Step (CycleState ε V))
    (hok : ext.allSucceed) (hlev : cyc.m_baseLevel ≤ lev)
    (hc : lev > cyc.m_baseLevel → Succeeds coarse) :
    Succeeds (lmgcBody cyc ext lev coarse) := by
  unfold lmgcBody
  refine succeeds_andThen _ _ (succeeds_emit _) ?_
  refine succeeds_andThen _ _ (succeeds_act _ _) ?_
  by_cases hl : lev > cyc.m_baseLevel
  · rw [if_pos hl]
    unfold lmgcAbove
    refine succeeds_andThen _ _ (succeeds_smooth ext lev _ hok) ?_
    refine succeeds_andThen _ _ (succeeds_when _ _ (succeeds_act _ _)) ?_
    refine succeeds_andThen _ _ (succeeds_call _ _ (fun _ => hok.2.1 _ _ _ _)) ?_
    refine succeeds_andThen _ _ (succeeds_goingDown ext lev) ?_
    refine succeeds_andThen _ _ (succeeds_when _ _ (succeeds_repeat _ (hc hl) _)) ?_
    refine succeeds_andThen _ _ (succeeds_goingUp ext lev) ?_
    refine succeeds_andThen _ _ (succeeds_call _ _ (fun _ => hok.2.2.1 _ _ _ _)) ?_
    refine succeeds_andThen _ _ (succeeds_act _ _) ?_
    refine succeeds_andThen _ _ (succeeds_call _ _ (fun _ => hok.2.2.2.1 _ _ _ _)) ?_
    exact succeeds_smooth ext lev _ hok
  · rw [if_neg hl, if_pos (by omega : lev = cyc.m_baseLevel)]
    unfold lmgcBase
    refine succeeds_andThen _ _ (succeeds_act _ _) ?_
    refine succeeds_andThen _ _ (succeeds_act _ _) ?_
    refine succeeds_andThen _ _ (succeeds_call _ _ (fun _ => hok.2.2.2.2.1 _ _ _ _)) ?_
    refine succeeds_andThen _ _ (succeeds_call _ _ (fun _ => hok.2.2.2.2.2 _ _ _)) ?_
    exact succeeds_call _ _ (fun _ => hok.2.2.2.1 _ _ _ _)

theorem succeeds_lmgc {ε V : Type} (cyc : AssembledMultiGridCycle) (ext : Collaborators ε V)
    (hok : ext.allSucceed) :
    ∀ lev, cyc.m_baseLevel ≤ lev → Succeeds (AssembledMultiGridCycle.lmgc cyc ext lev) := by
  intro lev
  induction lev with
  | zero =>
    intro h
    exact succeeds_lmgcBody cyc ext 0 _ hok h (fun h0 => by omega)
  | succ lev ih =>
    intro h
    exact succeeds_lmgcBody cyc ext (lev + 1) _ hok h (fun h0 => ih (by omega))

theorem succeeds_apply {ε V : Type} (cyc : AssembledMultiGridCycle) (ext : Collaborators ε V)
    (updateDefect : Bool) (hok : ext.allSucceed)
    (hlev : cyc.m_baseLevel ≤ cyc.m_surfaceLevel) :
    Succeeds (AssembledMultiGridCycle.apply cyc ext updateDefect) := by
  unfold AssembledMultiGridCycle.apply
  refine succeeds_andThen _ _ (succeeds_when _ _ (succeeds_act _ _)) ?_
  refine succeeds_andThen _ _ (succeeds_act _ _) ?_
  refine succeeds_andThen _ _ (succeeds_act _ _) ?_
  refine succeeds_andThen _ _ (succeeds_lmgc cyc ext hok _ hlev) ?_
  refine succeeds_andThen _ _ (succeeds_act _ _) ?_
  exact succeeds_act _ _

theorem countsOk_apply {ε V : Type} (p : MGEvent → Bool) (cyc : AssembledMultiGridCycle)
    (ext : Collaborators ε V) (updateDefect : Bool) (k : Nat)
    (hact : ∀ a, p (.action a) = false)
    (hk : CountsOk p (AssembledMultiGridCycle.lmgc cyc ext cyc.m_surfaceLevel) k) :
    CountsOk p (AssembledMultiGridCycle.apply cyc ext updateDefect) k := by
  unfold AssembledMultiGridCycle.apply
  have h1 : CountsOk p (Step.when (!updateDefect) (copyDefect : Step (CycleState ε V))) 0 :=
    countsOk_of_allEv p _ (allEv_when _ _ _ (allEv_act _ _ _ (hact _)))
  have h2 : CountsOk p (projectDefect ext updateDefect cyc.m_surfaceLevel) 0 :=
    countsOk_of_allEv p _ (allEv_act _ _ _ (hact _))
  have h3 : CountsOk p (projectCorrection ext cyc.m_surfaceLevel) 0 :=
    countsOk_of_allEv p _ (allEv_act _ _ _ (hact _))
  have h5 : CountsOk p (releaseDefect ext updateDefect cyc.m_surfaceLevel) 0 :=
    countsOk_of_allEv p _ (allEv_act _ _ _ (hact _))
  have h6 : CountsOk p (releaseCorrection ext cyc.m_surfaceLevel) 0 :=
    countsOk_of_allEv p _ (allEv_act _ _ _ (hact _))
  have h := countsOk_andThen p _ _ _ _ h1 (countsOk_andThen p _ _ _ _ h2
    (countsOk_andThen p _ _ _ _ h3 (countsOk_andThen p _ _ _ _ hk
      (countsOk_andThen p _ _ _ _ h5 h6))))
  exact countsOk_congr p _ _ _ h (by simp)

theorem countsOk_lmgc_step {ε V : Type} (p : MGEvent → Bool) (cyc : AssembledMultiGridCycle)
    (ext : Collaborators ε V) (lev k : Nat) (hact : ∀ a, p (.action a) = false)
    (hc : lev > cyc.m_baseLevel →
      CountsOk p (AssembledMultiGridCycle.lmgc cyc ext (lev - 1)) k) :
    CountsOk p (AssembledMultiGridCycle.lmgc cyc ext lev)
      (hit p (.lmgc lev) +
        if lev > cyc.m_baseLevel then
          cyc.m_nu1.toNat * hit p (.call (.smoother_apply lev) true) +
          hit p (.call (.I_apply_transposed (lev - 1)) true) +
          (if ext.d_vertical_slave_empty (lev - 1) then cyc.m_cycle_type.toNat * k else 0) +
          hit p (.call (.I_apply (lev - 1)) true) +
          hit p (.call (.A_apply_sub lev) true) +
          cyc.m_nu2.toNat * hit p (.call (.smoother_apply lev) true)
        else
          hit p (.call (.baseSolver_prepare lev) true) +
          hit p (.call (.baseSolver_apply lev) true) +
          hit p (.call (.A_apply_sub lev) true)) := by
  cases lev with
  | zero =>
    exact countsOk_lmgcBody p cyc ext 0 k _ hact (fun h => absurd h (Nat.not_lt_zero _))
  | succ l => exact countsOk_lmgcBody p cyc ext (l + 1) k _ hact hc

theorem countsOk_smoother_lmgc {ε V : Type} (cyc : AssembledMultiGridCycle)
    (ext : Collaborators ε V) (hslave : ∀ lev, ext.d_vertical_slave_empty lev = true) :
    ∀ L, CountsOk isSmootherApply
      (AssembledMultiGridCycle.lmgc cyc ext (cyc.m_baseLevel + L))
      ((cyc.m_nu1.toNat + cyc.m_nu2.toNat) *
        Finset.sum (Finset.range L) (fun i => cyc.m_cycle_type.toNat ^ i)) := by
  intro L
  induction L with
  | zero =>
    have h := countsOk_lmgc_step isSmootherApply cyc ext cyc.m_baseLevel 0 (fun _ => rfl)
      (fun h => absurd h (Nat.lt_irrefl _))
    refine countsOk_congr _ _ _ _ h ?_
    simp [hit, isSmootherApply]
  | succ L ih =>
    have h := countsOk_lmgc_step isSmootherApply cyc ext (cyc.m_baseLevel + (L + 1)) _
      (fun _ => rfl) (fun _ => ih)
    refine countsOk_congr _ _ _ _ h ?_
    have hgt : cyc.m_baseLevel + (L + 1) > cyc.m_baseLevel := by omega
    rw [if_pos hgt, geom_sum_succ]
    simp only [hit, isSmootherApply, hslave, if_true]
    simp
    ring

theorem countsOk_base_lmgc {ε V : Type} (cyc : AssembledMultiGridCycle)
    (ext : Collaborators ε V) (hslave : ∀ lev, ext.d_vertical_slave_empty lev = true) :
    ∀ L, CountsOk isBaseApply
      (AssembledMultiGridCycle.lmgc cyc ext (cyc.m_baseLevel + L))
      (cyc.m_cycle_type.toNat ^ L) := by
  intro L
  induction L with
  | zero =>
    have h := countsOk_lmgc_step isBaseApply cyc ext cyc.m_baseLevel 0 (fun _ => rfl)
      (fun h => absurd h (Nat.lt_irrefl _))
    refine countsOk_congr _ _ _ _ h ?_
    simp [hit, isBaseApply]
  | succ L ih =>
    have h := countsOk_lmgc_step isBaseApply cyc ext (cyc.m_baseLevel + (L + 1)) _
      (fun _ => rfl) (fun _ => ih)
    refine countsOk_congr _ _ _ _ h ?_
    have hgt : cyc.m_baseLevel + (L + 1) > cyc.m_baseLevel := by omega
    rw [if_pos hgt]
    simp only [hit, isBaseApply, hslave, if_true]
    simp
    ring

/-- A successful run of `lmgc(lev)` enters `lmgc(lev)` once. -/
theorem countsOk_entry_lmgc {ε V : Type} (cyc : AssembledMultiGridCycle)
    (ext : Collaborators ε V) (lev : Nat) :
    CountsOk (fun e => e == .lmgc lev) (AssembledMultiGridCycle.lmgc cyc ext lev) 1 := by
  have hc : lev > cyc.m_baseLevel →
      CountsOk (fun e => e == .lmgc lev) (AssembledMultiGridCycle.lmgc cyc ext (lev - 1)) 0 := by
    intro hl
    refine countsOk_of_allEv _ _ (allEv_mono _ _ _ ?_ (allEv_levelLe_lmgc cyc ext (lev - 1)))
    intro e he
    cases e with
    | lmgc k =>
      have hk : k ≤ lev - 1 := he
      have hne : k ≠ lev := by omega
      simp [hne]
    | call _ _ => rfl
    | action _ => rfl
    | create _ _ => rfl
    | destroy _ => rfl
  have h := countsOk_lmgc_step (fun e => e == .lmgc lev) cyc ext lev 0 (fun _ => rfl) hc
  refine countsOk_congr _ _ _ _ h ?_
  simp [hit]

theorem countsOk_recursive_calls {ε V : Type} (cyc : AssembledMultiGridCycle)
    (ext : Collaborators ε V) (lev : Nat) (hlev : cyc.m_baseLevel ≤ lev) :
    CountsOk (fun e => e == .lmgc lev) (AssembledMultiGridCycle.lmgc cyc ext (lev + 1))
      (if ext.d_vertical_slave_empty lev then cyc.m_cycle_type.toNat else 0) := by
  have h := countsOk_lmgc_step (fun e => e == .lmgc lev) cyc ext (lev + 1) 1 (fun _ => rfl)
    (fun _ => countsOk_entry_lmgc cyc ext lev)
  refine countsOk_congr _ _ _ _ h ?_
  have hgt : lev + 1 > cyc.m_baseLevel := by omega
  rw [if_pos hgt]
  simp [hit]

/-! ## C13 -/

/-- C13: with no vertical layouts, every collaborator succeeding and `nu1 = n1`,
`nu2 = n2`, `cycle_type = ct` not negative, on a hierarchy with
`surfaceLevel = baseLevel + L` one `apply` succeeds and performs exactly
`(n1 + n2) * (ct^0 + ... + ct^(L-1))` smoother applications and `ct^L` base-solver
applications, which for the three levels of `L = 2` is `(n1 + n2) * (1 + ct)` and
`ct^2`; and every `lmgc(lev + 1)` above the base level enters `lmgc(lev)` exactly `ct`
times. -/
theorem cycle_type_scaling {ε V : Type} (cyc : AssembledMultiGridCycle)
    (ext : Collaborators ε V) (updateDefect : Bool) (s : CycleState ε V) (L n1 n2 ct : Nat)
    (hL : cyc.m_surfaceLevel = cyc.m_baseLevel + L)
    (hnu1 : cyc.m_nu1 = n1) (hnu2 : cyc.m_nu2 = n2) (hct : cyc.m_cycle_type = ct)
    (hok : ext.allSucceed) (hvert : ext.noVerticalLayouts) :
    (cyc.apply ext updateDefect s).ok = true ∧
    (cyc.apply ext updateDefect s).trace.countP isSmootherApply =
      (n1 + n2) * Finset.sum (Finset.range L) (fun i => ct ^ i) ∧
    (cyc.apply ext updateDefect s).trace.countP isBaseApply = ct ^ L ∧
    (L = 2 →
      (cyc.apply ext updateDefect s).trace.countP isSmootherApply = (n1 + n2) * (1 + ct) ∧
      (cyc.apply ext updateDefect s).trace.countP isBaseApply = ct ^ 2) ∧
    (∀ lev (s2 : CycleState ε V), cyc.m_baseLevel ≤ lev →
      (cyc.lmgc ext (lev + 1) s2).ok = true ∧
      (cyc.lmgc ext (lev + 1) s2).trace.countP (fun e => e == .lmgc lev) = ct) := by
  have hslave : ∀ lev, ext.d_vertical_slave_empty lev = true := fun lev => (hvert lev).2.1
  have hle : cyc.m_baseLevel ≤ cyc.m_surfaceLevel := by omega
  have hsucc := succeeds_apply cyc ext updateDefect hok hle s
  have h1 : (cyc.m_nu1).toNat = n1 := by rw [hnu1]; rfl
  have h2 : (cyc.m_nu2).toNat = n2 := by rw [hnu2]; rfl
  have h3 : (cyc.m_cycle_type).toNat = ct := by rw [hct]; rfl
  have hsm : (cyc.apply ext updateDefect s).trace.countP isSmootherApply =
      (n1 + n2) * Finset.sum (Finset.range L) (fun i => ct ^ i) := by
    have h := countsOk_apply isSmootherApply cyc ext updateDefect _ (fun _ => rfl)
      (hL ▸ countsOk_smoother_lmgc cyc ext hslave L) s hsucc
    rw [h, h1, h2, h3]
  have hba : (cyc.apply ext updateDefect s).trace.countP isBaseApply = ct ^ L := by
    have h := countsOk_apply isBaseApply cyc ext updateDefect _ (fun _ => rfl)
      (hL ▸ countsOk_base_lmgc cyc ext hslave L) s hsucc
    rw [h, h3]
  refine ⟨hsucc, hsm, hba, ?_, ?_⟩
  · intro hL2
    subst hL2
    refine ⟨?_, hba⟩
    rw [hsm]
    simp [Finset.sum_range_succ]
  · intro lev s2 hlev
    have hs2 := succeeds_lmgc cyc ext hok (lev + 1) (by omega) s2
    refine ⟨hs2, ?_⟩
    rw [countsOk_recursive_calls cyc ext lev hlev s2 hs2, hslave lev, if_pos rfl, h3]

/-- Witness for C13: the W-cycle on the three levels 0, 1, 2 with one pre- and one
post-smoothing step and the example collaborators: 6 smoother applications and 4
base-solver applications. -/
theorem cycle_type_scaling_witness :
    ((threeLevelW.apply exCollab true (exCycleState 9)).ok = true ∧
      (threeLevelW.apply exCollab true (exCycleState 9)).trace.countP isSmootherApply =
        (1 + 1) * Finset.sum (Finset.range 2) (fun i => 2 ^ i) ∧
      (threeLevelW.apply exCollab true (exCycleState 9)).trace.countP isBaseApply = 2 ^ 2 ∧
      (2 = 2 →
        (threeLevelW.apply exCollab true (exCycleState 9)).trace.countP isSmootherApply =
          (1 + 1) * (1 + 2) ∧
        (threeLevelW.apply exCollab true (exCycleState 9)).trace.countP isBaseApply = 2 ^ 2) ∧
      (∀ lev (s2 : CycleState Unit Int), threeLevelW.m_baseLevel ≤ lev →
        (threeLevelW.lmgc exCollab (lev + 1) s2).ok = true ∧
        (threeLevelW.lmgc exCollab (lev + 1) s2).trace.countP (fun e => e == .lmgc lev) = 2)) ∧
    (threeLevelW.apply exCollab true (exCycleState 9)).trace.countP isSmootherApply = 6 ∧
    (threeLevelW.apply exCollab true (exCycleState 9)).trace.countP isBaseApply = 4 :=
  ⟨cycle_type_scaling threeLevelW exCollab true (exCycleState 9) 2 1 1 2 rfl rfl rfl rfl
      ⟨fun _ _ _ _ => rfl, fun _ _ _ _ => rfl, fun _ _ _ _ => rfl, fun _ _ _ _ => rfl,
        fun _ _ _ _ => rfl, fun _ _ _ => rfl⟩
      (fun _ => ⟨rfl, rfl, rfl, rfl⟩),
    by decide, by decide⟩

/-! ## C14 -/

/-- C14: when the grid is not a `MultiGrid`, or `surfaceLevel` is not a level of the
grid, or `baseLevel > surfaceLevel`, `prepare` returns failure, leaves the state of the
controller and of the collaborators as it was, and its run has no event: nothing is
created, nothing is deleted and no collaborator is called. -/
theorem prepare_rejects {ε : Type} (cyc : AssembledMultiGridCycle) (grid : GridInfo)
    (ext : PrepareCollaborators ε) (s : Controller ε)
    (h : grid.isMultiGrid = false ∨ grid.num_levels ≤ cyc.m_surfaceLevel ∨
      cyc.m_surfaceLevel < cyc.m_baseLevel) :
    (cyc.prepare grid ext s).ok = false ∧ (cyc.prepare grid ext s).state = s ∧
    (cyc.prepare grid ext s).trace = [] := by
  unfold AssembledMultiGridCycle.prepare
  by_cases h1 : grid.isMultiGrid = false
  · rw [h1]; exact ⟨rfl, rfl, rfl⟩
  · have h1t : grid.isMultiGrid = true := by simpa using h1
    rw [h1t]
    simp only [Bool.not_true, Bool.false_eq_true, if_false]
    by_cases h2 : cyc.m_surfaceLevel ≥ grid.num_levels
    · rw [if_pos h2]; exact ⟨rfl, rfl, rfl⟩
    · rw [if_neg h2]
      have h3 : cyc.m_baseLevel > cyc.m_surfaceLevel := by
        rcases h with h | h | h
        · exact absurd h h1
        · exact absurd h h2
        · exact h
      rw [if_pos h3]; exact ⟨rfl, rfl, rfl⟩

/-- Witness for C14: the base level 2 above the surface level 1 on a multigrid of three
levels. -/
theorem prepare_rejects_witness :
    (exGrid.isMultiGrid = false ∨ exGrid.num_levels ≤ baseAboveSurface.m_surfaceLevel ∨
      baseAboveSurface.m_surfaceLevel < baseAboveSurface.m_baseLevel) ∧
    (baseAboveSurface.prepare exGrid exPrepare (Controller.new ())).ok = false ∧
    (baseAboveSurface.prepare exGrid exPrepare (Controller.new ())).state = Controller.new () ∧
    (baseAboveSurface.prepare exGrid exPrepare (Controller.new ())).trace = [] :=
  ⟨Or.inr (Or.inr (by decide)),
    prepare_rejects baseAboveSurface exGrid exPrepare (Controller.new ())
      (Or.inr (Or.inr (by decide)))⟩

/-! ## C15 -/

/-- C15: for `baseLevel <= surfaceLevel`, the invariant of the level hierarchy that
`prepare` checks, `apply` returns success exactly when every collaborator call recorded
in its run (smoother application, restriction, prolongation, defect update, base-solver
prepare and apply) returned success; a run that returns failure ends with the call that
failed, all calls before it having succeeded, so nothing is invoked after the first
failure; and the same holds for `lmgc(lev)` on every level from the base level up, so
the failure passes through every enclosing level. -/
theorem failure_propagation {ε V : Type} (cyc : AssembledMultiGridCycle)
    (ext : Collaborators ε V) (updateDefect : Bool) (s : CycleState ε V)
    (hlev : cyc.m_baseLevel ≤ cyc.m_surfaceLevel) :
    ((cyc.apply ext updateDefect s).ok = true ↔
      callsOk (cyc.apply ext updateDefect s).trace = true) ∧
    ((cyc.apply ext updateDefect s).ok = false →
      ∃ tr0 c, (cyc.apply ext updateDefect s).trace = tr0 ++ [.call c false] ∧
        callsOk tr0 = true) ∧
    (∀ lev (s2 : CycleState ε V), cyc.m_baseLevel ≤ lev →
      ((cyc.lmgc ext lev s2).ok = true ↔ callsOk (cyc.lmgc ext lev s2).trace = true) ∧
      ((cyc.lmgc ext lev s2).ok = false →
        ∃ tr0 c, (cyc.lmgc ext lev s2).trace = tr0 ++ [.call c false] ∧
          callsOk tr0 = true)) :=
  ⟨sound_iff _ (sound_apply cyc ext updateDefect hlev) s,
    (sound_apply cyc ext updateDefect hlev s).2,
    fun lev s2 h => ⟨sound_iff _ (sound_lmgc cyc ext lev h) s2, (sound_lmgc cyc ext lev h s2).2⟩⟩

/-- Witness for C15: the V-cycle on two levels with a prolongation that fails: `apply`
returns failure, and its run ends with the failed prolongation, after the pre-smoothing
step, the restriction and the base solve, with no post-smoothing step. -/
theorem failure_propagation_witness :
    twoLevelV.m_baseLevel ≤ twoLevelV.m_surfaceLevel ∧
    (((twoLevelV.apply failingCollab true (exCycleState 9)).ok = true ↔
        callsOk (twoLevelV.apply failingCollab true (exCycleState 9)).trace = true) ∧
      ((twoLevelV.apply failingCollab true (exCycleState 9)).ok = false →
        ∃ tr0 c, (twoLevelV.apply failingCollab true (exCycleState 9)).trace =
            tr0 ++ [.call c false] ∧ callsOk tr0 = true) ∧
      (∀ lev (s2 : CycleState Unit Int), twoLevelV.m_baseLevel ≤ lev →
        ((twoLevelV.lmgc failingCollab lev s2).ok = true ↔
          callsOk (twoLevelV.lmgc failingCollab lev s2).trace = true) ∧
        ((twoLevelV.lmgc failingCollab lev s2).ok = false →
          ∃ tr0 c, (twoLevelV.lmgc failingCollab lev s2).trace = tr0 ++ [.call c false] ∧
            callsOk tr0 = true))) ∧
    (twoLevelV.apply failingCollab true (exCycleState 9)).ok = false ∧
    callsOf (twoLevelV.apply failingCollab true (exCycleState 9)).trace =
      [(.smoother_apply 1, true), (.I_apply_transposed 0, true), (.baseSolver_prepare 0, true),
       (.baseSolver_apply 0, true), (.A_apply_sub 0, true), (.I_apply 0, false)] :=
  ⟨by decide, failure_propagation twoLevelV failingCollab true (exCycleState 9) (by decide),
    rfl, by decide⟩

/-! ## C16 -/

theorem lmgcAbove_of_slave {ε V : Type} (cyc : AssembledMultiGridCycle)
    (ext : Collaborators ε V) (lev : Nat) (coarse : Step (CycleState ε V))
    (h : ext.d_vertical_slave_empty (lev - 1) = false) :
    lmgcAbove cyc ext lev coarse = lmgcAbove cyc ext lev Step.fail := by
  unfold lmgcAbove
  rw [h, when_false, when_false]

theorem countsOk_own_level {ε V : Type} (p : MGEvent → Bool) (cyc : AssembledMultiGridCycle)
    (ext : Collaborators ε V) (lev : Nat) (hlev : cyc.m_baseLevel ≤ lev)
    (hact : ∀ a, p (.action a) = false) (hp : ∀ e, levelLe lev e → p e = false) :
    CountsOk p (AssembledMultiGridCycle.lmgc cyc ext (lev + 1))
      (hit p (.lmgc (lev + 1)) +
        (cyc.m_nu1.toNat * hit p (.call (.smoother_apply (lev + 1)) true) +
          hit p (.call (.I_apply_transposed lev) true) +
          hit p (.call (.I_apply lev) true) +
          hit p (.call (.A_apply_sub (lev + 1)) true) +
          cyc.m_nu2.toNat * hit p (.call (.smoother_apply (lev + 1)) true))) := by
  have hc : CountsOk p (AssembledMultiGridCycle.lmgc cyc ext lev) 0 :=
    countsOk_of_allEv _ _ (allEv_mono _ _ _ hp (allEv_levelLe_lmgc cyc ext lev))
  have h := countsOk_lmgc_step p cyc ext (lev + 1) 0 hact (fun _ => hc)
  refine countsOk_congr _ _ _ _ h ?_
  have hgt : lev + 1 > cyc.m_baseLevel := by omega
  rw [if_pos hgt]
  simp

/-- C16: in `lmgc(lev + 1)` above the base level, a process whose vertical slave layout
on level `lev` is not empty never enters `lmgc(lev)`; and in a run that returns success
the number of entries of `lmgc(lev)` is `cycle_type` (none for a negative value) when
that layout is empty and 0 when it is not, while in both cases the run has the `nu1`
and `nu2` smoother applications, the one restriction, the one prolongation and the one
defect update of level `lev + 1`. -/
theorem vertical_slave_no_recursion {ε V : Type} (cyc : AssembledMultiGridCycle)
    (ext : Collaborators ε V) (lev : Nat) (s : CycleState ε V)
    (hlev : cyc.m_baseLevel ≤ lev) :
    (ext.d_vertical_slave_empty lev = false →
      ∀ e, e ∈ (cyc.lmgc ext (lev + 1) s).trace → e ≠ .lmgc lev) ∧
    ((cyc.lmgc ext (lev + 1) s).ok = true →
      (cyc.lmgc ext (lev + 1) s).trace.countP (fun e => e == .lmgc lev) =
        (if ext.d_vertical_slave_empty lev then cyc.m_cycle_type.toNat else 0) ∧
      (cyc.lmgc ext (lev + 1) s).trace.countP
          (fun e => e == .call (.smoother_apply (lev + 1)) true) =
        cyc.m_nu1.toNat + cyc.m_nu2.toNat ∧
      (cyc.lmgc ext (lev + 1) s).trace.countP
          (fun e => e == .call (.I_apply_transposed lev) true) = 1 ∧
      (cyc.lmgc ext (lev + 1) s).trace.countP (fun e => e == .call (.I_apply lev) true) = 1 ∧
      (cyc.lmgc ext (lev + 1) s).trace.countP
          (fun e => e == .call (.A_apply_sub (lev + 1)) true) = 1) := by
  have hgt : lev + 1 > cyc.m_baseLevel := by omega
  constructor
  · intro hslave
    have hall : AllEv (fun e => e ≠ .lmgc lev) (cyc.lmgc ext (lev + 1)) := by
      show AllEv _ (lmgcBody cyc ext (lev + 1) _)
      unfold lmgcBody
      rw [if_pos hgt, lmgcAbove_of_slave cyc ext (lev + 1) _ hslave]
      refine allEv_andThen _ _ _ (allEv_emit _ _ (by simp)) ?_
      refine allEv_andThen _ _ _ (allEv_act _ _ _ (by simp)) ?_
      exact allEv_lmgcAbove _ cyc ext (lev + 1) _ (fun _ => by simp) (fun _ => by simp)
        (fun _ => by simp) (fun _ => by simp) (fun _ => by simp) (allEv_fail _)
    exact hall s
  · intro hok
    refine ⟨countsOk_recursive_calls cyc ext lev hlev s hok, ?_, ?_, ?_, ?_⟩
    · have h := countsOk_own_level (fun e => e == .call (.smoother_apply (lev + 1)) true)
        cyc ext lev hlev (fun _ => rfl) (fun e he => by
          cases e with
          | call c ok =>
            cases c <;> first
              | rfl
              | (have hk : _ ≤ lev := he
                 simp only [beq_eq_false_iff_ne, ne_eq, MGEvent.call.injEq,
                   MGCall.smoother_apply.injEq, not_and]
                 intro h1; omega)
          | lmgc _ => rfl
          | action _ => rfl
          | create _ _ => rfl
          | destroy _ => rfl) s hok
      rw [h]
      simp [hit]
    · have h := countsOk_own_level (fun e => e == .call (.I_apply_transposed lev) true)
        cyc ext lev hlev (fun _ => rfl) (fun e he => by
          cases e with
          | call c ok =>
            cases c <;> first
              | rfl
              | (have hk : _ < lev := he
                 simp only [beq_eq_false_iff_ne, ne_eq, MGEvent.call.injEq,
                   MGCall.I_apply_transposed.injEq, not_and]
                 intro h1; omega)
          | lmgc _ => rfl
          | action _ => rfl
          | create _ _ => rfl
          | destroy _ => rfl) s hok
      rw [h]
      simp [hit]
    · have h := countsOk_own_level (fun e => e == .call (.I_apply lev) true)
        cyc ext lev hlev (fun _ => rfl) (fun e he => by
          cases e with
          | call c ok =>
            cases c <;> first
              | rfl
              | (have hk : _ < lev := he
                 simp only [beq_eq_false_iff_ne, ne_eq, MGEvent.call.injEq,
                   MGCall.I_apply.injEq, not_and]
                 intro h1; omega)
          | lmgc _ => rfl
          | action _ => rfl
          | create _ _ => rfl
          | destroy _ => rfl) s hok
      rw [h]
      simp [hit]
    · have h := countsOk_own_level (fun e => e == .call (.A_apply_sub (lev + 1)) true)
        cyc ext lev hlev (fun _ => rfl) (fun e he => by
          cases e with
          | call c ok =>
            cases c <;> first
              | rfl
              | (have hk : _ ≤ lev := he
                 simp only [beq_eq_false_iff_ne, ne_eq, MGEvent.call.injEq,
                   MGCall.A_apply_sub.injEq, not_and]
                 intro h1; omega)
          | lmgc _ => rfl
          | action _ => rfl
          | create _ _ => rfl
          | destroy _ => rfl) s hok
      rw [h]
      simp [hit]

/-- Witness for C16: the V-cycle on two levels on a process that holds vertical slaves
on level 0: `lmgc(1)` succeeds without entering `lmgc(0)` and without a base solve, and
still smooths twice, restricts, prolongates and updates the defect on level 1; the same
cycle on a process without vertical layouts enters `lmgc(0)` once. -/
theorem vertical_slave_no_recursion_witness :
    twoLevelV.m_baseLevel ≤ 0 ∧
    ((slaveCollab.d_vertical_slave_empty 0 = false →
        ∀ e, e ∈ (twoLevelV.lmgc slaveCollab (0 + 1) (exCycleState 9)).trace → e ≠ .lmgc 0) ∧
      ((twoLevelV.lmgc slaveCollab (0 + 1) (exCycleState 9)).ok = true →
        (twoLevelV.lmgc slaveCollab (0 + 1) (exCycleState 9)).trace.countP
            (fun e => e == .lmgc 0) =
          (if slaveCollab.d_vertical_slave_empty 0 then twoLevelV.m_cycle_type.toNat else 0) ∧
        (twoLevelV.lmgc slaveCollab (0 + 1) (exCycleState 9)).trace.countP
            (fun e => e == .call (.smoother_apply (0 + 1)) true) =
          twoLevelV.m_nu1.toNat + twoLevelV.m_nu2.toNat ∧
        (twoLevelV.lmgc slaveCollab (0 + 1) (exCycleState 9)).trace.countP
            (fun e => e == .call (.I_apply_transposed 0) true) = 1 ∧
        (twoLevelV.lmgc slaveCollab (0 + 1) (exCycleState 9)).trace.countP
            (fun e => e == .call (.I_apply 0) true) = 1 ∧
        (twoLevelV.lmgc slaveCollab (0 + 1) (exCycleState 9)).trace.countP
            (fun e => e == .call (.A_apply_sub (0 + 1)) true) = 1)) ∧
    (twoLevelV.lmgc slaveCollab 1 (exCycleState 9)).ok = true ∧
    callsOf (twoLevelV.lmgc slaveCollab 1 (exCycleState 9)).trace =
      [(.smoother_apply 1, true), (.I_apply_transposed 0, true), (.I_apply 0, true),
       (.A_apply_sub 1, true), (.smoother_apply 1, true)] ∧
    (twoLevelV.lmgc slaveCollab 1 (exCycleState 9)).trace.countP (fun e => e == .lmgc 0) = 0 ∧
    (twoLevelV.lmgc exCollab 1 (exCycleState 9)).trace.countP (fun e => e == .lmgc 0) = 1 :=
  ⟨by decide, vertical_slave_no_recursion twoLevelV slaveCollab 0 (exCycleState 9) (by decide),
    rfl, by decide, by decide, by decide⟩

/-! ## C17 -/

/-- C17: the W-cycle on the two levels 0 and 1 without smoothing steps, with the
identity as operator, an exact base solver, and the level defect 1: the restricted
defect before the first call `lmgc(0)` is `d0 = 1`; the first call finds the
correction 1 and leaves the defect `1 - 1 = 0`; the second call resets the correction
(line 62), finds the correction 0 for the defect 0 and leaves the defect 0. After both
calls `c[0] = 0` and `d[0] = 0`, while `d0 - A*c[0] = 1`: the correction of the first
call is lost, the defect keeps its update. The whole `apply` then returns the
correction 0 for the defect 1, where the V-cycle returns the correction 1. -/
theorem wcycle_drops_first_correction :
    wBefore.m_d 0 = 1 ∧ wBefore.m_c 0 = 0 ∧
    wFirst.m_c 0 = 1 ∧ wFirst.m_d 0 = 0 ∧
    wFirst.m_d 0 = wBefore.m_d 0 - wFirst.m_c 0 ∧
    wAfter.m_c 0 = 0 ∧ wAfter.m_d 0 = 0 ∧
    wBefore.m_d 0 - wAfter.m_c 0 = 1 ∧
    wAfter.m_d 0 ≠ wBefore.m_d 0 - wAfter.m_c 0 ∧
    (Step.repeat (twoLevelW.lmgc exCollab 0) 2 wBefore).ok = true ∧
    (twoLevelW.apply exCollab true (exCycleState 1)).ok = true ∧
    (twoLevelW.apply exCollab true (exCycleState 1)).state.m_c 0 = 0 ∧
    (twoLevelW.apply exCollab true (exCycleState 1)).state.m_d 0 = 0 ∧
    (twoLevelW.apply exCollab true (exCycleState 1)).state.c = 0 ∧
    (twoLevelW.apply exCollab true (exCycleState 1)).state.d = 1 ∧
    ({ twoLevelW with m_cycle_type := 1 }.apply exCollab true (exCycleState 1)).state.c = 1 ∧
    ({ twoLevelW with m_cycle_type := 1 }.apply exCollab true (exCycleState 1)).state.d = 0 := by
  refine ⟨rfl, rfl, rfl, rfl, rfl, rfl, rfl, rfl, by decide, rfl, rfl, rfl, rfl, rfl, rfl,
    rfl, rfl⟩

/-! ## The controller: allocation and preparation -/

theorem andThen_trace_left {σ : Type} (a b : Step σ) (s : σ) (e : MGEvent)
    (h : e ∈ (a s).trace) : e ∈ (Step.andThen a b s).trace := by
  cases ha : (a s).ok
  · rw [andThen_of_fail a b s ha]; exact h
  · rw [andThen_of_ok a b s ha]; exact List.mem_append_left _ h

theorem andThen_trace_right {σ : Type} (a b : Step σ) (s : σ) (e : MGEvent)
    (ha : (a s).ok = true) (h : e ∈ (b (a s).state).trace) :
    e ∈ (Step.andThen a b s).trace := by
  rw [andThen_of_ok a b s ha]; exact List.mem_append_right _ h

theorem succeeds_forEach {σ : Type} (body : Nat → Step σ) (h : ∀ lev, Succeeds (body lev)) :
    ∀ levs, Succeeds (Step.forEach body levs) := by
  intro levs
  induction levs with
  | nil => exact succeeds_skip
  | cons lev rest ih => exact succeeds_andThen _ _ (h lev) ih

theorem succeeds_whenS {σ : Type} (cond : σ → Bool) (a : Step σ) (ha : Succeeds a) :
    Succeeds (Step.whenS cond a) := by
  intro s
  unfold Step.whenS
  by_cases hc : cond s = true
  · rw [if_pos hc]; exact ha s
  · rw [if_neg hc]; rfl

theorem ensures_andThen_right {σ : Type} (P : σ → Prop) (a b : Step σ) (hb : Ensures P b) :
    Ensures P (Step.andThen a b) := by
  intro s h
  rw [andThen_ok, Bool.and_eq_true] at h
  rw [andThen_of_ok a b s h.1]
  exact hb _ h.2

theorem ensures_andThen_keeps {σ α : Type} (f : σ → α) (v : α) (a b : Step σ)
    (ha : Ensures (fun s => f s = v) a) (hb : Keeps f b) :
    Ensures (fun s => f s = v) (Step.andThen a b) := by
  intro s h
  rw [andThen_ok, Bool.and_eq_true] at h
  rw [andThen_of_ok a b s h.1]
  exact (hb _).trans (ha s h.1)

theorem length_resize (xs : List Ptr) (n : Nat) : (resize xs n).length = n := by
  unfold resize
  simp only [List.length_append, List.length_take, List.length_replicate]
  omega

theorem succeeds_createStep {ε : Type} (lev : Nat) (kind : ObjKind)
    (store : Controller ε → Ptr → Controller ε) : Succeeds (createStep lev kind store) :=
  fun _ => rfl

theorem succeeds_deleteAt {ε : Type} (get : Controller ε → List Ptr)
    (set : Controller ε → List Ptr → Controller ε) (j : Nat) : Succeeds (deleteAt get set j) := by
  intro s
  unfold deleteAt
  split
  · split <;> rfl
  · rfl

theorem succeeds_deleteSmoother {ε : Type} (lev : Nat) :
    Succeeds (deleteSmoother lev : Step (Controller ε)) := by
  intro s
  unfold deleteSmoother
  split
  · split <;> rfl
  · rfl

theorem succeeds_allocate_memory {ε : Type} (cyc : AssembledMultiGridCycle) :
    Succeeds (cyc.allocate_memory : Step (Controller ε)) := by
  unfold AssembledMultiGridCycle.allocate_memory
  refine succeeds_andThen _ _ (fun _ => rfl) ?_
  refine succeeds_andThen _ _ (succeeds_createStep _ _ _) ?_
  refine succeeds_andThen _ _ (succeeds_createStep _ _ _) ?_
  refine succeeds_andThen _ _ (succeeds_createStep _ _ _) ?_
  refine succeeds_andThen _ _ (succeeds_createStep _ _ _) ?_
  refine succeeds_andThen _ _ (succeeds_forEach _ (fun lev => ?_) _) ?_
  · exact succeeds_andThen _ _ (succeeds_createStep _ _ _)
      (succeeds_andThen _ _ (succeeds_createStep _ _ _)
        (succeeds_andThen _ _ (succeeds_createStep _ _ _) (succeeds_createStep _ _ _)))
  refine succeeds_andThen _ _ (fun _ => rfl) ?_
  refine succeeds_andThen _ _ (succeeds_forEach _ (fun lev => ?_) _) ?_
  · exact succeeds_andThen _ _ (succeeds_createStep _ _ _)
      (succeeds_andThen _ _ (succeeds_createStep _ _ _) (succeeds_createStep _ _ _))
  refine succeeds_andThen _ _ (fun _ => rfl) ?_
  refine succeeds_andThen _ _ (succeeds_forEach _ (fun lev => ?_) _) ?_
  · split
    · exact succeeds_skip
    · exact succeeds_createStep _ _ _
  exact fun _ => rfl

theorem succeeds_free_memory {ε : Type} (cyc : AssembledMultiGridCycle) :
    Succeeds (cyc.free_memory : Step (Controller ε)) := by
  intro s
  unfold AssembledMultiGridCycle.free_memory
  split
  · rfl
  · refine succeeds_andThen _ _ (succeeds_forEach _ (fun j => ?_) _) ?_ s
    · exact succeeds_andThen _ _ (succeeds_deleteAt _ _ _)
        (succeeds_andThen _ _ (succeeds_deleteAt _ _ _)
          (succeeds_andThen _ _ (succeeds_deleteAt _ _ _)
            (succeeds_andThen _ _ (succeeds_deleteAt _ _ _)
              (succeeds_andThen _ _ (succeeds_deleteAt _ _ _)
                (succeeds_andThen _ _ (succeeds_deleteAt _ _ _) (succeeds_deleteAt _ _ _))))))
    refine succeeds_andThen _ _ (fun _ => rfl) ?_
    refine succeeds_andThen _ _ (succeeds_forEach _ (fun lev => ?_) _) ?_
    · split
      · exact succeeds_skip
      · exact succeeds_deleteSmoother _
    exact fun _ => rfl

theorem free_memory_flag {ε : Type} (cyc : AssembledMultiGridCycle) (s : Controller ε) :
    (cyc.free_memory s).state.m_allocated = false := by
  have hok := succeeds_free_memory cyc s
  revert hok
  unfold AssembledMultiGridCycle.free_memory
  split
  · intro _; assumption
  · intro hok
    refine ensures_andThen_right (fun s => s.m_allocated = false) _ _ ?_ s hok
    refine ensures_andThen_right _ _ _ ?_
    refine ensures_andThen_right _ _ _ ?_
    exact fun _ _ => rfl

theorem allocate_memory_flag {ε : Type} (cyc : AssembledMultiGridCycle) (s : Controller ε) :
    (cyc.allocate_memory s).state.m_allocated = true := by
  have hok := succeeds_allocate_memory cyc s
  revert hok
  unfold AssembledMultiGridCycle.allocate_memory
  intro hok
  refine ensures_andThen_right (fun s => s.m_allocated = true) _ _ ?_ s hok
  iterate 9 refine ensures_andThen_right _ _ _ ?_
  exact fun _ _ => rfl

theorem sound_forEach {σ : Type} (body : Nat → Step σ) (h : ∀ lev, Sound (body lev)) :
    ∀ levs, Sound (Step.forEach body levs) := by
  intro levs
  induction levs with
  | nil => exact sound_skip
  | cons lev rest ih => exact sound_andThen _ _ (h lev) ih

theorem sound_of_quiet {σ : Type} (a : Step σ) (hs : Succeeds a)
    (hq : AllEv (fun e => ∀ c ok, e ≠ .call c ok) a) : Sound a := by
  intro s
  refine ⟨fun _ => ?_, fun h => by rw [hs s] at h; exact absurd h (by decide)⟩
  unfold callsOk
  rw [List.all_eq_true]
  intro e he
  have := hq s e he
  cases e with
  | call c ok => exact absurd rfl (this c ok)
  | lmgc _ => rfl
  | action _ => rfl
  | create _ _ => rfl
  | destroy _ => rfl

theorem allEv_createStep {ε : Type} (q : MGEvent → Prop) (lev : Nat) (kind : ObjKind)
    (store : Controller ε → Ptr → Controller ε) (h : q (.create lev kind)) :
    AllEv q (createStep lev kind store) := by
  intro s e he
  simp only [createStep, List.mem_singleton] at he
  rw [he]; exact h

theorem allEv_deleteAt {ε : Type} (q : MGEvent → Prop) (get : Controller ε → List Ptr)
    (set : Controller ε → List Ptr → Controller ε) (j : Nat) (h : ∀ p, q (.destroy p)) :
    AllEv q (deleteAt get set j) := by
  intro s e he
  unfold deleteAt at he
  split at he
  · split at he
    · simp only [List.mem_singleton] at he
      rw [he]; exact h _
    · simp [Step.skip] at he
  · simp [Step.skip] at he

theorem allEv_deleteSmoother {ε : Type} (q : MGEvent → Prop) (lev : Nat)
    (h : ∀ p, q (.destroy p)) : AllEv q (deleteSmoother lev : Step (Controller ε)) := by
  intro s e he
  unfold deleteSmoother at he
  split at he
  · split at he
    · simp only [Step.emit, List.mem_singleton] at he
      rw [he]; exact h _
    · simp [Step.skip] at he
  · simp [Step.skip] at he

theorem allEv_allocate_memory {ε : Type} (q : MGEvent → Prop) (cyc : AssembledMultiGridCycle)
    (h : ∀ lev kind, q (.create lev kind)) :
    AllEv q (cyc.allocate_memory : Step (Controller ε)) := by
  have hs : ∀ g : Controller ε → Controller ε, AllEv q (fun s => Step.skip (g s)) := by
    intro g s e he
    simp [Step.skip] at he
  unfold AssembledMultiGridCycle.allocate_memory
  refine allEv_andThen _ _ _ (hs _) ?_
  refine allEv_andThen _ _ _ (allEv_createStep _ _ _ _ (h _ _)) ?_
  refine allEv_andThen _ _ _ (allEv_createStep _ _ _ _ (h _ _)) ?_
  refine allEv_andThen _ _ _ (allEv_createStep _ _ _ _ (h _ _)) ?_
  refine allEv_andThen _ _ _ (allEv_createStep _ _ _ _ (h _ _)) ?_
  refine allEv_andThen _ _ _ (allEv_forEach _ _ _ (fun lev _ => ?_)) ?_
  · exact allEv_andThen _ _ _ (allEv_createStep _ _ _ _ (h _ _))
      (allEv_andThen _ _ _ (allEv_createStep _ _ _ _ (h _ _))
        (allEv_andThen _ _ _ (allEv_createStep _ _ _ _ (h _ _))
          (allEv_createStep _ _ _ _ (h _ _))))
  refine allEv_andThen _ _ _ (hs _) ?_
  refine allEv_andThen _ _ _ (allEv_forEach _ _ _ (fun lev _ => ?_)) ?_
  · exact allEv_andThen _ _ _ (allEv_createStep _ _ _ _ (h _ _))
      (allEv_andThen _ _ _ (allEv_createStep _ _ _ _ (h _ _))
        (allEv_createStep _ _ _ _ (h _ _)))
  refine allEv_andThen _ _ _ (hs _) ?_
  refine allEv_andThen _ _ _ (allEv_forEach _ _ _ (fun lev _ => ?_)) ?_
  · split
    · exact allEv_skip _
    · exact allEv_createStep _ _ _ _ (h _ _)
  exact hs _

theorem allEv_free_memory {ε : Type} (q : MGEvent → Prop) (cyc : AssembledMultiGridCycle)
    (h : ∀ p, q (.destroy p)) :
    AllEv q (cyc.free_memory : Step (Controller ε)) := by
  have hs : ∀ g : Controller ε → Controller ε, AllEv q (fun s => Step.skip (g s)) := by
    intro g s e he
    simp [Step.skip] at he
  intro s
  unfold AssembledMultiGridCycle.free_memory
  split
  · exact allEv_skip q s
  · refine allEv_andThen _ _ _ (allEv_forEach _ _ _ (fun j _ => ?_)) ?_ s
    · exact allEv_andThen _ _ _ (allEv_deleteAt _ _ _ _ h)
        (allEv_andThen _ _ _ (allEv_deleteAt _ _ _ _ h)
          (allEv_andThen _ _ _ (allEv_deleteAt _ _ _ _ h)
            (allEv_andThen _ _ _ (allEv_deleteAt _ _ _ _ h)
              (allEv_andThen _ _ _ (allEv_deleteAt _ _ _ _ h)
                (allEv_andThen _ _ _ (allEv_deleteAt _ _ _ _ h)
                  (allEv_deleteAt _ _ _ _ h))))))
    refine allEv_andThen _ _ _ (hs _) ?_
    refine allEv_andThen _ _ _ (allEv_forEach _ _ _ (fun lev _ => ?_)) ?_
    · split
      · exact allEv_skip _
      · exact allEv_deleteSmoother _ _ h
    exact hs _

theorem sound_prepareOperators {ε : Type} (cyc : AssembledMultiGridCycle)
    (ext : PrepareCollaborators ε) (reallocated : Bool) :
    Sound (prepareOperators cyc ext reallocated) := by
  unfold prepareOperators
  refine sound_andThen _ _ (sound_act _ _) ?_
  refine sound_andThen _ _ (sound_when _ _ (sound_forEach _ (fun lev =>
    sound_andThen _ _ (sound_call _ _) (sound_call _ _)) _)) ?_
  refine sound_andThen _ _ (sound_forEach _ (fun lev => sound_call _ _) _) ?_
  refine sound_andThen _ _ (sound_forEach _ (fun lev => sound_call _ _) _) ?_
  refine sound_andThen _ _ (sound_forEach _ (fun lev =>
    sound_andThen _ _ (sound_call _ _) (sound_call _ _)) _) ?_
  refine sound_andThen _ _ (sound_act _ _) ?_
  refine sound_andThen _ _ (sound_call _ _) ?_
  refine sound_andThen _ _ (sound_call _ _) ?_
  exact sound_call _ _

theorem sound_prepareChecked {ε : Type} (cyc : AssembledMultiGridCycle)
    (ext : PrepareCollaborators ε) : Sound (prepareChecked cyc ext) := by
  unfold prepareChecked
  refine sound_andThen _ _ (sound_of_quiet _ (succeeds_whenS _ _ (succeeds_free_memory cyc))
    (allEv_whenS _ _ _ (allEv_free_memory _ cyc (fun _ _ _ h => by cases h)))) ?_
  intro s
  exact sound_andThen _ _
    (sound_of_quiet _ (succeeds_when _ _ (succeeds_allocate_memory cyc))
      (allEv_when _ _ _ (allEv_allocate_memory _ cyc (fun _ _ _ _ h => by cases h))))
    (sound_prepareOperators cyc ext _) s

theorem keeps_createStep {ε α : Type} (f : Controller ε → α) (lev : Nat) (kind : ObjKind)
    (store : Controller ε → Ptr → Controller ε) (h : ∀ s p, f (store s p) = f s) :
    Keeps f (createStep lev kind store) := fun s => h s _

theorem keeps_storage_prepareOperators {ε : Type} (cyc : AssembledMultiGridCycle)
    (ext : PrepareCollaborators ε) (reallocated : Bool) :
    Keeps Controller.storage (prepareOperators cyc ext reallocated) := by
  have hc : ∀ c, Keeps Controller.storage (prepareCall ext c) :=
    fun c => keeps_call _ _ _ (fun _ => rfl)
  unfold prepareOperators
  refine keeps_andThen _ _ _ (keeps_act _ _ _ (fun _ => rfl)) ?_
  refine keeps_andThen _ _ _ (keeps_when _ _ _ (keeps_forEach _ _ (fun lev =>
    keeps_andThen _ _ _ (hc _) (hc _)) _)) ?_
  refine keeps_andThen _ _ _ (keeps_forEach _ _ (fun lev => hc _) _) ?_
  refine keeps_andThen _ _ _ (keeps_forEach _ _ (fun lev => hc _) _) ?_
  refine keeps_andThen _ _ _ (keeps_forEach _ _ (fun lev =>
    keeps_andThen _ _ _ (hc _) (hc _)) _) ?_
  refine keeps_andThen _ _ _ (keeps_act _ _ _ (fun _ => rfl)) ?_
  refine keeps_andThen _ _ _ (hc _) ?_
  refine keeps_andThen _ _ _ (hc _) ?_
  exact hc _

theorem allocate_memory_levelSizes {ε : Type} (cyc : AssembledMultiGridCycle)
    (s : Controller ε) :
    (cyc.allocate_memory s).state.levelSizes =
      (cyc.m_surfaceLevel + 1, cyc.m_surfaceLevel + 1, cyc.m_surfaceLevel + 1,
        cyc.m_surfaceLevel + 1) := by
  have hok := succeeds_allocate_memory cyc s
  revert hok
  unfold AssembledMultiGridCycle.allocate_memory
  intro hok
  have hcr : ∀ lev kind, ∀ store : Controller ε → Ptr → Controller ε,
      (∀ s p, (store s p).levelSizes = s.levelSizes) →
      Keeps Controller.levelSizes (createStep lev kind store) :=
    fun lev kind store h => keeps_createStep _ lev kind store h
  refine ensures_andThen_keeps Controller.levelSizes _ _ _ ?_ ?_ s hok
  · intro s _
    simp only [Step.skip, Controller.levelSizes, length_resize]
  · refine keeps_andThen _ _ _ (hcr _ _ _ (fun s p => by
      simp only [Controller.levelSizes, List.length_set])) ?_
    refine keeps_andThen _ _ _ (hcr _ _ _ (fun s p => by
      simp only [Controller.levelSizes, List.length_set])) ?_
    refine keeps_andThen _ _ _ (hcr _ _ _ (fun s p => by
      simp only [Controller.levelSizes, List.length_set])) ?_
    refine keeps_andThen _ _ _ (hcr _ _ _ (fun s p => by
      simp only [Controller.levelSizes, List.length_set])) ?_
    refine keeps_andThen _ _ _ (keeps_forEach _ _ (fun lev => ?_) _) ?_
    · exact keeps_andThen _ _ _ (hcr _ _ _ (fun s p => by
          simp only [Controller.levelSizes, List.length_set]))
        (keeps_andThen _ _ _ (hcr _ _ _ (fun s p => by
          simp only [Controller.levelSizes, List.length_set]))
          (keeps_andThen _ _ _ (hcr _ _ _ (fun s p => by
            simp only [Controller.levelSizes, List.length_set]))
            (hcr _ _ _ (fun s p => by
              simp only [Controller.levelSizes, List.length_set]))))
    refine keeps_andThen _ _ _ (fun _ => rfl) ?_
    refine keeps_andThen _ _ _ (keeps_forEach _ _ (fun lev => ?_) _) ?_
    · exact keeps_andThen _ _ _ (hcr _ _ _ (fun _ _ => rfl))
        (keeps_andThen _ _ _ (hcr _ _ _ (fun _ _ => rfl)) (hcr _ _ _ (fun _ _ => rfl)))
    refine keeps_andThen _ _ _ (fun _ => rfl) ?_
    refine keeps_andThen _ _ _ (keeps_forEach _ _ (fun lev => ?_) _) ?_
    · split
      · exact keeps_skip _
      · exact hcr _ _ _ (fun _ _ => rfl)
    exact fun _ => rfl

theorem prepareOperators_flag {ε : Type} (cyc : AssembledMultiGridCycle)
    (ext : PrepareCollaborators ε) (reallocated : Bool) (s : Controller ε) :
    (prepareOperators cyc ext reallocated s).state.m_allocated = s.m_allocated :=
  congrArg (fun t => t.2.2.2.2.2.2.2) (keeps_storage_prepareOperators cyc ext reallocated s)

theorem prepareOperators_levelSizes {ε : Type} (cyc : AssembledMultiGridCycle)
    (ext : PrepareCollaborators ε) (reallocated : Bool) (s : Controller ε) :
    (prepareOperators cyc ext reallocated s).state.levelSizes = s.levelSizes := by
  have h := keeps_storage_prepareOperators cyc ext reallocated s
  simp only [Controller.storage, Prod.mk.injEq] at h
  simp only [Controller.levelSizes, h.1, h.2.1, h.2.2.1, h.2.2.2.1]

theorem prepareChecked_flag {ε : Type} (cyc : AssembledMultiGridCycle)
    (ext : PrepareCollaborators ε) (s : Controller ε) :
    (prepareChecked cyc ext s).state.m_allocated = true := by
  unfold prepareChecked
  rw [andThen_of_ok _ _ s (succeeds_whenS _ _ (succeeds_free_memory cyc) s)]
  simp only
  generalize (Step.whenS (fun s => cyc.m_grid_changes && s.m_allocated) cyc.free_memory s).state
    = s1
  cases h1 : s1.m_allocated
  · simp only [Bool.not_false, when_true]
    rw [andThen_of_ok _ _ s1 (succeeds_allocate_memory cyc s1)]
    simp only
    rw [prepareOperators_flag]
    exact allocate_memory_flag cyc s1
  · simp only [Bool.not_true, when_false]
    rw [andThen_of_ok _ _ s1 rfl]
    simp only
    rw [prepareOperators_flag]
    exact h1

theorem prepareChecked_of_kept {ε : Type} (cyc : AssembledMultiGridCycle)
    (ext : PrepareCollaborators ε) (s : Controller ε)
    (h : (cyc.m_grid_changes && s.m_allocated) = false) :
    prepareChecked cyc ext s =
      Step.andThen (Step.when (!s.m_allocated) cyc.allocate_memory)
        (prepareOperators cyc ext (!s.m_allocated)) s := by
  have hw : Step.whenS (fun s => cyc.m_grid_changes && s.m_allocated) cyc.free_memory s =
      Step.skip s := by
    unfold Step.whenS
    simp only [h, Bool.false_eq_true, if_false]
  unfold prepareChecked
  rw [andThen_of_ok _ _ s (by rw [hw]; rfl), hw]
  simp only [Step.skip, List.nil_append]

theorem prepareChecked_of_freed {ε : Type} (cyc : AssembledMultiGridCycle)
    (ext : PrepareCollaborators ε) (s : Controller ε)
    (h : (cyc.m_grid_changes && s.m_allocated) = true) :
    prepareChecked cyc ext s =
      ⟨(prepareOperators cyc ext true
          (cyc.allocate_memory (cyc.free_memory s).state).state).ok,
        (prepareOperators cyc ext true
          (cyc.allocate_memory (cyc.free_memory s).state).state).state,
        (cyc.free_memory s).trace ++
          ((cyc.allocate_memory (cyc.free_memory s).state).trace ++
            (prepareOperators cyc ext true
              (cyc.allocate_memory (cyc.free_memory s).state).state).trace)⟩ := by
  have hw : Step.whenS (fun s => cyc.m_grid_changes && s.m_allocated) cyc.free_memory s =
      cyc.free_memory s := by
    unfold Step.whenS
    simp only [h, if_true]
  unfold prepareChecked
  rw [andThen_of_ok _ _ s (by rw [hw]; exact succeeds_free_memory cyc s), hw]
  simp only [free_memory_flag, Bool.not_false, when_true]
  rw [andThen_of_ok _ _ _ (succeeds_allocate_memory cyc _)]

theorem prepareChecked_levelSizes {ε : Type} (cyc : AssembledMultiGridCycle)
    (ext : PrepareCollaborators ε) (s : Controller ε)
    (h : s.m_allocated = false ∨ cyc.m_grid_changes = true) :
    (prepareChecked cyc ext s).state.levelSizes =
      (cyc.m_surfaceLevel + 1, cyc.m_surfaceLevel + 1, cyc.m_surfaceLevel + 1,
        cyc.m_surfaceLevel + 1) := by
  cases hc : (cyc.m_grid_changes && s.m_allocated)
  · have hflag : s.m_allocated = false := by
      rcases h with h | h
      · exact h
      · rw [h] at hc; simpa using hc
    rw [prepareChecked_of_kept cyc ext s hc, hflag]
    simp only [Bool.not_false, when_true]
    rw [andThen_of_ok _ _ s (succeeds_allocate_memory cyc s)]
    simp only
    rw [prepareOperators_levelSizes, allocate_memory_levelSizes]
  · rw [prepareChecked_of_freed cyc ext s hc]
    simp only
    rw [prepareOperators_levelSizes, allocate_memory_levelSizes]

theorem prepareChecked_storage {ε : Type} (cyc : AssembledMultiGridCycle)
    (ext : PrepareCollaborators ε) (s : Controller ε)
    (hflag : s.m_allocated = true) (hgc : cyc.m_grid_changes = false) :
    (prepareChecked cyc ext s).state.storage = s.storage := by
  rw [prepareChecked_of_kept cyc ext s (by rw [hgc]; rfl), hflag]
  simp only [Bool.not_true, when_false]
  rw [andThen_of_ok _ _ s rfl]
  exact keeps_storage_prepareOperators cyc ext false _

theorem prepareChecked_quiet {ε : Type} (cyc : AssembledMultiGridCycle)
    (ext : PrepareCollaborators ε) (s : Controller ε)
    (hflag : s.m_allocated = true) (hgc : cyc.m_grid_changes = false) :
    ∀ e, e ∈ (prepareChecked cyc ext s).trace → notAllocating e := by
  rw [prepareChecked_of_kept cyc ext s (by rw [hgc]; rfl), hflag]
  simp only [Bool.not_true, when_false]
  have hq : ∀ c, (∀ lev, c ≠ .I_prepare lev) → (∀ lev, c ≠ .P_prepare lev) →
      AllEv notAllocating (prepareCall ext c) := by
    intro c h1 h2
    refine allEv_call _ _ _ (fun ok => ⟨(fun _ _ h => by cases h), ?_, ?_⟩)
    · intro lev ok2 h
      cases h
      exact h1 lev rfl
    · intro lev ok2 h
      cases h
      exact h2 lev rfl
  have ha : ∀ a, notAllocating (.action a) :=
    fun a => ⟨(fun _ _ h => by cases h), (fun _ _ h => by cases h), (fun _ _ h => by cases h)⟩
  have hall : AllEv notAllocating
      (Step.andThen Step.skip (prepareOperators cyc ext false)) := by
    unfold prepareOperators
    rw [when_false]
    refine allEv_andThen _ _ _ (allEv_skip _) ?_
    refine allEv_andThen _ _ _ (allEv_act _ _ _ (ha _)) ?_
    refine allEv_andThen _ _ _ (allEv_skip _) ?_
    refine allEv_andThen _ _ _ (allEv_forEach _ _ _ (fun lev _ =>
      hq _ (fun _ h => by cases h) (fun _ h => by cases h))) ?_
    refine allEv_andThen _ _ _ (allEv_forEach _ _ _ (fun lev _ =>
      hq _ (fun _ h => by cases h) (fun _ h => by cases h))) ?_
    refine allEv_andThen _ _ _ (allEv_forEach _ _ _ (fun lev _ =>
      allEv_andThen _ _ _ (hq _ (fun _ h => by cases h) (fun _ h => by cases h))
        (hq _ (fun _ h => by cases h) (fun _ h => by cases h)))) ?_
    refine allEv_andThen _ _ _ (allEv_act _ _ _ (ha _)) ?_
    refine allEv_andThen _ _ _ (hq _ (fun _ h => by cases h) (fun _ h => by cases h)) ?_
    refine allEv_andThen _ _ _ (hq _ (fun _ h => by cases h) (fun _ h => by cases h)) ?_
    exact hq _ (fun _ h => by cases h) (fun _ h => by cases h)
  exact hall s

theorem prepareChecked_again {ε : Type} (cyc : AssembledMultiGridCycle)
    (ext : PrepareCollaborators ε) (s : Controller ε)
    (hflag : s.m_allocated = true) (hgc : cyc.m_grid_changes = true) :
    (∃ rest, (prepareChecked cyc ext s).trace =
      (cyc.free_memory s).trace ++
        ((cyc.allocate_memory (cyc.free_memory s).state).trace ++ rest)) ∧
    .create cyc.m_surfaceLevel .u ∈ (prepareChecked cyc ext s).trace ∧
    (cyc.m_baseLevel < cyc.m_surfaceLevel →
      ∃ ok, .call (.I_prepare cyc.m_baseLevel) ok ∈ (prepareChecked cyc ext s).trace) := by
  rw [prepareChecked_of_freed cyc ext s (by rw [hgc, hflag]; rfl)]
  simp only
  refine ⟨?_, ?_, ?_⟩
  · exact ⟨_, rfl⟩
  · apply List.mem_append_right
    apply List.mem_append_left
    unfold AssembledMultiGridCycle.allocate_memory
    refine andThen_trace_right _ _ _ _ rfl ?_
    exact andThen_trace_left _ _ _ _ (List.mem_singleton.mpr rfl)
  · intro hlt
    obtain ⟨k, hk⟩ : ∃ k, cyc.m_surfaceLevel - cyc.m_baseLevel = k + 1 :=
      ⟨cyc.m_surfaceLevel - cyc.m_baseLevel - 1, by omega⟩
    apply Exists.intro
    apply List.mem_append_right
    apply List.mem_append_right
    unfold prepareOperators
    refine andThen_trace_right _ _ _ _ rfl ?_
    refine andThen_trace_left _ _ _ _ ?_
    rw [when_true]
    unfold AssembledMultiGridCycle.coarseLevels
    rw [hk, List.range'_succ]
    show _ ∈ (Step.andThen _ _ _).trace
    refine andThen_trace_left _ _ _ _ ?_
    refine andThen_trace_left _ _ _ _ ?_
    exact List.mem_singleton.mpr rfl

theorem prepare_of_checks {ε : Type} (cyc : AssembledMultiGridCycle) (grid : GridInfo)
    (ext : PrepareCollaborators ε) (s : Controller ε) (h1 : grid.isMultiGrid = true)
    (h2 : cyc.m_surfaceLevel < grid.num_levels) (h3 : cyc.m_baseLevel ≤ cyc.m_surfaceLevel) :
    cyc.prepare grid ext s = prepareChecked cyc ext s := by
  unfold AssembledMultiGridCycle.prepare
  rw [h1]
  simp only [Bool.not_true, Bool.false_eq_true, if_false]
  rw [if_neg (by omega), if_neg (by omega)]

/-! ## C18 -/

/-- C18, counterexample: on the two levels 0 and 1 with `grid_changes = false`, a
`prepare` of a new controller whose call `m_I[0]->prepare` fails returns failure and
leaves the controller allocated: the flag `m_allocated` is `true` and the vectors hold
the objects of both levels. The following `prepare`, with collaborators that succeed,
returns success without creating any object and without preparing the transfer
operators `m_I[0]` and `m_P[0]`. -/
theorem prepare_failure_keeps_allocation :
    (twoLevelV.prepare exGrid failPrepare (Controller.new ())).ok = false ∧
    afterFailedPrepare.m_allocated = true ∧
    afterFailedPrepare.m_u = [.obj 0 .u, .obj 1 .u] ∧
    afterFailedPrepare.m_d = [.obj 0 .d, .obj 1 .d] ∧
    afterFailedPrepare.m_I = [.obj 0 .I] ∧
    (twoLevelV.prepare exGrid exPrepare afterFailedPrepare).ok = true ∧
    (twoLevelV.prepare exGrid exPrepare afterFailedPrepare).trace =
      [.action .u_project_surface, .call (.P_apply 0) true, .call (.A_prepare 0) true,
       .call (.smoother_init 0) true, .call (.smoother_prepare 0) true,
       .action .set_A_surface, .call (.smoother_init 1) true,
       .call (.smoother_prepare 1) true, .call (.baseSolver_init 0) true] := by
  decide

/-- C18, amended: a `prepare` that returns failure either failed one of its three
checks and left the controller as it was, or a collaborator call failed, as the last
event of the run, and the controller is left allocated: the flag `m_allocated` is
`true`, and the vectors of grid functions hold the `surfaceLevel + 1` levels allocated
in this run or, when the controller was allocated before and `grid_changes` is not set,
all vectors but `m_A` are as they were. A following `prepare` then creates no object
and prepares no transfer operator when `grid_changes` is not set; when it is set, it
runs `free_memory` and `allocate_memory` again and, above the base level, prepares the
transfer operators again. -/
theorem prepare_failure_state {ε : Type} (cyc : AssembledMultiGridCycle) (grid : GridInfo)
    (ext ext2 : PrepareCollaborators ε) (s : Controller ε)
    (hfail : (cyc.prepare grid ext s).ok = false) :
    ((grid.isMultiGrid = false ∨ grid.num_levels ≤ cyc.m_surfaceLevel ∨
        cyc.m_surfaceLevel < cyc.m_baseLevel) ∧
      (cyc.prepare grid ext s).state = s ∧ (cyc.prepare grid ext s).trace = []) ∨
    ((∃ tr0 c, (cyc.prepare grid ext s).trace = tr0 ++ [.call c false] ∧ callsOk tr0 = true) ∧
      (cyc.prepare grid ext s).state.m_allocated = true ∧
      (s.m_allocated = false ∨ cyc.m_grid_changes = true →
        (cyc.prepare grid ext s).state.levelSizes =
          (cyc.m_surfaceLevel + 1, cyc.m_surfaceLevel + 1, cyc.m_surfaceLevel + 1,
            cyc.m_surfaceLevel + 1)) ∧
      (s.m_allocated = true ∧ cyc.m_grid_changes = false →
        (cyc.prepare grid ext s).state.storage = s.storage) ∧
      (cyc.m_grid_changes = false →
        ∀ e, e ∈ (cyc.prepare grid ext2 (cyc.prepare grid ext s).state).trace →
          notAllocating e) ∧
      (cyc.m_grid_changes = true →
        (∃ rest, (cyc.prepare grid ext2 (cyc.prepare grid ext s).state).trace =
          (cyc.free_memory (cyc.prepare grid ext s).state).trace ++
            ((cyc.allocate_memory
              (cyc.free_memory (cyc.prepare grid ext s).state).state).trace ++ rest)) ∧
        .create cyc.m_surfaceLevel .u ∈
          (cyc.prepare grid ext2 (cyc.prepare grid ext s).state).trace ∧
        (cyc.m_baseLevel < cyc.m_surfaceLevel →
          ∃ ok, .call (.I_prepare cyc.m_baseLevel) ok ∈
            (cyc.prepare grid ext2 (cyc.prepare grid ext s).state).trace))) := by
  by_cases hc : grid.isMultiGrid = false ∨ grid.num_levels ≤ cyc.m_surfaceLevel ∨
      cyc.m_surfaceLevel < cyc.m_baseLevel
  · left
    refine ⟨hc, ?_⟩
    unfold AssembledMultiGridCycle.prepare
    by_cases h1 : grid.isMultiGrid = false
    · rw [h1]; exact ⟨rfl, rfl⟩
    · have h1t : grid.isMultiGrid = true := by simpa using h1
      rw [h1t]
      simp only [Bool.not_true, Bool.false_eq_true, if_false]
      by_cases h2 : cyc.m_surfaceLevel ≥ grid.num_levels
      · rw [if_pos h2]; exact ⟨rfl, rfl⟩
      · rw [if_neg h2]
        have h3 : cyc.m_baseLevel > cyc.m_surfaceLevel := by
          rcases hc with h | h | h
          · exact absurd h h1
          · exact absurd h h2
          · exact h
        rw [if_pos h3]; exact ⟨rfl, rfl⟩
  · right
    have h1 : grid.isMultiGrid = true := by
      cases h : grid.isMultiGrid
      · exact absurd (Or.inl h) hc
      · rfl
    have h2 : cyc.m_surfaceLevel < grid.num_levels := by
      by_contra h
      exact hc (Or.inr (Or.inl (by omega)))
    have h3 : cyc.m_baseLevel ≤ cyc.m_surfaceLevel := by
      by_contra h
      exact hc (Or.inr (Or.inr (by omega)))
    have hp := prepare_of_checks cyc grid ext s h1 h2 h3
    have hflag : (cyc.prepare grid ext s).state.m_allocated = true := by
      rw [hp]; exact prepareChecked_flag cyc ext s
    have hp2 := prepare_of_checks cyc grid ext2 (cyc.prepare grid ext s).state h1 h2 h3
    refine ⟨?_, hflag, ?_, ?_, ?_, ?_⟩
    · rw [hp] at hfail ⊢
      exact (sound_prepareChecked cyc ext s).2 hfail
    · intro h
      rw [hp]
      exact prepareChecked_levelSizes cyc ext s h
    · intro h
      rw [hp]
      exact prepareChecked_storage cyc ext s h.1 h.2
    · intro hgc
      rw [hp2]
      exact prepareChecked_quiet cyc ext2 _ hflag hgc
    · intro hgc
      rw [hp2]
      exact prepareChecked_again cyc ext2 _ hflag hgc

/-- Witness for C18: the failed `prepare` of the counterexample, followed by a
`prepare` with collaborators that succeed. -/
theorem prepare_failure_state_witness :
    (twoLevelV.prepare exGrid failPrepare (Controller.new ())).ok = false ∧
    (((exGrid.isMultiGrid = false ∨ exGrid.num_levels ≤ twoLevelV.m_surfaceLevel ∨
          twoLevelV.m_surfaceLevel < twoLevelV.m_baseLevel) ∧
        (twoLevelV.prepare exGrid failPrepare (Controller.new ())).state = Controller.new () ∧
        (twoLevelV.prepare exGrid failPrepare (Controller.new ())).trace = []) ∨
      ((∃ tr0 c, (twoLevelV.prepare exGrid failPrepare (Controller.new ())).trace =
          tr0 ++ [.call c false] ∧ callsOk tr0 = true) ∧
        (twoLevelV.prepare exGrid failPrepare (Controller.new ())).state.m_allocated = true ∧
        ((Controller.new ()).m_allocated = false ∨ twoLevelV.m_grid_changes = true →
          (twoLevelV.prepare exGrid failPrepare (Controller.new ())).state.levelSizes =
            (twoLevelV.m_surfaceLevel + 1, twoLevelV.m_surfaceLevel + 1,
              twoLevelV.m_surfaceLevel + 1, twoLevelV.m_surfaceLevel + 1)) ∧
        ((Controller.new ()).m_allocated = true ∧ twoLevelV.m_grid_changes = false →
          (twoLevelV.prepare exGrid failPrepare (Controller.new ())).state.storage =
            (Controller.new ()).storage) ∧
        (twoLevelV.m_grid_changes = false →
          ∀ e, e ∈ (twoLevelV.prepare exGrid exPrepare
              (twoLevelV.prepare exGrid failPrepare (Controller.new ())).state).trace →
            notAllocating e) ∧
        (twoLevelV.m_grid_changes = true →
          (∃ rest, (twoLevelV.prepare exGrid exPrepare
              (twoLevelV.prepare exGrid failPrepare (Controller.new ())).state).trace =
            (twoLevelV.free_memory
              (twoLevelV.prepare exGrid failPrepare (Controller.new ())).state).trace ++
              ((twoLevelV.allocate_memory
                (twoLevelV.free_memory
                  (twoLevelV.prepare exGrid failPrepare
                    (Controller.new ())).state).state).trace ++ rest)) ∧
          .create twoLevelV.m_surfaceLevel .u ∈
            (twoLevelV.prepare exGrid exPrepare
              (twoLevelV.prepare exGrid failPrepare (Controller.new ())).state).trace ∧
          (twoLevelV.m_baseLevel < twoLevelV.m_surfaceLevel →
            ∃ ok, .call (.I_prepare twoLevelV.m_baseLevel) ok ∈
              (twoLevelV.prepare exGrid exPrepare
                (twoLevelV.prepare exGrid failPrepare (Controller.new ())).state).trace)))) :=
  ⟨by decide,
    prepare_failure_state twoLevelV exGrid failPrepare exPrepare (Controller.new ()) (by decide)⟩

/-! ## Allocation and deallocation -/

theorem hoare_andThen {σ : Type} (inv : σ → Prop) (q : MGEvent → Prop) (a b : Step σ)
    (ha : Hoare inv q a) (hb : Hoare inv q b) : Hoare inv q (Step.andThen a b) := by
  intro s hs
  obtain ⟨h1, h2⟩ := ha s hs
  cases hok : (a s).ok
  · rw [andThen_of_fail a b s hok]; exact ⟨h1, h2⟩
  · rw [andThen_of_ok a b s hok]
    obtain ⟨g1, g2⟩ := hb _ h1
    refine ⟨g1, fun e he => ?_⟩
    rcases List.mem_append.mp he with h | h
    · exact h2 e h
    · exact g2 e h

theorem hoare_forEach {σ : Type} (inv : σ → Prop) (q : MGEvent → Prop)
    (body : Nat → Step σ) :
    ∀ levs : List Nat, (∀ lev, lev ∈ levs → Hoare inv q (body lev)) →
      Hoare inv q (Step.forEach body levs) := by
  intro levs
  induction levs with
  | nil => intro _ s hs; exact ⟨hs, fun e he => by simp [Step.forEach, Step.skip] at he⟩
  | cons lev rest ih =>
    intro h
    exact hoare_andThen inv q _ _ (h lev (List.mem_cons_self _ _))
      (ih (fun l hl => h l (List.mem_cons_of_mem _ hl)))

theorem hoare_update {σ : Type} (inv : σ → Prop) (q : MGEvent → Prop) (g : σ → σ)
    (h : ∀ s, inv s → inv (g s)) : Hoare inv q (fun s => Step.skip (g s)) :=
  fun s hs => ⟨h s hs, fun e he => by simp [Step.skip] at he⟩

theorem indexedList_nil : indexedList [] := by
  intro j l kind h
  simp at h

theorem indexedList_resize (v : List Ptr) (n : Nat) (h : indexedList v) :
    indexedList (resize v n) := by
  intro j l kind hj
  unfold resize at hj
  by_cases hlt : j < (v.take n).length
  · rw [List.getElem?_append_left hlt] at hj
    rw [List.getElem?_take] at hj
    split at hj
    · exact h j l kind hj
    · cases hj
  · rw [List.getElem?_append_right (by omega)] at hj
    rw [List.getElem?_replicate] at hj
    split at hj
    · cases hj
    · cases hj

theorem indexedList_set (v : List Ptr) (j : Nat) (p : Ptr) (h : indexedList v)
    (hp : ∀ l kind, p = .obj l kind → l = j) : indexedList (v.set j p) := by
  intro i l kind hi
  rw [List.getElem?_set] at hi
  split at hi
  · split at hi
    · cases hi
      rename_i heq _
      rw [← heq]
      exact hp l kind rfl
    · cases hi
  · exact h i l kind hi

theorem indexed_new {ε : Type} (env : ε) : (Controller.new env).indexed := by
  refine ⟨indexedList_nil, indexedList_nil, indexedList_nil, indexedList_nil,
    indexedList_nil, indexedList_nil, indexedList_nil, ?_⟩
  intro j l kind h
  cases j with
  | zero => cases h
  | succ j => simp [Controller.new] at h

theorem hoare_createStep {ε : Type} (q : MGEvent → Prop) (lev : Nat) (kind : ObjKind)
    (store : Controller ε → Ptr → Controller ε)
    (h : ∀ s, s.indexed → (store s (.obj lev kind)).indexed) (hq : q (.create lev kind)) :
    Hoare Controller.indexed q (createStep lev kind store) := by
  intro s hs
  refine ⟨h s hs, fun e he => ?_⟩
  simp only [createStep, List.mem_singleton] at he
  rw [he]; exact hq

theorem hoare_allocate_memory {ε : Type} (cyc : AssembledMultiGridCycle) :
    Hoare Controller.indexed (fun _ => True)
      (cyc.allocate_memory : Step (Controller ε)) := by
  have hobj : ∀ (j : Nat) (k : ObjKind) (l : Nat) (kind : ObjKind),
      Ptr.obj j k = Ptr.obj l kind → l = j := by
    intro j k l kind h
    cases h
    rfl
  unfold AssembledMultiGridCycle.allocate_memory
  refine hoare_andThen _ _ _ _ (hoare_update _ _ _ (fun s hs =>
    ⟨indexedList_resize _ _ hs.1, indexedList_resize _ _ hs.2.1,
      indexedList_resize _ _ hs.2.2.1, indexedList_resize _ _ hs.2.2.2.1,
      hs.2.2.2.2⟩)) ?_
  refine hoare_andThen _ _ _ _ (hoare_createStep _ _ _ _ (fun s hs =>
    ⟨indexedList_set _ _ _ hs.1 (hobj _ _), hs.2⟩) trivial) ?_
  refine hoare_andThen _ _ _ _ (hoare_createStep _ _ _ _ (fun s hs =>
    ⟨hs.1, indexedList_set _ _ _ hs.2.1 (hobj _ _), hs.2.2⟩) trivial) ?_
  refine hoare_andThen _ _ _ _ (hoare_createStep _ _ _ _ (fun s hs =>
    ⟨hs.1, hs.2.1, indexedList_set _ _ _ hs.2.2.1 (hobj _ _), hs.2.2.2⟩) trivial) ?_
  refine hoare_andThen _ _ _ _ (hoare_createStep _ _ _ _ (fun s hs =>
    ⟨hs.1, hs.2.1, hs.2.2.1, indexedList_set _ _ _ hs.2.2.2.1 (hobj _ _), hs.2.2.2.2⟩)
    trivial) ?_
  refine hoare_andThen _ _ _ _ (hoare_forEach _ _ _ _ (fun lev _ => ?_)) ?_
  · refine hoare_andThen _ _ _ _ (hoare_createStep _ _ _ _ (fun s hs =>
      ⟨indexedList_set _ _ _ hs.1 (hobj _ _), hs.2⟩) trivial) ?_
    refine hoare_andThen _ _ _ _ (hoare_createStep _ _ _ _ (fun s hs =>
      ⟨hs.1, indexedList_set _ _ _ hs.2.1 (hobj _ _), hs.2.2⟩) trivial) ?_
    refine hoare_andThen _ _ _ _ (hoare_createStep _ _ _ _ (fun s hs =>
      ⟨hs.1, hs.2.1, indexedList_set _ _ _ hs.2.2.1 (hobj _ _), hs.2.2.2⟩) trivial) ?_
    exact hoare_createStep _ _ _ _ (fun s hs =>
      ⟨hs.1, hs.2.1, hs.2.2.1, indexedList_set _ _ _ hs.2.2.2.1 (hobj _ _), hs.2.2.2.2⟩)
      trivial
  refine hoare_andThen _ _ _ _ (hoare_update _ _ _ (fun s hs =>
    ⟨hs.1, hs.2.1, hs.2.2.1, hs.2.2.2.1, indexedList_resize _ _ hs.2.2.2.2.1,
      indexedList_resize _ _ hs.2.2.2.2.2.1, indexedList_resize _ _ hs.2.2.2.2.2.2.1,
      hs.2.2.2.2.2.2.2⟩)) ?_
  refine hoare_andThen _ _ _ _ (hoare_forEach _ _ _ _ (fun lev _ => ?_)) ?_
  · refine hoare_andThen _ _ _ _ (hoare_createStep _ _ _ _ (fun s hs =>
      ⟨hs.1, hs.2.1, hs.2.2.1, hs.2.2.2.1, hs.2.2.2.2.1,
        indexedList_set _ _ _ hs.2.2.2.2.2.1 (hobj _ _), hs.2.2.2.2.2.2⟩) trivial) ?_
    refine hoare_andThen _ _ _ _ (hoare_createStep _ _ _ _ (fun s hs =>
      ⟨hs.1, hs.2.1, hs.2.2.1, hs.2.2.2.1, hs.2.2.2.2.1, hs.2.2.2.2.2.1,
        indexedList_set _ _ _ hs.2.2.2.2.2.2.1 (hobj _ _), hs.2.2.2.2.2.2.2⟩) trivial) ?_
    exact hoare_createStep _ _ _ _ (fun s hs =>
      ⟨hs.1, hs.2.1, hs.2.2.1, hs.2.2.2.1, indexedList_set _ _ _ hs.2.2.2.2.1 (hobj _ _),
        hs.2.2.2.2.2⟩) trivial
  refine hoare_andThen _ _ _ _ (hoare_update _ _ _ (fun s hs =>
    ⟨hs.1, hs.2.1, hs.2.2.1, hs.2.2.2.1, hs.2.2.2.2.1, hs.2.2.2.2.2.1, hs.2.2.2.2.2.2.1,
      indexedList_resize _ _ hs.2.2.2.2.2.2.2⟩)) ?_
  refine hoare_andThen _ _ _ _ (hoare_forEach _ _ _ _ (fun lev _ => ?_)) ?_
  · split
    · exact fun s hs => ⟨hs, fun e he => by simp [Step.skip] at he⟩
    · exact hoare_createStep _ _ _ _ (fun s hs =>
        ⟨hs.1, hs.2.1, hs.2.2.1, hs.2.2.2.1, hs.2.2.2.2.1, hs.2.2.2.2.2.1, hs.2.2.2.2.2.2.1,
          indexedList_set _ _ _ hs.2.2.2.2.2.2.2 (hobj _ _)⟩) trivial
  exact hoare_update _ _ _ (fun s hs => hs)

theorem hoare_deleteAt {ε : Type} (surf : Nat) (get : Controller ε → List Ptr)
    (set : Controller ε → List Ptr → Controller ε) (j : Nat) (hj : j < surf)
    (hget : ∀ s, s.indexed → indexedList (get s))
    (hset : ∀ s v, s.indexed → indexedList v → (set s v).indexed) :
    Hoare Controller.indexed
      (fun e => ∀ (l : Nat) (kind : ObjKind), e = .destroy (.obj l kind) → l < surf)
      (deleteAt get set j) := by
  intro s hs
  unfold deleteAt
  split
  · rename_i p hp
    split
    · refine ⟨hset s _ hs (indexedList_set _ _ _ (hget s hs) (fun _ _ h => by cases h)), ?_⟩
      intro e he l kind hl
      simp only [List.mem_singleton] at he
      rw [he] at hl
      cases hl
      rw [hget s hs j l kind hp]
      exact hj
    · exact ⟨hs, fun e he => by simp [Step.skip] at he⟩
  · exact ⟨hs, fun e he => by simp [Step.skip] at he⟩

theorem hoare_deleteSmoother {ε : Type} (surf lev : Nat) (hlev : lev < surf) :
    Hoare Controller.indexed
      (fun e => ∀ (l : Nat) (kind : ObjKind), e = .destroy (.obj l kind) → l < surf)
      (deleteSmoother lev : Step (Controller ε)) := by
  intro s hs
  unfold deleteSmoother
  split
  · rename_i p hp
    split
    · refine ⟨hs, ?_⟩
      intro e he l kind hl
      simp only [Step.emit, List.mem_singleton] at he
      rw [he] at hl
      cases hl
      rw [hs.2.2.2.2.2.2.2 lev l kind hp]
      exact hlev
    · exact ⟨hs, fun e he => by simp [Step.skip] at he⟩
  · exact ⟨hs, fun e he => by simp [Step.skip] at he⟩

theorem mem_coarseLevels (cyc : AssembledMultiGridCycle) (lev : Nat)
    (h : lev ∈ cyc.coarseLevels) : lev < cyc.m_surfaceLevel := by
  unfold AssembledMultiGridCycle.coarseLevels at h
  rw [List.mem_range'_1] at h
  omega

theorem hoare_free_memory {ε : Type} (cyc : AssembledMultiGridCycle) :
    Hoare Controller.indexed
      (fun e => ∀ (l : Nat) (kind : ObjKind), e = .destroy (.obj l kind) →
        l < cyc.m_surfaceLevel)
      (cyc.free_memory : Step (Controller ε)) := by
  intro s hs
  unfold AssembledMultiGridCycle.free_memory
  split
  · exact ⟨hs, fun e he => by simp [Step.skip] at he⟩
  · refine hoare_andThen _ _ _ _ (hoare_forEach _ _ _ _ (fun j hj => ?_)) ?_ s hs
    · have hlt := mem_coarseLevels cyc j hj
      refine hoare_andThen _ _ _ _ (hoare_deleteAt _ _ _ j hlt (fun s hs => hs.2.2.2.2.1)
        (fun s v hs hv => ⟨hs.1, hs.2.1, hs.2.2.1, hs.2.2.2.1, hv, hs.2.2.2.2.2⟩)) ?_
      refine hoare_andThen _ _ _ _ (hoare_deleteAt _ _ _ j hlt (fun s hs => hs.2.2.2.2.2.1)
        (fun s v hs hv => ⟨hs.1, hs.2.1, hs.2.2.1, hs.2.2.2.1, hs.2.2.2.2.1, hv,
          hs.2.2.2.2.2.2⟩)) ?_
      refine hoare_andThen _ _ _ _ (hoare_deleteAt _ _ _ j hlt
        (fun s hs => hs.2.2.2.2.2.2.1)
        (fun s v hs hv => ⟨hs.1, hs.2.1, hs.2.2.1, hs.2.2.2.1, hs.2.2.2.2.1,
          hs.2.2.2.2.2.1, hv, hs.2.2.2.2.2.2.2⟩)) ?_
      refine hoare_andThen _ _ _ _ (hoare_deleteAt _ _ _ j hlt (fun s hs => hs.1)
        (fun s v hs hv => ⟨hv, hs.2⟩)) ?_
      refine hoare_andThen _ _ _ _ (hoare_deleteAt _ _ _ j hlt (fun s hs => hs.2.1)
        (fun s v hs hv => ⟨hs.1, hv, hs.2.2⟩)) ?_
      refine hoare_andThen _ _ _ _ (hoare_deleteAt _ _ _ j hlt (fun s hs => hs.2.2.1)
        (fun s v hs hv => ⟨hs.1, hs.2.1, hv, hs.2.2.2⟩)) ?_
      exact hoare_deleteAt _ _ _ j hlt (fun s hs => hs.2.2.2.1)
        (fun s v hs hv => ⟨hs.1, hs.2.1, hs.2.2.1, hv, hs.2.2.2.2⟩)
    refine hoare_andThen _ _ _ _ (hoare_update _ _ _ (fun s hs =>
      ⟨indexedList_nil, indexedList_nil, indexedList_nil, indexedList_nil, indexedList_nil,
        indexedList_nil, hs.2.2.2.2.2.2⟩)) ?_
    refine hoare_andThen _ _ _ _ (hoare_forEach _ _ _ _ (fun lev hlev => ?_)) ?_
    · split
      · exact fun s hs => ⟨hs, fun e he => by simp [Step.skip] at he⟩
      · exact hoare_deleteSmoother _ lev (mem_coarseLevels cyc lev hlev)
    exact hoare_update _ _ _ (fun s hs => hs)

/-! ## C19 -/

/-- C19: `allocate_memory` on a new controller creates the grid functions `u`, `c`,
`t`, `d` of the surface level, and `free_memory` afterwards deletes only objects of
levels below the surface level, so these four are created and not deleted, whatever the
levels are; the flag `m_allocated` is `false` afterwards. On the two levels 0 and 1,
`allocate_memory` creates twelve objects and `free_memory` deletes the seven of level 0:
the grid functions of level 1 and the smoother of level 1 are not deleted. -/
theorem free_memory_leaks_surface {ε : Type} (cyc : AssembledMultiGridCycle) (env : ε) :
    (.create cyc.m_surfaceLevel .u ∈ (cyc.allocate_memory (Controller.new env)).trace ∧
      .create cyc.m_surfaceLevel .c ∈ (cyc.allocate_memory (Controller.new env)).trace ∧
      .create cyc.m_surfaceLevel .t ∈ (cyc.allocate_memory (Controller.new env)).trace ∧
      .create cyc.m_surfaceLevel .d ∈ (cyc.allocate_memory (Controller.new env)).trace) ∧
    (∀ (l : Nat) (kind : ObjKind),
      .destroy (.obj l kind) ∈
        (cyc.free_memory (cyc.allocate_memory (Controller.new env)).state).trace →
      l < cyc.m_surfaceLevel) ∧
    (cyc.free_memory (cyc.allocate_memory (Controller.new env)).state).state.m_allocated =
      false ∧
    createdIn (twoLevelV.allocate_memory (Controller.new ())).trace =
      [(1, .u), (1, .c), (1, .t), (1, .d), (0, .u), (0, .c), (0, .t), (0, .d),
       (0, .I), (0, .P), (0, .A), (1, .smoother)] ∧
    allocatedController.m_allocated = true ∧
    deletedIn (twoLevelV.free_memory allocatedController).trace =
      [(0, .A), (0, .I), (0, .P), (0, .u), (0, .c), (0, .t), (0, .d)] ∧
    (twoLevelV.free_memory allocatedController).state.m_allocated = false ∧
    (twoLevelV.free_memory allocatedController).state.m_smoother =
      [.smoother_arg, .obj 1 .smoother] := by
  refine ⟨⟨?_, ?_, ?_, ?_⟩, ?_, free_memory_flag cyc _, by decide, by decide, by decide,
    by decide, by decide⟩
  · unfold AssembledMultiGridCycle.allocate_memory
    refine andThen_trace_right _ _ _ _ rfl ?_
    exact andThen_trace_left _ _ _ _ (List.mem_singleton.mpr rfl)
  · unfold AssembledMultiGridCycle.allocate_memory
    refine andThen_trace_right _ _ _ _ rfl ?_
    refine andThen_trace_right _ _ _ _ rfl ?_
    exact andThen_trace_left _ _ _ _ (List.mem_singleton.mpr rfl)
  · unfold AssembledMultiGridCycle.allocate_memory
    refine andThen_trace_right _ _ _ _ rfl ?_
    refine andThen_trace_right _ _ _ _ rfl ?_
    refine andThen_trace_right _ _ _ _ rfl ?_
    exact andThen_trace_left _ _ _ _ (List.mem_singleton.mpr rfl)
  · unfold AssembledMultiGridCycle.allocate_memory
    refine andThen_trace_right _ _ _ _ rfl ?_
    refine andThen_trace_right _ _ _ _ rfl ?_
    refine andThen_trace_right _ _ _ _ rfl ?_
    refine andThen_trace_right _ _ _ _ rfl ?_
    exact andThen_trace_left _ _ _ _ (List.mem_singleton.mpr rfl)
  · intro l kind h
    have hinv := (hoare_allocate_memory cyc (Controller.new env) (indexed_new env)).1
    exact (hoare_free_memory cyc _ hinv).2 _ h l kind rfl

/-! ## The frame of apply -/

theorem count_andThen_right_quiet {σ : Type} (p : MGEvent → Bool) (a b : Step σ) (s : σ)
    (hb : AllEv (fun e => p e = false) b) :
    (Step.andThen a b s).trace.countP p = (a s).trace.countP p := by
  cases hok : (a s).ok
  · rw [andThen_of_fail a b s hok]
  · rw [andThen_of_ok a b s hok]
    simp only [List.countP_append]
    have : (b (a s).state).trace.countP p = 0 := by
      rw [List.countP_eq_zero]
      intro e he
      rw [hb _ e he]
      exact Bool.false_ne_true
    rw [this, Nat.add_zero]

theorem count_andThen_left_quiet {σ : Type} (p : MGEvent → Bool) (a b : Step σ) (s : σ)
    (hs : Succeeds a) (ha : AllEv (fun e => p e = false) a) :
    (Step.andThen a b s).trace.countP p = (b (a s).state).trace.countP p := by
  rw [andThen_of_ok a b s (hs s)]
  simp only [List.countP_append]
  have : (a s).trace.countP p = 0 := by
    rw [List.countP_eq_zero]
    intro e he
    rw [ha _ e he]
    exact Bool.false_ne_true
  rw [this, Nat.zero_add]

theorem lmgc_entry_once {ε V : Type} (cyc : AssembledMultiGridCycle) (ext : Collaborators ε V)
    (lev : Nat) (s : CycleState ε V) :
    (cyc.lmgc ext lev s).trace.countP (fun e => e == .lmgc lev) = 1 := by
  have hcoarse : ∀ coarse : Step (CycleState ε V),
      (lev > cyc.m_baseLevel → AllEv (levelLe (lev - 1)) coarse) →
      (lmgcBody cyc ext lev coarse s).trace.countP (fun e => e == .lmgc lev) = 1 := by
    intro coarse hc
    unfold lmgcBody
    rw [andThen_of_ok _ _ s rfl]
    simp only [Step.emit, List.singleton_append, List.countP_cons, beq_self_eq_true, if_true]
    have hq : AllEv (fun e => (e == MGEvent.lmgc lev) = false)
        (Step.andThen (resetCorrection ext lev)
          (if lev > cyc.m_baseLevel then lmgcAbove cyc ext lev coarse
           else if lev = cyc.m_baseLevel then lmgcBase ext lev else Step.fail)) := by
      refine allEv_andThen _ _ _ (allEv_act _ _ _ rfl) ?_
      by_cases hl : lev > cyc.m_baseLevel
      · rw [if_pos hl]
        refine allEv_lmgcAbove _ cyc ext lev coarse (fun _ => rfl) (fun _ => rfl)
          (fun _ => rfl) (fun _ => rfl) (fun _ => rfl) ?_
        refine allEv_mono _ _ _ ?_ (hc hl)
        intro e he
        cases e with
        | lmgc k =>
          have hk : k ≤ lev - 1 := he
          have hne : k ≠ lev := by omega
          simp [hne]
        | call _ _ => rfl
        | action _ => rfl
        | create _ _ => rfl
        | destroy _ => rfl
      · rw [if_neg hl]
        split
        · exact allEv_lmgcBaseBranch _ ext lev (fun _ => rfl) (fun _ => rfl) (fun _ => rfl)
            (fun _ => rfl)
        · exact allEv_fail _
    have hz : List.countP (fun e => e == MGEvent.lmgc lev)
        ((Step.andThen (resetCorrection ext lev)
          (if lev > cyc.m_baseLevel then lmgcAbove cyc ext lev coarse
           else if lev = cyc.m_baseLevel then lmgcBase ext lev else Step.fail)) s).trace = 0 := by
      rw [List.countP_eq_zero]
      intro e he
      rw [hq _ e he]
      exact Bool.false_ne_true
    rw [hz]
  cases lev with
  | zero => exact hcoarse _ (fun h => absurd h (Nat.not_lt_zero _))
  | succ l => exact hcoarse _ (fun _ => allEv_levelLe_lmgc cyc ext l)

theorem keeps_d_smooth {ε V : Type} (ext : Collaborators ε V) (lev : Nat) (nu : Int) :
    Keeps (fun s : CycleState ε V => s.d) (AssembledMultiGridCycle.smooth ext lev nu) := by
  unfold AssembledMultiGridCycle.smooth
  apply keeps_repeat
  apply keeps_andThen
  · exact keeps_call _ _ _ (fun _ => rfl)
  · exact keeps_act _ _ _ (fun _ => rfl)

theorem keeps_d_lmgcBody {ε V : Type} (cyc : AssembledMultiGridCycle)
    (ext : Collaborators ε V) (lev : Nat) (coarse : Step (CycleState ε V))
    (hc : Keeps (fun s : CycleState ε V => s.d) coarse) :
    Keeps (fun s : CycleState ε V => s.d) (lmgcBody cyc ext lev coarse) := by
  unfold lmgcBody
  refine keeps_andThen _ _ _ (keeps_emit _ _) ?_
  refine keeps_andThen _ _ _ (keeps_act _ _ _ (fun _ => rfl)) ?_
  split
  · unfold lmgcAbove goingDown goingUp
    refine keeps_andThen _ _ _ (keeps_d_smooth ext lev _) ?_
    refine keeps_andThen _ _ _ (keeps_when _ _ _ (keeps_act _ _ _ (fun _ => rfl))) ?_
    refine keeps_andThen _ _ _ (keeps_call _ _ _ (fun _ => rfl)) ?_
    refine keeps_andThen _ _ _ (keeps_andThen _ _ _ ?_ (keeps_act _ _ _ (fun _ => rfl))) ?_
    · split
      · exact keeps_act _ _ _ (fun _ => rfl)
      · split
        · exact keeps_act _ _ _ (fun _ => rfl)
        · exact keeps_skip _
    refine keeps_andThen _ _ _ (keeps_when _ _ _ (keeps_repeat _ _ hc _)) ?_
    refine keeps_andThen _ _ _ (keeps_andThen _ _ _ ?_ (keeps_act _ _ _ (fun _ => rfl))) ?_
    · split
      · exact keeps_andThen _ _ _ (keeps_act _ _ _ (fun _ => rfl))
          (keeps_act _ _ _ (fun _ => rfl))
      · split
        · exact keeps_andThen _ _ _ (keeps_act _ _ _ (fun _ => rfl))
            (keeps_act _ _ _ (fun _ => rfl))
        · exact keeps_skip _
    refine keeps_andThen _ _ _ (keeps_call _ _ _ (fun _ => rfl)) ?_
    refine keeps_andThen _ _ _ (keeps_act _ _ _ (fun _ => rfl)) ?_
    refine keeps_andThen _ _ _ (keeps_call _ _ _ (fun _ => rfl)) ?_
    exact keeps_d_smooth ext lev _
  · split
    · unfold lmgcBase
      refine keeps_andThen _ _ _ (keeps_act _ _ _ (fun _ => rfl)) ?_
      refine keeps_andThen _ _ _ (keeps_act _ _ _ (fun _ => rfl)) ?_
      refine keeps_andThen _ _ _ (keeps_call _ _ _ (fun _ => rfl)) ?_
      refine keeps_andThen _ _ _ (keeps_call _ _ _ (fun _ => rfl)) ?_
      exact keeps_call _ _ _ (fun _ => rfl)
    · exact keeps_fail _

theorem keeps_d_lmgc {ε V : Type} (cyc : AssembledMultiGridCycle) (ext : Collaborators ε V) :
    ∀ lev, Keeps (fun s : CycleState ε V => s.d) (cyc.lmgc ext lev) := by
  intro lev
  induction lev with
  | zero => exact keeps_d_lmgcBody cyc ext 0 _ (keeps_fail _)
  | succ lev ih => exact keeps_d_lmgcBody cyc ext (lev + 1) _ ih

/-! ## C20 -/

/-- C20: the run of `apply` enters `lmgc(surfaceLevel)` exactly once, whether it
returns success or failure; and with `updateDefect = false` the caller's defect `d` is
after `apply` what it was before, in a run that succeeds as in one that fails: the
projection, the cycle and the release work on the copy. With `updateDefect = true` the
example cycle on one level changes the caller's defect from 5 to 0. -/
theorem apply_frame {ε V : Type} (cyc : AssembledMultiGridCycle) (ext : Collaborators ε V)
    (updateDefect : Bool) (s : CycleState ε V) :
    (cyc.apply ext updateDefect s).trace.countP (fun e => e == .lmgc cyc.m_surfaceLevel) = 1 ∧
    (cyc.apply ext false s).state.d = s.d ∧
    (oneLevel.apply exCollab false (exCycleState 5)).state.d = 5 ∧
    (oneLevel.apply exCollab false (exCycleState 5)).state.d_copy = 0 ∧
    (oneLevel.apply exCollab true (exCycleState 5)).state.d = 0 ∧
    (twoLevelV.apply failingCollab false (exCycleState 9)).ok = false ∧
    (twoLevelV.apply failingCollab false (exCycleState 9)).state.d = 9 := by
  refine ⟨?_, ?_, rfl, rfl, rfl, rfl, rfl⟩
  · unfold AssembledMultiGridCycle.apply
    refine (count_andThen_left_quiet _ _ _ _ ?_ ?_).trans ?_
    · exact succeeds_when _ _ (succeeds_act _ _)
    · exact allEv_when _ _ _ (allEv_act _ _ _ rfl)
    refine (count_andThen_left_quiet _ _ _ _ ?_ ?_).trans ?_
    · exact succeeds_act _ _
    · exact allEv_act _ _ _ rfl
    refine (count_andThen_left_quiet _ _ _ _ ?_ ?_).trans ?_
    · exact succeeds_act _ _
    · exact allEv_act _ _ _ rfl
    refine (count_andThen_right_quiet _ _ _ _ ?_).trans ?_
    · exact allEv_andThen _ _ _ (allEv_act _ _ _ rfl) (allEv_act _ _ _ rfl)
    exact lmgc_entry_once cyc ext _ _
  · have hk : Keeps (fun s : CycleState ε V => s.d) (cyc.apply ext false) := by
      unfold AssembledMultiGridCycle.apply
      refine keeps_andThen _ _ _ (keeps_when _ _ _ (keeps_act _ _ _ (fun _ => rfl))) ?_
      refine keeps_andThen _ _ _ (keeps_act _ _ _ (fun _ => rfl)) ?_
      refine keeps_andThen _ _ _ (keeps_act _ _ _ (fun _ => rfl)) ?_
      refine keeps_andThen _ _ _ (keeps_d_lmgc cyc ext _) ?_
      refine keeps_andThen _ _ _ (keeps_act _ _ _ (fun _ => rfl)) ?_
      exact keeps_act _ _ _ (fun _ => rfl)
    exact hk s

/-! ## C30 -/

/-- C30: the lookup tables of the tetrahedron are consistent: for all edges `e1`, `e2`
below 6, `FACE_FROM_EDGES[e1][e2]` is -1 exactly when no face contains both edges, and
exactly when `e2 == OPPOSED_EDGE[e1]`, and otherwise it is a face below 4 that contains
both edges by `FACE_CONTAINS_EDGE`; `FACE_CONTAINS_EDGE[f][e] == 1` exactly when `e`
occurs in `FACE_EDGE_INDS[f]`; and `OPPOSED_EDGE` maps edges to edges, is its own
inverse and pairs edges that share no vertex in `EDGE_VRT_INDS`. -/
theorem tet_tables_consistent :
    (∀ e1 : Fin 6, ∀ e2 : Fin 6,
      (tet_rules.at2 tet_rules.FACE_FROM_EDGES e1 e2 = -1 ↔
        ∀ f : Fin 4, ¬ (tet_rules.at2 tet_rules.FACE_CONTAINS_EDGE f e1 = 1 ∧
          tet_rules.at2 tet_rules.FACE_CONTAINS_EDGE f e2 = 1)) ∧
      (tet_rules.at2 tet_rules.FACE_FROM_EDGES e1 e2 = -1 ↔
        ((e2 : Nat) : Int) = tet_rules.at1 tet_rules.OPPOSED_EDGE e1) ∧
      (tet_rules.at2 tet_rules.FACE_FROM_EDGES e1 e2 ≠ -1 →
        ∃ f : Fin 4, tet_rules.at2 tet_rules.FACE_FROM_EDGES e1 e2 = ((f : Nat) : Int) ∧
          tet_rules.at2 tet_rules.FACE_CONTAINS_EDGE f e1 = 1 ∧
          tet_rules.at2 tet_rules.FACE_CONTAINS_EDGE f e2 = 1)) ∧
    (∀ f : Fin 4, ∀ e : Fin 6,
      (tet_rules.at2 tet_rules.FACE_CONTAINS_EDGE f e = 1 ↔
        ((e : Nat) : Int) ∈ tet_rules.FACE_EDGE_INDS.getD f []) ∧
      (tet_rules.at2 tet_rules.FACE_CONTAINS_EDGE f e = 1 ∨
        tet_rules.at2 tet_rules.FACE_CONTAINS_EDGE f e = 0)) ∧
    (∀ e : Fin 6,
      ∃ o : Fin 6, tet_rules.at1 tet_rules.OPPOSED_EDGE e = ((o : Nat) : Int) ∧
        tet_rules.at1 tet_rules.OPPOSED_EDGE o = ((e : Nat) : Int) ∧
        tet_rules.shareVertex e o = false ∧
        ∀ e2 : Fin 6, e2 ≠ o → e2 ≠ e → tet_rules.shareVertex e e2 = true) ∧
    tet_rules.FACE_FROM_EDGES.length = tet_rules.NUM_EDGES ∧
    tet_rules.FACE_CONTAINS_EDGE.length = tet_rules.NUM_FACES := by
  refine ⟨by decide, by decide, by decide, rfl, rfl⟩

/-! ## C28, C29 -/

/-- The loop that numbers all indices is the loop of writes of the counter values. -/
theorem writeMapping_eq (σ : List PosIndex) (i : Nat) (v : List Nat) :
    writeMapping σ i v = writeLoop (σ.map Prod.snd) (List.range' i σ.length) v := by
  induction σ generalizing i v with
  | nil => simp [writeMapping, writeLoop]
  | cons p rest ih => simp [writeMapping, writeLoop, List.range', ih]

/-- The loop that numbers a subset is the loop of writes of the original indices. -/
theorem writeSubset_eq (σ o : List PosIndex) (v : List Nat) :
    writeSubset σ o v = writeLoop (σ.map Prod.snd) (o.map Prod.snd) v := by
  induction σ generalizing o v with
  | nil => simp [writeSubset, writeLoop]
  | cons p rest ih =>
    cases o with
    | nil => simp [writeSubset, writeLoop]
    | cons q orest => simp [writeSubset, writeLoop, ih]

/-- The loop of writes keeps the length of the vector. -/
theorem length_writeLoop (keys vals v : List Nat) :
    (writeLoop keys vals v).length = v.length := by
  induction keys generalizing vals v with
  | nil => simp [writeLoop]
  | cons k keys ih =>
    cases vals with
    | nil => simp [writeLoop]
    | cons x vals => simp [writeLoop, ih]

/-- The loop of writes keeps every place that is not written. -/
theorem writeLoop_getElem?_not_mem (keys vals v : List Nat) (k : Nat) (h : k ∉ keys) :
    (writeLoop keys vals v)[k]? = v[k]? := by
  induction keys generalizing vals v with
  | nil => simp [writeLoop]
  | cons k' keys ih =>
    cases vals with
    | nil => simp [writeLoop]
    | cons x vals =>
      simp only [List.mem_cons, not_or] at h
      simp only [writeLoop]
      rw [ih _ _ h.2, List.getElem?_set_ne (Ne.symm h.1)]

/-- After the loop of writes the place `keys[j]` holds `vals[j]`, for distinct places
inside the vector. -/
theorem writeLoop_getElem?_mem (keys vals v : List Nat) (hn : keys.Nodup)
    (hl : keys.length = vals.length) (hb : ∀ k ∈ keys, k < v.length) (j : Nat)
    (hj : j < keys.length) :
    (writeLoop keys vals v)[keys[j]]? = vals[j]? := by
  induction keys generalizing vals v j with
  | nil => simp at hj
  | cons k keys ih =>
    cases vals with
    | nil => simp at hl
    | cons x vals =>
      simp only [writeLoop]
      rw [List.nodup_cons] at hn
      cases j with
      | zero =>
        simp only [List.getElem_cons_zero, List.getElem?_cons_zero]
        rw [writeLoop_getElem?_not_mem _ _ _ _ hn.1]
        simp [List.getElem?_set_self, hb k (List.mem_cons_self _ _)]
      | succ j =>
        simp only [List.getElem_cons_succ, List.getElem?_cons_succ]
        apply ih _ _ hn.2 (by simpa using hl)
        intro k' hk'
        simpa using hb k' (List.mem_cons_of_mem _ hk')

/-- A list of distinct numbers below its length is a permutation of the numbers below
its length. -/
theorem perm_range_of_nodup_lt (l : List Nat) (hn : l.Nodup)
    (hb : ∀ x ∈ l, x < l.length) : l.Perm (List.range l.length) := by
  apply List.perm_of_nodup_nodup_toFinset_eq hn (List.nodup_range _)
  apply Finset.eq_of_subset_of_card_le
  · intro x hx
    simp only [List.mem_toFinset, List.mem_range] at hx ⊢
    exact hb x hx
  · rw [List.toFinset_card_of_nodup hn, List.toFinset_card_of_nodup (List.nodup_range _)]
    simp

/-- The loop of writes yields a permutation: the places are distinct and inside the
vector, the values written are the places in another order, and every place that is not
written holds its own index. -/
theorem writeLoop_perm (keys vals v : List Nat) (hn : keys.Nodup) (hv : vals.Perm keys)
    (hb : ∀ k ∈ keys, k < v.length)
    (hid : ∀ k, k < v.length → k ∉ keys → v[k]? = some k) :
    (writeLoop keys vals v).Perm (List.range v.length) := by
  have hlen := length_writeLoop keys vals v
  have hvn : vals.Nodup := hv.nodup_iff.mpr hn
  have hl : keys.length = vals.length := hv.length_eq.symm
  -- what each place holds
  have hchar : ∀ k, k < v.length →
      (∃ j, j < vals.length ∧ keys[j]? = some k ∧ (writeLoop keys vals v)[k]? = vals[j]?) ∨
      (k ∉ keys ∧ (writeLoop keys vals v)[k]? = some k) := by
    intro k hk
    by_cases hmem : k ∈ keys
    · left
      obtain ⟨j, hj, hjk⟩ := List.getElem_of_mem hmem
      refine ⟨j, by omega, ?_, ?_⟩
      · rw [List.getElem?_eq_getElem hj, hjk]
      · rw [← hjk]
        exact writeLoop_getElem?_mem keys vals v hn hl hb j hj
    · right
      exact ⟨hmem, by rw [writeLoop_getElem?_not_mem _ _ _ _ hmem]; exact hid k hk hmem⟩
  have hinj : ∀ a b, a < v.length → b < v.length →
      (writeLoop keys vals v)[a]? = (writeLoop keys vals v)[b]? → a = b := by
    intro a b ha hb' hab
    rcases hchar a ha with ⟨ja, hja, hka, hra⟩ | ⟨hna, hra⟩ <;>
      rcases hchar b hb' with ⟨jb, hjb, hkb, hrb⟩ | ⟨hnb, hrb⟩
    · rw [hra, hrb, List.getElem?_eq_getElem hja, List.getElem?_eq_getElem hjb] at hab
      have hjj : ja = jb := (List.Nodup.getElem_inj_iff hvn).mp (Option.some.inj hab)
      subst hjj
      rw [hka] at hkb
      exact Option.some.inj hkb
    · rw [hra, hrb, List.getElem?_eq_getElem hja] at hab
      have hm : b ∈ vals := by
        rw [← Option.some.inj hab]
        exact List.getElem_mem _
      exact absurd (hv.mem_iff.mp hm) hnb
    · rw [hra, hrb, List.getElem?_eq_getElem hjb] at hab
      have hm : a ∈ vals := by
        rw [Option.some.inj hab]
        exact List.getElem_mem _
      exact absurd (hv.mem_iff.mp hm) hna
    · rw [hra, hrb] at hab
      exact Option.some.inj hab
  have hnd : (writeLoop keys vals v).Nodup := by
    rw [List.nodup_iff_getElem?_ne_getElem?]
    intro i j hij hj heq
    rw [hlen] at hj
    have := hinj i j (by omega) hj heq
    omega
  have hlt : ∀ x ∈ writeLoop keys vals v, x < (writeLoop keys vals v).length := by
    intro x hx
    rw [hlen]
    obtain ⟨k, hk, hkx⟩ := List.getElem_of_mem hx
    rw [hlen] at hk
    have hkx' : (writeLoop keys vals v)[k]? = some x := by
      rw [List.getElem?_eq_getElem (by omega), hkx]
    rcases hchar k hk with ⟨j, hj, _, hr⟩ | ⟨_, hr⟩
    · rw [hr, List.getElem?_eq_getElem hj] at hkx'
      have hm : x ∈ vals := by
        rw [← Option.some.inj hkx']
        exact List.getElem_mem _
      exact hb x (hv.mem_iff.mp hm)
    · rw [hr] at hkx'
      have := Option.some.inj hkx'
      omega
  have := perm_range_of_nodup_lt _ hnd hlt
  rwa [hlen] at this

/-- For a direction of at most 2 the chain of sort calls returns the vector sorted by the
comparison of that direction. -/
theorem sortByOrderDim_ok
    (sort : (PosIndex → PosIndex → Bool) → List PosIndex → List PosIndex)
    (dim orderDim : Nat) (vPos : List PosIndex) (h : orderDim ≤ 2) :
    sortByOrderDim sort dim orderDim vPos = .ok (sort (ComparePosDim dim orderDim) vPos) := by
  have h3 : orderDim = 0 ∨ orderDim = 1 ∨ orderDim = 2 := by omega
  rcases h3 with rfl | rfl | rfl <;> simp [sortByOrderDim]

/-- For a direction above 2 the chain of sort calls throws. -/
theorem sortByOrderDim_error
    (sort : (PosIndex → PosIndex → Bool) → List PosIndex → List PosIndex)
    (dim orderDim : Nat) (vPos : List PosIndex) (h : 2 < orderDim) :
    sortByOrderDim sort dim orderDim vPos = .error .invalidSortingDirection := by
  have h0 : orderDim ≠ 0 := by omega
  have h1 : orderDim ≠ 1 := by omega
  have h2 : orderDim ≠ 2 := by omega
  simp [sortByOrderDim, h0, h1, h2]

/-- C28: `ComputeLexicographicOrder` produces a permutation. If the index components of
`vPos` are pairwise distinct and smaller than `vNewIndex.size()`, and the call of
`std::sort` rearranges `vPos`, then for every direction that does not throw the function
returns, and the returned `vNewIndex` is a rearrangement of `0, ..., size - 1`, both when
all indices are ordered and when only a subset is; in the second case every index that
does not occur in `vPos` is mapped to itself. -/
theorem lexorder_permutation
    (sort : (PosIndex → PosIndex → Bool) → List PosIndex → List PosIndex)
    (dim : Nat) (vNewIndex : List Nat) (vPos : List PosIndex) (orderDim : Nat)
    (hdist : (vPos.map Prod.snd).Nodup)
    (hlt : ∀ p ∈ vPos, p.2 < vNewIndex.length)
    (hsort : (sort (ComparePosDim dim orderDim) vPos).Perm vPos)
    (hdir : orderDim ≤ 2) :
    ∃ r, ComputeLexicographicOrder sort dim vNewIndex vPos orderDim = .ok r ∧
      r.1.Perm (List.range vNewIndex.length) ∧
      r.1.length = vNewIndex.length ∧
      (vNewIndex.length ≠ vPos.length →
        ∀ i, i < vNewIndex.length → i ∉ vPos.map Prod.snd → r.1[i]? = some i) := by
  have hkeys : ((sort (ComparePosDim dim orderDim) vPos).map Prod.snd).Perm
      (vPos.map Prod.snd) := hsort.map _
  have hkn : ((sort (ComparePosDim dim orderDim) vPos).map Prod.snd).Nodup :=
    hkeys.nodup_iff.mpr hdist
  have hkb : ∀ k ∈ (sort (ComparePosDim dim orderDim) vPos).map Prod.snd,
      k < vNewIndex.length := by
    intro k hk
    obtain ⟨p, hp, rfl⟩ := List.mem_map.mp (hkeys.mem_iff.mp hk)
    exact hlt p hp
  unfold ComputeLexicographicOrder
  rw [sortByOrderDim_ok _ _ _ _ hdir]
  by_cases hall : vNewIndex.length = vPos.length
  · rw [if_pos hall]
    refine ⟨_, rfl, ?_, ?_, fun h => absurd hall h⟩
    · simp only [writeMapping_eq]
      have hslen : (sort (ComparePosDim dim orderDim) vPos).length = vNewIndex.length := by
        rw [hsort.length_eq, hall]
      have hkr : ((sort (ComparePosDim dim orderDim) vPos).map Prod.snd).Perm
          (List.range vNewIndex.length) := by
        have := perm_range_of_nodup_lt _ hkn (by simpa [hslen] using hkb)
        simpa [hslen] using this
      apply writeLoop_perm _ _ _ hkn _ hkb
      · intro k hk hnk
        exact absurd (hkr.mem_iff.mpr (List.mem_range.mpr hk)) hnk
      · rw [hslen, ← List.range_eq_range']
        exact hkr.symm
    · simp only [writeMapping_eq, length_writeLoop]
  · rw [if_neg hall]
    refine ⟨_, rfl, ?_, ?_, ?_⟩
    · simp only [writeSubset_eq]
      have := writeLoop_perm ((sort (ComparePosDim dim orderDim) vPos).map Prod.snd)
        (vPos.map Prod.snd) (List.range vNewIndex.length) hkn hkeys.symm
        (by simpa using hkb)
        (by
          intro k hk _
          simp only [List.length_range] at hk
          simp [List.getElem?_range hk])
      simpa using this
    · simp only [writeSubset_eq, length_writeLoop, List.length_range]
    · intro _ i hi hni
      simp only [writeSubset_eq]
      rw [writeLoop_getElem?_not_mem _ _ _ _ (fun h => hni (hkeys.mem_iff.mp h))]
      simp [List.getElem?_range hi]

/-- The witness of C28: in a vector of four indices only the indices 3 and 1 are
ordered. -/
theorem lexorder_permutation_witness :
    ∃ r, ComputeLexicographicOrder exSort 2 [7, 7, 7, 7] exSubset 0 = .ok r ∧
      r.1.Perm (List.range 4) ∧ r.1.length = 4 ∧
      ((4 : Nat) ≠ 2 → ∀ i, i < 4 → i ∉ exSubset.map Prod.snd → r.1[i]? = some i) :=
  lexorder_permutation exSort 2 [7, 7, 7, 7] exSubset 0 (by decide) (by decide) (by decide)
    (by decide)

/-- No position precedes itself under `ComparePosDim`. -/
theorem comparePosDim_irrefl (dim orderDim : Nat) (p : PosIndex) :
    ComparePosDim dim orderDim p p = false := by
  unfold ComparePosDim
  split <;> simp

/-- For every direction below the dimension, `ComparePosDim` is the lexicographic order
of the coordinates in an order of significance that ends with the direction. -/
theorem comparePosDim_lex (dim orderDim : Nat) (hdim : dim ≤ 3) (hod : orderDim < dim) :
    ∃ sig : List Nat, sig.Perm (List.range dim) ∧ sig.getLast? = some orderDim ∧
      ∀ p1 p2 : PosIndex, ComparePosDim dim orderDim p1 p2 =
        lexLess (sig.map p1.coord) (sig.map p2.coord) := by
  have hcases : (dim = 1 ∧ orderDim = 0) ∨ (dim = 2 ∧ orderDim = 0) ∨
      (dim = 2 ∧ orderDim = 1) ∨ (dim = 3 ∧ orderDim = 0) ∨ (dim = 3 ∧ orderDim = 1) ∨
      (dim = 3 ∧ orderDim = 2) := by omega
  rcases hcases with ⟨rfl, rfl⟩ | ⟨rfl, rfl⟩ | ⟨rfl, rfl⟩ | ⟨rfl, rfl⟩ | ⟨rfl, rfl⟩ | ⟨rfl, rfl⟩
  · refine ⟨[0], by decide, rfl, fun p1 p2 => ?_⟩
    simp [ComparePosDim, lexLess]
  · refine ⟨[1, 0], by decide, rfl, fun p1 p2 => ?_⟩
    simp only [ComparePosDim, lexLess, List.map_cons, List.map_nil]
    split_ifs with h1 <;> simp [h1]
  · refine ⟨[0, 1], by decide, rfl, fun p1 p2 => ?_⟩
    simp only [ComparePosDim, lexLess, List.map_cons, List.map_nil]
    split_ifs with h1 <;> simp [h1]
  · refine ⟨[2, 1, 0], by decide, rfl, fun p1 p2 => ?_⟩
    simp only [ComparePosDim, lexLess, List.map_cons, List.map_nil]
    split_ifs with h1 h2 <;> simp [*]
  · refine ⟨[0, 2, 1], by decide, rfl, fun p1 p2 => ?_⟩
    simp only [ComparePosDim, lexLess, List.map_cons, List.map_nil]
    split_ifs with h1 h2 <;> simp [*]
  · refine ⟨[1, 0, 2], by decide, rfl, fun p1 p2 => ?_⟩
    simp only [ComparePosDim, lexLess, List.map_cons, List.map_nil]
    split_ifs with h1 h2 <;> simp [*]

/-- C29: when all indices are ordered and the direction is below the dimension (one of the
dimensions 1, 2, 3 for which the function is instantiated),
`ComputeLexicographicOrder` returns and numbers the indices in the order of their
positions: if the position of `a` precedes the position of `b` under
`ComparePosDim<dim, orderDim>` then `vNewIndex[a] < vNewIndex[b]`. That comparison is the
lexicographic order in which the coordinate `orderDim` is the least significant one (for
dimension 2 and direction 0: smaller y first, and for equal y smaller x first), and a
direction greater than 2 raises an error. The call of `std::sort` rearranges `vPos` so
that no later element precedes an earlier one. -/
theorem lexorder_order
    (sort : (PosIndex → PosIndex → Bool) → List PosIndex → List PosIndex)
    (dim : Nat) (vNewIndex : List Nat) (vPos : List PosIndex) (orderDim : Nat)
    (hdist : (vPos.map Prod.snd).Nodup)
    (hlt : ∀ p ∈ vPos, p.2 < vNewIndex.length)
    (hall : vNewIndex.length = vPos.length)
    (hdim : dim ≤ 3) (hod : orderDim < dim)
    (hperm : (sort (ComparePosDim dim orderDim) vPos).Perm vPos)
    (hsorted : (sort (ComparePosDim dim orderDim) vPos).Pairwise
      (fun x y => ComparePosDim dim orderDim y x = false)) :
    (∃ r, ComputeLexicographicOrder sort dim vNewIndex vPos orderDim = .ok r ∧
      ∀ a ∈ vPos, ∀ b ∈ vPos, ComparePosDim dim orderDim a b = true →
        ∃ na nb, r.1[a.2]? = some na ∧ r.1[b.2]? = some nb ∧ na < nb) ∧
    (∃ sig : List Nat, sig.Perm (List.range dim) ∧ sig.getLast? = some orderDim ∧
      ∀ p1 p2 : PosIndex, ComparePosDim dim orderDim p1 p2 =
        lexLess (sig.map p1.coord) (sig.map p2.coord)) ∧
    (∀ p1 p2 : PosIndex, ComparePosDim 2 0 p1 p2 = true ↔
      (p1.coord 1 < p2.coord 1 ∨ (p1.coord 1 = p2.coord 1 ∧ p1.coord 0 < p2.coord 0))) ∧
    (∀ (od : Nat) (v : List Nat) (ps : List PosIndex), 2 < od →
      ComputeLexicographicOrder sort dim v ps od = .error .invalidSortingDirection) := by
  refine ⟨?_, comparePosDim_lex dim orderDim hdim hod, ?_, ?_⟩
  · have hkeys : ((sort (ComparePosDim dim orderDim) vPos).map Prod.snd).Perm
        (vPos.map Prod.snd) := hperm.map _
    have hkn : ((sort (ComparePosDim dim orderDim) vPos).map Prod.snd).Nodup :=
      hkeys.nodup_iff.mpr hdist
    have hkb : ∀ k ∈ (sort (ComparePosDim dim orderDim) vPos).map Prod.snd,
        k < vNewIndex.length := by
      intro k hk
      obtain ⟨p, hp, rfl⟩ := List.mem_map.mp (hkeys.mem_iff.mp hk)
      exact hlt p hp
    unfold ComputeLexicographicOrder
    rw [sortByOrderDim_ok _ _ _ _ (by omega), if_pos hall]
    refine ⟨_, rfl, ?_⟩
    -- the new index of an element of the sorted vector is its place in that vector
    have hplace : ∀ i (hi : i < (sort (ComparePosDim dim orderDim) vPos).length),
        (writeMapping (sort (ComparePosDim dim orderDim) vPos) 0 vNewIndex)[
          ((sort (ComparePosDim dim orderDim) vPos)[i]).2]? = some i := by
      intro i hi
      rw [writeMapping_eq]
      have h := writeLoop_getElem?_mem
        ((sort (ComparePosDim dim orderDim) vPos).map Prod.snd)
        (List.range' 0 (sort (ComparePosDim dim orderDim) vPos).length) vNewIndex hkn
        (by simp) hkb i (by simpa using hi)
      rw [List.getElem_map] at h
      rw [h, List.getElem?_range' _ _ hi]
      simp
    intro a ha b hb hab
    obtain ⟨i, hi, hia⟩ := List.getElem_of_mem (hperm.mem_iff.mpr ha)
    obtain ⟨j, hj, hjb⟩ := List.getElem_of_mem (hperm.mem_iff.mpr hb)
    refine ⟨i, j, ?_, ?_, ?_⟩
    · rw [← hia]
      exact hplace i hi
    · rw [← hjb]
      exact hplace j hj
    · by_contra hij
      rcases Nat.lt_or_eq_of_le (Nat.le_of_not_lt hij) with hlt' | heq
      · have := (List.pairwise_iff_getElem.mp hsorted) j i hj hi hlt'
        rw [hia, hjb, hab] at this
        exact Bool.noConfusion this
      · subst heq
        rw [← hia, ← hjb, comparePosDim_irrefl] at hab
        exact Bool.noConfusion hab
  · intro p1 p2
    simp only [ComparePosDim]
    split_ifs with h1
    · simp [h1]
    · simp [h1]
  · intro od v ps h
    unfold ComputeLexicographicOrder
    rw [sortByOrderDim_error _ _ _ _ h]
    split_ifs <;> rfl

/-- The witness of C29: four points of a grid of two by two, ordered with x varying
fastest. -/
theorem lexorder_order_witness :
    (∃ r, ComputeLexicographicOrder exSort 2 [7, 7, 7, 7] exPositions 0 = .ok r ∧
      ∀ a ∈ exPositions, ∀ b ∈ exPositions, ComparePosDim 2 0 a b = true →
        ∃ na nb, r.1[a.2]? = some na ∧ r.1[b.2]? = some nb ∧ na < nb) ∧
    (∃ sig : List Nat, sig.Perm (List.range 2) ∧ sig.getLast? = some 0 ∧
      ∀ p1 p2 : PosIndex, ComparePosDim 2 0 p1 p2 =
        lexLess (sig.map p1.coord) (sig.map p2.coord)) ∧
    (∀ p1 p2 : PosIndex, ComparePosDim 2 0 p1 p2 = true ↔
      (p1.coord 1 < p2.coord 1 ∨ (p1.coord 1 = p2.coord 1 ∧ p1.coord 0 < p2.coord 0))) ∧
    (∀ (od : Nat) (v : List Nat) (ps : List PosIndex), 2 < od →
      ComputeLexicographicOrder exSort 2 v ps od = .error .invalidSortingDirection) :=
  lexorder_order exSort 2 [7, 7, 7, 7] exPositions 0 (by decide) (by decide) (by decide)
    (by decide) (by decide) (by decide) (by decide)

/-! ## The new connections and where they are added -/

theorem mem_mapAssign_key (ec : ExtCon) (v : block_t) (l : List (ExtCon × block_t))
    (e : ExtCon × block_t) (h : e ∈ mapAssign ec v l) :
    e.1 = ec ∨ ∃ e' ∈ l, e'.1 = e.1 := by
  induction l with
  | nil =>
    simp only [mapAssign, List.mem_singleton] at h
    left; rw [h]
  | cons a rest ih =>
    obtain ⟨k, x⟩ := a
    unfold mapAssign at h
    by_cases h1 : ec.lt k = true
    · rw [if_pos h1] at h
      rcases List.mem_cons.mp h with h | h
      · left; rw [h]
      · right; exact ⟨e, h, rfl⟩
    · rw [if_neg h1] at h
      by_cases h2 : k.lt ec = true
      · rw [if_pos h2] at h
        rcases List.mem_cons.mp h with h | h
        · right; exact ⟨(k, x), List.mem_cons_self _ _, by rw [h]⟩
        · rcases ih h with h | ⟨e', he', hee⟩
          · left; exact h
          · right; exact ⟨e', List.mem_cons_of_mem _ he', hee⟩
      · rw [if_neg h2] at h
        rcases List.mem_cons.mp h with h | h
        · right; exact ⟨(k, x), List.mem_cons_self _ _, by rw [h]⟩
        · right; exact ⟨e, List.mem_cons_of_mem _ h, rfl⟩

/-- The key of a new connection after a sequence of `extract` calls is a key from before
the calls, or it was made of a received connection whose GlobalID does not resolve. -/
theorem applyReceived_newCons_mem (rc : List (Nat × Conn)) :
    ∀ (s : ComPol_MatCreateOverlap) (e : ExtCon × block_t),
      e ∈ (applyReceived rc s).m_recvNewCons →
      (∃ e' ∈ s.m_recvNewCons, e'.1 = e.1) ∨
      ∃ x ∈ rc, s.m_algIDHash.get_entry x.2.gID = none ∧ e.1 = extConOf s.m_globalIDs x := by
  induction rc with
  | nil => intro s e h; left; exact ⟨e, h, rfl⟩
  | cons x rest ih =>
    intro s e h
    have hstep : applyReceived (x :: rest) s =
        applyReceived rest (extractConnection x.2.index x.1 x.2.gID x.2.block s) := rfl
    rw [hstep] at h
    have hf := extractConnection_frame x.2.index x.1 x.2.gID x.2.block s
    rcases ih _ e h with ⟨e', he', hee⟩ | ⟨y, hy, hyn, hye⟩
    · rw [extractConnection_newCons] at he'
      by_cases hx : (s.m_algIDHash.get_entry x.2.gID).isNone = true
      · rw [if_pos hx] at he'
        rcases mem_mapAssign_key _ _ _ _ he' with hk | ⟨e'', he'', hee''⟩
        · right
          refine ⟨x, List.mem_cons_self _ _, Option.isNone_iff_eq_none.mp hx, ?_⟩
          rw [← hee, hk]
          rfl
        · left; exact ⟨e'', he'', hee''.trans hee⟩
      · rw [if_neg hx] at he'
        left; exact ⟨e', he', hee⟩
    · right
      rw [hf.1] at hyn
      rw [hf.2.1] at hye
      exact ⟨y, List.mem_cons_of_mem _ hy, hyn, hye⟩

/-- A GlobalID that does not resolve and is one of the distinct new IDs resolves, after
the new IDs are registered, to the start index plus its place among the new IDs. -/
theorem get_entry_new (h : AlgebraIDHashList) (ids : List AlgebraID) (start : Nat)
    (g : AlgebraID) (hnone : h.get_entry g = none) (hmem : g ∈ ids) (hnd : ids.Nodup) :
    ∃ j, j < ids.length ∧ ids[j]? = some g ∧
      (hashInsertFrom h ids start).get_entry g = some (start + j) := by
  obtain ⟨j, hj, hjg⟩ := List.getElem_of_mem hmem
  have hj' : ids[j]? = some g := by rw [List.getElem?_eq_getElem hj, hjg]
  refine ⟨j, hj, hj', ?_⟩
  rw [get_entry_hashInsertFrom, hnone]
  exact get_entry_of_nodup ids start j g hnd hj'

/-- After `extract` calls on a policy that was just constructed, every new connection was
made of a received connection, and its target GlobalID is one of the new IDs: once the
new IDs are registered it resolves to an appended index. -/
theorem deferred_resolves (mat : Matrix) (gids : List AlgebraID) (rc : List (Nat × Conn))
    (s1 : ComPol_MatCreateOverlap)
    (hs1 : applyReceived rc ⟨mat, gids, GenerateAlgebraIDHashList gids, [], []⟩ = s1)
    (e : ExtCon × block_t) (he : e ∈ s1.m_recvNewCons) :
    (∃ x ∈ rc, e.1.fromInd = x.2.index ∧ e.1.conProc = x.1 ∧ e.1.toID = x.2.gID) ∧
    s1.m_algIDHash.get_entry e.1.toID = none ∧
    ∃ j, j < s1.m_recvNewIDs.length ∧ s1.m_recvNewIDs[j]? = some e.1.toID ∧
      (hashInsertFrom s1.m_algIDHash s1.m_recvNewIDs s1.m_mat.numRows).get_entry e.1.toID =
        some (mat.numRows + j) := by
  obtain ⟨f1, _, f3, _, _⟩ :=
    applyReceived_frame rc ⟨mat, gids, GenerateAlgebraIDHashList gids, [], []⟩
  rw [hs1] at f1 f3
  simp only at f1 f3
  rw [← hs1] at he
  rcases applyReceived_newCons_mem rc _ e he with ⟨e', he', _⟩ | ⟨x, hx, hxn, hxe⟩
  · cases he'
  · simp only at hxn hxe
    have hto : e.1.toID = x.2.gID := by rw [hxe]; rfl
    have hnone : s1.m_algIDHash.get_entry e.1.toID = none := by rw [f1, hto]; exact hxn
    refine ⟨⟨x, hx, by rw [hxe]; rfl, by rw [hxe]; rfl, hto⟩, hnone, ?_⟩
    have hmem : e.1.toID ∈ s1.m_recvNewIDs := by
      rw [← hs1, applyReceived_newIDs_mem]
      right
      unfold unresolvedIDs
      refine List.mem_map.mpr ⟨x, List.mem_filter.mpr ⟨hx, ?_⟩, hto.symm⟩
      simp only at hxn ⊢
      rw [hxn]
      rfl
    have hsorted : s1.m_recvNewIDs.Pairwise (fun a b => a.lt b = true) := by
      rw [← hs1]
      exact applyReceived_newIDs_sorted rc _ List.Pairwise.nil
    obtain ⟨j, hj, hj', hg⟩ := get_entry_new s1.m_algIDHash s1.m_recvNewIDs s1.m_mat.numRows
      e.1.toID hnone hmem (sorted_nodup _ hsorted)
    exact ⟨j, hj, hj', by rw [hg, f3]⟩

theorem deferredSum_eq_zero (hash : AlgebraIDHashList) (cons : List (ExtCon × block_t))
    (i k : Nat)
    (h : ∀ e ∈ cons, ¬ (e.1.fromInd = i ∧ hash.get_entry e.1.toID = some k)) :
    deferredSum hash cons i k = 0 := by
  induction cons with
  | nil => simp [deferredSum]
  | cons e rest ih =>
    rw [deferredSum_cons, if_neg (h e (List.mem_cons_self _ _)),
      ih (fun e' he' => h e' (List.mem_cons_of_mem _ he'))]
    rfl

theorem matRow_get_isolate (r : MatRow) (i k : Nat) :
    MatRow.get (r.map (fun e => if e.1 = i then e else (e.1, 0))) k =
      if k = i then r.get k else 0 := by
  induction r with
  | nil => simp [MatRow.get]
  | cons e rest ih =>
    obtain ⟨c, x⟩ := e
    have hhead : (if (c, x).1 = i then (c, x) else ((c, x).1, (0 : block_t))) =
        (c, if c = i then x else 0) := by
      by_cases hc : c = i
      · simp [hc]
      · simp [hc]
    rw [List.map_cons, hhead]
    simp only [MatRow.get]
    rw [ih]
    by_cases hk : c = k
    · subst hk
      rw [if_pos rfl, if_pos rfl]
    · rw [if_neg hk, if_neg hk]

/-- The row that `SetDirichletRow` sets is an isolated row. -/
theorem SetDirichletRow_entry (m : Matrix) (i k : Nat) :
    (SetDirichletRow m i).entry i k = if k = i then 1 else 0 := by
  unfold SetDirichletRow Matrix.entry
  simp only [if_true]
  rw [matRow_get_isolate]
  by_cases hk : k = i
  · subst hk
    simp [Matrix.assign, Matrix.modify, matRow_get_modify]
  · simp [hk]

theorem setDirichletRows_entry (n : Nat) :
    ∀ (m : Matrix) (start i k : Nat), start ≤ i → i < start + n →
      (setDirichletRows m start n).entry i k = if k = i then 1 else 0 := by
  induction n with
  | zero => intro m start i k h1 h2; omega
  | succ n ih =>
    intro m start i k h1 h2
    simp only [setDirichletRows]
    by_cases hi : i = start
    · subst hi
      have := setDirichletRows_row n (SetDirichletRow m i) (i + 1) i (by omega)
      unfold Matrix.entry
      rw [this]
      exact SetDirichletRow_entry m i k
    · exact ih _ (start + 1) i k (by omega) (by omega)

/-- After lines 232-254 of `post_process` every appended row is an isolated row. -/
theorem post_process_newIDs_isolated (s : ComPol_MatCreateOverlap) (i k : Nat)
    (hi : s.m_mat.numRows ≤ i) (hi' : i < s.m_mat.numRows + s.m_recvNewIDs.length) :
    (post_process_newIDs s).m_mat.entry i k = if k = i then 1 else 0 := by
  unfold post_process_newIDs
  simp only
  rw [if_pos (by omega)]
  exact setDirichletRows_entry _ _ _ _ _ hi hi'

/-- A successful master part of `post_process` is a successful run of the loop over the
new connections from its start state, and it returns what the loop leaves. -/
theorem post_process_master_loop (store : LayoutStore) (s : ComPol_MatCreateOverlap)
    (r : MasterResult) (h : post_process_master store s = .ok r) :
    ∃ fin : MasterLoop,
      masterOverlapLoop (hashInsertFrom s.m_algIDHash s.m_recvNewIDs s.m_mat.numRows)
        s.m_mat.numRows s.m_recvNewIDs.length
        (GetLayoutTargetProcs (layoutsOf store s.m_mat).master)
        (masterLoopStart (layoutsOf store s.m_mat) (matrixBeforeInsertion store s))
        s.m_recvNewCons = .ok fin ∧
      r.pol.m_mat = fin.mat ∧
      (layoutsOf r.store r.pol.m_mat).masterOverlap = fin.masterOverlap ∧
      r.sendBuf = fin.sendBuf ∧
      r.msgSizeForSlaveProcs = fin.msgSizeForSlaveProcs ∧
      r.slaveProcs = GetLayoutTargetProcs (layoutsOf store s.m_mat).master := by
  unfold post_process_master post_process_masterOverlap at h
  simp only [post_process_newLayout] at h
  split at h
  · cases h
  · rename_i fin hloop
    simp only [Except.ok.injEq] at h
    have hl : (post_process_newIDs
        { s with m_mat := { s.m_mat with layouts := store.length } }).m_mat.layouts =
        store.length := (post_process_newIDs_shape _).2.2
    simp only [hl, getD_append_length] at hloop
    refine ⟨fin, hloop, ?_, ?_, ?_, ?_, ?_⟩
    · rw [← h]
    · rw [← h]
      simp only [layoutsOf, hl, getD_append_length, set_append_length]
      have hfl : fin.mat.layouts = store.length := by
        have := masterOverlapLoop_shape _ _ _ _ _ _ _ hloop
        rw [this.2.2]
        exact hl
      rw [hfl, getD_append_length]
    · rw [← h]
    · rw [← h]
    · rw [← h]
      simp only [hl, getD_append_length]
      rfl

/-- When the loop over the new connections succeeds from its start state, the master
part of `post_process` succeeds. -/
theorem post_process_master_of_loop (store : LayoutStore) (s : ComPol_MatCreateOverlap)
    (fin : MasterLoop)
    (h : masterOverlapLoop (hashInsertFrom s.m_algIDHash s.m_recvNewIDs s.m_mat.numRows)
        s.m_mat.numRows s.m_recvNewIDs.length
        (GetLayoutTargetProcs (layoutsOf store s.m_mat).master)
        (masterLoopStart (layoutsOf store s.m_mat) (matrixBeforeInsertion store s))
        s.m_recvNewCons = .ok fin) :
    ∃ r, post_process_master store s = .ok r := by
  unfold post_process_master post_process_masterOverlap
  simp only [post_process_newLayout]
  have hl : (post_process_newIDs
      { s with m_mat := { s.m_mat with layouts := store.length } }).m_mat.layouts =
      store.length := (post_process_newIDs_shape _).2.2
  simp only [hl, getD_append_length]
  split
  · rename_i err heq
    have := heq.symm.trans h
    cases this
  · exact ⟨_, rfl⟩

/-! ## C23 -/

/-- C23: let a policy be constructed for a matrix, and let `extract` read connections for
rows of the matrix only. After the deferred-insertion step of `post_process`, each
deferred connection was added at an entry `(r, c)` with `r < oldRows ≤ c < newRows`:
every entry is its value before the step plus the values of the deferred connections
from that row to that column, no entry of an appended row and no entry of a column below
`oldRows` has changed, and every appended row is still the isolated row that
`SetDirichletRow` made of it. -/
theorem deferred_insertion_frame (store : LayoutStore) (mat : Matrix)
    (gids : List AlgebraID) (calls : List (BinaryBuffer × Interface))
    (rc : List (Nat × Conn)) (s0 s1 : ComPol_MatCreateOverlap) (r : MasterResult)
    (h0 : ComPol_MatCreateOverlap.new mat gids = .ok s0)
    (hrc : readCalls calls = some rc)
    (h1 : extractCalls calls s0 = .ok s1)
    (hidx : ∀ x ∈ rc, x.2.index < mat.numRows)
    (h2 : post_process_master store s1 = .ok r) :
    (∀ e ∈ s1.m_recvNewCons, ∃ c, r.pol.m_algIDHash.get_entry e.1.toID = some c ∧
      e.1.fromInd < mat.numRows ∧ mat.numRows ≤ c ∧ c < r.pol.m_mat.numRows) ∧
    (∀ i k, r.pol.m_mat.entry i k =
      (matrixBeforeInsertion store s1).entry i k +
        deferredSum r.pol.m_algIDHash s1.m_recvNewCons i k) ∧
    (∀ i k, mat.numRows ≤ i ∨ k < mat.numRows →
      r.pol.m_mat.entry i k = (matrixBeforeInsertion store s1).entry i k) ∧
    (∀ i k, mat.numRows ≤ i → i < r.pol.m_mat.numRows →
      r.pol.m_mat.entry i k = if k = i then 1 else 0) := by
  obtain ⟨hs0, _⟩ := new_ok mat gids s0 h0
  rw [extractCalls_eq, hrc] at h1
  simp only [Except.ok.injEq] at h1
  rw [hs0] at h1
  obtain ⟨_, _, f3, _, _⟩ :=
    applyReceived_frame rc ⟨mat, gids, GenerateAlgebraIDHashList gids, [], []⟩
  rw [h1] at f3
  simp only at f3
  obtain ⟨_, hhash, _, _, hrows, _, _⟩ := post_process_master_frame store s1 r h2
  obtain ⟨fin, hloop, hmat, _⟩ := post_process_master_loop store s1 r h2
  have hwhere : ∀ e ∈ s1.m_recvNewCons, ∃ c, r.pol.m_algIDHash.get_entry e.1.toID = some c ∧
      e.1.fromInd < mat.numRows ∧ mat.numRows ≤ c ∧ c < r.pol.m_mat.numRows := by
    intro e he
    obtain ⟨⟨x, hx, hfrom, _, _⟩, _, j, hj, _, hget⟩ := deferred_resolves mat gids rc s1 h1 e he
    refine ⟨mat.numRows + j, ?_, ?_, by omega, ?_⟩
    · rw [hhash]; exact hget
    · rw [hfrom]; exact hidx x hx
    · rw [hrows, f3]; omega
  have hsum : ∀ i k, r.pol.m_mat.entry i k =
      (matrixBeforeInsertion store s1).entry i k +
        deferredSum r.pol.m_algIDHash s1.m_recvNewCons i k := by
    intro i k
    rw [hmat, masterOverlapLoop_entry _ _ _ _ _ i k _ _ hloop, hhash]
    rfl
  have hframe : ∀ i k, mat.numRows ≤ i ∨ k < mat.numRows →
      r.pol.m_mat.entry i k = (matrixBeforeInsertion store s1).entry i k := by
    intro i k hik
    rw [hsum, deferredSum_eq_zero, Int.add_zero]
    intro e he ⟨hf, hc⟩
    obtain ⟨c, hc', hlt, hle, _⟩ := hwhere e he
    rw [hc] at hc'
    have := Option.some.inj hc'
    omega
  refine ⟨hwhere, hsum, hframe, ?_⟩
  intro i k hi hi'
  rw [hframe i k (Or.inl hi)]
  unfold matrixBeforeInsertion
  rw [hrows, f3] at hi'
  apply post_process_newIDs_isolated
  · simp only [post_process_newLayout]
    rw [f3]; exact hi
  · simp only [post_process_newLayout]
    rw [f3]; exact hi'

/-- The witness of C23: the master example receives the connections of `exBuff`; the
connection to the unknown GlobalID (1,0) is added at entry (1, 2), and the appended row 2
stays the isolated row. -/
theorem deferred_insertion_frame_witness :
    ComPol_MatCreateOverlap.new exMat [⟨0, 0⟩, ⟨0, 1⟩] = .ok exPol ∧
    readCalls [(exBuff, exItf)] = some exReceived ∧
    extractCalls [(exBuff, exItf)] exPol = .ok exPol1 ∧
    (∀ x ∈ exReceived, x.2.index < exMat.numRows) ∧
    post_process_master exStore exPol1 = .ok exMaster ∧
    exPol1.m_recvNewCons = [(⟨1, ⟨0, 1⟩, ⟨1, 0⟩, 1⟩, -1)] ∧
    exMaster.pol.m_mat.entry 1 2 = -1 ∧
    exMaster.pol.m_mat.entry 2 1 = 0 ∧
    exMaster.pol.m_mat.entry 2 2 = 1 ∧
    ((∀ e ∈ exPol1.m_recvNewCons, ∃ c, exMaster.pol.m_algIDHash.get_entry e.1.toID = some c ∧
      e.1.fromInd < exMat.numRows ∧ exMat.numRows ≤ c ∧ c < exMaster.pol.m_mat.numRows) ∧
    (∀ i k, exMaster.pol.m_mat.entry i k =
      (matrixBeforeInsertion exStore exPol1).entry i k +
        deferredSum exMaster.pol.m_algIDHash exPol1.m_recvNewCons i k) ∧
    (∀ i k, exMat.numRows ≤ i ∨ k < exMat.numRows →
      exMaster.pol.m_mat.entry i k = (matrixBeforeInsertion exStore exPol1).entry i k) ∧
    (∀ i k, exMat.numRows ≤ i → i < exMaster.pol.m_mat.numRows →
      exMaster.pol.m_mat.entry i k = if k = i then 1 else 0)) :=
  ⟨rfl, rfl, rfl, by decide, rfl, rfl, rfl, rfl, rfl,
    deferred_insertion_frame exStore exMat [⟨0, 0⟩, ⟨0, 1⟩] [(exBuff, exItf)] exReceived
      exPol exPol1 exMaster rfl rfl rfl (by decide) rfl⟩

/-! ## C25 -/

theorem findSlaveInd_of_mem (c : Nat) :
    ∀ (procs : List Nat) (i : Nat), c ∈ procs → ∃ j, findSlaveInd c procs i = some j := by
  intro procs
  induction procs with
  | nil => intro i h; cases h
  | cons p rest ih =>
    intro i h
    unfold findSlaveInd
    by_cases hp : p = c
    · exact ⟨i, by rw [if_pos hp]⟩
    · rw [if_neg hp]
      rcases List.mem_cons.mp h with h | h
      · exact absurd h.symm hp
      · exact ih (i + 1) h

/-- One iteration of the loop over the new connections succeeds when the rank of the
connection is among the slave processes and its target GlobalID resolves. -/
theorem masterOverlapStep_ok (hash : AlgebraIDHashList) (oldSize numNewInds : Nat)
    (slaveProcs : List Nat) (st : MasterLoop) (e : ExtCon × block_t)
    (hp : e.1.conProc ∈ slaveProcs) (hg : hash.get_entry e.1.toID ≠ none) :
    ∃ st', masterOverlapStep hash oldSize numNewInds slaveProcs st e = .ok st' := by
  unfold masterOverlapStep masterOverlapEnter
  obtain ⟨j, hj⟩ := findSlaveInd_of_mem e.1.conProc slaveProcs 0 hp
  cases hget : hash.get_entry e.1.toID with
  | none => exact absurd hget hg
  | some toInd =>
    by_cases hc : st.itfc = some e.1.conProc
    · rw [if_pos hc]
      exact ⟨_, rfl⟩
    · rw [if_neg hc, hj]
      exact ⟨_, rfl⟩

/-- The loop over the new connections succeeds when the rank of every connection is
among the slave processes and every target GlobalID resolves. -/
theorem masterOverlapLoop_ok (hash : AlgebraIDHashList) (oldSize numNewInds : Nat)
    (slaveProcs : List Nat) (cons : List (ExtCon × block_t))
    (h : ∀ e ∈ cons, e.1.conProc ∈ slaveProcs ∧ hash.get_entry e.1.toID ≠ none) :
    ∀ st : MasterLoop,
      ∃ st', masterOverlapLoop hash oldSize numNewInds slaveProcs st cons = .ok st' := by
  induction cons with
  | nil => intro st; exact ⟨st, rfl⟩
  | cons e rest ih =>
    intro st
    obtain ⟨st1, hst1⟩ := masterOverlapStep_ok hash oldSize numNewInds slaveProcs st e
      (h e (List.mem_cons_self _ _)).1 (h e (List.mem_cons_self _ _)).2
    obtain ⟨st', hst'⟩ := ih (fun e' he' => h e' (List.mem_cons_of_mem _ he')) st1
    refine ⟨st', ?_⟩
    simp only [masterOverlapLoop, hst1]
    exact hst'

/-- Every connection a sequence of `extract` calls reads carries the target rank of the
interface of one of the calls. -/
theorem readCalls_mem :
    ∀ (calls : List (BinaryBuffer × Interface)) (rc : List (Nat × Conn)),
      readCalls calls = some rc →
      ∀ x ∈ rc, ∃ c ∈ calls, c.2.targetProc = x.1 := by
  intro calls
  induction calls with
  | nil =>
    intro rc h x hx
    simp only [readCalls, Option.some.injEq] at h
    rw [← h] at hx
    cases hx
  | cons call rest ih =>
    intro rc h x hx
    obtain ⟨buff, interface⟩ := call
    simp only [readCalls] at h
    cases hr : readRows interface.elems buff with
    | none => rw [hr] at h; cases h
    | some p =>
      rw [hr] at h
      simp only at h
      cases hrest : readCalls rest with
      | none => rw [hrest] at h; cases h
      | some rc' =>
        rw [hrest] at h
        simp only [Option.some.injEq] at h
        rw [← h] at hx
        rcases List.mem_append.mp hx with hx | hx
        · obtain ⟨c, _, hc⟩ := List.mem_map.mp hx
          refine ⟨(buff, interface), List.mem_cons_self _ _, ?_⟩
          rw [← hc]
        · obtain ⟨c, hc, hcx⟩ := ih rc' hrest x hx
          exact ⟨c, List.mem_cons_of_mem _ hc, hcx⟩

/-- C25: when `post_process` runs as `CreateOverlap` drives it, the policy constructed
for the matrix and `extract` called only on interfaces of the master layout of the
matrix, the master part of `post_process` succeeds, so neither consistency check of the
loop fires: the rank of every deferred connection is found among the target ranks of the
master layout, every deferred target GlobalID resolves in the hash to an index in
`[oldRows, newRows)`, and the place `toInd - oldRows` is inside the vector `added`, which
has `numNewInds` entries. -/
theorem master_overlap_checks_pass (store : LayoutStore) (mat : Matrix)
    (gids : List AlgebraID) (calls : List (BinaryBuffer × Interface))
    (rc : List (Nat × Conn)) (s0 s1 : ComPol_MatCreateOverlap)
    (h0 : ComPol_MatCreateOverlap.new mat gids = .ok s0)
    (hrc : readCalls calls = some rc)
    (h1 : extractCalls calls s0 = .ok s1)
    (hitf : ∀ c ∈ calls, c.2 ∈ (layoutsOf store mat).master) :
    ∃ r, post_process_master store s1 = .ok r ∧
      ∀ e ∈ s1.m_recvNewCons,
        (∃ slaveInd, findSlaveInd e.1.conProc
          (GetLayoutTargetProcs (layoutsOf store mat).master) 0 = some slaveInd) ∧
        ∃ toInd, r.pol.m_algIDHash.get_entry e.1.toID = some toInd ∧
          mat.numRows ≤ toInd ∧ toInd < r.pol.m_mat.numRows ∧
          toInd - mat.numRows < (List.replicate s1.m_recvNewIDs.length false).length := by
  obtain ⟨hs0, _⟩ := new_ok mat gids s0 h0
  rw [extractCalls_eq, hrc] at h1
  simp only [Except.ok.injEq] at h1
  rw [hs0] at h1
  obtain ⟨_, _, f3, _, f5⟩ :=
    applyReceived_frame rc ⟨mat, gids, GenerateAlgebraIDHashList gids, [], []⟩
  rw [h1] at f3 f5
  simp only at f3 f5
  have hlay : layoutsOf store s1.m_mat = layoutsOf store mat := by
    unfold layoutsOf
    rw [f5]
  have hproc : ∀ e ∈ s1.m_recvNewCons,
      e.1.conProc ∈ GetLayoutTargetProcs (layoutsOf store mat).master := by
    intro e he
    obtain ⟨⟨x, hx, _, hcp, _⟩, _⟩ := deferred_resolves mat gids rc s1 h1 e he
    obtain ⟨c, hc, hcx⟩ := readCalls_mem calls rc hrc x hx
    unfold GetLayoutTargetProcs
    exact List.mem_map.mpr ⟨c.2, hitf c hc, by rw [hcx, hcp]⟩
  have hres : ∀ e ∈ s1.m_recvNewCons, ∃ j, j < s1.m_recvNewIDs.length ∧
      (hashInsertFrom s1.m_algIDHash s1.m_recvNewIDs s1.m_mat.numRows).get_entry e.1.toID =
        some (mat.numRows + j) := by
    intro e he
    obtain ⟨_, _, j, hj, _, hget⟩ := deferred_resolves mat gids rc s1 h1 e he
    exact ⟨j, hj, hget⟩
  obtain ⟨fin, hfin⟩ := masterOverlapLoop_ok
    (hashInsertFrom s1.m_algIDHash s1.m_recvNewIDs s1.m_mat.numRows) s1.m_mat.numRows
    s1.m_recvNewIDs.length (GetLayoutTargetProcs (layoutsOf store s1.m_mat).master)
    s1.m_recvNewCons
    (by
      intro e he
      refine ⟨by rw [hlay]; exact hproc e he, ?_⟩
      obtain ⟨j, _, hget⟩ := hres e he
      rw [hget]
      exact Option.some_ne_none _)
    (masterLoopStart (layoutsOf store s1.m_mat) (matrixBeforeInsertion store s1))
  obtain ⟨r, hr⟩ := post_process_master_of_loop store s1 fin hfin
  refine ⟨r, hr, ?_⟩
  obtain ⟨_, hhash, _, _, hrows, _, _⟩ := post_process_master_frame store s1 r hr
  intro e he
  refine ⟨findSlaveInd_of_mem _ _ 0 (hproc e he), ?_⟩
  obtain ⟨j, hj, hget⟩ := hres e he
  refine ⟨mat.numRows + j, by rw [hhash]; exact hget, by omega, by rw [hrows, f3]; omega, ?_⟩
  rw [List.length_replicate]
  omega

/-- The witness of C25: the master example extracts `exBuff` on its master interface. -/
theorem master_overlap_checks_pass_witness :
    ComPol_MatCreateOverlap.new exMat [⟨0, 0⟩, ⟨0, 1⟩] = .ok exPol ∧
    readCalls [(exBuff, exItf)] = some exReceived ∧
    extractCalls [(exBuff, exItf)] exPol = .ok exPol1 ∧
    (∀ c ∈ [(exBuff, exItf)], c.2 ∈ (layoutsOf exStore exMat).master) ∧
    post_process_master exStore exPol1 = .ok exMaster ∧
    ∃ r, post_process_master exStore exPol1 = .ok r ∧
      ∀ e ∈ exPol1.m_recvNewCons,
        (∃ slaveInd, findSlaveInd e.1.conProc
          (GetLayoutTargetProcs (layoutsOf exStore exMat).master) 0 = some slaveInd) ∧
        ∃ toInd, r.pol.m_algIDHash.get_entry e.1.toID = some toInd ∧
          exMat.numRows ≤ toInd ∧ toInd < r.pol.m_mat.numRows ∧
          toInd - exMat.numRows < (List.replicate exPol1.m_recvNewIDs.length false).length :=
  ⟨rfl, rfl, rfl, by decide, rfl,
    master_overlap_checks_pass exStore exMat [⟨0, 0⟩, ⟨0, 1⟩] [(exBuff, exItf)] exReceived
      exPol exPol1 rfl rfl rfl (by decide)⟩

/-! ## C26 -/

/-- C26, a failing input: the constructor documents that the GlobalID array must have
size at least `num_rows` and throws only for a smaller one. For the matrix of the master
example, with 2 rows, and an array of 3 GlobalIDs the constructor succeeds; `extract`
reads connections to the unknown GlobalIDs (1,0) and (1,1), and `post_process` appends
the rows 2 and 3. It registers the new IDs in the hash from index `num_rows` on, (1,0)
for 2 and (1,1) for 3, but pushes them to the end of the array, to the places 3 and 4:
`globalIDs[3]` is (1,0), which the hash maps to 2, and the GlobalID that the hash maps
to 3 is not `globalIDs[3]`. -/
theorem globalIDs_hash_disagree :
    exMat.numRows ≤ exLongIDs.length ∧
    ComPol_MatCreateOverlap.new exMat exLongIDs = .ok exLongPol ∧
    extractCalls [(exTwoNewBuff, exItf)] exLongPol = .ok exLongPol1 ∧
    exLongPol1.post_process exStore exLongNet = .ok exLongPost ∧
    exMat.numRows = 2 ∧ exLongPost.2.m_mat.numRows = 4 ∧
    exLongPost.2.m_globalIDs = [⟨0, 0⟩, ⟨0, 1⟩, ⟨0, 2⟩, ⟨1, 0⟩, ⟨1, 1⟩] ∧
    exLongPost.2.m_globalIDs[3]? = some ⟨1, 0⟩ ∧
    exLongPost.2.m_algIDHash.get_entry ⟨1, 0⟩ = some 2 ∧
    exLongPost.2.m_algIDHash.get_entry ⟨1, 1⟩ = some 3 ∧
    ¬ (∀ i g, exMat.numRows ≤ i → i < exLongPost.2.m_mat.numRows →
        exLongPost.2.m_globalIDs[i]? = some g →
        exLongPost.2.m_algIDHash.get_entry g = some i) ∧
    ¬ (∀ i g, exMat.numRows ≤ i → i < exLongPost.2.m_mat.numRows →
        exLongPost.2.m_algIDHash.get_entry g = some i →
        exLongPost.2.m_globalIDs[i]? = some g) := by
  refine ⟨by decide, rfl, rfl, rfl, rfl, rfl, rfl, rfl, rfl, rfl, ?_, ?_⟩
  · intro h
    have := h 3 ⟨1, 0⟩ (by decide) (by decide) rfl
    exact absurd this (by decide)
  · intro h
    have := h 3 ⟨1, 1⟩ (by decide) (by decide) rfl
    exact absurd this (by decide)

/-! ## C27 -/

/-- The segment of the send buffer for the k-th process starts after the segments of the
processes before it and has the k-th size. -/
theorem segmentFor_eq_drop_take (q : Nat) :
    ∀ (procs sizes : List Nat) (buf : BinaryBuffer) (k : Nat), procs.Nodup →
      procs[k]? = some q →
      segmentFor q procs sizes buf = (buf.drop (sizes.take k).sum).take (sizes.getD k 0) := by
  intro procs
  induction procs with
  | nil => intro sizes buf k _ h; simp at h
  | cons p rest ih =>
    intro sizes buf k hnd hk
    rw [List.nodup_cons] at hnd
    unfold segmentFor
    cases k with
    | zero =>
      simp only [List.getElem?_cons_zero, Option.some.injEq] at hk
      rw [if_pos hk]
      cases sizes <;> simp
    | succ k =>
      simp only [List.getElem?_cons_succ] at hk
      have hq : q ∈ rest := by
        rcases List.getElem?_eq_some.mp hk with ⟨hlt, heq⟩
        rw [← heq]
        exact List.getElem_mem _
      have hne : ¬ p = q := fun e => hnd.1 (e ▸ hq)
      rw [if_neg hne, ih _ _ k hnd.2 hk]
      cases sizes with
      | nil => simp
      | cons x xs =>
        simp only [List.headD_cons, List.tail_cons, List.take_succ_cons, List.sum_cons,
          List.drop_drop, List.getD_cons_succ]

theorem sum_take_add_le (l : List Nat) (k : Nat) :
    (l.take k).sum + l.getD k 0 ≤ l.sum := by
  induction l generalizing k with
  | nil => simp
  | cons x xs ih =>
    cases k with
    | zero => simp
    | succ k =>
      simp only [List.take_succ_cons, List.sum_cons, List.getD_cons_succ]
      have := ih k
      omega

/-- C27: let a policy be constructed for a matrix whose master layout enumerates its
interfaces in ascending target-rank order. After `extract` and the master part of
`post_process`, the send buffer is laid out as the size array passed to
`distribute_data` says: there is one size per slave process, the sizes add up to the
length of the buffer, and for every `k` the segment that starts at offset
`msgSize[0] + ... + msgSize[k-1]` and has length `msgSize[k]` holds exactly the GlobalIDs
of the indices pushed to the master-overlap interface of `slaveProcs[k]`, in the same
order. -/
theorem send_buffer_layout (store : LayoutStore) (mat : Matrix)
    (gids : List AlgebraID) (calls : List (BinaryBuffer × Interface))
    (rc : List (Nat × Conn)) (s0 s1 : ComPol_MatCreateOverlap) (r : MasterResult)
    (h0 : ComPol_MatCreateOverlap.new mat gids = .ok s0)
    (hrc : readCalls calls = some rc)
    (h1 : extractCalls calls s0 = .ok s1)
    (h2 : post_process_master store s1 = .ok r)
    (hmaster : (layoutsOf store mat).master.isMap)
    (hmo : (layoutsOf store mat).masterOverlap.isMap) :
    r.slaveProcs = GetLayoutTargetProcs (layoutsOf store mat).master ∧
    r.msgSizeForSlaveProcs.length = r.slaveProcs.length ∧
    r.sendBuf.length = r.msgSizeForSlaveProcs.sum ∧
    ∀ k q, r.slaveProcs[k]? = some q →
      ∃ (ids : List AlgebraID) (pushed : List Nat),
        (r.sendBuf.drop (r.msgSizeForSlaveProcs.take k).sum).take
          (r.msgSizeForSlaveProcs.getD k 0) = ids.map BufItem.algID ∧
        ids.length = r.msgSizeForSlaveProcs.getD k 0 ∧
        (layoutsOf r.store r.pol.m_mat).masterOverlap.elemsOf q =
          (layoutsOf store mat).masterOverlap.elemsOf q ++ pushed ∧
        pushed.length = ids.length ∧
        ∀ (j : Nat) (g : AlgebraID), ids[j]? = some g →
          ∃ a : Nat, pushed[j]? = some a ∧ r.pol.m_algIDHash.get_entry g = some a := by
  obtain ⟨hs0, _⟩ := new_ok mat gids s0 h0
  rw [extractCalls_eq, hrc] at h1
  simp only [Except.ok.injEq] at h1
  rw [hs0] at h1
  obtain ⟨_, _, _, _, f5⟩ :=
    applyReceived_frame rc ⟨mat, gids, GenerateAlgebraIDHashList gids, [], []⟩
  rw [h1] at f5
  simp only at f5
  have hlay : layoutsOf store s1.m_mat = layoutsOf store mat := by
    unfold layoutsOf
    rw [f5]
  have hsorted : s1.m_recvNewCons.Pairwise (fun a b => a.1.conProc ≤ b.1.conProc) := by
    rw [← h1]
    exact applyReceived_procSorted rc _ List.Pairwise.nil
  obtain ⟨_, hhash, _, _, _, _, _⟩ := post_process_master_frame store s1 r h2
  obtain ⟨fin, hloop, _, hfmo, hbuf, hsizes, hprocs⟩ := post_process_master_loop store s1 r h2
  rw [hlay] at hloop hprocs
  have hsp : (GetLayoutTargetProcs (layoutsOf store mat).master).Pairwise
      (fun a b => a < b) := by
    unfold GetLayoutTargetProcs
    rw [List.pairwise_map]
    exact hmaster
  have hnd : (GetLayoutTargetProcs (layoutsOf store mat).master).Nodup :=
    hsp.imp (fun hab => by omega)
  have hinv := masterOverlapLoop_inv _ _ _ _ (layoutsOf store mat).masterOverlap hsp
    _ _ fin hsorted (by intro e _ c hc; cases hc)
    (masterLoopInv_init _ _ _ _ hmo) hloop
  obtain ⟨_, i2, i3, _, i5⟩ := hinv
  rw [hprocs, hsizes, hbuf]
  refine ⟨rfl, i2, i3, ?_⟩
  intro k q hk
  obtain ⟨ids, a1, a2, a3⟩ := i5 q
  rw [segmentFor_eq_drop_take q _ _ _ k hnd hk] at a1
  have hfm := filterMap_all_some
    (hashInsertFrom s1.m_algIDHash s1.m_recvNewIDs s1.m_mat.numRows).get_entry ids a3
  refine ⟨ids, ids.filterMap
    (hashInsertFrom s1.m_algIDHash s1.m_recvNewIDs s1.m_mat.numRows).get_entry,
    a1, ?_, ?_, hfm.1, ?_⟩
  · have hlen := congrArg List.length a1
    rw [List.length_map, List.length_take, List.length_drop] at hlen
    have := sum_take_add_le fin.msgSizeForSlaveProcs k
    omega
  · rw [hfmo, a2]
  · intro j g hj
    rw [hhash]
    exact hfm.2 j g hj

/-- The witness of C27: the master example sends the GlobalID (1,0) of the appended
index 2 to its one slave process, rank 1. -/
theorem send_buffer_layout_witness :
    ComPol_MatCreateOverlap.new exMat [⟨0, 0⟩, ⟨0, 1⟩] = .ok exPol ∧
    readCalls [(exBuff, exItf)] = some exReceived ∧
    extractCalls [(exBuff, exItf)] exPol = .ok exPol1 ∧
    post_process_master exStore exPol1 = .ok exMaster ∧
    (layoutsOf exStore exMat).master.isMap ∧
    (layoutsOf exStore exMat).masterOverlap.isMap ∧
    exMaster.sendBuf = [.algID ⟨1, 0⟩] ∧
    exMaster.msgSizeForSlaveProcs = [1] ∧
    (layoutsOf exMaster.store exMaster.pol.m_mat).masterOverlap = [⟨1, [2]⟩] ∧
    (exMaster.slaveProcs = GetLayoutTargetProcs (layoutsOf exStore exMat).master ∧
    exMaster.msgSizeForSlaveProcs.length = exMaster.slaveProcs.length ∧
    exMaster.sendBuf.length = exMaster.msgSizeForSlaveProcs.sum ∧
    ∀ k q, exMaster.slaveProcs[k]? = some q →
      ∃ (ids : List AlgebraID) (pushed : List Nat),
        (exMaster.sendBuf.drop (exMaster.msgSizeForSlaveProcs.take k).sum).take
          (exMaster.msgSizeForSlaveProcs.getD k 0) = ids.map BufItem.algID ∧
        ids.length = exMaster.msgSizeForSlaveProcs.getD k 0 ∧
        (layoutsOf exMaster.store exMaster.pol.m_mat).masterOverlap.elemsOf q =
          (layoutsOf exStore exMat).masterOverlap.elemsOf q ++ pushed ∧
        pushed.length = ids.length ∧
        ∀ (j : Nat) (g : AlgebraID), ids[j]? = some g →
          ∃ a : Nat, pushed[j]? = some a ∧ exMaster.pol.m_algIDHash.get_entry g = some a) :=
  ⟨rfl, rfl, rfl, rfl, by simp [layoutsOf, exStore, exMat, exLayouts, IndexLayout.isMap],
    by simp [layoutsOf, exStore, exMat, exLayouts, IndexLayout.isMap], rfl, rfl, rfl,
    send_buffer_layout exStore exMat [⟨0, 0⟩, ⟨0, 1⟩] [(exBuff, exItf)] exReceived
      exPol exPol1 exMaster rfl rfl rfl rfl
      (by simp [layoutsOf, exStore, exMat, exLayouts, IndexLayout.isMap])
      (by simp [layoutsOf, exStore, exMat, exLayouts, IndexLayout.isMap])⟩

/-! ## The entries pushed to the master overlap -/

theorem rankIdLe_of_lt (a b : ExtCon) (h : a.lt b = true) : a.rankIdLe b := by
  unfold ExtCon.lt at h
  unfold ExtCon.rankIdLe
  by_cases h1 : a.conProc < b.conProc
  · left; exact h1
  · by_cases h2 : b.conProc < a.conProc
    · simp [h1, h2] at h
    · right
      refine ⟨by omega, ?_⟩
      by_cases h3 : a.toID.lt b.toID = true
      · exact algebraID_lt_asymm h3
      · by_cases h4 : b.toID.lt a.toID = true
        · simp [h1, h2, h3, h4] at h
        · simpa using h4

theorem algebraID_not_lt_trans {a b c : AlgebraID} (h1 : b.lt a = false) (h2 : c.lt b = false) :
    c.lt a = false := by
  simp only [AlgebraID.lt, Bool.or_eq_false_iff, decide_eq_false_iff_not, Bool.and_eq_false_imp,
    Bool.not_eq_true', decide_eq_true_eq] at h1 h2 ⊢
  omega

theorem rankIdLe_trans {a b c : ExtCon} (h1 : a.rankIdLe b) (h2 : b.rankIdLe c) :
    a.rankIdLe c := by
  unfold ExtCon.rankIdLe at h1 h2 ⊢
  rcases h1 with h1 | ⟨h1, h1'⟩
  · rcases h2 with h2 | ⟨h2, _⟩
    · left; omega
    · left; omega
  · rcases h2 with h2 | ⟨h2, h2'⟩
    · left; omega
    · right
      exact ⟨by omega, algebraID_not_lt_trans h1' h2'⟩

theorem mapAssign_rankIdSorted (ec : ExtCon) (v : block_t) (l : List (ExtCon × block_t))
    (h : l.Pairwise (fun a b => a.1.rankIdLe b.1)) :
    (mapAssign ec v l).Pairwise (fun a b => a.1.rankIdLe b.1) := by
  induction l with
  | nil => simp [mapAssign]
  | cons a rest ih =>
    obtain ⟨k, x⟩ := a
    rw [List.pairwise_cons] at h
    unfold mapAssign
    by_cases h1 : ec.lt k = true
    · rw [if_pos h1]
      have hk := rankIdLe_of_lt ec k h1
      refine List.pairwise_cons.mpr ⟨?_, List.pairwise_cons.mpr h⟩
      intro b hb
      rcases List.mem_cons.mp hb with hb | hb
      · rw [hb]; exact hk
      · exact rankIdLe_trans hk (h.1 b hb)
    · rw [if_neg h1]
      by_cases h2 : k.lt ec = true
      · rw [if_pos h2]
        have hk := rankIdLe_of_lt k ec h2
        refine List.pairwise_cons.mpr ⟨?_, ih h.2⟩
        intro b hb
        rcases mem_mapAssign_key ec v rest b hb with hb | ⟨e', he', hee⟩
        · simp only
          rw [hb]
          exact hk
        · have := h.1 e' he'
          rw [hee] at this
          exact this
      · rw [if_neg h2]
        exact List.pairwise_cons.mpr ⟨h.1, h.2⟩

theorem applyReceived_rankIdSorted (rc : List (Nat × Conn)) :
    ∀ s : ComPol_MatCreateOverlap,
      s.m_recvNewCons.Pairwise (fun a b => a.1.rankIdLe b.1) →
      (applyReceived rc s).m_recvNewCons.Pairwise (fun a b => a.1.rankIdLe b.1) := by
  induction rc with
  | nil => intro s h; exact h
  | cons x rest ih =>
    intro s h
    apply ih (extractConnection x.2.index x.1 x.2.gID x.2.block s)
    rw [extractConnection_newCons]
    split
    · exact mapAssign_rankIdSorted _ _ _ h
    · exact h

/-- Two lists in strictly ascending order with the same elements are equal. -/
theorem sorted_ext {α : Type} (r : α → α → Prop) (hasymm : ∀ a b, r a b → ¬ r b a) :
    ∀ l1 l2 : List α, l1.Pairwise r → l2.Pairwise r → (∀ x, x ∈ l1 ↔ x ∈ l2) → l1 = l2 := by
  intro l1
  induction l1 with
  | nil =>
    intro l2 _ _ hmem
    cases l2 with
    | nil => rfl
    | cons b t2 => exact absurd ((hmem b).mpr (List.mem_cons_self _ _)) (List.not_mem_nil _)
  | cons a t1 ih =>
    intro l2 h1 h2 hmem
    cases l2 with
    | nil => exact absurd ((hmem a).mp (List.mem_cons_self _ _)) (List.not_mem_nil _)
    | cons b t2 =>
      rw [List.pairwise_cons] at h1 h2
      have hab : a = b := by
        rcases List.mem_cons.mp ((hmem a).mp (List.mem_cons_self _ _)) with h | h
        · exact h
        · rcases List.mem_cons.mp ((hmem b).mpr (List.mem_cons_self _ _)) with h' | h'
          · exact h'.symm
          · exact absurd (h1.1 b h') (hasymm _ _ (h2.1 a h))
      subst hab
      have hirr : ¬ r a a := fun h => hasymm _ _ h h
      congr 1
      apply ih t2 h1.2 h2.2
      intro x
      constructor
      · intro hx
        rcases List.mem_cons.mp ((hmem x).mp (List.mem_cons_of_mem _ hx)) with h | h
        · subst h
          exact absurd (h1.1 x hx) hirr
        · exact h
      · intro hx
        rcases List.mem_cons.mp ((hmem x).mpr (List.mem_cons_of_mem _ hx)) with h | h
        · subst h
          exact absurd (h2.1 x hx) hirr
        · exact h

theorem getD_set_true_self (l : List Bool) (j : Nat) (h : j < l.length) :
    (l.set j true).getD j false = true := by
  simp [List.getD_eq_getElem?_getD, List.getElem?_set_self, h]

theorem getD_set_true_ne (l : List Bool) (j j' : Nat) (h : j ≠ j') :
    (l.set j true).getD j' false = l.getD j' false := by
  simp [List.getD_eq_getElem?_getD, List.getElem?_set_ne h]

theorem getD_replicate_false (n j : Nat) : (List.replicate n false).getD j false = false := by
  by_cases hj : j < n
  · simp [List.getD_eq_getElem?_getD, List.getElem?_replicate, hj]
  · simp [List.getD_eq_getElem?_getD, List.getElem?_replicate, hj]

theorem masterOverlapAdd_fields (oldSize : Nat) (st : MasterLoop) (ec : ExtCon) (v : block_t)
    (t : Nat) :
    (masterOverlapAdd oldSize st ec v t).itfc = st.itfc ∧
    (masterOverlapAdd oldSize st ec v t).added = st.added.set (t - oldSize) true ∧
    (masterOverlapAdd oldSize st ec v t).masterOverlap =
      if st.added.getD (t - oldSize) false = true then st.masterOverlap
      else st.masterOverlap.append ec.conProc [t] := by
  unfold masterOverlapAdd
  by_cases ha : st.added.getD (t - oldSize) false = true
  · simp only [ha, if_true]
    exact ⟨trivial, trivial, trivial⟩
  · simp only [ha, Bool.false_eq_true, if_false]
    exact ⟨trivial, trivial, trivial⟩

theorem masterOverlapEnter_fields (numNewInds : Nat) (slaveProcs : List Nat)
    (st st0 : MasterLoop) (c : Nat)
    (h : masterOverlapEnter numNewInds slaveProcs st c = .ok st0) :
    st0.itfc = some c ∧
    ((st.itfc = some c ∧ st0 = st) ∨
     (st.itfc ≠ some c ∧ st0.added = List.replicate numNewInds false ∧
      st0.masterOverlap = st.masterOverlap.append c [])) := by
  unfold masterOverlapEnter at h
  by_cases hc : st.itfc = some c
  · rw [if_pos hc] at h
    simp only [Except.ok.injEq] at h
    rw [← h]
    exact ⟨hc, Or.inl ⟨hc, rfl⟩⟩
  · rw [if_neg hc] at h
    cases hf : findSlaveInd c slaveProcs 0 with
    | none => rw [hf] at h; cases h
    | some islave =>
      rw [hf] at h
      simp only [Except.ok.injEq] at h
      rw [← h]
      exact ⟨rfl, Or.inr ⟨hc, rfl, rfl⟩⟩

/-- One iteration of the loop over the new connections keeps the invariant of the pushed
entries, when the connection comes, in the order of the loop, after all connections met
before, and its target GlobalID resolves to an appended index. -/
theorem masterOverlapStep_pushed (hash : AlgebraIDHashList) (oldSize numNewInds : Nat)
    (slaveProcs : List Nat) (mo0 : IndexLayout) (done : List (ExtCon × block_t))
    (st st1 : MasterLoop) (e : ExtCon × block_t) (t : Nat)
    (hinv : pushedInv hash oldSize numNewInds mo0 done st)
    (hle : ∀ d ∈ done, d.1.conProc ≤ e.1.conProc ∧
      (d.1.conProc = e.1.conProc → ∀ td, hash.get_entry d.1.toID = some td → td ≤ t))
    (ht : hash.get_entry e.1.toID = some t) (ht1 : oldSize ≤ t)
    (ht2 : t < oldSize + numNewInds)
    (hstep : masterOverlapStep hash oldSize numNewInds slaveProcs st e = .ok st1) :
    pushedInv hash oldSize numNewInds mo0 (done ++ [e]) st1 := by
  unfold masterOverlapStep at hstep
  cases henter : masterOverlapEnter numNewInds slaveProcs st e.1.conProc with
  | error err => rw [henter] at hstep; cases hstep
  | ok st0 =>
    rw [henter, ht] at hstep
    simp only [Except.ok.injEq] at hstep
    obtain ⟨hitfc0, hcase⟩ := masterOverlapEnter_fields _ _ _ _ _ henter
    obtain ⟨g1, g2, g3⟩ := masterOverlapAdd_fields oldSize st0 e.1 e.2 t
    rw [hstep] at g1 g2 g3
    obtain ⟨i1, i2, i3⟩ := hinv
    -- the state after lines 278-292
    have hA : st0.masterOverlap.isMap := by
      rcases hcase with ⟨_, h0⟩ | ⟨_, _, h0⟩
      · rw [h0]; exact i1
      · rw [h0]; exact append_isMap _ _ _ i1
    have hB : ∀ q, st0.masterOverlap.elemsOf q = st.masterOverlap.elemsOf q := by
      intro q
      rcases hcase with ⟨_, h0⟩ | ⟨_, _, h0⟩
      · rw [h0]
      · rw [h0, elemsOf_append _ _ _ _ i1]
        by_cases hq : q = e.1.conProc
        · rw [if_pos hq, hq, List.append_nil]
        · rw [if_neg hq]
    have hC : st0.added.length = numNewInds ∧
        ∀ j, j < numNewInds →
          (st0.added.getD j false = true ↔
            ∃ e' ∈ done, e'.1.conProc = e.1.conProc ∧
              hash.get_entry e'.1.toID = some (oldSize + j)) := by
      rcases hcase with ⟨hc, h0⟩ | ⟨hc, h0, _⟩
      · rw [h0]
        rw [hc] at i3
        exact ⟨i3.1, i3.2.2.2⟩
      · rw [h0]
        refine ⟨List.length_replicate _ _, ?_⟩
        intro j _
        rw [getD_replicate_false]
        constructor
        · intro h; cases h
        · rintro ⟨e', he', hc', _⟩
          exfalso
          cases hitfc : st.itfc with
          | none =>
            rw [hitfc] at i3
            simp only at i3
            rw [i3] at he'
            cases he'
          | some c0 =>
            rw [hitfc] at i3 hc
            obtain ⟨_, hall, ⟨d0, hd0, hd0c⟩, _⟩ := i3
            have h1 := (hle d0 hd0).1
            have h2 := hall e' he'
            have h3 : c0 ≠ e.1.conProc := fun h => hc (by rw [h])
            omega
    have hj : t - oldSize < numNewInds := by omega
    have hto : oldSize + (t - oldSize) = t := by omega
    unfold pushedInv
    rw [g1, hitfc0, g2, g3]
    refine ⟨?_, ?_, ?_⟩
    · split
      · exact hA
      · exact append_isMap _ _ _ hA
    · intro q
      obtain ⟨pushed, p1, p2, p3⟩ := i2 q
      by_cases ha : st0.added.getD (t - oldSize) false = true
      · rw [if_pos ha, hB]
        refine ⟨pushed, p1, p2, ?_⟩
        intro t'
        rw [p3]
        constructor
        · rintro ⟨e', he', h1, h2⟩
          exact ⟨e', List.mem_append_left _ he', h1, h2⟩
        · rintro ⟨e', he', h1, h2⟩
          rcases List.mem_append.mp he' with he' | he'
          · exact ⟨e', he', h1, h2⟩
          · rw [List.mem_singleton] at he'
            subst he'
            rw [ht] at h2
            obtain ⟨e'', he'', h1', h2'⟩ := (hC.2 _ hj).mp ha
            rw [hto] at h2'
            exact ⟨e'', he'', h1'.trans h1, by rw [h2', ← h2]⟩
      · rw [if_neg ha, elemsOf_append _ _ _ _ hA]
        by_cases hq : q = e.1.conProc
        · rw [if_pos hq, hB, ← hq, p1]
          refine ⟨pushed ++ [t], by rw [List.append_assoc], ?_, ?_⟩
          · rw [List.pairwise_append]
            refine ⟨p2, List.pairwise_singleton _ _, ?_⟩
            intro a ha' b hb
            rw [List.mem_singleton] at hb
            subst hb
            obtain ⟨d, hd, hdc, hdt⟩ := (p3 a).mp ha'
            have hle' := (hle d hd).2 (hdc.trans hq) a hdt
            have hne : a ≠ b := by
              intro hab
              apply ha
              apply (hC.2 _ hj).mpr
              refine ⟨d, hd, hdc.trans hq, ?_⟩
              rw [hto, hdt, hab]
            omega
          · intro t'
            rw [List.mem_append, p3, List.mem_singleton]
            constructor
            · rintro (⟨e', he', h1, h2⟩ | h)
              · exact ⟨e', List.mem_append_left _ he', h1, h2⟩
              · exact ⟨e, List.mem_append_right _ (List.mem_singleton.mpr rfl), hq.symm,
                  by rw [ht, h]⟩
            · rintro ⟨e', he', h1, h2⟩
              rcases List.mem_append.mp he' with he' | he'
              · exact Or.inl ⟨e', he', h1, h2⟩
              · rw [List.mem_singleton] at he'
                subst he'
                rw [ht] at h2
                exact Or.inr (Option.some.inj h2).symm
        · rw [if_neg hq, hB]
          refine ⟨pushed, p1, p2, ?_⟩
          intro t'
          rw [p3]
          constructor
          · rintro ⟨e', he', h1, h2⟩
            exact ⟨e', List.mem_append_left _ he', h1, h2⟩
          · rintro ⟨e', he', h1, h2⟩
            rcases List.mem_append.mp he' with he' | he'
            · exact ⟨e', he', h1, h2⟩
            · rw [List.mem_singleton] at he'
              subst he'
              exact absurd h1.symm hq
    · simp only
      refine ⟨by rw [List.length_set]; exact hC.1, ?_, ?_, ?_⟩
      · intro d hd
        rcases List.mem_append.mp hd with hd | hd
        · exact (hle d hd).1
        · rw [List.mem_singleton] at hd
          rw [hd]
      · exact ⟨e, List.mem_append_right _ (List.mem_singleton.mpr rfl), rfl⟩
      · intro j hjn
        by_cases hjj : t - oldSize = j
        · subst hjj
          rw [getD_set_true_self _ _ (by rw [hC.1]; exact hj)]
          constructor
          · intro _
            exact ⟨e, List.mem_append_right _ (List.mem_singleton.mpr rfl), rfl,
              by rw [ht, hto]⟩
          · intro _; rfl
        · rw [getD_set_true_ne _ _ _ hjj, hC.2 j hjn]
          constructor
          · rintro ⟨e', he', h1, h2⟩
            exact ⟨e', List.mem_append_left _ he', h1, h2⟩
          · rintro ⟨e', he', h1, h2⟩
            rcases List.mem_append.mp he' with he' | he'
            · exact ⟨e', he', h1, h2⟩
            · rw [List.mem_singleton] at he'
              subst he'
              rw [ht] at h2
              have := Option.some.inj h2
              omega

/-- The loop over the new connections keeps the invariant of the pushed entries. -/
theorem masterOverlapLoop_pushed (hash : AlgebraIDHashList) (oldSize numNewInds : Nat)
    (slaveProcs : List Nat) (mo0 : IndexLayout) :
    ∀ (cons done : List (ExtCon × block_t)) (st st' : MasterLoop),
      (done ++ cons).Pairwise (fun a b => a.1.conProc ≤ b.1.conProc ∧
        (a.1.conProc = b.1.conProc → ∀ ta tb, hash.get_entry a.1.toID = some ta →
          hash.get_entry b.1.toID = some tb → ta ≤ tb)) →
      (∀ e ∈ cons, ∃ t, hash.get_entry e.1.toID = some t ∧ oldSize ≤ t ∧
        t < oldSize + numNewInds) →
      pushedInv hash oldSize numNewInds mo0 done st →
      masterOverlapLoop hash oldSize numNewInds slaveProcs st cons = .ok st' →
      pushedInv hash oldSize numNewInds mo0 (done ++ cons) st' := by
  intro cons
  induction cons with
  | nil =>
    intro done st st' _ _ hinv h
    simp only [masterOverlapLoop, Except.ok.injEq] at h
    rw [List.append_nil, ← h]
    exact hinv
  | cons e rest ih =>
    intro done st st' hsort hres hinv h
    simp only [masterOverlapLoop] at h
    cases hs : masterOverlapStep hash oldSize numNewInds slaveProcs st e with
    | error err => rw [hs] at h; cases h
    | ok st1 =>
      rw [hs] at h
      obtain ⟨t, ht, ht1, ht2⟩ := hres e (List.mem_cons_self _ _)
      have hle : ∀ d ∈ done, d.1.conProc ≤ e.1.conProc ∧
          (d.1.conProc = e.1.conProc → ∀ td, hash.get_entry d.1.toID = some td → td ≤ t) := by
        intro d hd
        have := (List.pairwise_append.mp hsort).2.2 d hd e (List.mem_cons_self _ _)
        exact ⟨this.1, fun hc td htd => this.2 hc td t htd ht⟩
      have hinv1 := masterOverlapStep_pushed hash oldSize numNewInds slaveProcs mo0 done st st1
        e t hinv hle ht ht1 ht2 hs
      have happ : done ++ e :: rest = (done ++ [e]) ++ rest := by
        rw [List.append_assoc, List.singleton_append]
      rw [happ] at hsort ⊢
      exact ih (done ++ [e]) st1 st' hsort
        (fun e' he' => hres e' (List.mem_cons_of_mem _ he')) hinv1 h

theorem pushedInv_start (hash : AlgebraIDHashList) (oldSize numNewInds : Nat)
    (lay : AlgebraLayouts) (mat : Matrix) (hmo : lay.masterOverlap.isMap) :
    pushedInv hash oldSize numNewInds lay.masterOverlap [] (masterLoopStart lay mat) := by
  refine ⟨hmo, ?_, rfl⟩
  intro q
  refine ⟨[], by simp [masterLoopStart], List.Pairwise.nil, ?_⟩
  intro t
  simp

theorem mapAssign_has (ec : ExtCon) (v : block_t) (l : List (ExtCon × block_t)) :
    ∃ e ∈ mapAssign ec v l, e.1.conProc = ec.conProc ∧ e.1.toID = ec.toID := by
  induction l with
  | nil => exact ⟨(ec, v), by simp [mapAssign], rfl, rfl⟩
  | cons a rest ih =>
    obtain ⟨k, x⟩ := a
    unfold mapAssign
    by_cases h1 : ec.lt k = true
    · rw [if_pos h1]
      exact ⟨(ec, v), List.mem_cons_self _ _, rfl, rfl⟩
    · rw [if_neg h1]
      by_cases h2 : k.lt ec = true
      · rw [if_pos h2]
        obtain ⟨e, he, h⟩ := ih
        exact ⟨e, List.mem_cons_of_mem _ he, h⟩
      · rw [if_neg h2]
        have hequiv : k.equiv ec = true := by
          unfold ExtCon.equiv
          simp only [Bool.not_eq_true] at h1 h2
          rw [h1, h2]
          rfl
        obtain ⟨e1, e2, _⟩ := (extCon_equiv_iff k ec).mp hequiv
        exact ⟨(k, v), List.mem_cons_self _ _, e1, e2⟩

theorem mapAssign_keeps (ec : ExtCon) (v : block_t) (l : List (ExtCon × block_t))
    (e : ExtCon × block_t) (he : e ∈ l) : ∃ e' ∈ mapAssign ec v l, e'.1 = e.1 := by
  induction l with
  | nil => cases he
  | cons a rest ih =>
    obtain ⟨k, x⟩ := a
    unfold mapAssign
    by_cases h1 : ec.lt k = true
    · rw [if_pos h1]
      exact ⟨e, List.mem_cons_of_mem _ he, rfl⟩
    · rw [if_neg h1]
      by_cases h2 : k.lt ec = true
      · rw [if_pos h2]
        rcases List.mem_cons.mp he with he | he
        · exact ⟨(k, x), List.mem_cons_self _ _, by rw [he]⟩
        · obtain ⟨e', he', h⟩ := ih he
          exact ⟨e', List.mem_cons_of_mem _ he', h⟩
      · rw [if_neg h2]
        rcases List.mem_cons.mp he with he | he
        · exact ⟨(k, v), List.mem_cons_self _ _, by rw [he]⟩
        · exact ⟨e, List.mem_cons_of_mem _ he, rfl⟩

theorem applyReceived_keeps (rc : List (Nat × Conn)) :
    ∀ (s : ComPol_MatCreateOverlap) (e : ExtCon × block_t), e ∈ s.m_recvNewCons →
      ∃ e' ∈ (applyReceived rc s).m_recvNewCons, e'.1 = e.1 := by
  induction rc with
  | nil => intro s e he; exact ⟨e, he, rfl⟩
  | cons x rest ih =>
    intro s e he
    have hstep : applyReceived (x :: rest) s =
        applyReceived rest (extractConnection x.2.index x.1 x.2.gID x.2.block s) := rfl
    rw [hstep]
    have hmid : ∃ e' ∈ (extractConnection x.2.index x.1 x.2.gID x.2.block s).m_recvNewCons,
        e'.1 = e.1 := by
      rw [extractConnection_newCons]
      split
      · exact mapAssign_keeps _ _ _ e he
      · exact ⟨e, he, rfl⟩
    obtain ⟨e1, he1, h1⟩ := hmid
    obtain ⟨e2, he2, h2⟩ := ih _ e1 he1
    exact ⟨e2, he2, h2.trans h1⟩

/-- Every received connection whose GlobalID does not resolve has a new connection with
its rank and its GlobalID after the `extract` calls. -/
theorem applyReceived_newCons_has (rc : List (Nat × Conn)) :
    ∀ (s : ComPol_MatCreateOverlap) (x : Nat × Conn), x ∈ rc →
      s.m_algIDHash.get_entry x.2.gID = none →
      ∃ e ∈ (applyReceived rc s).m_recvNewCons, e.1.conProc = x.1 ∧ e.1.toID = x.2.gID := by
  induction rc with
  | nil => intro s x hx; cases hx
  | cons y rest ih =>
    intro s x hx hnone
    have hstep : applyReceived (y :: rest) s =
        applyReceived rest (extractConnection y.2.index y.1 y.2.gID y.2.block s) := rfl
    rw [hstep]
    rcases List.mem_cons.mp hx with hx | hx
    · subst hx
      have hmid : ∃ e ∈ (extractConnection x.2.index x.1 x.2.gID x.2.block s).m_recvNewCons,
          e.1.conProc = x.1 ∧ e.1.toID = x.2.gID := by
        rw [extractConnection_newCons, hnone]
        simp only [Option.isNone_none, if_true]
        exact mapAssign_has _ _ _
      obtain ⟨e1, he1, h1, h1'⟩ := hmid
      obtain ⟨e2, he2, h2⟩ := applyReceived_keeps rest _ e1 he1
      exact ⟨e2, he2, by rw [h2]; exact h1, by rw [h2]; exact h1'⟩
    · apply ih _ x hx
      rw [(extractConnection_frame y.2.index y.1 y.2.gID y.2.block s).1]
      exact hnone

/-- In a strictly ascending list of GlobalIDs the places are ordered as the GlobalIDs. -/
theorem index_lt_iff_of_sorted (ids : List AlgebraID)
    (h : ids.Pairwise (fun a b => a.lt b = true)) (j1 j2 : Nat) (g1 g2 : AlgebraID)
    (h1 : ids[j1]? = some g1) (h2 : ids[j2]? = some g2) :
    j1 < j2 ↔ g1.lt g2 = true := by
  obtain ⟨hj1, e1⟩ := List.getElem?_eq_some.mp h1
  obtain ⟨hj2, e2⟩ := List.getElem?_eq_some.mp h2
  constructor
  · intro hlt
    have := (List.pairwise_iff_getElem.mp h) j1 j2 hj1 hj2 hlt
    rw [e1, e2] at this
    exact this
  · intro hlt
    by_contra hnot
    rcases Nat.lt_or_eq_of_le (Nat.le_of_not_lt hnot) with hgt | heq
    · have := (List.pairwise_iff_getElem.mp h) j2 j1 hj2 hj1 hgt
      rw [e1, e2] at this
      have := algebraID_lt_asymm this
      rw [hlt] at this
      cases this
    · subst heq
      rw [e1] at e2
      subst e2
      rw [algebraID_lt_irrefl] at hlt
      cases hlt

/-- After `extract` calls on a policy that was just constructed and the master part of
`post_process`, every received GlobalID that did not resolve resolves to the index
`oldRows + j`, `j` being its place among the new IDs, and for every rank the entries
pushed to its master-overlap interface are strictly ascending and are exactly the
indices of the GlobalIDs that were received from that rank and did not resolve. -/
theorem master_overlap_pushed (store : LayoutStore) (mat : Matrix) (gids : List AlgebraID)
    (rc : List (Nat × Conn)) (s1 : ComPol_MatCreateOverlap) (r : MasterResult)
    (hs1 : applyReceived rc ⟨mat, gids, GenerateAlgebraIDHashList gids, [], []⟩ = s1)
    (h2 : post_process_master store s1 = .ok r)
    (hmo : (layoutsOf store mat).masterOverlap.isMap) :
    r.pol.m_algIDHash =
      hashInsertFrom (GenerateAlgebraIDHashList gids) s1.m_recvNewIDs mat.numRows ∧
    r.pol.m_mat.numRows = mat.numRows + s1.m_recvNewIDs.length ∧
    s1.m_recvNewIDs.Pairwise (fun a b => a.lt b = true) ∧
    (∀ g, g ∈ s1.m_recvNewIDs ↔ g ∈ unresolvedIDs (GenerateAlgebraIDHashList gids) rc) ∧
    (∀ x ∈ rc, (GenerateAlgebraIDHashList gids).get_entry x.2.gID = none →
      ∃ j, j < s1.m_recvNewIDs.length ∧ s1.m_recvNewIDs[j]? = some x.2.gID ∧
        r.pol.m_algIDHash.get_entry x.2.gID = some (mat.numRows + j)) ∧
    ∀ p, ∃ pushed : List Nat,
      (layoutsOf r.store r.pol.m_mat).masterOverlap.elemsOf p =
        (layoutsOf store mat).masterOverlap.elemsOf p ++ pushed ∧
      pushed.Pairwise (fun a b => a < b) ∧
      ∀ t, t ∈ pushed ↔ ∃ x ∈ rc, x.1 = p ∧
        (GenerateAlgebraIDHashList gids).get_entry x.2.gID = none ∧
        r.pol.m_algIDHash.get_entry x.2.gID = some t := by
  obtain ⟨f1, _, f3, _, f5⟩ :=
    applyReceived_frame rc ⟨mat, gids, GenerateAlgebraIDHashList gids, [], []⟩
  rw [hs1] at f1 f3 f5
  simp only at f1 f3 f5
  have hlay : layoutsOf store s1.m_mat = layoutsOf store mat := by
    unfold layoutsOf
    rw [f5]
  obtain ⟨_, hhash, _, _, hrows, _, _⟩ := post_process_master_frame store s1 r h2
  have hsortedIDs : s1.m_recvNewIDs.Pairwise (fun a b => a.lt b = true) := by
    rw [← hs1]
    exact applyReceived_newIDs_sorted rc _ List.Pairwise.nil
  have hmemIDs : ∀ g, g ∈ s1.m_recvNewIDs ↔
      g ∈ unresolvedIDs (GenerateAlgebraIDHashList gids) rc := by
    intro g
    rw [← hs1, applyReceived_newIDs_mem]
    simp
  have hresx : ∀ x ∈ rc, (GenerateAlgebraIDHashList gids).get_entry x.2.gID = none →
      ∃ j, j < s1.m_recvNewIDs.length ∧ s1.m_recvNewIDs[j]? = some x.2.gID ∧
        r.pol.m_algIDHash.get_entry x.2.gID = some (mat.numRows + j) := by
    intro x hx hnone
    have hmem : x.2.gID ∈ s1.m_recvNewIDs := by
      rw [hmemIDs]
      unfold unresolvedIDs
      refine List.mem_map.mpr ⟨x, List.mem_filter.mpr ⟨hx, ?_⟩, rfl⟩
      rw [hnone]
      rfl
    obtain ⟨j, hj, hj', hg⟩ := get_entry_new s1.m_algIDHash s1.m_recvNewIDs s1.m_mat.numRows
      x.2.gID (by rw [f1]; exact hnone) hmem (sorted_nodup _ hsortedIDs)
    exact ⟨j, hj, hj', by rw [hhash, hg, f3]⟩
  have hrese : ∀ e ∈ s1.m_recvNewCons, ∃ j, j < s1.m_recvNewIDs.length ∧
      s1.m_recvNewIDs[j]? = some e.1.toID ∧
      (hashInsertFrom s1.m_algIDHash s1.m_recvNewIDs s1.m_mat.numRows).get_entry e.1.toID =
        some (s1.m_mat.numRows + j) := by
    intro e he
    obtain ⟨_, _, j, hj, hj', hg⟩ := deferred_resolves mat gids rc s1 hs1 e he
    exact ⟨j, hj, hj', by rw [hg, f3]⟩
  refine ⟨by rw [hhash, f1, f3], by rw [hrows, f3], hsortedIDs, hmemIDs, hresx, ?_⟩
  obtain ⟨fin, hloop, _, hfmo, _, _, _⟩ := post_process_master_loop store s1 r h2
  have hsort : s1.m_recvNewCons.Pairwise (fun a b => a.1.conProc ≤ b.1.conProc ∧
      (a.1.conProc = b.1.conProc → ∀ ta tb,
        (hashInsertFrom s1.m_algIDHash s1.m_recvNewIDs s1.m_mat.numRows).get_entry a.1.toID =
          some ta →
        (hashInsertFrom s1.m_algIDHash s1.m_recvNewIDs s1.m_mat.numRows).get_entry b.1.toID =
          some tb → ta ≤ tb)) := by
    have hrank : s1.m_recvNewCons.Pairwise (fun a b => a.1.rankIdLe b.1) := by
      rw [← hs1]
      exact applyReceived_rankIdSorted rc _ List.Pairwise.nil
    refine List.Pairwise.imp_of_mem ?_ hrank
    intro a b ha hb hab
    unfold ExtCon.rankIdLe at hab
    refine ⟨by omega, ?_⟩
    intro hc ta tb hta htb
    rcases hab with hab | ⟨_, hab⟩
    · omega
    · obtain ⟨ja, _, hja, hga⟩ := hrese a ha
      obtain ⟨jb, _, hjb, hgb⟩ := hrese b hb
      rw [hga] at hta
      rw [hgb] at htb
      have e1 := Option.some.inj hta
      have e2 := Option.some.inj htb
      by_contra hnot
      have hlt : jb < ja := by omega
      have := (index_lt_iff_of_sorted _ hsortedIDs jb ja _ _ hjb hja).mp hlt
      rw [hab] at this
      cases this
  have hinv := masterOverlapLoop_pushed
    (hashInsertFrom s1.m_algIDHash s1.m_recvNewIDs s1.m_mat.numRows) s1.m_mat.numRows
    s1.m_recvNewIDs.length (GetLayoutTargetProcs (layoutsOf store s1.m_mat).master)
    (layoutsOf store s1.m_mat).masterOverlap s1.m_recvNewCons [] _ fin
    (by rw [List.nil_append]; exact hsort)
    (by
      intro e he
      obtain ⟨j, hj, _, hg⟩ := hrese e he
      exact ⟨_, hg, by omega, by omega⟩)
    (pushedInv_start _ _ _ _ _ (by rw [hlay]; exact hmo)) hloop
  obtain ⟨_, i2, _⟩ := hinv
  intro p
  obtain ⟨pushed, p1, p2, p3⟩ := i2 p
  refine ⟨pushed, by rw [hfmo, p1, hlay], p2, ?_⟩
  intro t
  rw [p3, List.nil_append]
  constructor
  · rintro ⟨e, he, hc, hg⟩
    obtain ⟨⟨x, hx, _, hxc, hxg⟩, hnone, _⟩ := deferred_resolves mat gids rc s1 hs1 e he
    refine ⟨x, hx, hxc.symm.trans hc, ?_, ?_⟩
    · rw [← hxg, ← f1]; exact hnone
    · rw [← hxg, hhash]; exact hg
  · rintro ⟨x, hx, hc, hnone, hg⟩
    obtain ⟨e, he, hec, heg⟩ := applyReceived_newCons_has rc
      ⟨mat, gids, GenerateAlgebraIDHashList gids, [], []⟩ x hx hnone
    rw [hs1] at he
    refine ⟨e, he, hec.trans hc, ?_⟩
    rw [heg, ← hhash]
    exact hg

theorem unresolvedIDs_perm (hash : AlgebraIDHashList) (rc rc' : List (Nat × Conn))
    (h : rc'.Perm rc) (g : AlgebraID) :
    g ∈ unresolvedIDs hash rc' ↔ g ∈ unresolvedIDs hash rc := by
  unfold unresolvedIDs
  exact ((h.filter _).map _).mem_iff

/-! ## C24 -/

/-- C24: let a policy be constructed for a matrix and let `extract` read connections.
After the master part of `post_process`, for every target rank `p` the entries appended
to the master-overlap interface for `p` are exactly the appended local indices of the
GlobalIDs that were received from `p` and did not resolve, each index once, in strictly
ascending order of the local indices, which is the strictly ascending order of their
GlobalIDs because the new indices are assigned in ascending GlobalID order; and the
result does not depend on the order in which the connections were received. -/
theorem master_overlap_entries (store : LayoutStore) (mat : Matrix)
    (gids : List AlgebraID) (calls : List (BinaryBuffer × Interface))
    (rc : List (Nat × Conn)) (s0 s1 : ComPol_MatCreateOverlap) (r : MasterResult)
    (h0 : ComPol_MatCreateOverlap.new mat gids = .ok s0)
    (hrc : readCalls calls = some rc)
    (h1 : extractCalls calls s0 = .ok s1)
    (h2 : post_process_master store s1 = .ok r)
    (hmo : (layoutsOf store mat).masterOverlap.isMap) :
    (∀ p, ∃ pushed : List Nat,
      (layoutsOf r.store r.pol.m_mat).masterOverlap.elemsOf p =
        (layoutsOf store mat).masterOverlap.elemsOf p ++ pushed ∧
      pushed.Pairwise (fun a b => a < b) ∧
      (∀ t, t ∈ pushed ↔ ∃ x ∈ rc, x.1 = p ∧
        (GenerateAlgebraIDHashList gids).get_entry x.2.gID = none ∧
        r.pol.m_algIDHash.get_entry x.2.gID = some t) ∧
      ∀ t ∈ pushed, mat.numRows ≤ t ∧ t < r.pol.m_mat.numRows) ∧
    (∀ x ∈ rc, ∀ y ∈ rc, (GenerateAlgebraIDHashList gids).get_entry x.2.gID = none →
      (GenerateAlgebraIDHashList gids).get_entry y.2.gID = none →
      ∀ tx ty, r.pol.m_algIDHash.get_entry x.2.gID = some tx →
        r.pol.m_algIDHash.get_entry y.2.gID = some ty →
        (tx < ty ↔ x.2.gID.lt y.2.gID = true)) ∧
    (∀ (calls' : List (BinaryBuffer × Interface)) (rc' : List (Nat × Conn))
      (s1' : ComPol_MatCreateOverlap) (r' : MasterResult),
      readCalls calls' = some rc' → rc'.Perm rc → extractCalls calls' s0 = .ok s1' →
      post_process_master store s1' = .ok r' →
      r'.pol.m_algIDHash = r.pol.m_algIDHash ∧
      ∀ p, (layoutsOf r'.store r'.pol.m_mat).masterOverlap.elemsOf p =
        (layoutsOf r.store r.pol.m_mat).masterOverlap.elemsOf p) := by
  obtain ⟨hs0, _⟩ := new_ok mat gids s0 h0
  rw [extractCalls_eq, hrc] at h1
  simp only [Except.ok.injEq] at h1
  rw [hs0] at h1
  obtain ⟨hhash, hrows, hsortedIDs, hmemIDs, hresx, hpushed⟩ :=
    master_overlap_pushed store mat gids rc s1 r h1 h2 hmo
  refine ⟨?_, ?_, ?_⟩
  · intro p
    obtain ⟨pushed, p1, p2, p3⟩ := hpushed p
    refine ⟨pushed, p1, p2, p3, ?_⟩
    intro t ht
    obtain ⟨x, hx, _, hnone, hg⟩ := (p3 t).mp ht
    obtain ⟨j, hj, _, hg'⟩ := hresx x hx hnone
    rw [hg'] at hg
    have := Option.some.inj hg
    omega
  · intro x hx y hy hnx hny tx ty htx hty
    obtain ⟨jx, _, hjx, hgx⟩ := hresx x hx hnx
    obtain ⟨jy, _, hjy, hgy⟩ := hresx y hy hny
    rw [hgx] at htx
    rw [hgy] at hty
    have e1 := Option.some.inj htx
    have e2 := Option.some.inj hty
    rw [← index_lt_iff_of_sorted _ hsortedIDs jx jy _ _ hjx hjy]
    omega
  · intro calls' rc' s1' r' hrc' hperm h1' h2'
    rw [extractCalls_eq, hrc'] at h1'
    simp only [Except.ok.injEq] at h1'
    rw [hs0] at h1'
    obtain ⟨hhash', _, hsortedIDs', hmemIDs', _, hpushed'⟩ :=
      master_overlap_pushed store mat gids rc' s1' r' h1' h2' hmo
    have hids : s1'.m_recvNewIDs = s1.m_recvNewIDs := by
      apply sorted_ext (fun a b : AlgebraID => a.lt b = true)
        (fun a b hab hba => by
          have := algebraID_lt_asymm hab
          rw [hba] at this
          cases this) _ _ hsortedIDs' hsortedIDs
      intro g
      rw [hmemIDs', hmemIDs]
      exact unresolvedIDs_perm _ rc rc' hperm g
    have hh : r'.pol.m_algIDHash = r.pol.m_algIDHash := by
      rw [hhash', hhash, hids]
    refine ⟨hh, ?_⟩
    intro p
    obtain ⟨pushed, p1, p2, p3⟩ := hpushed p
    obtain ⟨pushed', p1', p2', p3'⟩ := hpushed' p
    have hpp : pushed' = pushed := by
      apply sorted_ext (fun a b : Nat => a < b) (fun a b hab hba => by omega) _ _ p2' p2
      intro t
      rw [p3', p3, hh]
      constructor
      · rintro ⟨x, hx, h⟩
        exact ⟨x, hperm.mem_iff.mp hx, h⟩
      · rintro ⟨x, hx, h⟩
        exact ⟨x, hperm.mem_iff.mpr hx, h⟩
    rw [p1', p1, hpp]

/-- The witness of C24: the master example receives connections to the two unknown
GlobalIDs (1,0) and (1,1) from rank 1; the indices 2 and 3 are pushed to the
master-overlap interface for rank 1, in this order, also when the two connections are
received in the other order. -/
theorem master_overlap_entries_witness :
    ComPol_MatCreateOverlap.new exMat [⟨0, 0⟩, ⟨0, 1⟩] = .ok exPol ∧
    readCalls [(exTwoNewBuff, exItf)] = some exTwoNewReceived ∧
    extractCalls [(exTwoNewBuff, exItf)] exPol = .ok exTwoNewPol1 ∧
    post_process_master exStore exTwoNewPol1 = .ok exTwoNewMaster ∧
    (layoutsOf exStore exMat).masterOverlap.isMap ∧
    (layoutsOf exTwoNewMaster.store exTwoNewMaster.pol.m_mat).masterOverlap = [⟨1, [2, 3]⟩] ∧
    readCalls [(exTwoNewBuffRev, exItf)] = some exTwoNewReceived.reverse ∧
    (layoutsOf exTwoNewMasterRev.store exTwoNewMasterRev.pol.m_mat).masterOverlap =
      [⟨1, [2, 3]⟩] ∧
    ((∀ p, ∃ pushed : List Nat,
      (layoutsOf exTwoNewMaster.store exTwoNewMaster.pol.m_mat).masterOverlap.elemsOf p =
        (layoutsOf exStore exMat).masterOverlap.elemsOf p ++ pushed ∧
      pushed.Pairwise (fun a b => a < b) ∧
      (∀ t, t ∈ pushed ↔ ∃ x ∈ exTwoNewReceived, x.1 = p ∧
        (GenerateAlgebraIDHashList [⟨0, 0⟩, ⟨0, 1⟩]).get_entry x.2.gID = none ∧
        exTwoNewMaster.pol.m_algIDHash.get_entry x.2.gID = some t) ∧
      ∀ t ∈ pushed, exMat.numRows ≤ t ∧ t < exTwoNewMaster.pol.m_mat.numRows) ∧
    (∀ x ∈ exTwoNewReceived, ∀ y ∈ exTwoNewReceived,
      (GenerateAlgebraIDHashList [⟨0, 0⟩, ⟨0, 1⟩]).get_entry x.2.gID = none →
      (GenerateAlgebraIDHashList [⟨0, 0⟩, ⟨0, 1⟩]).get_entry y.2.gID = none →
      ∀ tx ty, exTwoNewMaster.pol.m_algIDHash.get_entry x.2.gID = some tx →
        exTwoNewMaster.pol.m_algIDHash.get_entry y.2.gID = some ty →
        (tx < ty ↔ x.2.gID.lt y.2.gID = true)) ∧
    (∀ (calls' : List (BinaryBuffer × Interface)) (rc' : List (Nat × Conn))
      (s1' : ComPol_MatCreateOverlap) (r' : MasterResult),
      readCalls calls' = some rc' → rc'.Perm exTwoNewReceived →
      extractCalls calls' exPol = .ok s1' →
      post_process_master exStore s1' = .ok r' →
      r'.pol.m_algIDHash = exTwoNewMaster.pol.m_algIDHash ∧
      ∀ p, (layoutsOf r'.store r'.pol.m_mat).masterOverlap.elemsOf p =
        (layoutsOf exTwoNewMaster.store exTwoNewMaster.pol.m_mat).masterOverlap.elemsOf p)) :=
  ⟨rfl, rfl, rfl, rfl, by simp [layoutsOf, exStore, exMat, exLayouts, IndexLayout.isMap],
    rfl, rfl, rfl,
    master_overlap_entries exStore exMat [⟨0, 0⟩, ⟨0, 1⟩] [(exTwoNewBuff, exItf)]
      exTwoNewReceived exPol exTwoNewPol1 exTwoNewMaster rfl rfl rfl rfl
      (by simp [layoutsOf, exStore, exMat, exLayouts, IndexLayout.isMap])⟩

/-! ## Triple -/

theorem triple_skip {σ : Type} (P : σ → Prop) : Triple P (Step.skip : Step σ) P :=
  fun _ h _ => h

theorem triple_fail {σ : Type} (P Q : σ → Prop) : Triple P (Step.fail : Step σ) Q :=
  fun _ _ h => by cases h

theorem triple_emit {σ : Type} (P : σ → Prop) (e : MGEvent) :
    Triple P (Step.emit e : Step σ) P := fun _ h _ => h

theorem triple_act {σ : Type} (P Q : σ → Prop) (a : MGAction) (f : σ → σ)
    (h : ∀ s, P s → Q (f s)) : Triple P (Step.act a f) Q := fun s hs _ => h s hs

theorem triple_call {σ : Type} (P Q : σ → Prop) (c : MGCall) (g : σ → Bool × σ)
    (h : ∀ s, P s → (g s).1 = true → Q (g s).2) : Triple P (Step.call c g) Q :=
  fun s hs hok => h s hs hok

theorem triple_andThen {σ : Type} (P R Q : σ → Prop) (a b : Step σ)
    (ha : Triple P a R) (hb : Triple R b Q) : Triple P (Step.andThen a b) Q := by
  intro s hs hok
  rw [andThen_ok] at hok
  simp only [Bool.and_eq_true] at hok
  rw [andThen_of_ok a b s hok.1]
  exact hb _ (ha s hs hok.1) hok.2

theorem triple_when {σ : Type} (P : σ → Prop) (cond : Bool) (a : Step σ)
    (ha : Triple P a P) : Triple P (Step.when cond a) P := by
  cases cond
  · exact triple_skip P
  · exact ha

theorem triple_repeat {σ : Type} (P : σ → Prop) (a : Step σ) (ha : Triple P a P) :
    ∀ n, Triple P (Step.repeat a n) P := by
  intro n
  induction n with
  | zero => exact triple_skip P
  | succ n ih => exact triple_andThen P P P _ _ ha ih

theorem triple_of_keeps {σ α : Type} (f : σ → α) (R : α → Prop) (a : Step σ)
    (ha : Keeps f a) : Triple (fun s => R (f s)) a (fun s => R (f s)) := by
  intro s hs _
  show R (f (a s).state)
  rw [ha s]
  exact hs

/-! ## The levels a cycle writes -/

theorem keeps_levelPair_smooth {ε V : Type} (ext : Collaborators ε V) (l lev : Nat) (nu : Int)
    (h : lev ≠ l) :
    Keeps (levelPair lev) (AssembledMultiGridCycle.smooth ext l nu) := by
  unfold AssembledMultiGridCycle.smooth
  apply keeps_repeat
  apply keeps_andThen
  · exact keeps_call _ _ _ (fun s => by
      show (setLev s.m_d l _ lev, s.m_c lev) = _
      rw [setLev_other _ _ _ _ h]
      rfl)
  · exact keeps_act _ _ _ (fun s => by
      show (s.m_d lev, setLev s.m_c l _ lev) = _
      rw [setLev_other _ _ _ _ h]
      rfl)

/-- The body of `lmgc(l)` changes neither the defect nor the correction of a level above
`l`, when the recursive call does not. -/
theorem keeps_levelPair_lmgcBody {ε V : Type} (cyc : AssembledMultiGridCycle)
    (ext : Collaborators ε V) (l lev : Nat) (h : l < lev) (coarse : Step (CycleState ε V))
    (hc : Keeps (levelPair lev) coarse) :
    Keeps (levelPair (ε := ε) (V := V) lev) (lmgcBody cyc ext l coarse) := by
  have h1 : lev ≠ l := by omega
  have h2 : lev ≠ l - 1 := by omega
  have kd : ∀ (a : MGAction) (k : Nat) (g : CycleState ε V → V × ε), lev ≠ k →
      Keeps (levelPair lev) (Step.act a (fun s =>
        { s with m_d := setLev s.m_d k (g s).1, env := (g s).2 })) := by
    intro a k g hk
    exact keeps_act _ _ _ (fun s => by
      show (setLev s.m_d k _ lev, s.m_c lev) = _
      rw [setLev_other _ _ _ _ hk]
      rfl)
  have kc : ∀ (a : MGAction) (k : Nat) (g : CycleState ε V → V × ε), lev ≠ k →
      Keeps (levelPair lev) (Step.act a (fun s =>
        { s with m_c := setLev s.m_c k (g s).1, env := (g s).2 })) := by
    intro a k g hk
    exact keeps_act _ _ _ (fun s => by
      show (s.m_d lev, setLev s.m_c k _ lev) = _
      rw [setLev_other _ _ _ _ hk]
      rfl)
  have ke : ∀ (a : MGAction) (g : CycleState ε V → ε),
      Keeps (levelPair lev) (Step.act a (fun s => { s with env := g s })) := by
    intro a g
    exact keeps_act _ _ _ (fun s => rfl)
  unfold lmgcBody
  refine keeps_andThen _ _ _ (keeps_emit _ _) ?_
  refine keeps_andThen _ _ _ (kc _ l (fun s => (ext.set_zero (s.m_c l), s.env)) h1) ?_
  split
  · unfold lmgcAbove goingDown goingUp
    refine keeps_andThen _ _ _ (keeps_levelPair_smooth ext l lev _ h1) ?_
    refine keeps_andThen _ _ _ (keeps_when _ _ _
      (kd _ (l - 1) (fun s => (ext.ConsistentToUnique (l - 1) (s.m_d (l - 1)), s.env)) h2)) ?_
    refine keeps_andThen _ _ _ (keeps_call _ _ _ (fun s => by
      show (setLev (setLev s.m_d l _) (l - 1) _ lev, s.m_c lev) = _
      rw [setLev_other _ _ _ _ h2, setLev_other _ _ _ _ h1]
      rfl)) ?_
    refine keeps_andThen _ _ _ (keeps_andThen _ _ _ ?_
      (kd _ (l - 1) (fun s => ((ext.communicate s.env (s.m_d (l - 1))).2,
        (ext.communicate s.env (s.m_d (l - 1))).1)) h2)) ?_
    · split
      · exact ke _ _
      · split
        · exact ke _ _
        · exact keeps_skip _
    refine keeps_andThen _ _ _ (keeps_when _ _ _ (keeps_repeat _ _ hc _)) ?_
    refine keeps_andThen _ _ _ (keeps_andThen _ _ _ ?_
      (kc _ (l - 1) (fun s => ((ext.communicate s.env (s.m_c (l - 1))).2,
        (ext.communicate s.env (s.m_c (l - 1))).1)) h2)) ?_
    · split
      · exact keeps_andThen _ _ _ (ke _ _)
          (kc _ (l - 1) (fun s => (ext.set_storage_type _ (s.m_c (l - 1)), s.env)) h2)
      · split
        · exact keeps_andThen _ _ _ (ke _ _)
            (kc _ (l - 1) (fun s => (ext.set_storage_type _ (s.m_c (l - 1)), s.env)) h2)
        · exact keeps_skip _
    refine keeps_andThen _ _ _ (keeps_call _ _ _ (fun s => by
      show (s.m_d lev, setLev s.m_c (l - 1) _ lev) = _
      rw [setLev_other _ _ _ _ h2]
      rfl)) ?_
    refine keeps_andThen _ _ _ (kc _ l (fun s => (ext.add_assign (s.m_c l) (s.m_t l), s.env)) h1) ?_
    refine keeps_andThen _ _ _ (keeps_call _ _ _ (fun s => by
      show (setLev s.m_d l _ lev, s.m_c lev) = _
      rw [setLev_other _ _ _ _ h1]
      rfl)) ?_
    exact keeps_levelPair_smooth ext l lev _ h1
  · split
    · unfold lmgcBase
      refine keeps_andThen _ _ _
        (kd _ l (fun s => (ext.set_storage_type _ (s.m_d l), s.env)) h1) ?_
      refine keeps_andThen _ _ _ (kc _ l (fun s => (ext.set_zero (s.m_c l), s.env)) h1) ?_
      refine keeps_andThen _ _ _ (keeps_call _ _ _ (fun s => by
        show (setLev s.m_d l _ lev, setLev s.m_c l _ lev) = _
        rw [setLev_other _ _ _ _ h1, setLev_other _ _ _ _ h1]
        rfl)) ?_
      refine keeps_andThen _ _ _ (keeps_call _ _ _ (fun s => by
        show (setLev s.m_d l _ lev, setLev s.m_c l _ lev) = _
        rw [setLev_other _ _ _ _ h1, setLev_other _ _ _ _ h1]
        rfl)) ?_
      exact keeps_call _ _ _ (fun s => by
        show (setLev s.m_d l _ lev, setLev s.m_c l _ lev) = _
        rw [setLev_other _ _ _ _ h1, setLev_other _ _ _ _ h1]
        rfl)
    · exact keeps_fail _

/-- The call `lmgc(l)` changes neither the defect nor the correction of a level above
`l`. -/
theorem keeps_levelPair_lmgc {ε V : Type} (cyc : AssembledMultiGridCycle)
    (ext : Collaborators ε V) (lev : Nat) :
    ∀ l, l < lev → Keeps (levelPair (ε := ε) (V := V) lev) (cyc.lmgc ext l) := by
  intro l
  induction l with
  | zero => intro h; exact keeps_levelPair_lmgcBody cyc ext 0 lev h _ (keeps_fail _)
  | succ l ih =>
    intro h
    exact keeps_levelPair_lmgcBody cyc ext (l + 1) lev h _ (ih (by omega))

/-! ## C21 -/

theorem triple_weaken {σ : Type} (P P' Q : σ → Prop) (a : Step σ)
    (h : ∀ s, P' s → P s) (ha : Triple P a Q) : Triple P' a Q :=
  fun s hs hok => ha s (h s hs) hok

/-- The smoothing loop keeps `d + A*c` of its level: each step returns a correction `t`
and leaves the defect `d - A*t`, and `t` is added to `c`. -/
theorem triple_residual_smooth {ε V : Type} [AddCommGroup V] (ext : Collaborators ε V)
    (A : Nat → V →+ V)
    (hadd : ∀ c t, ext.add_assign c t = c + t)
    (hsmooth : ∀ l e d t, (ext.smoother_apply l e d t).1 = true →
      (ext.smoother_apply l e d t).2.2.1 = d - A l (ext.smoother_apply l e d t).2.2.2)
    (lev : Nat) (nu : Int) (D : V) :
    Triple (fun s : CycleState ε V => s.m_d lev + A lev (s.m_c lev) = D)
      (AssembledMultiGridCycle.smooth ext lev nu)
      (fun s => s.m_d lev + A lev (s.m_c lev) = D) := by
  unfold AssembledMultiGridCycle.smooth
  refine triple_repeat _ _ ?_ _
  refine triple_andThen _
    (fun s : CycleState ε V => s.m_d lev + A lev (s.m_t lev) + A lev (s.m_c lev) = D) _ _ _
    ?_ ?_
  · refine triple_call _ _ _ _ ?_
    intro s hs hok
    have hok' : (ext.smoother_apply lev s.env (s.m_d lev) (s.m_t lev)).1 = true := hok
    have hd := hsmooth _ _ _ _ hok'
    show setLev s.m_d lev (ext.smoother_apply lev s.env (s.m_d lev) (s.m_t lev)).2.2.1 lev +
      A lev (setLev s.m_t lev (ext.smoother_apply lev s.env (s.m_d lev) (s.m_t lev)).2.2.2 lev) +
      A lev (s.m_c lev) = D
    rw [setLev_same, setLev_same, hd, ← hs]
    abel
  · refine triple_act _ _ _ _ ?_
    intro s hs
    show s.m_d lev + A lev (setLev s.m_c lev (ext.add_assign (s.m_c lev) (s.m_t lev)) lev) = D
    rw [setLev_same, hadd, map_add, ← hs]
    abel

/-- The body of `lmgc(lev)` ends, when it succeeds, and it succeeds on no level below
the base level, with `d[lev] + A[lev]*c[lev]` equal to the defect on entry, when the recursive call
changes neither the defect nor the correction of the level. -/
theorem triple_residual_lmgcBody {ε V : Type} [AddCommGroup V]
    (cyc : AssembledMultiGridCycle) (ext : Collaborators ε V) (A : Nat → V →+ V)
    (hzero : ∀ v, ext.set_zero v = 0)
    (hadd : ∀ c t, ext.add_assign c t = c + t)
    (hstor : ∀ ty v, ext.set_storage_type ty v = v)
    (hsmooth : ∀ l e d t, (ext.smoother_apply l e d t).1 = true →
      (ext.smoother_apply l e d t).2.2.1 = d - A l (ext.smoother_apply l e d t).2.2.2)
    (hsub : ∀ l e t d, (ext.A_apply_sub l e t d).1 = true →
      (ext.A_apply_sub l e t d).2.2.1 = t ∧ (ext.A_apply_sub l e t d).2.2.2 = d - A l t)
    (hprep : ∀ e u d c, (ext.baseSolver_prepare e u d c).1 = true →
      (ext.baseSolver_prepare e u d c).2.2.2.1 = d)
    (hbase : ∀ e d c, (ext.baseSolver_apply e d c).1 = true →
      (ext.baseSolver_apply e d c).2.2.1 = d)
    (hrestr : ∀ l e dF dC, (ext.I_apply_transposed l e dF dC).1 = true →
      (ext.I_apply_transposed l e dF dC).2.2.1 = dF)
    (lev : Nat) (coarse : Step (CycleState ε V))
    (hc : Keeps (levelPair lev) coarse) (D : V) :
    Triple (fun s : CycleState ε V => s.m_d lev = D) (lmgcBody cyc ext lev coarse)
      (fun s => s.m_d lev + A lev (s.m_c lev) = D) := by
  have hI : ∀ a : Step (CycleState ε V), Keeps (levelPair lev) a →
      Triple (fun s : CycleState ε V => s.m_d lev + A lev (s.m_c lev) = D) a
        (fun s => s.m_d lev + A lev (s.m_c lev) = D) :=
    fun a ha => triple_of_keeps (levelPair lev) (fun p => p.1 + A lev p.2 = D) a ha
  unfold lmgcBody
  refine triple_andThen _ _ _ _ _ (triple_emit _ _) ?_
  refine triple_andThen _ (fun s : CycleState ε V => s.m_d lev = D ∧ s.m_c lev = 0) _ _ _
    (triple_act _ _ _ _ (fun s hs => by
      refine ⟨hs, ?_⟩
      show setLev s.m_c lev (ext.set_zero (s.m_c lev)) lev = 0
      rw [setLev_same, hzero])) ?_
  split
  · rename_i habove
    have h1 : lev ≠ lev - 1 := by omega
    refine triple_weaken (fun s : CycleState ε V => s.m_d lev + A lev (s.m_c lev) = D) _ _ _
      (fun s hs => by
        show s.m_d lev + A lev (s.m_c lev) = D
        rw [hs.2, map_zero, add_zero]
        exact hs.1) ?_
    have kd : ∀ (a : MGAction) (g : CycleState ε V → V × ε),
        Keeps (levelPair lev) (Step.act a (fun s =>
          { s with m_d := setLev s.m_d (lev - 1) (g s).1, env := (g s).2 })) := by
      intro a g
      exact keeps_act _ _ _ (fun s => by
        show (setLev s.m_d (lev - 1) _ lev, s.m_c lev) = _
        rw [setLev_other _ _ _ _ h1]
        rfl)
    have kc : ∀ (a : MGAction) (g : CycleState ε V → V × ε),
        Keeps (levelPair lev) (Step.act a (fun s =>
          { s with m_c := setLev s.m_c (lev - 1) (g s).1, env := (g s).2 })) := by
      intro a g
      exact keeps_act _ _ _ (fun s => by
        show (s.m_d lev, setLev s.m_c (lev - 1) _ lev) = _
        rw [setLev_other _ _ _ _ h1]
        rfl)
    have ke : ∀ (a : MGAction) (g : CycleState ε V → ε),
        Keeps (levelPair lev) (Step.act a (fun s => { s with env := g s })) := by
      intro a g
      exact keeps_act _ _ _ (fun s => rfl)
    unfold lmgcAbove goingDown goingUp
    refine triple_andThen _ _ _ _ _
      (triple_residual_smooth ext A hadd hsmooth lev _ D) ?_
    refine triple_andThen _ _ _ _ _ (hI _ (keeps_when _ _ _
      (kd _ (fun s => (ext.ConsistentToUnique (lev - 1) (s.m_d (lev - 1)), s.env))))) ?_
    refine triple_andThen _ (fun s : CycleState ε V => s.m_d lev + A lev (s.m_c lev) = D) _ _ _
      (triple_call _ _ _ _ (fun s hs hok => by
        have hok' : (ext.I_apply_transposed (lev - 1) s.env (s.m_d lev)
            (s.m_d (lev - 1))).1 = true := hok
        have hd := hrestr _ _ _ _ hok'
        show setLev (setLev s.m_d lev (ext.I_apply_transposed (lev - 1) s.env (s.m_d lev)
            (s.m_d (lev - 1))).2.2.1) (lev - 1) _ lev + A lev (s.m_c lev) = D
        rw [setLev_other _ _ _ _ h1, setLev_same, hd]
        exact hs)) ?_
    refine triple_andThen _ _ _ _ _ (hI _ (keeps_andThen _ _ _ ?_
      (kd _ (fun s => ((ext.communicate s.env (s.m_d (lev - 1))).2,
        (ext.communicate s.env (s.m_d (lev - 1))).1))))) ?_
    · split
      · exact ke _ _
      · split
        · exact ke _ _
        · exact keeps_skip _
    refine triple_andThen _ _ _ _ _ (hI _ (keeps_when _ _ _ (keeps_repeat _ _ hc _))) ?_
    refine triple_andThen _ _ _ _ _ (hI _ (keeps_andThen _ _ _ ?_
      (kc _ (fun s => ((ext.communicate s.env (s.m_c (lev - 1))).2,
        (ext.communicate s.env (s.m_c (lev - 1))).1))))) ?_
    · split
      · exact keeps_andThen _ _ _ (ke _ _)
          (kc _ (fun s => (ext.set_storage_type _ (s.m_c (lev - 1)), s.env)))
      · split
        · exact keeps_andThen _ _ _ (ke _ _)
            (kc _ (fun s => (ext.set_storage_type _ (s.m_c (lev - 1)), s.env)))
        · exact keeps_skip _
    refine triple_andThen _ _ _ _ _ (hI _ (keeps_call _ _ _ (fun s => by
      show (s.m_d lev, setLev s.m_c (lev - 1) _ lev) = _
      rw [setLev_other _ _ _ _ h1]
      rfl))) ?_
    refine triple_andThen _
      (fun s : CycleState ε V => s.m_d lev + A lev (s.m_c lev) - A lev (s.m_t lev) = D) _ _ _
      (triple_act _ _ _ _ (fun s hs => by
        show s.m_d lev + A lev (setLev s.m_c lev (ext.add_assign (s.m_c lev) (s.m_t lev)) lev) -
          A lev (s.m_t lev) = D
        rw [setLev_same, hadd, map_add, ← hs]
        abel)) ?_
    refine triple_andThen _ (fun s : CycleState ε V => s.m_d lev + A lev (s.m_c lev) = D) _ _ _
      (triple_call _ _ _ _ (fun s hs hok => by
        have hok' : (ext.A_apply_sub lev s.env (s.m_t lev) (s.m_d lev)).1 = true := hok
        obtain ⟨_, hd⟩ := hsub _ _ _ _ hok'
        show setLev s.m_d lev (ext.A_apply_sub lev s.env (s.m_t lev) (s.m_d lev)).2.2.2 lev +
          A lev (s.m_c lev) = D
        rw [setLev_same, hd, ← hs]
        abel)) ?_
    exact triple_residual_smooth ext A hadd hsmooth lev _ D
  · split
    · refine triple_weaken (fun s : CycleState ε V => s.m_d lev = D) _ _ _
        (fun s hs => hs.1) ?_
      unfold lmgcBase
      refine triple_andThen _ (fun s : CycleState ε V => s.m_d lev = D) _ _ _
        (triple_act _ _ _ _ (fun s hs => by
          show setLev s.m_d lev (ext.set_storage_type _ (s.m_d lev)) lev = D
          rw [setLev_same, hstor]
          exact hs)) ?_
      refine triple_andThen _ (fun s : CycleState ε V => s.m_d lev = D) _ _ _
        (triple_act _ _ _ _ (fun s hs => hs)) ?_
      refine triple_andThen _ (fun s : CycleState ε V => s.m_d lev = D) _ _ _
        (triple_call _ _ _ _ (fun s hs hok => by
          have hok' : (ext.baseSolver_prepare s.env (s.m_u lev) (s.m_d lev)
              (s.m_c lev)).1 = true := hok
          have hd := hprep _ _ _ _ hok'
          show setLev s.m_d lev (ext.baseSolver_prepare s.env (s.m_u lev) (s.m_d lev)
            (s.m_c lev)).2.2.2.1 lev = D
          rw [setLev_same, hd]
          exact hs)) ?_
      refine triple_andThen _ (fun s : CycleState ε V => s.m_d lev = D) _ _ _
        (triple_call _ _ _ _ (fun s hs hok => by
          have hok' : (ext.baseSolver_apply s.env (s.m_d lev) (s.m_c lev)).1 = true := hok
          have hd := hbase _ _ _ hok'
          show setLev s.m_d lev (ext.baseSolver_apply s.env (s.m_d lev)
            (s.m_c lev)).2.2.1 lev = D
          rw [setLev_same, hd]
          exact hs)) ?_
      exact triple_call _ _ _ _ (fun s hs hok => by
        have hok' : (ext.A_apply_sub lev s.env (s.m_c lev) (s.m_d lev)).1 = true := hok
        obtain ⟨hc', hd⟩ := hsub _ _ _ _ hok'
        show setLev s.m_d lev (ext.A_apply_sub lev s.env (s.m_c lev) (s.m_d lev)).2.2.2 lev +
          A lev (setLev s.m_c lev (ext.A_apply_sub lev s.env (s.m_c lev)
            (s.m_d lev)).2.2.1 lev) = D
        rw [setLev_same, setLev_same, hd, hc', ← hs]
        abel)
    · exact triple_fail _ _

/-- C21: the residual-correction invariant. Let `A[lev]` be additive, let `set(0.0)` give
the zero vector, `c += t` add, and `set_storage_type` keep the values; let each
successful smoother step return a correction `t` and leave the defect `d - A*t`, let a
successful `apply_sub(t, d)` leave `t` and compute `d - A*t`, and let neither the base
solver nor the restriction modify the defect they read. Then for every level
`lev >= baseLevel` a successful `lmgc(lev)` ends with `d[lev] + A[lev]*c[lev]` equal to
the value `d[lev]` had on entry, for every `nu1`, `nu2` and `cycle_type`; on a level
below the base level `lmgc` does not succeed. -/
theorem residual_correction_invariant {ε V : Type} [AddCommGroup V]
    (cyc : AssembledMultiGridCycle) (ext : Collaborators ε V) (A : Nat → V →+ V)
    (hzero : ∀ v, ext.set_zero v = 0)
    (hadd : ∀ c t, ext.add_assign c t = c + t)
    (hstor : ∀ ty v, ext.set_storage_type ty v = v)
    (hsmooth : ∀ l e d t, (ext.smoother_apply l e d t).1 = true →
      (ext.smoother_apply l e d t).2.2.1 = d - A l (ext.smoother_apply l e d t).2.2.2)
    (hsub : ∀ l e t d, (ext.A_apply_sub l e t d).1 = true →
      (ext.A_apply_sub l e t d).2.2.1 = t ∧ (ext.A_apply_sub l e t d).2.2.2 = d - A l t)
    (hprep : ∀ e u d c, (ext.baseSolver_prepare e u d c).1 = true →
      (ext.baseSolver_prepare e u d c).2.2.2.1 = d)
    (hbase : ∀ e d c, (ext.baseSolver_apply e d c).1 = true →
      (ext.baseSolver_apply e d c).2.2.1 = d)
    (hrestr : ∀ l e dF dC, (ext.I_apply_transposed l e dF dC).1 = true →
      (ext.I_apply_transposed l e dF dC).2.2.1 = dF)
    (lev : Nat) (s : CycleState ε V)
    (hok : (cyc.lmgc ext lev s).ok = true) :
    cyc.m_baseLevel ≤ lev ∧
    (cyc.lmgc ext lev s).state.m_d lev + A lev ((cyc.lmgc ext lev s).state.m_c lev) =
      s.m_d lev := by
  constructor
  · by_contra hlt
    have hbody : ∀ coarse : Step (CycleState ε V), (lmgcBody cyc ext lev coarse s).ok = false := by
      intro coarse
      unfold lmgcBody
      rw [if_neg (by omega), if_neg (by omega), andThen_ok, andThen_ok]
      simp [Step.fail]
    cases lev with
    | zero =>
      have := hbody Step.fail
      unfold AssembledMultiGridCycle.lmgc at hok
      rw [this] at hok
      cases hok
    | succ l =>
      have := hbody (cyc.lmgc ext l)
      unfold AssembledMultiGridCycle.lmgc at hok
      rw [this] at hok
      cases hok
  · cases lev with
    | zero =>
      exact triple_residual_lmgcBody cyc ext A hzero hadd hstor hsmooth hsub hprep hbase
        hrestr 0 _ (keeps_fail _) (s.m_d 0) s rfl hok
    | succ l =>
      exact triple_residual_lmgcBody cyc ext A hzero hadd hstor hsmooth hsub hprep hbase
        hrestr (l + 1) _ (keeps_levelPair_lmgc cyc ext (l + 1) l (by omega)) (s.m_d (l + 1)) s
        rfl hok

/-- The witness of C21: the W-cycle on three levels with the example collaborators, for
which `A` is the identity, started on level 2 with the defect 5: it ends with the
defect 1 and the correction 4. -/
theorem residual_correction_invariant_witness :
    (threeLevelW.lmgc exCollab 2 (exLevelDefect 5)).ok = true ∧
    (threeLevelW.lmgc exCollab 2 (exLevelDefect 5)).state.m_d 2 = 1 ∧
    (threeLevelW.lmgc exCollab 2 (exLevelDefect 5)).state.m_c 2 = 4 ∧
    (threeLevelW.m_baseLevel ≤ 2 ∧
    (threeLevelW.lmgc exCollab 2 (exLevelDefect 5)).state.m_d 2 +
      AddMonoidHom.id Int ((threeLevelW.lmgc exCollab 2 (exLevelDefect 5)).state.m_c 2) =
      (exLevelDefect 5).m_d 2) :=
  ⟨rfl, rfl, rfl,
    residual_correction_invariant threeLevelW exCollab (fun _ => AddMonoidHom.id Int)
      (fun _ => rfl) (fun _ _ => rfl) (fun _ _ => rfl) (fun _ _ _ _ _ => rfl)
      (fun _ _ _ _ _ => ⟨rfl, rfl⟩) (fun _ _ _ _ _ => rfl) (fun _ _ _ _ => rfl)
      (fun _ _ _ _ _ => rfl) 2 (exLevelDefect 5) rfl⟩

/-! ## C22 -/

/-- The events of the body of `lmgc(lev)`, for a level from the base level to the
surface level, are in range when the events of the recursive call are. -/
theorem allEv_ok_lmgcBody {ε V : Type} (cyc : AssembledMultiGridCycle)
    (ext : Collaborators ε V) (lev : Nat) (coarse : Step (CycleState ε V))
    (h1 : cyc.m_baseLevel ≤ lev) (h2 : lev ≤ cyc.m_surfaceLevel)
    (hc : lev > cyc.m_baseLevel → AllEv (lmgcEventOk cyc) coarse) :
    AllEv (lmgcEventOk cyc) (lmgcBody cyc ext lev coarse) := by
  have hsm : ∀ nu, lev > cyc.m_baseLevel →
      AllEv (lmgcEventOk cyc) (AssembledMultiGridCycle.smooth ext lev nu) := by
    intro nu hl
    unfold AssembledMultiGridCycle.smooth
    refine allEv_repeat _ _ (allEv_andThen _ _ _ (allEv_call _ _ _ (fun ok => ?_))
      (allEv_act _ _ _ ?_)) _
    · refine ⟨(fun k h => by cases h), ?_⟩
      simp [derefs, filledRange]
      omega
    · refine ⟨(fun k h => by cases h), ?_⟩
      simp [derefs, filledRange]
      omega
  unfold lmgcBody
  refine allEv_andThen _ _ _ (allEv_emit _ _ ?_) ?_
  · refine ⟨fun k h => ?_, ?_⟩
    · cases h
      exact ⟨h1, h2⟩
    · simp [derefs]
  refine allEv_andThen _ _ _ (allEv_act _ _ _ ?_) ?_
  · refine ⟨(fun k h => by cases h), ?_⟩
    simp [derefs, filledRange]
    omega
  by_cases hl : lev > cyc.m_baseLevel
  · rw [if_pos hl]
    unfold lmgcAbove goingDown goingUp
    refine allEv_andThen _ _ _ (hsm _ hl) ?_
    refine allEv_andThen _ _ _ (allEv_when _ _ _ (allEv_act _ _ _ ?_)) ?_
    · refine ⟨(fun k h => by cases h), ?_⟩
      simp [derefs, filledRange]
      omega
    refine allEv_andThen _ _ _ (allEv_call _ _ _ (fun ok => ?_)) ?_
    · refine ⟨(fun k h => by cases h), ?_⟩
      simp [derefs, filledRange]
      omega
    refine allEv_andThen _ _ _ (allEv_andThen _ _ _ ?_ (allEv_act _ _ _ ?_)) ?_
    · split
      · refine allEv_act _ _ _ ⟨(fun k h => by cases h), ?_⟩
        simp [derefs, filledRange]
        omega
      · split
        · refine allEv_act _ _ _ ⟨(fun k h => by cases h), ?_⟩
          simp [derefs, filledRange]
          omega
        · exact allEv_skip _
    · refine ⟨(fun k h => by cases h), ?_⟩
      simp [derefs, filledRange]
      omega
    refine allEv_andThen _ _ _ (allEv_when _ _ _ (allEv_repeat _ _ (hc hl) _)) ?_
    refine allEv_andThen _ _ _ (allEv_andThen _ _ _ ?_ (allEv_act _ _ _ ?_)) ?_
    · have hst : ∀ ty, lmgcEventOk cyc (.action (.c_set_storage_type (lev - 1) ty)) := by
        intro ty
        refine ⟨(fun k h => by cases h), ?_⟩
        simp [derefs, filledRange]
        omega
      split
      · refine allEv_andThen _ _ _ (allEv_act _ _ _ ⟨(fun k h => by cases h), ?_⟩)
          (allEv_act _ _ _ (hst _))
        simp [derefs, filledRange]
        omega
      · split
        · refine allEv_andThen _ _ _ (allEv_act _ _ _ ⟨(fun k h => by cases h), ?_⟩)
            (allEv_act _ _ _ (hst _))
          simp [derefs, filledRange]
          omega
        · exact allEv_skip _
    · refine ⟨(fun k h => by cases h), ?_⟩
      simp [derefs, filledRange]
      omega
    refine allEv_andThen _ _ _ (allEv_call _ _ _ (fun ok => ?_)) ?_
    · refine ⟨(fun k h => by cases h), ?_⟩
      simp [derefs, filledRange]
      omega
    refine allEv_andThen _ _ _ (allEv_act _ _ _ ?_) ?_
    · refine ⟨(fun k h => by cases h), ?_⟩
      simp [derefs, filledRange]
      omega
    refine allEv_andThen _ _ _ (allEv_call _ _ _ (fun ok => ?_)) ?_
    · refine ⟨(fun k h => by cases h), ?_⟩
      simp [derefs, filledRange]
      omega
    exact hsm _ hl
  · rw [if_neg hl]
    have he : lev = cyc.m_baseLevel := by omega
    rw [if_pos he]
    unfold lmgcBase
    refine allEv_andThen _ _ _ (allEv_act _ _ _ ?_) ?_
    · refine ⟨(fun k h => by cases h), ?_⟩
      simp [derefs, filledRange]
      omega
    refine allEv_andThen _ _ _ (allEv_act _ _ _ ?_) ?_
    · refine ⟨(fun k h => by cases h), ?_⟩
      simp [derefs, filledRange]
      omega
    refine allEv_andThen _ _ _ (allEv_call _ _ _ (fun ok => ?_)) ?_
    · refine ⟨(fun k h => by cases h), ?_⟩
      simp [derefs, filledRange]
      omega
    refine allEv_andThen _ _ _ (allEv_call _ _ _ (fun ok => ?_)) ?_
    · refine ⟨(fun k h => by cases h), ?_⟩
      simp [derefs, filledRange]
      omega
    refine allEv_call _ _ _ (fun ok => ?_)
    refine ⟨(fun k h => by cases h), ?_⟩
    simp [derefs, filledRange]
    omega

/-- The events of `lmgc(lev)`, for a level from the base level to the surface level, are
in range. -/
theorem allEv_ok_lmgc {ε V : Type} (cyc : AssembledMultiGridCycle)
    (ext : Collaborators ε V) :
    ∀ lev, cyc.m_baseLevel ≤ lev → lev ≤ cyc.m_surfaceLevel →
      AllEv (lmgcEventOk cyc) (cyc.lmgc ext lev) := by
  intro lev
  induction lev with
  | zero =>
    intro h1 h2
    exact allEv_ok_lmgcBody cyc ext 0 _ h1 h2 (fun _ => allEv_fail _)
  | succ l ih =>
    intro h1 h2
    exact allEv_ok_lmgcBody cyc ext (l + 1) _ h1 h2 (fun hl => ih (by omega) (by omega))

theorem triple_of_acts {σ α : Type} (f : σ → α) (a : Step σ) (g : α → α) (v : α)
    (h : Acts f a g) : Triple (fun s => f s = v) a (fun s => f s = g v) := by
  intro s hs _
  show f (a s).state = g v
  rw [h s, hs]

theorem triple_keep_eq {σ α : Type} (f : σ → α) (a : Step σ) (v : α) (h : Keeps f a) :
    Triple (fun s => f s = v) a (fun s => f s = v) :=
  triple_of_keeps f (fun x => x = v) a h

theorem triple_forEach_eq {σ α : Type} (f : σ → α) (body : Nat → Step σ) (G : Nat → α → α)
    (h : ∀ lev v, Triple (fun s => f s = v) (body lev) (fun s => f s = G lev v)) :
    ∀ (levs : List Nat) (v : α),
      Triple (fun s => f s = v) (Step.forEach body levs)
        (fun s => f s = levs.foldl (fun acc lev => G lev acc) v) := by
  intro levs
  induction levs with
  | nil => intro v; exact triple_skip _
  | cons lev rest ih =>
    intro v
    exact triple_andThen _ _ _ _ _ (h lev v) (ih (G lev v))

theorem acts_createStep {ε : Type} (K kind : ObjKind) (lev : Nat)
    (store : Controller ε → Ptr → Controller ε)
    (h : ∀ s, (store s (.obj lev kind)).vec K = createEff K kind lev (s.vec K)) :
    Acts (fun s : Controller ε => s.vec K) (createStep lev kind store) (createEff K kind lev) :=
  fun s => h s

/-- The vector of a kind after `allocate_memory`. -/
theorem allocate_memory_vec {ε : Type} (cyc : AssembledMultiGridCycle) (K : ObjKind)
    (v : List Ptr) :
    Triple (fun s : Controller ε => s.vec K = v) cyc.allocate_memory
      (fun s => s.vec K = allocVec cyc K v) := by
  unfold AssembledMultiGridCycle.allocate_memory allocVec
  refine triple_andThen _ _ _ _ _ (triple_of_acts (fun s : Controller ε => s.vec K) _
    (resizeEff K [.u, .c, .t, .d] (cyc.m_surfaceLevel + 1)) v
    (fun s => by cases K <;> rfl)) ?_
  refine triple_andThen _ _ _ _ _ (triple_of_acts (fun s : Controller ε => s.vec K) _ _ _
    (acts_createStep K .u _ _ (fun s => by cases K <;> rfl))) ?_
  refine triple_andThen _ _ _ _ _ (triple_of_acts (fun s : Controller ε => s.vec K) _ _ _
    (acts_createStep K .c _ _ (fun s => by cases K <;> rfl))) ?_
  refine triple_andThen _ _ _ _ _ (triple_of_acts (fun s : Controller ε => s.vec K) _ _ _
    (acts_createStep K .t _ _ (fun s => by cases K <;> rfl))) ?_
  refine triple_andThen _ _ _ _ _ (triple_of_acts (fun s : Controller ε => s.vec K) _ _ _
    (acts_createStep K .d _ _ (fun s => by cases K <;> rfl))) ?_
  refine triple_andThen _ _ _ _ _ (triple_forEach_eq (fun s : Controller ε => s.vec K) _
    (fun lev acc => createEff K .d lev (createEff K .t lev
      (createEff K .c lev (createEff K .u lev acc)))) (fun lev w => ?_) _ _) ?_
  · refine triple_andThen _ _ _ _ _ (triple_of_acts (fun s : Controller ε => s.vec K) _ _ _
      (acts_createStep K .u _ _ (fun s => by cases K <;> rfl))) ?_
    refine triple_andThen _ _ _ _ _ (triple_of_acts (fun s : Controller ε => s.vec K) _ _ _
      (acts_createStep K .c _ _ (fun s => by cases K <;> rfl))) ?_
    refine triple_andThen _ _ _ _ _ (triple_of_acts (fun s : Controller ε => s.vec K) _ _ _
      (acts_createStep K .t _ _ (fun s => by cases K <;> rfl))) ?_
    exact triple_of_acts (fun s : Controller ε => s.vec K) _ _ _
      (acts_createStep K .d _ _ (fun s => by cases K <;> rfl))
  refine triple_andThen _ _ _ _ _ (triple_of_acts (fun s : Controller ε => s.vec K) _
    (fun w => resizeEff K [.A] (cyc.m_surfaceLevel + 1)
      (resizeEff K [.I, .P] cyc.m_surfaceLevel w)) _
    (fun s => by cases K <;> rfl)) ?_
  refine triple_andThen _ _ _ _ _ (triple_forEach_eq (fun s : Controller ε => s.vec K) _
    (fun lev acc => createEff K .A lev (createEff K .P lev (createEff K .I lev acc)))
    (fun lev w => ?_) _ _) ?_
  · refine triple_andThen _ _ _ _ _ (triple_of_acts (fun s : Controller ε => s.vec K) _ _ _
      (acts_createStep K .I _ _ (fun s => by cases K <;> rfl))) ?_
    refine triple_andThen _ _ _ _ _ (triple_of_acts (fun s : Controller ε => s.vec K) _ _ _
      (acts_createStep K .P _ _ (fun s => by cases K <;> rfl))) ?_
    exact triple_of_acts (fun s : Controller ε => s.vec K) _ _ _
      (acts_createStep K .A _ _ (fun s => by cases K <;> rfl))
  refine triple_andThen _ _ _ _ _ (triple_of_acts (fun s : Controller ε => s.vec K) _
    (resizeEff K [.smoother] (cyc.m_surfaceLevel + 1)) _
    (fun s => by cases K <;> rfl)) ?_
  refine triple_andThen _ _ _ _ _ (triple_forEach_eq (fun s : Controller ε => s.vec K) _
    (fun lev acc => if lev = 0 then acc else createEff K .smoother lev acc)
    (fun lev w => ?_) _ _) ?_
  · by_cases h0 : lev = 0
    · simp only [h0, if_true]
      exact triple_skip _
    · simp only [h0, if_false]
      exact triple_of_acts (fun s : Controller ε => s.vec K) _ _ _
        (acts_createStep K .smoother _ _ (fun s => by cases K <;> rfl))
  exact triple_keep_eq (fun s : Controller ε => s.vec K) _ _ (fun s => by cases K <;> rfl)

theorem foldl_keep {α : Type} (levs : List Nat) (v : α) :
    levs.foldl (fun acc _ => acc) v = v := by
  induction levs with
  | nil => rfl
  | cons a rest ih => simp [ih]

theorem getElem?_foldl_setIf (c : Nat → Prop) [DecidablePred c] (f : Nat → Ptr) :
    ∀ (levs : List Nat) (xs : List Ptr) (k : Nat),
      (levs.foldl (fun acc lev => if c lev then acc else acc.set lev (f lev)) xs)[k]? =
        if k ∈ levs ∧ ¬ c k ∧ k < xs.length then some (f k) else xs[k]? := by
  intro levs
  induction levs with
  | nil => intro xs k; simp
  | cons lev rest ih =>
    intro xs k
    rw [List.foldl_cons, ih]
    by_cases hc : c lev
    · rw [if_pos hc]
      by_cases hk : k ∈ rest ∧ ¬ c k ∧ k < xs.length
      · rw [if_pos hk, if_pos ⟨List.mem_cons_of_mem _ hk.1, hk.2⟩]
      · rw [if_neg hk, if_neg]
        rintro ⟨h1, h2, h3⟩
        rcases List.mem_cons.mp h1 with h | h
        · subst h
          exact h2 hc
        · exact hk ⟨h, h2, h3⟩
    · rw [if_neg hc, List.length_set]
      by_cases hk : k ∈ rest ∧ ¬ c k ∧ k < xs.length
      · rw [if_pos hk, if_pos ⟨List.mem_cons_of_mem _ hk.1, hk.2⟩]
      · rw [if_neg hk]
        by_cases hkl : k = lev
        · subst hkl
          by_cases hlen : k < xs.length
          · rw [if_pos ⟨List.mem_cons_self _ _, hc, hlen⟩]
            simp [List.getElem?_set_self, hlen]
          · rw [if_neg (fun h => hlen h.2.2)]
            rw [List.getElem?_eq_none (by rw [List.length_set]; omega),
              List.getElem?_eq_none (by omega)]
        · rw [if_neg, List.getElem?_set_ne (Ne.symm hkl)]
          rintro ⟨h1, h2, h3⟩
          rcases List.mem_cons.mp h1 with h | h
          · exact hkl h
          · exact hk ⟨h, h2, h3⟩

theorem getElem?_foldl_set (f : Nat → Ptr) (levs : List Nat) (xs : List Ptr) (k : Nat) :
    (levs.foldl (fun acc lev => acc.set lev (f lev)) xs)[k]? =
      if k ∈ levs ∧ k < xs.length then some (f k) else xs[k]? := by
  have := getElem?_foldl_setIf (fun _ => False) f levs xs k
  simpa using this

theorem mem_coarseLevels_iff (cyc : AssembledMultiGridCycle) (k : Nat) :
    k ∈ cyc.coarseLevels ↔ cyc.m_baseLevel ≤ k ∧ k < cyc.m_surfaceLevel := by
  unfold AssembledMultiGridCycle.coarseLevels
  rw [List.mem_range'_1]
  omega

/-- After `allocate_memory` on a controller that was just constructed, every vector
holds the object of the level at every index of its filled range. -/
theorem allocate_memory_filled {ε : Type} (cyc : AssembledMultiGridCycle) (env : ε)
    (K : ObjKind) (k : Nat) (hp : filledRange cyc (K, k)) :
    ((cyc.allocate_memory (Controller.new env)).state.vec K)[k]? = some (.obj k K) := by
  have hv : (cyc.allocate_memory (Controller.new env)).state.vec K =
      allocVec cyc K ((Controller.new env).vec K) :=
    allocate_memory_vec cyc K _ (Controller.new env) rfl (succeeds_allocate_memory cyc _)
  rw [hv]
  cases K <;>
    simp only [filledRange] at hp <;>
    simp [allocVec, createEff, resizeEff, foldl_keep, Controller.new, Controller.vec,
      getElem?_foldl_set, getElem?_foldl_setIf, mem_coarseLevels_iff, length_resize,
      List.mem_range'_1] <;>
    intro h
  case A => exfalso; omega
  case I => exfalso; omega
  case P => exfalso; omega
  case smoother => exfalso; omega
  all_goals
    have hk : k = cyc.m_surfaceLevel := by omega
    subst hk
    simp [List.getElem?_set_self, length_resize]

/-- After `allocate_memory` on a controller that was just constructed, the place of the
surface level in `m_A` holds `NULL`. -/
theorem allocate_memory_A_surface {ε : Type} (cyc : AssembledMultiGridCycle) (env : ε) :
    ((cyc.allocate_memory (Controller.new env)).state.m_A)[cyc.m_surfaceLevel]? =
      some Ptr.null := by
  have hv : (cyc.allocate_memory (Controller.new env)).state.vec .A =
      allocVec cyc .A ((Controller.new env).vec .A) :=
    allocate_memory_vec cyc .A _ (Controller.new env) rfl (succeeds_allocate_memory cyc _)
  have hv' : (cyc.allocate_memory (Controller.new env)).state.m_A =
      allocVec cyc .A ((Controller.new env).vec .A) := hv
  rw [hv']
  simp [allocVec, createEff, resizeEff, foldl_keep, Controller.new, Controller.vec,
    getElem?_foldl_set, mem_coarseLevels_iff, length_resize, resize]

/-- A successful run of the part of `prepare` after the allocation assigns `m_Op` to the
place of the surface level in `m_A` and leaves the other places. -/
theorem prepareOperators_m_A {ε : Type} (cyc : AssembledMultiGridCycle)
    (ext : PrepareCollaborators ε) (reallocated : Bool) (v : List Ptr) :
    Triple (fun s : Controller ε => s.m_A = v) (prepareOperators cyc ext reallocated)
      (fun s => s.m_A = v.set cyc.m_surfaceLevel Ptr.m_Op) := by
  have hc : ∀ c, Keeps (fun s : Controller ε => s.m_A) (prepareCall ext c) :=
    fun c => keeps_call _ _ _ (fun _ => rfl)
  have hk : ∀ (a : Step (Controller ε)) (w : List Ptr),
      Keeps (fun s : Controller ε => s.m_A) a →
      Triple (fun s : Controller ε => s.m_A = w) a (fun s => s.m_A = w) :=
    fun a w h => triple_keep_eq (fun s : Controller ε => s.m_A) a w h
  unfold prepareOperators
  refine triple_andThen _ _ _ _ _ (hk _ _ (keeps_act _ _ _ (fun _ => rfl))) ?_
  refine triple_andThen _ _ _ _ _ (hk _ _ (keeps_when _ _ _ (keeps_forEach _ _ (fun lev =>
    keeps_andThen _ _ _ (hc _) (hc _)) _))) ?_
  refine triple_andThen _ _ _ _ _ (hk _ _ (keeps_forEach _ _ (fun lev => hc _) _)) ?_
  refine triple_andThen _ _ _ _ _ (hk _ _ (keeps_forEach _ _ (fun lev => hc _) _)) ?_
  refine triple_andThen _ _ _ _ _ (hk _ _ (keeps_forEach _ _ (fun lev =>
    keeps_andThen _ _ _ (hc _) (hc _)) _)) ?_
  refine triple_andThen _ (fun s : Controller ε => s.m_A = v.set cyc.m_surfaceLevel Ptr.m_Op)
    _ _ _ (triple_act _ _ _ _ (fun s hs => by
      show s.m_A.set cyc.m_surfaceLevel Ptr.m_Op = _
      rw [hs])) ?_
  refine triple_andThen _ _ _ _ _ (hk _ _ (hc _)) ?_
  refine triple_andThen _ _ _ _ _ (hk _ _ (hc _)) ?_
  exact hk _ _ (hc _)

/-- A successful `prepare` on a controller that was just constructed passed the check of
the levels, leaves every vector but `m_A` as `allocate_memory` filled it, and assigns
`m_Op` to the place of the surface level in `m_A`. -/
theorem prepare_new_vec {ε : Type} (cyc : AssembledMultiGridCycle) (grid : GridInfo)
    (ext : PrepareCollaborators ε) (env : ε)
    (hok : (cyc.prepare grid ext (Controller.new env)).ok = true) :
    cyc.m_baseLevel ≤ cyc.m_surfaceLevel ∧
    (∀ K, K ≠ ObjKind.A →
      (cyc.prepare grid ext (Controller.new env)).state.vec K =
        (cyc.allocate_memory (Controller.new env)).state.vec K) ∧
    (cyc.prepare grid ext (Controller.new env)).state.m_A =
      (cyc.allocate_memory (Controller.new env)).state.m_A.set cyc.m_surfaceLevel Ptr.m_Op := by
  have hchecks : grid.isMultiGrid = true ∧ cyc.m_surfaceLevel < grid.num_levels ∧
      cyc.m_baseLevel ≤ cyc.m_surfaceLevel := by
    unfold AssembledMultiGridCycle.prepare at hok
    by_cases h1 : grid.isMultiGrid = true
    · by_cases h2 : cyc.m_surfaceLevel ≥ grid.num_levels
      · simp [h1, h2, Step.fail] at hok
      · by_cases h3 : cyc.m_baseLevel > cyc.m_surfaceLevel
        · simp [h1, h2, h3, Step.fail] at hok
        · exact ⟨h1, by omega, by omega⟩
    · simp [h1, Step.fail] at hok
  obtain ⟨c1, c2, c3⟩ := hchecks
  rw [prepare_of_checks cyc grid ext _ c1 c2 c3] at hok ⊢
  have hkept := prepareChecked_of_kept cyc ext (Controller.new env)
    (by simp [Controller.new])
  have hnew : (Controller.new env).m_allocated = false := rfl
  rw [hkept, hnew] at hok ⊢
  simp only [Bool.not_false, when_true] at hok ⊢
  rw [andThen_ok] at hok
  simp only [Bool.and_eq_true] at hok
  rw [andThen_of_ok _ _ _ (succeeds_allocate_memory cyc _)]
  simp only
  refine ⟨c3, ?_, ?_⟩
  · intro K hK
    have h := keeps_storage_prepareOperators cyc ext true
      (cyc.allocate_memory (Controller.new env)).state
    simp only [Controller.storage, Prod.mk.injEq] at h
    cases K <;> simp only [Controller.vec]
    · exact h.1
    · exact h.2.1
    · exact h.2.2.1
    · exact h.2.2.2.1
    · exact absurd rfl hK
    · exact h.2.2.2.2.1
    · exact h.2.2.2.2.2.1
    · exact h.2.2.2.2.2.2.1
  · exact prepareOperators_m_A cyc ext true _ _ rfl hok.2

/-- The trace of `lmgc(lev)` starts with the entry of `lmgc(lev)`, and every other entry
of `lmgc` in it is on a level below `lev`. -/
theorem lmgc_trace_head {ε V : Type} (cyc : AssembledMultiGridCycle)
    (ext : Collaborators ε V) (lev : Nat) (s : CycleState ε V) :
    ∃ rest, (cyc.lmgc ext lev s).trace = MGEvent.lmgc lev :: rest ∧
      ∀ k, MGEvent.lmgc k ∈ rest → k < lev := by
  have hbody : ∀ coarse : Step (CycleState ε V),
      (lev > cyc.m_baseLevel → AllEv (fun e => ∀ k, e = MGEvent.lmgc k → k < lev) coarse) →
      ∃ rest, (lmgcBody cyc ext lev coarse s).trace = MGEvent.lmgc lev :: rest ∧
        ∀ k, MGEvent.lmgc k ∈ rest → k < lev := by
    intro coarse hc
    unfold lmgcBody
    rw [andThen_of_ok _ _ s rfl]
    refine ⟨_, rfl, ?_⟩
    intro k hk
    have hall : AllEv (fun e => ∀ k, e = MGEvent.lmgc k → k < lev)
        (Step.andThen (resetCorrection ext lev)
          (if lev > cyc.m_baseLevel then lmgcAbove cyc ext lev coarse
           else if lev = cyc.m_baseLevel then lmgcBase ext lev else Step.fail)) := by
      refine allEv_andThen _ _ _ (allEv_act _ _ _ (fun k h => by cases h)) ?_
      by_cases hl : lev > cyc.m_baseLevel
      · rw [if_pos hl]
        exact allEv_lmgcAbove _ cyc ext lev coarse (fun _ k h => by cases h)
          (fun _ k h => by cases h) (fun _ k h => by cases h) (fun _ k h => by cases h)
          (fun _ k h => by cases h) (hc hl)
      · rw [if_neg hl]
        split
        · exact allEv_lmgcBaseBranch _ ext lev (fun _ k h => by cases h)
            (fun _ k h => by cases h) (fun _ k h => by cases h) (fun _ k h => by cases h)
        · exact allEv_fail _
    exact hall _ _ hk k rfl
  cases lev with
  | zero => exact hbody _ (fun h => absurd h (Nat.not_lt_zero _))
  | succ l =>
    refine hbody _ (fun _ => allEv_mono _ _ _ ?_ (allEv_levelLe_lmgc cyc ext l))
    intro e he k hk
    subst hk
    exact Nat.lt_succ_of_le he

/-- Counterexample to C22 as stated: on the V-cycle on two levels, where the base level 0
is not above the surface level 1, `lmgc(1)` calls `m_A[1]->apply_sub`, but
`allocate_memory` creates an operator only below the surface level and leaves `m_A[1]`
to be `NULL`. -/
theorem allocate_leaves_surface_operator :
    twoLevelV.m_baseLevel ≤ twoLevelV.m_surfaceLevel ∧
    MGEvent.call (.A_apply_sub 1) true ∈
      (twoLevelV.apply exCollab false (exCycleState 5)).trace ∧
    (ObjKind.A, 1) ∈ derefs (.call (.A_apply_sub 1) true) ∧
    (twoLevelV.allocate_memory (Controller.new ())).state.m_A = [.obj 0 .A, .null] ∧
    ¬ (∀ e ∈ (twoLevelV.apply exCollab false (exCycleState 5)).trace, ∀ p ∈ derefs e,
        ((twoLevelV.allocate_memory (Controller.new ())).state.vec p.1)[p.2]? =
          some (.obj p.2 p.1)) := by
  refine ⟨by decide, by decide, by decide, rfl, ?_⟩
  intro h
  have := h (.call (.A_apply_sub 1) true) (by decide) (ObjKind.A, 1) (by decide)
  revert this
  decide

/-- The events of `apply` are in range when the base level is not above the surface
level. -/
theorem allEv_ok_apply {ε V : Type} (cyc : AssembledMultiGridCycle)
    (ext : Collaborators ε V) (updateDefect : Bool)
    (hbs : cyc.m_baseLevel ≤ cyc.m_surfaceLevel) :
    AllEv (lmgcEventOk cyc) (cyc.apply ext updateDefect) := by
  have hact : ∀ a : MGAction, derefs (.action a) = [] → lmgcEventOk cyc (.action a) := by
    intro a ha
    refine ⟨(fun k h => by cases h), ?_⟩
    rw [ha]
    intro p hp
    cases hp
  unfold AssembledMultiGridCycle.apply
  refine allEv_andThen _ _ _ (allEv_when _ _ _ (allEv_act _ _ _ (hact _ rfl))) ?_
  refine allEv_andThen _ _ _ (allEv_act _ _ _ (hact _ rfl)) ?_
  refine allEv_andThen _ _ _ (allEv_act _ _ _ (hact _ rfl)) ?_
  refine allEv_andThen _ _ _ (allEv_ok_lmgc cyc ext _ hbs (Nat.le_refl _)) ?_
  exact allEv_andThen _ _ _ (allEv_act _ _ _ (hact _ rfl)) (allEv_act _ _ _ (hact _ rfl))

/-- C22, amended: whenever `baseLevel <= surfaceLevel`, every call of `lmgc` reachable
from `apply` has its level in `[baseLevel, surfaceLevel]`, so the branch for a level
below the base level is not reached; every per-level vector and operator that a step of
the cycle dereferences is at an index at which `allocate_memory` created an object,
except the operator `m_A[surfaceLevel]`, which `allocate_memory` leaves `NULL` and a
successful `prepare` sets to the operator `m_Op`, leaving the other vectors as
`allocate_memory` filled them; and the recursion ends, because the run of `lmgc(lev)`
enters `lmgc` on levels below `lev` only. -/
theorem lmgc_levels_in_range (cyc : AssembledMultiGridCycle)
    (hbs : cyc.m_baseLevel ≤ cyc.m_surfaceLevel) :
    (∀ (ε V : Type) (ext : Collaborators ε V) (updateDefect : Bool) (s : CycleState ε V)
      (e : MGEvent), e ∈ (cyc.apply ext updateDefect s).trace →
      (∀ k, e = MGEvent.lmgc k → cyc.m_baseLevel ≤ k ∧ k ≤ cyc.m_surfaceLevel) ∧
      ∀ p ∈ derefs e, ∀ (ε' : Type) (env : ε'),
        (p ≠ (ObjKind.A, cyc.m_surfaceLevel) →
          ((cyc.allocate_memory (Controller.new env)).state.vec p.1)[p.2]? =
            some (.obj p.2 p.1)) ∧
        (p = (ObjKind.A, cyc.m_surfaceLevel) →
          ((cyc.allocate_memory (Controller.new env)).state.m_A)[cyc.m_surfaceLevel]? =
            some Ptr.null ∧
          ∀ (grid : GridInfo) (pext : PrepareCollaborators ε'),
            (cyc.prepare grid pext (Controller.new env)).ok = true →
            ((cyc.prepare grid pext (Controller.new env)).state.m_A)[cyc.m_surfaceLevel]? =
              some Ptr.m_Op)) ∧
    (∀ (ε' : Type) (env : ε') (grid : GridInfo) (pext : PrepareCollaborators ε'),
      (cyc.prepare grid pext (Controller.new env)).ok = true →
      ∀ K, K ≠ ObjKind.A →
        (cyc.prepare grid pext (Controller.new env)).state.vec K =
          (cyc.allocate_memory (Controller.new env)).state.vec K) ∧
    (∀ (ε V : Type) (ext : Collaborators ε V) (lev : Nat) (s : CycleState ε V),
      ∃ rest, (cyc.lmgc ext lev s).trace = MGEvent.lmgc lev :: rest ∧
        ∀ k, MGEvent.lmgc k ∈ rest → k < lev) := by
  refine ⟨?_, ?_, ?_⟩
  · intro ε V ext updateDefect s e he
    obtain ⟨hlev, hder⟩ := allEv_ok_apply cyc ext updateDefect hbs s e he
    refine ⟨hlev, ?_⟩
    intro p hp ε' env
    refine ⟨?_, ?_⟩
    · intro hne
      rcases hder p hp with hf | hA
      · exact allocate_memory_filled cyc env p.1 p.2 hf
      · exact absurd hA hne
    · intro _
      refine ⟨allocate_memory_A_surface cyc env, ?_⟩
      intro grid pext hok
      obtain ⟨_, _, hA⟩ := prepare_new_vec cyc grid pext env hok
      rw [hA]
      have hlen : cyc.m_surfaceLevel <
          (cyc.allocate_memory (Controller.new env)).state.m_A.length := by
        have := allocate_memory_A_surface cyc env
        rcases List.getElem?_eq_some.mp this with ⟨hl, _⟩
        exact hl
      simp [List.getElem?_set_self, hlen]
  · intro ε' env grid pext hok
    exact (prepare_new_vec cyc grid pext env hok).2.1
  · intro ε V ext lev s
    exact lmgc_trace_head cyc ext lev s

/-- The witness of C22, amended: on the V-cycle on two levels every entry of `lmgc` in a
run of `apply` is on level 0 or 1, the run enters `lmgc(1)` and then `lmgc(0)`, and after
`prepare` the operators `m_A` are the one created for level 0 and `m_Op`. -/
theorem lmgc_levels_in_range_witness :
    twoLevelV.m_baseLevel ≤ twoLevelV.m_surfaceLevel ∧
    ((twoLevelV.apply exCollab false (exCycleState 5)).trace.filter
      (fun e => match e with | .lmgc _ => true | _ => false) = [.lmgc 1, .lmgc 0]) ∧
    (twoLevelV.prepare exGrid exPrepare (Controller.new ())).ok = true ∧
    (twoLevelV.prepare exGrid exPrepare (Controller.new ())).state.m_A = [.obj 0 .A, .m_Op] ∧
    (∀ e ∈ (twoLevelV.apply exCollab false (exCycleState 5)).trace,
      ∀ k, e = MGEvent.lmgc k → twoLevelV.m_baseLevel ≤ k ∧ k ≤ twoLevelV.m_surfaceLevel) :=
  ⟨by decide, by decide, rfl, rfl,
    fun e he => ((lmgc_levels_in_range twoLevelV (by decide)).1 Unit Int exCollab false
      (exCycleState 5) e he).1⟩

/-! ## C2 -/

theorem readConnections_index (index : Nat) :
    ∀ (n : Nat) (buff : BinaryBuffer) (cs : List Conn) (rest : BinaryBuffer),
      readConnections index n buff = some (cs, rest) → ∀ c ∈ cs, c.index = index := by
  intro n
  induction n with
  | zero =>
    intro buff cs rest h c hc
    simp only [readConnections, Option.some.injEq, Prod.mk.injEq] at h
    rw [← h.1] at hc
    cases hc
  | succ n ih =>
    intro buff cs rest h
    revert h
    match buff with
    | [] => intro h; simp [readConnections] at h
    | [_] => intro h; simp [readConnections] at h
    | .sizeT _ :: _ :: _ => intro h; simp [readConnections] at h
    | .block _ :: _ :: _ => intro h; simp [readConnections] at h
    | .algID _ :: .sizeT _ :: _ => intro h; simp [readConnections] at h
    | .algID _ :: .algID _ :: _ => intro h; simp [readConnections] at h
    | .algID g :: .block v :: buff1 =>
      intro h c hc
      simp only [readConnections] at h
      cases hr : readConnections index n buff1 with
      | none => rw [hr] at h; cases h
      | some r =>
        obtain ⟨cs1, rest1⟩ := r
        rw [hr] at h
        simp only [Option.some.injEq, Prod.mk.injEq] at h
        rw [← h.1] at hc
        rcases List.mem_cons.mp hc with hc | hc
        · rw [hc]
        · exact ih buff1 cs1 rest1 hr c hc

theorem readRows_index :
    ∀ (idxs : List Nat) (buff : BinaryBuffer) (cs : List Conn) (rest : BinaryBuffer),
      readRows idxs buff = some (cs, rest) → ∀ c ∈ cs, c.index ∈ idxs := by
  intro idxs
  induction idxs with
  | nil =>
    intro buff cs rest h c hc
    simp only [readRows, Option.some.injEq, Prod.mk.injEq] at h
    rw [← h.1] at hc
    cases hc
  | cons index more ih =>
    intro buff cs rest h
    revert h
    match buff with
    | [] => intro h; simp [readRows] at h
    | .algID _ :: _ => intro h; simp [readRows] at h
    | .block _ :: _ => intro h; simp [readRows] at h
    | .sizeT n :: buff1 =>
      intro h c hc
      simp only [readRows] at h
      cases hr : readConnections index n buff1 with
      | none => rw [hr] at h; cases h
      | some r =>
        obtain ⟨cs1, buff2⟩ := r
        rw [hr] at h
        simp only at h
        cases hr2 : readRows more buff2 with
        | none => rw [hr2] at h; cases h
        | some r2 =>
          obtain ⟨cs2, buff3⟩ := r2
          rw [hr2] at h
          simp only [Option.some.injEq, Prod.mk.injEq] at h
          rw [← h.1] at hc
          rcases List.mem_append.mp hc with hc | hc
          · rw [readConnections_index index n buff1 cs1 buff2 hr c hc]
            exact List.mem_cons_self _ _
          · exact List.mem_cons_of_mem _ (ih buff2 cs2 buff3 hr2 c hc)

theorem readCalls_index :
    ∀ (calls : List (BinaryBuffer × Interface)) (rc : List (Nat × Conn)),
      readCalls calls = some rc →
      ∀ x ∈ rc, ∃ c ∈ calls, x.2.index ∈ c.2.elems := by
  intro calls
  induction calls with
  | nil =>
    intro rc h x hx
    simp only [readCalls, Option.some.injEq] at h
    rw [← h] at hx
    cases hx
  | cons call rest ih =>
    intro rc h x hx
    obtain ⟨buff, interface⟩ := call
    simp only [readCalls] at h
    cases hr : readRows interface.elems buff with
    | none => rw [hr] at h; cases h
    | some p =>
      obtain ⟨cs, rest1⟩ := p
      rw [hr] at h
      simp only at h
      cases hrest : readCalls rest with
      | none => rw [hrest] at h; cases h
      | some rc' =>
        rw [hrest] at h
        simp only [Option.some.injEq] at h
        rw [← h] at hx
        rcases List.mem_append.mp hx with hx | hx
        · obtain ⟨c, hc, hcx⟩ := List.mem_map.mp hx
          refine ⟨(buff, interface), List.mem_cons_self _ _, ?_⟩
          rw [← hcx]
          exact readRows_index _ _ _ _ hr c hc
        · obtain ⟨c, hc, hcx⟩ := ih rc' hrest x hx
          exact ⟨c, List.mem_cons_of_mem _ hc, hcx⟩

/-- The records of new connections that a policy holds after reading `rc` with an empty
map at the start were all made by `extract`: each carries the row and the GlobalID of the
row of a connection read. -/
theorem applyReceived_records (rc : List (Nat × Conn)) (s : ComPol_MatCreateOverlap)
    (hempty : s.m_recvNewCons = []) (e : ExtCon × block_t)
    (he : e ∈ (applyReceived rc s).m_recvNewCons) :
    ∃ x ∈ rc, e.1.fromInd = x.2.index ∧
      e.1.fromID = s.m_globalIDs.getD x.2.index default := by
  rcases applyReceived_newCons_mem rc s e he with ⟨e', he', _⟩ | ⟨x, hx, _, hkey⟩
  · rw [hempty] at he'
    cases he'
  · refine ⟨x, hx, ?_, ?_⟩
    · rw [hkey]; rfl
    · rw [hkey]; rfl

/-- C2, amended: let a policy be constructed with pairwise distinct GlobalIDs and let
`extract` be called on interfaces whose indices are rows of the matrix (earlier calls
`calls`, then the call at hand).  The call is the loop body applied, in reading order, to
the connections read from the buffer, and it keeps the matrix dimensions.  For every
connection `c = (i, g, v)` it reads, with `t` the state before and `t'` the state after
the connection: if `g` resolves to `k` in the GlobalID hash, entry `(i, k)` becomes its
previous value plus `v`, every other entry keeps its value and nothing is recorded;
otherwise the matrix does not change, `g` is among the newly discovered IDs, and the map of
new connections holds the record (row `i`, GlobalID of `i`, `g`, target rank of the
interface) with the value `v`. -/
theorem extract_contract (mat : Matrix) (gids : List AlgebraID)
    (calls : List (BinaryBuffer × Interface)) (s0 s : ComPol_MatCreateOverlap)
    (buff : BinaryBuffer) (interface : Interface) (rest : BinaryBuffer)
    (s' : ComPol_MatCreateOverlap)
    (hnodup : gids.Nodup)
    (h0 : ComPol_MatCreateOverlap.new mat gids = .ok s0)
    (hprev : extractCalls calls s0 = .ok s)
    (hrows : ∀ c ∈ calls, ∀ i ∈ c.2.elems, i < mat.numRows)
    (hidx : ∀ i ∈ interface.elems, i < mat.numRows)
    (h : s.extract buff interface = .ok (rest, s')) :
    s.m_globalIDs = gids ∧
    ∃ cs : List Conn,
      readRows interface.elems buff = some (cs, rest) ∧
      s' = applyConnections interface.targetProc cs s ∧
      s'.m_mat.numRows = s.m_mat.numRows ∧ s'.m_mat.numCols = s.m_mat.numCols ∧
      ∀ (pre : List Conn) (c : Conn) (post : List Conn), cs = pre ++ c :: post →
        ∀ t t' : ComPol_MatCreateOverlap,
          t = applyConnections interface.targetProc pre s →
          t' = applyConnections interface.targetProc (pre ++ [c]) s →
          c.index < gids.length ∧
          (∀ k, s.m_algIDHash.get_entry c.gID = some k →
            t'.m_mat.entry c.index k = t.m_mat.entry c.index k + c.block ∧
            (∀ i' k', ¬ (i' = c.index ∧ k' = k) → t'.m_mat.entry i' k' = t.m_mat.entry i' k') ∧
            t'.m_recvNewCons = t.m_recvNewCons ∧ t'.m_recvNewIDs = t.m_recvNewIDs) ∧
          (s.m_algIDHash.get_entry c.gID = none →
            t'.m_mat = t.m_mat ∧
            c.gID ∈ t'.m_recvNewIDs ∧
            mapFind ⟨c.index, gids.getD c.index default, c.gID, interface.targetProc⟩
              t'.m_recvNewCons = some c.block ∧
            ((⟨c.index, gids.getD c.index default, c.gID, interface.targetProc⟩ : ExtCon),
              c.block) ∈ t'.m_recvNewCons) := by
  obtain ⟨hs0, hlen⟩ := new_ok mat gids s0 h0
  rw [extractCalls_eq] at hprev
  cases hrc : readCalls calls with
  | none => rw [hrc] at hprev; cases hprev
  | some rc =>
    rw [hrc] at hprev
    simp only [Except.ok.injEq] at hprev
    obtain ⟨_, fg, _, _, _⟩ := applyReceived_frame rc s0
    rw [hprev, hs0] at fg
    simp only at fg
    refine ⟨fg, ?_⟩
    unfold ComPol_MatCreateOverlap.extract at h
    rw [extractRows_eq] at h
    cases hr : readRows interface.elems buff with
    | none => rw [hr] at h; cases h
    | some r =>
      obtain ⟨cs, rest'⟩ := r
      rw [hr] at h
      simp only [Except.ok.injEq, Prod.mk.injEq] at h
      obtain ⟨hrest, hs'⟩ := h
      subst hrest
      subst hs'
      have hf := applyConnections_frame interface.targetProc cs s
      refine ⟨cs, rfl, rfl, hf.2.2.1, hf.2.2.2.1, ?_⟩
      intro pre c post hcs t t' ht ht'
      have hpre := applyConnections_frame interface.targetProc pre s
      have ht'2 : t' = extractConnection c.index interface.targetProc c.gID c.block t := by
        rw [ht', ht, applyConnections_append]
        rfl
      have hcmem : ∀ c' ∈ pre ++ [c], c'.index < gids.length := by
        intro c' hc'
        have hin : c' ∈ cs := by
          rw [hcs]
          rcases List.mem_append.mp hc' with hc' | hc'
          · exact List.mem_append_left _ hc'
          · rw [List.mem_singleton.mp hc']
            exact List.mem_append_right _ (List.mem_cons_self _ _)
        have := hidx _ (readRows_index _ _ _ _ hr c' hin)
        omega
      have hci : c.index < gids.length :=
        hcmem c (List.mem_append_right _ (List.mem_singleton.mpr rfl))
      refine ⟨hci, ?_, ?_⟩
      · intro k hk
        have hk' : t.m_algIDHash.get_entry c.gID = some k := by rw [ht, hpre.1]; exact hk
        rw [ht'2, extractConnection_known _ _ _ _ _ _ hk']
        refine ⟨?_, ?_, rfl, rfl⟩
        · simp [matrix_entry_addTo]
        · intro i' k' hne
          simp [matrix_entry_addTo, hne]
      · intro hk
        have hk' : t.m_algIDHash.get_entry c.gID = none := by rw [ht, hpre.1]; exact hk
        rw [ht'2, extractConnection_unknown _ _ _ _ _ hk']
        have hg : t.m_globalIDs = gids := by rw [ht, hpre.2.1]; exact fg
        refine ⟨rfl, ?_, ?_, ?_⟩
        · simp [mem_setInsert]
        · simp only [hg]
          exact mapFind_mapAssign _ _ _
        · simp only [hg]
          apply mem_mapAssign_self
          intro e he heq
          have htall : t = applyReceived (rc ++ pre.map (fun c => (interface.targetProc, c))) s0 := by
            rw [ht, applyReceived_append, hprev, applyReceived_map]
          rw [htall] at he
          obtain ⟨x, hx, hxi, hxg⟩ := applyReceived_records _ s0 (by rw [hs0]) e he
          rw [hs0] at hxg
          simp only at hxg
          have hxlt : x.2.index < gids.length := by
            rcases List.mem_append.mp hx with hx | hx
            · obtain ⟨call, hcall, hmem⟩ := readCalls_index calls rc hrc x hx
              have := hrows call hcall _ hmem
              omega
            · obtain ⟨c', hc', hcx⟩ := List.mem_map.mp hx
              rw [← hcx]
              exact hcmem c' (List.mem_append_left _ hc')
          rw [extCon_equiv_iff] at heq
          obtain ⟨e1, e2, e3⟩ := heq
          simp only at e1 e2 e3
          rw [hxg, List.getD_eq_getElem _ _ hxlt, List.getD_eq_getElem _ _ hci] at e3
          have hix : x.2.index = c.index := (List.Nodup.getElem_inj_iff hnodup).mp e3
          have e4 : e.1.fromInd = c.index := by rw [hxi, hix]
          have e5 : e.1.fromID = gids.getD c.index default := by rw [hxg, hix]
          cases hk : e.1 with
          | mk fi fid tid cp =>
            rw [hk] at e1 e2 e4 e5
            simp only at e1 e2 e4 e5
            rw [e1, e2, e4, e5]

/-- Counterexample to C2 as stated: the constructor accepts a GlobalID array in which the
rows 0 and 1 carry the same GlobalID (0,0).  `extract` reads a connection to the unknown
GlobalID (1,0) for row 0 and then one, with the value 7, for row 1.  The two keys are
equivalent for `ExtCon::operator <`, which leaves the source row out, so the second
assignment overwrites the value under the first key: the map holds the record of row 0
with the value 7, and no record with the source row 1. -/
theorem extract_record_counterexample :
    ComPol_MatCreateOverlap.new exMat exTwinIDs = .ok exTwinPol ∧
    readRows exTwinItf.elems exTwinBuff = some (exTwinConns, []) ∧
    exTwinPol.extract exTwinBuff exTwinItf = .ok ([], exTwinPol1) ∧
    exTwinPol.m_algIDHash.get_entry ⟨1, 0⟩ = none ∧
    exTwinPol1.m_recvNewCons = [(⟨0, ⟨0, 0⟩, ⟨1, 0⟩, 1⟩, 7)] ∧
    ¬ ((⟨1, exTwinPol.m_globalIDs.getD 1 default, ⟨1, 0⟩, exTwinItf.targetProc⟩ : ExtCon),
        (7 : block_t)) ∈ exTwinPol1.m_recvNewCons :=
  ⟨rfl, rfl, rfl, rfl, rfl, by decide⟩

/-- Witness for C2, amended: the example policy, constructed with the distinct GlobalIDs
(0,0) and (0,1), extracts the example buffer as its first call; the connection to the
unknown GlobalID (1,0) is recorded as (row 1, (0,1), (1,0), rank 1) with the value -1. -/
theorem extract_contract_witness :
    ([⟨0, 0⟩, ⟨0, 1⟩] : List AlgebraID).Nodup ∧
    ComPol_MatCreateOverlap.new exMat [⟨0, 0⟩, ⟨0, 1⟩] = .ok exPol ∧
    extractCalls [] exPol = .ok exPol ∧
    (∀ i ∈ exItf.elems, i < exMat.numRows) ∧
    exPol.extract exBuff exItf = .ok ([], exPol1) ∧
    exPol1.m_recvNewCons = [(⟨1, ⟨0, 1⟩, ⟨1, 0⟩, 1⟩, -1)] ∧
    exPol1.m_mat.entry 1 1 = exPol.m_mat.entry 1 1 + 5 ∧
    (exPol.m_globalIDs = [⟨0, 0⟩, ⟨0, 1⟩] ∧
    ∃ cs : List Conn,
      readRows exItf.elems exBuff = some (cs, []) ∧
      exPol1 = applyConnections exItf.targetProc cs exPol ∧
      exPol1.m_mat.numRows = exPol.m_mat.numRows ∧ exPol1.m_mat.numCols = exPol.m_mat.numCols ∧
      ∀ (pre : List Conn) (c : Conn) (post : List Conn), cs = pre ++ c :: post →
        ∀ t t' : ComPol_MatCreateOverlap,
          t = applyConnections exItf.targetProc pre exPol →
          t' = applyConnections exItf.targetProc (pre ++ [c]) exPol →
          c.index < ([⟨0, 0⟩, ⟨0, 1⟩] : List AlgebraID).length ∧
          (∀ k, exPol.m_algIDHash.get_entry c.gID = some k →
            t'.m_mat.entry c.index k = t.m_mat.entry c.index k + c.block ∧
            (∀ i' k', ¬ (i' = c.index ∧ k' = k) → t'.m_mat.entry i' k' = t.m_mat.entry i' k') ∧
            t'.m_recvNewCons = t.m_recvNewCons ∧ t'.m_recvNewIDs = t.m_recvNewIDs) ∧
          (exPol.m_algIDHash.get_entry c.gID = none →
            t'.m_mat = t.m_mat ∧
            c.gID ∈ t'.m_recvNewIDs ∧
            mapFind ⟨c.index, ([⟨0, 0⟩, ⟨0, 1⟩] : List AlgebraID).getD c.index default, c.gID,
              exItf.targetProc⟩ t'.m_recvNewCons = some c.block ∧
            ((⟨c.index, ([⟨0, 0⟩, ⟨0, 1⟩] : List AlgebraID).getD c.index default, c.gID,
              exItf.targetProc⟩ : ExtCon), c.block) ∈ t'.m_recvNewCons)) :=
  ⟨by decide, rfl, rfl, by decide, rfl, rfl, rfl,
    extract_contract exMat [⟨0, 0⟩, ⟨0, 1⟩] [] exPol exPol exBuff exItf [] exPol1
      (by decide) rfl rfl (fun c hc => by cases hc) (by decide) rfl⟩

/-! ## GlobalIDs generated again after a first run -/

theorem mapRanks_getElem? {α β : Type} (f : Nat → α → β) :
    ∀ (l : List α) (r k : Nat), (mapRanks f r l)[k]? = (l[k]?).map (f (r + k)) := by
  intro l
  induction l with
  | nil => intro r k; simp [mapRanks]
  | cons a rest ih =>
    intro r k
    cases k with
    | zero => simp [mapRanks]
    | succ k =>
      simp only [mapRanks, List.getElem?_cons_succ]
      rw [ih (r + 1) k]
      have he : r + 1 + k = r + (k + 1) := by omega
      rw [he]

theorem mapRanksE_getElem? {α β : Type} (f : Nat → α → Except Fault β) :
    ∀ (l : List α) (r : Nat) (bs : List β), mapRanksE f r l = .ok bs →
      ∀ (k : Nat) (a : α), l[k]? = some a → ∃ b, bs[k]? = some b ∧ f (r + k) a = .ok b := by
  intro l
  induction l with
  | nil => intro r bs _ k a hk; simp at hk
  | cons x rest ih =>
    intro r bs h k a hk
    simp only [mapRanksE] at h
    cases hx : f r x with
    | error err => rw [hx] at h; cases h
    | ok b0 =>
      rw [hx] at h
      simp only at h
      cases hrest : mapRanksE f (r + 1) rest with
      | error err => rw [hrest] at h; cases h
      | ok bs1 =>
        rw [hrest] at h
        simp only [Except.ok.injEq] at h
        rw [← h]
        cases k with
        | zero =>
          simp only [List.getElem?_cons_zero, Option.some.injEq] at hk
          rw [← hk]
          exact ⟨b0, by simp, hx⟩
        | succ k =>
          simp only [List.getElem?_cons_succ] at hk
          obtain ⟨b, hb, hfb⟩ := ih (r + 1) bs1 hrest k a hk
          refine ⟨b, by simpa using hb, ?_⟩
          have he : r + (k + 1) = r + 1 + k := by omega
          rw [he]
          exact hfb

/-- What `GenerateGlobalAlgebraIDs` returns for one rank is what `generateIDsOn` gives
for that rank, its number of rows and its slave layout, with the IDs the master
processes send as inbox. -/
theorem GenerateGlobalAlgebraIDs_rank (procs : List Process) (ids : List (List AlgebraID))
    (h : GenerateGlobalAlgebraIDs procs = .ok ids) (rank : Nat) (p : Process)
    (hp : procs[rank]? = some p) :
    ∃ inbox : Nat → BinaryBuffer,
      generateIDsOn rank p.mat.numRows p.layouts.slave inbox = .ok (ids.getD rank []) := by
  unfold GenerateGlobalAlgebraIDs at h
  simp only at h
  obtain ⟨b, hb, hfb⟩ := mapRanksE_getElem? _ procs 0 ids h rank p hp
  simp only [Nat.zero_add] at hfb
  have hloc : (mapRanks (fun rank p => (List.range p.mat.numRows).map
      (fun i => AlgebraID.mk rank i)) 0 procs).getD rank [] =
      (List.range p.mat.numRows).map (fun i => AlgebraID.mk rank i) := by
    rw [List.getD_eq_getElem?_getD, mapRanks_getElem?, hp]
    simp
  rw [hloc] at hfb
  have hid : ids.getD rank [] = b := by
    rw [List.getD_eq_getElem?_getD, hb]
    rfl
  rw [hid]
  exact ⟨_, hfb⟩
namespace generic

theorem matRow_get_modify_gen {β : Type} [AddCommMonoid β] (r : MatRow β) (k k' : Nat) (f : β → β) :
    (r.modify k f).get k' = if k' = k then f (r.get k) else r.get k' := by
  induction r with
  | nil =>
    by_cases h : k' = k
    · simp [MatRow.modify, MatRow.get, h]
    · have h' : ¬ k = k' := fun e => h e.symm
      simp [MatRow.modify, MatRow.get, h, h']
  | cons e rest ih =>
    obtain ⟨c, x⟩ := e
    by_cases hc : c = k
    · subst hc
      by_cases h : k' = c
      · simp [MatRow.modify, MatRow.get, h]
      · have h' : ¬ c = k' := fun e => h e.symm
        simp [MatRow.modify, MatRow.get, h, h']
    · by_cases h : k' = k
      · subst h
        simp [MatRow.modify, MatRow.get, hc, ih]
      · by_cases hck : c = k'
        · simp [MatRow.modify, MatRow.get, hc, hck, h]
        · simp [MatRow.modify, MatRow.get, hc, hck, h, ih]

theorem matrix_entry_modify_gen {β : Type} [AddCommMonoid β]
    (m : Matrix β) (i k i' k' : Nat) (f : β → β) :
    (m.modify i k f).entry i' k' =
      if i' = i ∧ k' = k then f (m.entry i k) else m.entry i' k' := by
  unfold Matrix.modify Matrix.entry
  by_cases hi : i' = i
  · subst hi
    simp [matRow_get_modify_gen]
  · simp [hi]

theorem matrix_entry_addTo_gen {β : Type} [AddCommMonoid β]
    (m : Matrix β) (i k i' k' : Nat) (v : β) :
    (m.addTo i k v).entry i' k' =
      if i' = i ∧ k' = k then m.entry i k + v else m.entry i' k' := by
  unfold Matrix.addTo
  exact matrix_entry_modify_gen m i k i' k' _

theorem applyConnections_append_gen {β : Type} [AddCommMonoid β]
    (p : Nat) (cs1 cs2 : List (Conn β)) (s : ComPol_MatCreateOverlap β) :
    applyConnections p (cs1 ++ cs2) s = applyConnections p cs2 (applyConnections p cs1 s) := by
  simp [applyConnections, List.foldl_append]

theorem applyConnections_cons_gen {β : Type} [AddCommMonoid β]
    (p : Nat) (c : Conn β) (cs : List (Conn β)) (s : ComPol_MatCreateOverlap β) :
    applyConnections p (c :: cs) s =
      applyConnections p cs (extractConnection c.index p c.gID c.block s) := rfl

theorem extractConnections_eq_gen {β : Type} [AddCommMonoid β] (index p : Nat) :
    ∀ (n : Nat) (buff : BinaryBuffer β) (s : ComPol_MatCreateOverlap β),
      extractConnections index p n buff s =
        match readConnections index n buff with
        | some (cs, rest) => .ok (rest, applyConnections p cs s)
        | none => .error .badBuffer := by
  intro n
  induction n with
  | zero => intro buff s; simp [extractConnections, readConnections, applyConnections]
  | succ n ih =>
    intro buff s
    match buff with
    | [] => simp [extractConnections, readConnections]
    | [_] => simp [extractConnections, readConnections]
    | .sizeT _ :: _ :: _ => simp [extractConnections, readConnections]
    | .block _ :: _ :: _ => simp [extractConnections, readConnections]
    | .algID _ :: .sizeT _ :: _ => simp [extractConnections, readConnections]
    | .algID _ :: .algID _ :: _ => simp [extractConnections, readConnections]
    | .algID g :: .block v :: buff1 =>
      simp only [extractConnections, readConnections]
      rw [ih]
      cases hr : readConnections index n buff1 with
      | none => rfl
      | some r => obtain ⟨cs, rest⟩ := r; rfl

theorem extractRows_eq_gen {β : Type} [AddCommMonoid β] (p : Nat) :
    ∀ (idxs : List Nat) (buff : BinaryBuffer β) (s : ComPol_MatCreateOverlap β),
      extractRows p idxs buff s =
        match readRows idxs buff with
        | some (cs, rest) => .ok (rest, applyConnections p cs s)
        | none => .error .badBuffer := by
  intro idxs
  induction idxs with
  | nil => intro buff s; simp [extractRows, readRows, applyConnections]
  | cons index rest ih =>
    intro buff s
    match buff with
    | [] => simp [extractRows, readRows]
    | .algID _ :: _ => simp [extractRows, readRows]
    | .block _ :: _ => simp [extractRows, readRows]
    | .sizeT n :: buff1 =>
      simp only [extractRows, readRows]
      rw [extractConnections_eq_gen]
      cases hr : readConnections index n buff1 with
      | none => rfl
      | some r =>
        obtain ⟨cs, buff2⟩ := r
        simp only
        rw [ih]
        cases hr2 : readRows rest buff2 with
        | none => rfl
        | some r2 =>
          obtain ⟨cs2, buff3⟩ := r2
          simp only [applyConnections_append_gen]

theorem extractConnection_frame_gen {β : Type} [AddCommMonoid β] (i p : Nat) (g : AlgebraID) (v : β)
    (s : ComPol_MatCreateOverlap β) :
    (extractConnection i p g v s).m_algIDHash = s.m_algIDHash ∧
    (extractConnection i p g v s).m_globalIDs = s.m_globalIDs ∧
    (extractConnection i p g v s).m_mat.numRows = s.m_mat.numRows ∧
    (extractConnection i p g v s).m_mat.numCols = s.m_mat.numCols ∧
    (extractConnection i p g v s).m_mat.layouts = s.m_mat.layouts := by
  unfold extractConnection
  cases s.m_algIDHash.get_entry g <;> simp [Matrix.addTo, Matrix.modify]

theorem applyConnections_frame_gen {β : Type} [AddCommMonoid β] (p : Nat) (cs : List (Conn β)) :
    ∀ s : ComPol_MatCreateOverlap β,
      (applyConnections p cs s).m_algIDHash = s.m_algIDHash ∧
      (applyConnections p cs s).m_globalIDs = s.m_globalIDs ∧
      (applyConnections p cs s).m_mat.numRows = s.m_mat.numRows ∧
      (applyConnections p cs s).m_mat.numCols = s.m_mat.numCols ∧
      (applyConnections p cs s).m_mat.layouts = s.m_mat.layouts := by
  induction cs with
  | nil => intro s; simp [applyConnections]
  | cons c rest ih =>
    intro s
    rw [applyConnections_cons_gen]
    obtain ⟨h1, h2, h3, h4, h5⟩ := ih (extractConnection c.index p c.gID c.block s)
    obtain ⟨f1, f2, f3, f4, f5⟩ := extractConnection_frame_gen c.index p c.gID c.block s
    exact ⟨h1.trans f1, h2.trans f2, h3.trans f3, h4.trans f4, h5.trans f5⟩

theorem applyReceived_append_gen {β : Type} [AddCommMonoid β]
    (rc1 rc2 : List (Nat × Conn β)) (s : ComPol_MatCreateOverlap β) :
    applyReceived (rc1 ++ rc2) s = applyReceived rc2 (applyReceived rc1 s) := by
  simp [applyReceived, List.foldl_append]

theorem applyReceived_map_gen {β : Type} [AddCommMonoid β] (p : Nat) (cs : List (Conn β)) :
    ∀ s : ComPol_MatCreateOverlap β,
      applyReceived (cs.map (fun c => (p, c))) s = applyConnections p cs s := by
  induction cs with
  | nil => intro s; rfl
  | cons c rest ih =>
    intro s
    simp only [List.map_cons, applyConnections_cons_gen]
    rw [← ih]
    rfl

theorem extractCalls_eq_gen {β : Type} [AddCommMonoid β] :
    ∀ (calls : List (BinaryBuffer β × Interface)) (s : ComPol_MatCreateOverlap β),
      extractCalls calls s =
        match readCalls calls with
        | some rc => .ok (applyReceived rc s)
        | none => .error .badBuffer := by
  intro calls
  induction calls with
  | nil => intro s; rfl
  | cons call rest ih =>
    intro s
    obtain ⟨buff, itf⟩ := call
    simp only [extractCalls, readCalls, ComPol_MatCreateOverlap.extract]
    rw [extractRows_eq_gen]
    cases hr : readRows itf.elems buff with
    | none => rfl
    | some r =>
      obtain ⟨cs, buff1⟩ := r
      simp only
      rw [ih]
      cases hr2 : readCalls rest with
      | none => rfl
      | some rc =>
        simp only [applyReceived_append_gen, applyReceived_map_gen]

theorem applyReceived_frame_gen {β : Type} [AddCommMonoid β] (rc : List (Nat × Conn β)) :
    ∀ s : ComPol_MatCreateOverlap β,
      (applyReceived rc s).m_algIDHash = s.m_algIDHash ∧
      (applyReceived rc s).m_globalIDs = s.m_globalIDs ∧
      (applyReceived rc s).m_mat.numRows = s.m_mat.numRows ∧
      (applyReceived rc s).m_mat.numCols = s.m_mat.numCols ∧
      (applyReceived rc s).m_mat.layouts = s.m_mat.layouts := by
  induction rc with
  | nil => intro s; simp [applyReceived]
  | cons x rest ih =>
    intro s
    obtain ⟨h1, h2, h3, h4, h5⟩ := ih (extractConnection x.2.index x.1 x.2.gID x.2.block s)
    obtain ⟨f1, f2, f3, f4, f5⟩ := extractConnection_frame_gen x.2.index x.1 x.2.gID x.2.block s
    exact ⟨h1.trans f1, h2.trans f2, h3.trans f3, h4.trans f4, h5.trans f5⟩

theorem new_ok_gen {β : Type} [AddCommMonoid β]
    (mat : Matrix β) (gids : List AlgebraID) (s0 : ComPol_MatCreateOverlap β)
    (h0 : ComPol_MatCreateOverlap.new mat gids = .ok s0) :
    s0 = ⟨mat, gids, GenerateAlgebraIDHashList gids, [], []⟩ ∧ mat.numRows ≤ gids.length := by
  unfold ComPol_MatCreateOverlap.new at h0
  split at h0
  · cases h0
  · simp only [Except.ok.injEq] at h0
    exact ⟨h0.symm, by omega⟩

theorem extractConnection_known_gen {β : Type} [AddCommMonoid β] (i p : Nat) (g : AlgebraID) (v : β)
    (t : ComPol_MatCreateOverlap β) (k : Nat) (hk : t.m_algIDHash.get_entry g = some k) :
    extractConnection i p g v t = { t with m_mat := t.m_mat.addTo i k v } := by
  simp [extractConnection, hk]

theorem extractConnection_unknown_gen {β : Type} [AddCommMonoid β]
    (i p : Nat) (g : AlgebraID) (v : β)
    (t : ComPol_MatCreateOverlap β) (hk : t.m_algIDHash.get_entry g = none) :
    extractConnection i p g v t =
      { t with
        m_recvNewCons := mapAssign ⟨i, t.m_globalIDs.getD i default, g, p⟩ v t.m_recvNewCons
        m_recvNewIDs := setInsert g t.m_recvNewIDs } := by
  simp [extractConnection, hk]

theorem entry_extractConnection_gen {β : Type} [AddCommMonoid β] (i p : Nat) (g : AlgebraID) (v : β)
    (s : ComPol_MatCreateOverlap β) (i' k' : Nat) :
    (extractConnection i p g v s).m_mat.entry i' k' =
      s.m_mat.entry i' k' +
        (if i = i' ∧ s.m_algIDHash.get_entry g = some k' then v else 0) := by
  cases hg : s.m_algIDHash.get_entry g with
  | none =>
    rw [extractConnection_unknown_gen _ _ _ _ _ hg]
    simp
  | some conInd =>
    rw [extractConnection_known_gen _ _ _ _ _ _ hg, matrix_entry_addTo_gen]
    by_cases h1 : i' = i
    · subst h1
      by_cases h2 : k' = conInd
      · subst h2; simp
      · have h2' : ¬ conInd = k' := fun e => h2 e.symm
        simp [h2, h2']
    · have h1' : ¬ i = i' := fun e => h1 e.symm
      simp [h1, h1']

theorem entry_applyReceived_gen {β : Type} [AddCommMonoid β]
    (rc : List (Nat × Conn β)) (i k : Nat) :
    ∀ s : ComPol_MatCreateOverlap β,
      (applyReceived rc s).m_mat.entry i k =
        s.m_mat.entry i k + mergedSum s.m_algIDHash rc i k := by
  induction rc with
  | nil => intro s; simp [applyReceived, mergedSum]
  | cons x rest ih =>
    intro s
    have hstep : applyReceived (x :: rest) s =
        applyReceived rest (extractConnection x.2.index x.1 x.2.gID x.2.block s) := rfl
    rw [hstep, ih, entry_extractConnection_gen,
      (extractConnection_frame_gen x.2.index x.1 x.2.gID x.2.block s).1]
    unfold mergedSum
    by_cases hc : x.2.index = i ∧ s.m_algIDHash.get_entry x.2.gID = some k
    · have ht : (decide (x.2.index = i) &&
          decide (s.m_algIDHash.get_entry x.2.gID = some k)) = true := by
        simpa using hc
      rw [if_pos hc, List.filter_cons, if_pos ht, List.map_cons, List.sum_cons]
      abel
    · have hf : (decide (x.2.index = i) &&
          decide (s.m_algIDHash.get_entry x.2.gID = some k)) = false := by
        simpa using hc
      rw [if_neg hc, List.filter_cons, if_neg (by simp [hf])]
      abel

theorem mapAssign_perm_gen {β : Type} [AddCommMonoid β]
    (ec : ExtCon) (v : β) (l : List (ExtCon × β))
    (h : ∀ e ∈ l, ec.equiv e.1 = false) :
    (mapAssign ec v l).Perm ((ec, v) :: l) := by
  induction l with
  | nil => exact List.Perm.refl _
  | cons e rest ih =>
    obtain ⟨k, x⟩ := e
    unfold mapAssign
    by_cases h1 : ec.lt k = true
    · rw [if_pos h1]
    · rw [if_neg h1]
      by_cases h2 : k.lt ec = true
      · rw [if_pos h2]
        have hrest := ih (fun e he => h e (List.mem_cons_of_mem _ he))
        exact (List.Perm.cons _ hrest).trans (List.Perm.swap _ _ _)
      · have hk := h (k, x) (List.mem_cons_self _ _)
        simp only [ExtCon.equiv, Bool.and_eq_false_imp, Bool.not_eq_true', Bool.not_eq_false'] at hk
        have h1f : ec.lt k = false := by simpa using h1
        exact absurd (hk h1f) h2

theorem extractConnection_newCons_gen {β : Type} [AddCommMonoid β]
    (i p : Nat) (g : AlgebraID) (v : β)
    (s : ComPol_MatCreateOverlap β) :
    (extractConnection i p g v s).m_recvNewCons =
      if (s.m_algIDHash.get_entry g).isNone then
        mapAssign ⟨i, s.m_globalIDs.getD i default, g, p⟩ v s.m_recvNewCons
      else s.m_recvNewCons := by
  unfold extractConnection
  cases s.m_algIDHash.get_entry g <;> simp

theorem applyReceived_newCons_perm_gen {β : Type} [AddCommMonoid β] (rc : List (Nat × Conn β)) :
    ∀ s : ComPol_MatCreateOverlap β,
      (∀ e ∈ s.m_recvNewCons, ∀ d ∈ deferredOf s.m_globalIDs s.m_algIDHash rc,
        d.1.equiv e.1 = false) →
      (deferredOf s.m_globalIDs s.m_algIDHash rc).Pairwise (fun a b => b.1.equiv a.1 = false) →
      (applyReceived rc s).m_recvNewCons.Perm
        ((deferredOf s.m_globalIDs s.m_algIDHash rc).reverse ++ s.m_recvNewCons) := by
  induction rc with
  | nil => intro s _ _; simp [applyReceived, deferredOf]
  | cons x rest ih =>
    intro s hold hpw
    have hstep : applyReceived (x :: rest) s =
        applyReceived rest (extractConnection x.2.index x.1 x.2.gID x.2.block s) := rfl
    obtain ⟨f1, f2, _, _, _⟩ := extractConnection_frame_gen x.2.index x.1 x.2.gID x.2.block s
    by_cases hx : (s.m_algIDHash.get_entry x.2.gID).isNone = true
    · have hdef : deferredOf s.m_globalIDs s.m_algIDHash (x :: rest) =
          (extConOf s.m_globalIDs x, x.2.block) ::
            deferredOf s.m_globalIDs s.m_algIDHash rest := by
        simp [deferredOf, List.filter_cons, hx]
      rw [hdef] at hold hpw
      rw [List.pairwise_cons] at hpw
      have hcons : (extractConnection x.2.index x.1 x.2.gID x.2.block s).m_recvNewCons =
          mapAssign (extConOf s.m_globalIDs x) x.2.block s.m_recvNewCons := by
        rw [extractConnection_newCons_gen, if_pos hx]
        rfl
      have hperm1 := mapAssign_perm_gen (extConOf s.m_globalIDs x) x.2.block s.m_recvNewCons
        (fun e he => hold e he _ (List.mem_cons_self _ _))
      have hrec := ih (extractConnection x.2.index x.1 x.2.gID x.2.block s)
        (by
          rw [f1, f2, hcons]
          intro e he d hd
          rcases List.mem_cons.mp (hperm1.subset he) with he | he
          · rw [he]; exact hpw.1 d hd
          · exact hold e he d (List.mem_cons_of_mem _ hd))
        (by rw [f1, f2]; exact hpw.2)
      rw [hstep, hdef]
      rw [f1, f2, hcons] at hrec
      refine hrec.trans ?_
      simp only [List.reverse_cons, List.append_assoc, List.singleton_append]
      exact List.Perm.append_left _ hperm1
    · have hdef : deferredOf s.m_globalIDs s.m_algIDHash (x :: rest) =
          deferredOf s.m_globalIDs s.m_algIDHash rest := by
        simp [deferredOf, List.filter_cons, hx]
      rw [hdef] at hold hpw
      have hcons : (extractConnection x.2.index x.1 x.2.gID x.2.block s).m_recvNewCons =
          s.m_recvNewCons := by
        rw [extractConnection_newCons_gen, if_neg hx]
      have hrec := ih (extractConnection x.2.index x.1 x.2.gID x.2.block s)
        (by rw [f1, f2, hcons]; exact hold) (by rw [f1, f2]; exact hpw)
      rw [hstep, hdef]
      rw [f1, f2, hcons] at hrec
      exact hrec

theorem masterOverlapEnter_mat_gen {β : Type} [AddCommMonoid β]
    (numNewInds : Nat) (slaveProcs : List Nat) (st st' : MasterLoop β)
    (p : Nat) (h : masterOverlapEnter numNewInds slaveProcs st p = .ok st') :
    st'.mat = st.mat ∧ st'.sendBuf = st.sendBuf ∧
      st'.msgSizeForSlaveProcs = st.msgSizeForSlaveProcs := by
  unfold masterOverlapEnter at h
  split at h
  · simp only [Except.ok.injEq] at h; rw [← h]; exact ⟨rfl, rfl, rfl⟩
  · split at h
    · cases h
    · simp only [Except.ok.injEq] at h; rw [← h]; exact ⟨rfl, rfl, rfl⟩

theorem masterOverlapAdd_mat_gen {β : Type} [AddCommMonoid β]
    (oldSize : Nat) (st : MasterLoop β) (ec : ExtCon) (v : β)
    (toInd : Nat) :
    (masterOverlapAdd oldSize st ec v toInd).mat = st.mat.addTo ec.fromInd toInd v := by
  unfold masterOverlapAdd
  split <;> rfl

theorem masterOverlapStep_mat_gen {β : Type} [AddCommMonoid β]
    (hash : AlgebraIDHashList) (oldSize numNewInds : Nat)
    (slaveProcs : List Nat) (st st' : MasterLoop β) (e : ExtCon × β)
    (h : masterOverlapStep hash oldSize numNewInds slaveProcs st e = .ok st') :
    ∃ toInd, hash.get_entry e.1.toID = some toInd ∧
      st'.mat = st.mat.addTo e.1.fromInd toInd e.2 := by
  unfold masterOverlapStep at h
  cases he : masterOverlapEnter numNewInds slaveProcs st e.1.conProc with
  | error err => rw [he] at h; cases h
  | ok st1 =>
    rw [he] at h
    simp only at h
    cases hg : hash.get_entry e.1.toID with
    | none => rw [hg] at h; cases h
    | some toInd =>
      rw [hg] at h
      simp only [Except.ok.injEq] at h
      refine ⟨toInd, rfl, ?_⟩
      rw [← h, masterOverlapAdd_mat_gen, (masterOverlapEnter_mat_gen _ _ _ _ _ he).1]

theorem masterOverlapLoop_entry_gen {β : Type} [AddCommMonoid β]
    (hash : AlgebraIDHashList) (oldSize numNewInds : Nat)
    (slaveProcs : List Nat) (cons : List (ExtCon × β)) (i k : Nat) :
    ∀ (st st' : MasterLoop β),
      masterOverlapLoop hash oldSize numNewInds slaveProcs st cons = .ok st' →
      st'.mat.entry i k = st.mat.entry i k + deferredSum hash cons i k := by
  induction cons with
  | nil =>
    intro st st' h
    simp only [masterOverlapLoop, Except.ok.injEq] at h
    rw [h]; simp [deferredSum]
  | cons e rest ih =>
    intro st st' h
    simp only [masterOverlapLoop] at h
    cases hs : masterOverlapStep hash oldSize numNewInds slaveProcs st e with
    | error err => rw [hs] at h; cases h
    | ok st1 =>
      rw [hs] at h
      obtain ⟨toInd, hto, hmat⟩ := masterOverlapStep_mat_gen _ _ _ _ _ _ _ hs
      rw [ih st1 st' h, hmat, matrix_entry_addTo_gen]
      unfold deferredSum
      by_cases hc : e.1.fromInd = i ∧ toInd = k
      · have ht : (decide (e.1.fromInd = i) &&
            decide (hash.get_entry e.1.toID = some k)) = true := by
          simp [hc.1, hto, hc.2]
        rw [List.filter_cons, if_pos ht, List.map_cons, List.sum_cons, if_pos ⟨hc.1.symm, hc.2.symm⟩,
          hc.1, hc.2]
        abel
      · have hf : ¬ (decide (e.1.fromInd = i) &&
            decide (hash.get_entry e.1.toID = some k)) = true := by
          simp only [Bool.and_eq_true, decide_eq_true_eq, hto, Option.some.injEq]
          exact hc
        have hc' : ¬ (i = e.1.fromInd ∧ k = toInd) := fun ⟨a, b⟩ => hc ⟨a.symm, b.symm⟩
        rw [List.filter_cons, if_neg hf, if_neg hc']

theorem deferredSum_perm_gen {β : Type} [AddCommMonoid β]
    (hash : AlgebraIDHashList) (l1 l2 : List (ExtCon × β))
    (i k : Nat) (h : l1.Perm l2) : deferredSum hash l1 i k = deferredSum hash l2 i k := by
  unfold deferredSum
  exact ((h.filter _).map _).sum_eq

theorem matRow_get_filter_gen {β : Type} [AddCommMonoid β] (r : MatRow β) (c k : Nat) (hk : k < c) :
    MatRow.get (r.filter (fun e => decide (e.1 < c))) k = MatRow.get r k := by
  induction r with
  | nil => rfl
  | cons e rest ih =>
    obtain ⟨col, x⟩ := e
    by_cases hcol : col < c
    · simp only [List.filter_cons, hcol, decide_True, if_true, MatRow.get, ih]
    · have hne : ¬ col = k := by omega
      simp only [List.filter_cons, hcol, decide_False, MatRow.get, hne, if_false]
      simpa using ih

theorem setDirichletRows_row_gen {β : Type} [AddCommMonoid β] [One β] (n : Nat) :
    ∀ (m : Matrix β) (start i : Nat), i < start →
      (setDirichletRows m start n).row i = m.row i := by
  induction n with
  | zero => intro m start i _; rfl
  | succ n ih =>
    intro m start i hi
    simp only [setDirichletRows]
    rw [ih _ (start + 1) i (by omega)]
    have hne : ¬ i = start := by omega
    simp [SetDirichletRow, Matrix.assign, Matrix.modify, hne]

theorem post_process_newIDs_entry_gen {β : Type} [AddCommMonoid β] [One β]
    (s : ComPol_MatCreateOverlap β) (i k : Nat)
    (hi : i < s.m_mat.numRows) (hk : k < s.m_mat.numRows + s.m_recvNewIDs.length) :
    (post_process_newIDs s).m_mat.entry i k = s.m_mat.entry i k := by
  unfold post_process_newIDs
  simp only
  split
  · unfold Matrix.entry
    rw [setDirichletRows_row_gen _ _ _ _ hi]
    simp only [Matrix.resize_and_keep_values]
    rw [if_pos (by omega)]
    exact matRow_get_filter_gen _ _ _ hk
  · rfl

theorem mergedSum_cons_gen {β : Type} [AddCommMonoid β]
    (h : AlgebraIDHashList) (x : Nat × Conn β) (rest : List (Nat × Conn β))
    (i k : Nat) :
    mergedSum h (x :: rest) i k =
      (if x.2.index = i ∧ h.get_entry x.2.gID = some k then x.2.block else 0) +
        mergedSum h rest i k := by
  unfold mergedSum
  by_cases hc : x.2.index = i ∧ h.get_entry x.2.gID = some k
  · have e : (decide (x.2.index = i) && decide (h.get_entry x.2.gID = some k)) = true := by
      simpa using hc
    rw [List.filter_cons, if_pos e, if_pos hc, List.map_cons, List.sum_cons]
  · have e : ¬ (decide (x.2.index = i) && decide (h.get_entry x.2.gID = some k)) = true := by
      simpa using hc
    rw [List.filter_cons, if_neg e, if_neg hc, zero_add]

theorem receivedSum_cons_gen {β : Type} [AddCommMonoid β]
    (x : Nat × Conn β) (rest : List (Nat × Conn β)) (i : Nat) (g : AlgebraID) :
    receivedSum (x :: rest) i g =
      (if x.2.index = i ∧ x.2.gID = g then x.2.block else 0) + receivedSum rest i g := by
  unfold receivedSum
  by_cases hc : x.2.index = i ∧ x.2.gID = g
  · have e : (decide (x.2.index = i) && decide (x.2.gID = g)) = true := by simpa using hc
    rw [List.filter_cons, if_pos e, if_pos hc, List.map_cons, List.sum_cons]
  · have e : ¬ (decide (x.2.index = i) && decide (x.2.gID = g)) = true := by simpa using hc
    rw [List.filter_cons, if_neg e, if_neg hc, zero_add]

theorem deferredSum_cons_gen {β : Type} [AddCommMonoid β] (h : AlgebraIDHashList) (e : ExtCon × β)
    (l : List (ExtCon × β)) (i k : Nat) :
    deferredSum h (e :: l) i k =
      (if e.1.fromInd = i ∧ h.get_entry e.1.toID = some k then e.2 else 0) +
        deferredSum h l i k := by
  unfold deferredSum
  by_cases hc : e.1.fromInd = i ∧ h.get_entry e.1.toID = some k
  · have e' : (decide (e.1.fromInd = i) && decide (h.get_entry e.1.toID = some k)) = true := by
      simpa using hc
    rw [List.filter_cons, if_pos e', if_pos hc, List.map_cons, List.sum_cons]
  · have e' : ¬ (decide (e.1.fromInd = i) && decide (h.get_entry e.1.toID = some k)) = true := by
      simpa using hc
    rw [List.filter_cons, if_neg e', if_neg hc, zero_add]

theorem deferredOf_cons_gen {β : Type} [AddCommMonoid β]
    (gids : List AlgebraID) (h : AlgebraIDHashList) (x : Nat × Conn β)
    (rest : List (Nat × Conn β)) :
    deferredOf gids h (x :: rest) =
      if (h.get_entry x.2.gID).isNone then
        (extConOf gids x, x.2.block) :: deferredOf gids h rest
      else deferredOf gids h rest := by
  unfold deferredOf
  by_cases hc : (h.get_entry x.2.gID).isNone = true
  · rw [List.filter_cons, if_pos hc, if_pos hc, List.map_cons]
  · rw [List.filter_cons, if_neg hc, if_neg hc]

theorem sums_partition_gen {β : Type} [AddCommMonoid β]
    (gids : List AlgebraID) (h h' : AlgebraIDHashList) (i k : Nat)
    (g : AlgebraID)
    (hext : ∀ g' j, h.get_entry g' = some j → h'.get_entry g' = some j)
    (hinj : ∀ g', h'.get_entry g' = some k → g' = g)
    (hg : h'.get_entry g = some k) :
    ∀ rc : List (Nat × Conn β),
      mergedSum h rc i k + deferredSum h' (deferredOf gids h rc) i k = receivedSum rc i g := by
  intro rc
  induction rc with
  | nil => simp [mergedSum, deferredSum, deferredOf, receivedSum]
  | cons x rest ih =>
    rw [mergedSum_cons_gen, receivedSum_cons_gen, deferredOf_cons_gen, ← ih]
    cases hx : h.get_entry x.2.gID with
    | some j =>
      have hiff : j = k ↔ x.2.gID = g := by
        constructor
        · intro hjk
          apply hinj
          rw [hext _ _ hx, hjk]
        · intro hxg
          have a := hext _ _ hx
          rw [hxg, hg] at a
          exact (Option.some.inj a).symm
      simp only [Option.isNone_some, Bool.false_eq_true, if_false, Option.some.injEq, hiff]
      abel
    | none =>
      have hiff : h'.get_entry x.2.gID = some k ↔ x.2.gID = g := by
        constructor
        · exact hinj _
        · intro hxg; rw [hxg]; exact hg
      simp only [Option.isNone_none, if_true, reduceCtorEq, and_false, if_false]
      rw [deferredSum_cons_gen]
      simp only [extConOf, hiff]
      abel

theorem deferredOf_pairwise_gen {β : Type} [AddCommMonoid β]
    (gids : List AlgebraID) (h : AlgebraIDHashList)
    (rc : List (Nat × Conn β)) (hnodup : gids.Nodup)
    (hidx : ∀ x ∈ rc, x.2.index < gids.length)
    (honce : ((rc.filter (fun x => (h.get_entry x.2.gID).isNone)).map
      (fun x => (x.1, x.2.index, x.2.gID))).Nodup) :
    (deferredOf gids h rc).Pairwise (fun a b => b.1.equiv a.1 = false) := by
  unfold deferredOf
  rw [List.pairwise_map]
  unfold List.Nodup at honce
  rw [List.pairwise_map] at honce
  refine List.Pairwise.imp_of_mem ?_ honce
  intro x y hx hy hne
  simp only
  cases he : (extConOf gids y).equiv (extConOf gids x) with
  | false => rfl
  | true =>
    exfalso
    apply hne
    rw [extCon_equiv_iff] at he
    obtain ⟨e1, e2, e3⟩ := he
    simp only [extConOf] at e1 e2 e3
    have hxi := hidx x (List.mem_of_mem_filter hx)
    have hyi := hidx y (List.mem_of_mem_filter hy)
    rw [List.getD_eq_getElem _ _ hxi, List.getD_eq_getElem _ _ hyi] at e3
    have := (List.Nodup.getElem_inj_iff hnodup).mp e3
    rw [e1, e2, this]

theorem post_process_master_entry_gen {β : Type} [AddCommMonoid β] [One β]
    (store : LayoutStore) (s : ComPol_MatCreateOverlap β)
    (r : MasterResult β) (h : post_process_master store s = .ok r) (i k : Nat)
    (hi : i < s.m_mat.numRows) (hk : k < s.m_mat.numRows + s.m_recvNewIDs.length) :
    r.pol.m_mat.entry i k =
      s.m_mat.entry i k +
        deferredSum (hashInsertFrom s.m_algIDHash s.m_recvNewIDs s.m_mat.numRows)
          s.m_recvNewCons i k := by
  unfold post_process_master post_process_masterOverlap at h
  simp only [post_process_newLayout] at h
  split at h
  · cases h
  · rename_i fin hloop
    simp only [Except.ok.injEq] at h
    have hent := masterOverlapLoop_entry_gen _ _ _ _ _ i k _ _ hloop
    rw [← h]
    simp only
    rw [hent]
    have hnew := post_process_newIDs_entry_gen
      { s with m_mat := { s.m_mat with layouts := store.length } } i k hi hk
    simp only at hnew ⊢
    rw [hnew]
    rfl

theorem post_process_master_hash_gen {β : Type} [AddCommMonoid β] [One β]
    (store : LayoutStore) (s : ComPol_MatCreateOverlap β) (r : MasterResult β)
    (h : post_process_master store s = .ok r) :
    r.pol.m_algIDHash = hashInsertFrom s.m_algIDHash s.m_recvNewIDs s.m_mat.numRows := by
  unfold post_process_master post_process_masterOverlap at h
  simp only [post_process_newLayout] at h
  split at h
  · cases h
  · simp only [Except.ok.injEq] at h
    rw [← h]
    rfl

/-! ## C4 -/

/-- C4, amended: let the value type of the matrix have an exact addition (associative and
commutative, with the default value zero neutral), let a policy be constructed with
exactly `numRows` pairwise distinct GlobalIDs, and let the `extract` calls read connections
for matrix rows only, such that no connection to a GlobalID that does not resolve is read
twice for the same row from the same rank.  Then after `extract` and lines 224-308 of
`post_process`, for every row `i` and every GlobalID `g` with local column `k`, entry
`(i, k)` is its value before the exchange plus the sum of all values received for
`(i, g)`, whether `g` was known (merged in `extract`) or new (inserted in
`post_process`). -/
theorem received_values_are_summed {β : Type} [AddCommMonoid β] [One β]
    (store : LayoutStore) (mat : Matrix β)
    (gids : List AlgebraID) (calls : List (BinaryBuffer β × Interface))
    (rc : List (Nat × Conn β)) (s0 s1 : ComPol_MatCreateOverlap β) (r : MasterResult β)
    (hlen : gids.length = mat.numRows) (hnodup : gids.Nodup)
    (hrc : readCalls calls = some rc)
    (hidx : ∀ x ∈ rc, x.2.index < mat.numRows)
    (honce : ((rc.filter
        (fun x => ((GenerateAlgebraIDHashList gids).get_entry x.2.gID).isNone)).map
      (fun x => (x.1, x.2.index, x.2.gID))).Nodup)
    (h0 : ComPol_MatCreateOverlap.new mat gids = .ok s0)
    (h1 : extractCalls calls s0 = .ok s1)
    (h2 : post_process_master store s1 = .ok r) :
    ∀ (i : Nat) (g : AlgebraID) (k : Nat), i < mat.numRows →
      r.pol.m_algIDHash.get_entry g = some k →
      r.pol.m_mat.entry i k = mat.entry i k + receivedSum rc i g := by
  intro i g k hi hgk
  obtain ⟨hs0, _⟩ := new_ok_gen mat gids s0 h0
  rw [extractCalls_eq_gen, hrc] at h1
  simp only [Except.ok.injEq] at h1
  obtain ⟨f1, f2, f3, _, _⟩ := applyReceived_frame_gen rc s0
  rw [h1] at f1 f2 f3
  have hh : s1.m_algIDHash = GenerateAlgebraIDHashList gids := by rw [f1, hs0]
  have hr1 : s1.m_mat.numRows = mat.numRows := by rw [f3, hs0]
  have m2 := post_process_master_hash_gen store s1 r h2
  rw [hh, hr1, ← hlen] at m2
  rw [m2] at hgk
  have hsound := extended_hash_sound gids s1.m_recvNewIDs
  have hk : k < s1.m_mat.numRows + s1.m_recvNewIDs.length := by
    rcases List.getElem?_eq_some.mp (hsound g k hgk) with ⟨hlt, _⟩
    rw [List.length_append] at hlt
    omega
  rw [post_process_master_entry_gen store s1 r h2 i k (by omega) hk, hh, hr1, ← hlen]
  have hperm := applyReceived_newCons_perm_gen rc s0
    (by rw [hs0]; intro e he; cases he)
    (by
      rw [hs0]
      exact deferredOf_pairwise_gen gids _ rc hnodup (fun x hx => by rw [hlen]; exact hidx x hx) honce)
  rw [h1, hs0] at hperm
  simp only [List.append_nil] at hperm
  rw [deferredSum_perm_gen _ _ _ i k (hperm.trans (List.reverse_perm _))]
  have hent := entry_applyReceived_gen rc i k s0
  rw [h1, hs0] at hent
  simp only at hent
  rw [hent, add_assoc]
  congr 1
  apply sums_partition_gen
  · intro g' j hj
    rw [get_entry_hashInsertFrom, hj]
  · intro g' hg'
    have a := hsound g' k hg'
    rw [hsound g k hgk] at a
    exact (Option.some.inj a).symm
  · exact hgk

/-- Counterexample to C4 as stated, in two parts.  With integer values, the master
example receives, for row 1 from rank 1, two connections to the unknown GlobalID (1,0)
with the values 1 and 2: the map of new connections keeps the last value only, so after
`extract` and the deferred insertion the entry of row 1 in the column of (1,0), column 2,
is 2 and not 0 + (1 + 2).  With a value type whose addition rounds, the policy receives
for row 1 two connections to the known GlobalID (0,1) with the values 10 and -10: `+=`
gives (1 + 10) - 10 = 10 - 10 = 0, and not 1 + (10 - 10) = 1. -/
theorem received_values_counterexample :
    (ComPol_MatCreateOverlap.new exMat [⟨0, 0⟩, ⟨0, 1⟩] = .ok exPol ∧
      readCalls [(exDupBuff, exItf)] = some exDupConns ∧
      extractCalls [(exDupBuff, exItf)] exPol = .ok exDupPol1 ∧
      post_process_master exStore exDupPol1 = .ok exDupMaster ∧
      exDupMaster.pol.m_algIDHash.get_entry ⟨1, 0⟩ = some 2 ∧
      exDupMaster.pol.m_mat.entry 1 2 = 2 ∧
      exMat.entry 1 2 + receivedSum exDupConns 1 ⟨1, 0⟩ = 3 ∧
      ¬ (exDupMaster.pol.m_mat.entry 1 2 =
          exMat.entry 1 2 + receivedSum exDupConns 1 ⟨1, 0⟩)) ∧
    (ComPol_MatCreateOverlap.new exMatR [⟨0, 0⟩, ⟨0, 1⟩] = .ok exPolR ∧
      readCalls [(exRoundBuff, exItf)] = some exRoundConns ∧
      extractCalls [(exRoundBuff, exItf)] exPolR = .ok exRoundPol1 ∧
      post_process_master exStore exRoundPol1 = .ok exRoundMaster ∧
      exRoundMaster.pol.m_algIDHash.get_entry ⟨0, 1⟩ = some 1 ∧
      exMatR.entry 1 1 = ⟨1⟩ ∧
      exRoundMaster.pol.m_mat.entry 1 1 = ⟨0⟩ ∧
      exMatR.entry 1 1 + receivedSum exRoundConns 1 ⟨0, 1⟩ = ⟨1⟩ ∧
      ¬ (exRoundMaster.pol.m_mat.entry 1 1 =
          exMatR.entry 1 1 + receivedSum exRoundConns 1 ⟨0, 1⟩)) :=
  ⟨⟨rfl, rfl, rfl, rfl, rfl, rfl, rfl, by decide⟩,
    ⟨rfl, rfl, rfl, rfl, rfl, rfl, rfl, rfl, by decide⟩⟩

/-- Witness for C4, amended: with integer values the master example receives the
connections of `exBuff`; the entry of row 1 in column 1 becomes 2 + 5 and the entry in the
new column 2, the column of GlobalID (1,0), becomes 0 + (-1). -/
theorem received_values_are_summed_witness :
    ([⟨0, 0⟩, ⟨0, 1⟩] : List AlgebraID).length = exMat.numRows ∧
    ([⟨0, 0⟩, ⟨0, 1⟩] : List AlgebraID).Nodup ∧
    readCalls [(exBuff, exItf)] = some exReceived ∧
    (∀ x ∈ exReceived, x.2.index < exMat.numRows) ∧
    ((exReceived.filter
        (fun x => ((GenerateAlgebraIDHashList [⟨0, 0⟩, ⟨0, 1⟩]).get_entry x.2.gID).isNone)).map
      (fun x => (x.1, x.2.index, x.2.gID))).Nodup ∧
    ComPol_MatCreateOverlap.new exMat [⟨0, 0⟩, ⟨0, 1⟩] = .ok exPol ∧
    extractCalls [(exBuff, exItf)] exPol = .ok exPol1 ∧
    post_process_master exStore exPol1 = .ok exMaster ∧
    exMaster.pol.m_mat.entry 1 1 = 7 ∧
    exMaster.pol.m_mat.entry 1 2 = -1 ∧
    (∀ (i : Nat) (g : AlgebraID) (k : Nat), i < exMat.numRows →
      exMaster.pol.m_algIDHash.get_entry g = some k →
      exMaster.pol.m_mat.entry i k = exMat.entry i k + receivedSum exReceived i g) :=
  ⟨rfl, by decide, rfl, by decide, by decide, rfl, rfl, rfl, rfl, rfl,
    received_values_are_summed exStore exMat [⟨0, 0⟩, ⟨0, 1⟩] [(exBuff, exItf)] exReceived
      exPol exPol1 exMaster rfl (by decide) rfl (by decide) (by decide) rfl rfl rfl⟩

end generic

end ug
